import Mathlib

/-!
# Deferred display list: batching and reordering of draw operations

A shallow embedding of `libs/hwui/DeferredDisplayList.cpp`.

* Floats (`Rect` edges, alpha) are exact rationals.
* Pointers are natural numbers.  A batch created by `new` carries the address the
  allocator handed out; `nextAddr` is the next address the allocator returns.
* The renderer and the recorded operations are collaborators that live outside this
  file: the renderer is a record of what its calls return, a draw operation a record of
  what its virtual methods report when it is deferred.

Part I holds the definitions, Part II the lemmas and theorems.
-/

namespace Hwui

/-! ## Part I: definitions -/

/-! ### Rectangles -/

/-- Modelled from the spec: the header `Rect.h` is not among the sources.  A rectangle is
given by its four edges (device space). -/
structure Rect where
  left : ℚ
  top : ℚ
  right : ℚ
  bottom : ℚ
deriving DecidableEq, Repr

namespace Rect

/-- Modelled from the spec: `Rect::isEmpty` of the missing header `Rect.h`; bounds are
degenerate (empty) unless `left < right` and `top < bottom`. -/
def isEmpty (r : Rect) : Bool :=
  !(decide (r.left < r.right) && decide (r.top < r.bottom))

/-- Modelled from the spec: `Rect::setEmpty` of the missing header `Rect.h`; all four edges
are zero. -/
def setEmpty : Rect := ⟨0, 0, 0, 0⟩

/-- Modelled from the spec: the constructor `Rect(width, height)` of the missing header
`Rect.h`. -/
def ofSize (width height : ℚ) : Rect := ⟨0, 0, width, height⟩

/-- Modelled from the spec: `Rect::intersects` of the missing header `Rect.h`; two
rectangles intersect when their common part is not empty. -/
def intersects (a b : Rect) : Bool :=
  !(isEmpty ⟨max a.left b.left, max a.top b.top, min a.right b.right, min a.bottom b.bottom⟩)

/-- Modelled from the spec: `Rect::contains` of the missing header `Rect.h`; `a.contains b`
when every edge of `b` lies inside `a`. -/
def contains (a b : Rect) : Bool :=
  decide (b.left ≥ a.left) && decide (b.top ≥ a.top) &&
    decide (b.right ≤ a.right) && decide (b.bottom ≤ a.bottom)

/-- Modelled from the spec: `Rect::unionWith` of the missing header `Rect.h`; the union of
bounds, where an empty argument leaves the receiver unchanged and an empty receiver is
replaced by the argument. -/
def unionWith (a r : Rect) : Rect :=
  if r.left < r.right ∧ r.top < r.bottom then
    if a.left < a.right ∧ a.top < a.bottom then
      ⟨if a.left > r.left then r.left else a.left,
       if a.top > r.top then r.top else a.top,
       if a.right < r.right then r.right else a.right,
       if a.bottom < r.bottom then r.bottom else a.bottom⟩
    else r
  else a

end Rect

/-! ### Constants of the missing headers -/

/-- Modelled from the spec: clip-side mask bits (a 4-bit mask recording which edges are
clip-constrained); the enum lives in a header that is not among the sources. -/
def kClipSide_None : Nat := 0x0

/-- Modelled from the spec: clip-side bit of the left edge (missing header). -/
def kClipSide_Left : Nat := 0x1

/-- Modelled from the spec: clip-side bit of the top edge (missing header). -/
def kClipSide_Top : Nat := 0x2

/-- Modelled from the spec: clip-side bit of the right edge (missing header). -/
def kClipSide_Right : Nat := 0x4

/-- Modelled from the spec: clip-side bit of the bottom edge (missing header). -/
def kClipSide_Bottom : Nat := 0x8

/-- Modelled from the spec: the mask value the renderer stores for an operation of unknown
extent (all four sides and a fifth marker bit; missing header). -/
def kClipSide_ConservativeFull : Nat := 0x1F

/-- Modelled from the spec: batch-kind identifier of text (`DeferredDisplayList.h`, not
among the sources). -/
def kOpBatch_Text : Nat := 6

/-- Modelled from the spec: batch-kind identifier of coloured text
(`DeferredDisplayList.h`, not among the sources). -/
def kOpBatch_ColorText : Nat := 7

/-- Modelled from the spec: defer flag asking the renderer to store drawing information
(`OpenGLRenderer.h`, not among the sources). -/
def kStateDeferFlag_Draw : Nat := 0x1

/-- Modelled from the spec: defer flag asking the renderer to store the clip
(`OpenGLRenderer.h`, not among the sources). -/
def kStateDeferFlag_Clip : Nat := 0x2

/-- Modelled from the spec: `SkCanvas::kClip_SaveFlag` (Skia header, not among the
sources). -/
def kClip_SaveFlag : Nat := 0x02

/-- Depth of the save stack at the beginning of batch playback at flush time. -/
def FLUSH_SAVE_STACK_DEPTH : Int := 2

/-! ### Deferred state, descriptors, operations -/

/-- Modelled from the spec: the rendering-modifier set of a deferred state (shader
reference, color-filter reference, draw-filter presence flag and two filter bit masks,
shadow-present flag, per-layer alpha override); declared in a missing header. -/
structure DrawModifiers where
  mShader : Nat
  mColorFilter : Nat
  mOverrideLayerAlpha : ℚ
  mHasShadow : Bool
  mHasDrawFilter : Bool
  mPaintFilterClearBits : Int
  mPaintFilterSetBits : Int
deriving DecidableEq, Repr

/-- Modelled from the spec: the deferred state (bounding rectangle, clip rectangle,
clip-side mask, alpha value, rendering modifiers); declared in a missing header. -/
structure DeferredDisplayState where
  mBounds : Rect
  mClip : Rect
  mClipSideFlags : Nat
  mDrawModifiers : DrawModifiers
  mAlpha : ℚ
deriving DecidableEq, Repr

/-- Modelled from the spec: the batch descriptor a draw operation fills in when it is
deferred (batch-kind identifier, merge-key, mergeable flag, opaque-over-bounds flag);
declared in a missing header. -/
structure DeferInfo where
  batchId : Nat
  mergeId : Nat
  mergeable : Bool
  opaqueOverBounds : Bool
deriving DecidableEq, Repr

/-- Modelled from the spec: a draw operation as the engine sees it.  `id` is the address
of the operation, `mPaint` the address of its paint, `paintAlpha` what `getPaintAlpha()`
returns, `localBounds` what `getLocalBounds` reports (`none` when it returns false, the
extent being unknown), `deferInfo` the descriptor `onDefer` fills in. -/
structure DrawOp where
  id : Nat
  mPaint : Nat
  paintAlpha : Int
  localBounds : Option Rect
  deferInfo : DeferInfo
deriving DecidableEq, Repr

/-- Modelled from the spec: a state operation (clip, save, restore, layer push), known to
the engine by its address. -/
structure StateOp where
  id : Nat
deriving DecidableEq, Repr

/-- Modelled from the spec: a clip operation; `canCauseComplexClip` is what the method of
that name returns. -/
structure ClipOp extends StateOp where
  canCauseComplexClip : Bool
deriving DecidableEq, Repr

/-- Modelled from the spec: a save operation; `flags` is what `getFlags()` returns. -/
structure SaveOp extends StateOp where
  flags : Nat
deriving DecidableEq, Repr

/-- Modelled from the spec: what the engine asks of the renderer while recording.
`storeDisplayState state flags` returns whether the operation was quick-rejected together
with the state as the renderer filled it in. -/
structure OpenGLRenderer where
  storeDisplayState : DeferredDisplayState → Nat → Bool × DeferredDisplayState
  drawReorderDisabled : Bool
  viewportWidth : ℚ
  viewportHeight : ℚ
  saveCount : Int
  hasRectToRectTransform : Bool

/-- A fresh deferred state as `createState()` hands it out. -/
def createState : DeferredDisplayState :=
  { mBounds := ⟨0, 0, 0, 0⟩, mClip := ⟨0, 0, 0, 0⟩, mClipSideFlags := 0,
    mDrawModifiers := ⟨0, 0, 0, false, false, 0, 0⟩, mAlpha := 0 }

/-! ### Operation batches -/

/-- An operation together with the state it was deferred with. -/
structure OpStatePair where
  op : DrawOp
  state : DeferredDisplayState
deriving DecidableEq, Repr

/-- Fields of `class DrawBatch`. -/
structure DrawBatch where
  mOps : List OpStatePair
  mBounds : Rect
  mAllOpsOpaque : Bool
  mBatchId : Nat
  mMergeId : Nat
deriving DecidableEq, Repr

/-- Fields of `class MergingDrawBatch`. -/
structure MergingDrawBatch extends DrawBatch where
  mClipRect : Rect
  mClipSideFlags : Nat
deriving DecidableEq, Repr

namespace DrawBatch

/-- Constructor `DrawBatch(deferInfo)`. -/
def new (deferInfo : DeferInfo) : DrawBatch :=
  { mOps := [], mBounds := ⟨0, 0, 0, 0⟩, mAllOpsOpaque := true,
    mBatchId := deferInfo.batchId, mMergeId := deferInfo.mergeId }

/-- The method `DrawBatch::add`. -/
def add (b : DrawBatch) (op : DrawOp) (state : DeferredDisplayState)
    (opaqueOverBounds : Bool) : DrawBatch :=
  { b with
    mBounds := b.mBounds.unionWith state.mBounds
    mAllOpsOpaque := b.mAllOpsOpaque && opaqueOverBounds
    mOps := b.mOps ++ [⟨op, state⟩] }

/-- The method `DrawBatch::intersects`. -/
def intersects (b : DrawBatch) (rect : Rect) : Bool :=
  if !rect.intersects b.mBounds then false
  else b.mOps.any fun p => rect.intersects p.state.mBounds

end DrawBatch

/-- The quotient `n / d` rounded to an integer: to the nearest one, and to the even one of
the two where it lies half way. -/
def roundHalfEven (n d : Nat) : Nat :=
  if 2 * (n % d) < d then n / d
  else if d < 2 * (n % d) then n / d + 1
  else n / d + (n / d) % 2

/-- The binade of `n / d` counted in units of `2 ^ (-149)`, the smallest positive `float`:
the least `k` from the start on with `n / d < 2 ^ (k + 24)`, where the unit in the last
place of a `float` is `2 ^ k` units; `fuel` bounds the search. -/
def floatExp (n d : Nat) : Nat → Nat → Nat
  | 0, k => k
  | fuel + 1, k => if n < 2 ^ (k + 24) * d then k else floatExp n d fuel (k + 1)

/-- The conversion of a real value to `float`, and the rounding of the exact result of an
operation on `float` values: IEEE 754 single precision (24 bits of precision, exponents
from -126 to 127, subnormal values), to the nearest value and to the even one where the
value lies half way.  A result of magnitude `2 ^ 128` or more stands for an infinity; the
finite `float` values are left unchanged. -/
def toFloat (x : ℚ) : ℚ :=
  let n := x.num.natAbs * 2 ^ 149
  let k := floatExp n x.den 254 0
  let u := roundHalfEven n (x.den * 2 ^ k) * 2 ^ k
  (if x.num < 0 then -(u : ℚ) else (u : ℚ)) / 2 ^ 149

/-- The approximate alpha comparison `NEQ_FALPHA`:
`fabs((float)lhs - (float)rhs) > 0.001f`, with the subtraction made in `float` and
`0.001f` the `float` nearest to 0.001.  The alphas are finite values. -/
def NEQ_FALPHA (lhs rhs : ℚ) : Bool :=
  decide (|toFloat (toFloat lhs - toFloat rhs)| > toFloat (1 / 1000))

namespace MergingDrawBatch

/-- Constructor `MergingDrawBatch(deferInfo, width, height)`. -/
def new (deferInfo : DeferInfo) (width height : ℚ) : MergingDrawBatch :=
  { DrawBatch.new deferInfo with
    mClipRect := Rect.ofSize width height, mClipSideFlags := kClipSide_None }

/-- The helper `MergingDrawBatch::checkSide`. -/
def checkSide (currentFlags newFlags side : Nat) (boundsDelta : ℚ) : Bool :=
  let currentClipExists := (currentFlags &&& side) != 0
  let newClipExists := (newFlags &&& side) != 0
  if decide (boundsDelta > 0) && currentClipExists then false
  else if decide (boundsDelta < 0) && newClipExists then false
  else true

/-- The clipping compatibility check of `canMergeWith`: false where the source returns
false in that block. -/
def clipSidesCompatible (b : MergingDrawBatch) (state : DeferredDisplayState) : Bool :=
  let currentFlags := b.mClipSideFlags
  let newFlags := state.mClipSideFlags
  if currentFlags != kClipSide_None || newFlags != kClipSide_None then
    let opBounds := state.mBounds
    if !checkSide currentFlags newFlags kClipSide_Left (b.mBounds.left - opBounds.left) then
      false
    else if !checkSide currentFlags newFlags kClipSide_Top (b.mBounds.top - opBounds.top) then
      false
    else if !checkSide currentFlags newFlags kClipSide_Right
        (opBounds.right - b.mBounds.right) then
      false
    else if !checkSide currentFlags newFlags kClipSide_Bottom
        (opBounds.bottom - b.mBounds.bottom) then
      false
    else true
  else true

/-- The overlap test that opens `canMergeWith`: false where the source returns false
because the new operation overlaps the batch. -/
def overlapAllowed (b : MergingDrawBatch) (state : DeferredDisplayState) : Bool :=
  let isTextBatch := b.mBatchId == kOpBatch_Text || b.mBatchId == kOpBatch_ColorText
  if !isTextBatch || state.mDrawModifiers.mHasShadow then
    !b.toDrawBatch.intersects state.mBounds
  else true

/-- The method `MergingDrawBatch::canMergeWith`.  Reading `mOps[0]` of a batch without
members is outside the behaviour of the source; the embedding answers false there. -/
def canMergeWith (b : MergingDrawBatch) (op : DrawOp) (state : DeferredDisplayState) : Bool :=
  if !overlapAllowed b state then false
  else
    match b.mOps with
    | [] => false
    | first :: _ =>
      let lhs := state
      let rhs := first.state
      if NEQ_FALPHA lhs.mAlpha rhs.mAlpha then false
      else if !clipSidesCompatible b state then false
      else if op.mPaint == first.op.mPaint then true
      else if op.paintAlpha != first.op.paintAlpha then false
      else
        let lhsMod := lhs.mDrawModifiers
        let rhsMod := rhs.mDrawModifiers
        if lhsMod.mShader != rhsMod.mShader then false
        else if lhsMod.mColorFilter != rhsMod.mColorFilter then false
        else if lhsMod.mHasDrawFilter != rhsMod.mHasDrawFilter then false
        else if lhsMod.mPaintFilterClearBits != rhsMod.mPaintFilterClearBits then false
        else if lhsMod.mPaintFilterSetBits != rhsMod.mPaintFilterSetBits then false
        else true

/-- The method `MergingDrawBatch::add`. -/
def add (b : MergingDrawBatch) (op : DrawOp) (state : DeferredDisplayState)
    (opaqueOverBounds : Bool) : MergingDrawBatch :=
  let base := b.toDrawBatch.add op state opaqueOverBounds
  let newClipSideFlags := state.mClipSideFlags
  let clip := b.mClipRect
  { base with
    mClipSideFlags := b.mClipSideFlags ||| newClipSideFlags
    mClipRect :=
      ⟨if (newClipSideFlags &&& kClipSide_Left) != 0 then state.mClip.left else clip.left,
       if (newClipSideFlags &&& kClipSide_Top) != 0 then state.mClip.top else clip.top,
       if (newClipSideFlags &&& kClipSide_Right) != 0 then state.mClip.right else clip.right,
       if (newClipSideFlags &&& kClipSide_Bottom) != 0 then state.mClip.bottom
        else clip.bottom⟩ }

end MergingDrawBatch

/-- The batch hierarchy.  A draw batch carries the address it was allocated at, since the
engine keeps pointers to draw batches in its lookups. -/
inductive Batch where
  | draw (addr : Nat) (b : DrawBatch)
  | merging (addr : Nat) (b : MergingDrawBatch)
  | stateOp (op : StateOp) (state : DeferredDisplayState)
  | restoreToCount (op : StateOp) (state : DeferredDisplayState) (mRestoreCount : Int)
deriving DecidableEq, Repr

namespace Batch

/-- The virtual method `purelyDrawBatch`. -/
def purelyDrawBatch : Batch → Bool
  | draw _ _ => true
  | merging _ _ => true
  | stateOp _ _ => false
  | restoreToCount _ _ _ => false

/-- Address of a draw batch. -/
def addr? : Batch → Option Nat
  | draw a _ => some a
  | merging a _ => some a
  | stateOp _ _ => none
  | restoreToCount _ _ _ => none

/-- The batch seen through a `DrawBatch*`. -/
def asDraw? : Batch → Option DrawBatch
  | draw _ b => some b
  | merging _ b => some b.toDrawBatch
  | stateOp _ _ => none
  | restoreToCount _ _ _ => none

/-- Members of a batch in member order (none for a barrier). -/
def ops : Batch → List OpStatePair
  | draw _ b => b.mOps
  | merging _ b => b.mOps
  | stateOp _ _ => []
  | restoreToCount _ _ _ => []

/-- The virtual call `batch->add(op, state, opaqueOverBounds)`. -/
def add (op : DrawOp) (state : DeferredDisplayState) (opaqueOverBounds : Bool) :
    Batch → Batch
  | draw a b => draw a (b.add op state opaqueOverBounds)
  | merging a b => merging a (b.add op state opaqueOverBounds)
  | stateOp o s => stateOp o s
  | restoreToCount o s n => restoreToCount o s n

end Batch

/-! ### The deferred display list -/

/-- Fields of `class DeferredDisplayList`.  `mBatches` is the batch list with nullable
slots.  `mSaveStack` keeps the top of the stack at the head of the list.  The two lookups
map a batch-kind (and a merge-key) to the address of a batch, `none` standing for a null
entry.  `nextAddr` is the address the next `new` returns. -/
structure DeferredDisplayList where
  mBounds : Rect
  mAvoidOverdraw : Bool
  mBatches : List (Option Batch)
  mSaveStack : List Int
  mComplexClipStackStart : Int
  mBatchLookup : Nat → Option Nat
  mMergingBatches : Nat → Nat → Option Nat
  mEarliestBatchIndex : Nat
  mEarliestUnclearedIndex : Nat
  nextAddr : Nat

/-- The call `mBatches.insertAt(item, index)`. -/
def insertAt (bs : List (Option Batch)) (index : Nat) (item : Option Batch) :
    List (Option Batch) :=
  bs.take index ++ item :: bs.drop index

/-- The call `target->add(op, state, opaqueOverBounds)` through the address of a draw
batch: the batch stored at that address gains the member, every other slot is untouched. -/
def addAt (target : Nat) (op : DrawOp) (state : DeferredDisplayState)
    (opaqueOverBounds : Bool) : Option Batch → Option Batch
  | some b => if b.addr? = some target then some (b.add op state opaqueOverBounds) else some b
  | none => none

/-- Reading a `MergingDrawBatch*`: the merging batch stored at the address, if any. -/
def derefMerging (bs : List (Option Batch)) (a : Nat) : Option MergingDrawBatch :=
  bs.findSome? fun slot =>
    match slot with
    | some (Batch.merging a1 b) => if a1 = a then some b else none
    | _ => none

/-- One slot of the loop of `discardDrawingBatches`: a purely-drawing batch is deleted and
its slot set to null. -/
def discardSlot : Option Batch → Option Batch
  | some b => if b.purelyDrawBatch then none else some b
  | none => none

/-- The loop of `discardDrawingBatches` over the slots from index `lo` to `hi`, where `i` is
the index of the first slot of the list. -/
def discardRange (lo hi : Nat) : Nat → List (Option Batch) → List (Option Batch)
  | _, [] => []
  | i, slot :: rest =>
    (if lo ≤ i ∧ i ≤ hi then discardSlot slot else slot) :: discardRange lo hi (i + 1) rest

/-- The backward scan of `addDrawOp` (the `for` loop from `mBatches.size() - 1` down to
`mEarliestBatchIndex`), with `n` the number of indices still to visit, so that the slot
visited next is `n - 1`.  Returns the target batch and the insertion index.  The source
reads every slot of the window as a `DrawBatch*` without a check; on an empty slot or a
barrier, which the source would misread, the embedding stops the scan. -/
def scanBack (bs : List (Option Batch)) (earliest : Nat) (batchId : Nat) (bounds : Rect) :
    Nat → Option Nat → Nat → Option Nat × Nat
  | 0, targetBatch, insertBatchIndex => (targetBatch, insertBatchIndex)
  | i + 1, targetBatch, insertBatchIndex =>
    if i < earliest then (targetBatch, insertBatchIndex)
    else
      match bs[i]? with
      | some (some over) =>
        match over.addr?, over.asDraw? with
        | some a, some overBatch =>
          if targetBatch = some a then (targetBatch, insertBatchIndex)
          else
            let insertIndex1 :=
              if batchId = overBatch.mBatchId then i + 1 else insertBatchIndex
            if batchId = overBatch.mBatchId ∧ targetBatch = none then (targetBatch, insertIndex1)
            else if overBatch.intersects bounds then (none, insertIndex1)
            else scanBack bs earliest batchId bounds i targetBatch insertIndex1
        | _, _ => (targetBatch, insertBatchIndex)
      | _ => (targetBatch, insertBatchIndex)

namespace DeferredDisplayList

/-- The inline method `recordingComplexClip` of the header. -/
def recordingComplexClip (l : DeferredDisplayList) : Bool :=
  decide (l.mComplexClipStackStart ≥ 0)

/-- The inline method `isEmpty` of the header. -/
def isEmpty (l : DeferredDisplayList) : Bool := l.mBatches.isEmpty

/-- The method `resetBatchingState`. -/
def resetBatchingState (l : DeferredDisplayList) : DeferredDisplayList :=
  { l with
    mBatchLookup := fun _ => none
    mMergingBatches := fun _ _ => none
    mEarliestBatchIndex := l.mBatches.length }

/-- The method `clear`. -/
def clear (l : DeferredDisplayList) : DeferredDisplayList :=
  { l.resetBatchingState with
    mComplexClipStackStart := -1
    mBatches := []
    mSaveStack := []
    mEarliestBatchIndex := 0
    mEarliestUnclearedIndex := 0 }

/-- Modelled from the spec: the constructor of the header, which stores the display bounds
and the overdraw switch and calls `clear`, giving the initial empty engine. -/
def init (bounds : Rect) (avoidOverdraw : Bool) : DeferredDisplayList :=
  clear
    { mBounds := bounds, mAvoidOverdraw := avoidOverdraw, mBatches := [], mSaveStack := [],
      mComplexClipStackStart := -1, mBatchLookup := fun _ => none,
      mMergingBatches := fun _ _ => none, mEarliestBatchIndex := 0,
      mEarliestUnclearedIndex := 0, nextAddr := 0 }

/-- The method `getStateOpDeferFlags`. -/
def getStateOpDeferFlags (l : DeferredDisplayList) : Nat :=
  if l.recordingComplexClip then 0 else kStateDeferFlag_Clip

/-- The method `getDrawOpDeferFlags`. -/
def getDrawOpDeferFlags (l : DeferredDisplayList) : Nat :=
  kStateDeferFlag_Draw ||| l.getStateOpDeferFlags

/-- The method `storeStateOpBarrier`. -/
def storeStateOpBarrier (l : DeferredDisplayList) (renderer : OpenGLRenderer) (op : StateOp) :
    DeferredDisplayList :=
  let state := (renderer.storeDisplayState createState l.getStateOpDeferFlags).2
  resetBatchingState { l with mBatches := l.mBatches ++ [some (Batch.stateOp op state)] }

/-- The method `storeRestoreToCountBarrier`. -/
def storeRestoreToCountBarrier (l : DeferredDisplayList) (renderer : OpenGLRenderer)
    (op : StateOp) (newSaveCount : Int) : DeferredDisplayList :=
  let state := (renderer.storeDisplayState createState l.getStateOpDeferFlags).2
  resetBatchingState
    { l with mBatches := l.mBatches ++ [some (Batch.restoreToCount op state newSaveCount)] }

/-- The method `addClip`. -/
def addClip (l : DeferredDisplayList) (renderer : OpenGLRenderer) (op : ClipOp) :
    DeferredDisplayList :=
  if l.recordingComplexClip || op.canCauseComplexClip || !renderer.hasRectToRectTransform then
    let l1 := l.storeStateOpBarrier renderer op.toStateOp
    if !l1.recordingComplexClip then
      { l1 with mComplexClipStackStart := renderer.saveCount - 1 }
    else l1
  else l

/-- The method `addSaveLayer`. -/
def addSaveLayer (l : DeferredDisplayList) (renderer : OpenGLRenderer) (op : StateOp)
    (newSaveCount : Int) : DeferredDisplayList :=
  let l1 := l.storeStateOpBarrier renderer op
  { l1 with mSaveStack := newSaveCount :: l1.mSaveStack }

/-- The method `addSave`. -/
def addSave (l : DeferredDisplayList) (renderer : OpenGLRenderer) (op : SaveOp)
    (newSaveCount : Int) : DeferredDisplayList :=
  let saveFlags := op.flags
  if l.recordingComplexClip && (saveFlags &&& kClip_SaveFlag) != 0 then
    let l1 := l.storeStateOpBarrier renderer op.toStateOp
    { l1 with mSaveStack := newSaveCount :: l1.mSaveStack }
  else l

/-- The method `addRestoreToCount`. -/
def addRestoreToCount (l : DeferredDisplayList) (renderer : OpenGLRenderer) (op : StateOp)
    (newSaveCount : Int) : DeferredDisplayList :=
  let l1 :=
    if l.recordingComplexClip && decide (newSaveCount ≤ l.mComplexClipStackStart) then
      resetBatchingState { l with mComplexClipStackStart := -1 }
    else l
  match l1.mSaveStack with
  | [] => l1
  | top :: _ =>
    if newSaveCount > top then l1
    else
      let stack := l1.mSaveStack.dropWhile fun d => decide (d ≥ newSaveCount)
      storeRestoreToCountBarrier { l1 with mSaveStack := stack } renderer op
        ((stack.length : Int) + FLUSH_SAVE_STACK_DEPTH)

/-- The method `discardDrawingBatches`. -/
def discardDrawingBatches (l : DeferredDisplayList) (maxIndex : Nat) : DeferredDisplayList :=
  { l with
    mBatches := discardRange l.mEarliestUnclearedIndex maxIndex 0 l.mBatches
    mEarliestUnclearedIndex := maxIndex + 1 }

/-- Steps 1 to 3 of `addDrawOp`: the local bounds, the state stored by the renderer and
the descriptor of the operation; `none` where the source returns early (valid but empty
bounds, or quick-rejected). -/
def deferDrawOp (l : DeferredDisplayList) (renderer : OpenGLRenderer) (op : DrawOp) :
    Option (DeferredDisplayState × DeferInfo) :=
  let bounds : Option Rect :=
    match op.localBounds with
    | some b => if b.isEmpty then none else some b
    | none => some Rect.setEmpty
  match bounds with
  | none => none
  | some b =>
    let stored := renderer.storeDisplayState { createState with mBounds := b }
      l.getDrawOpDeferFlags
    if stored.1 then none
    else
      let deferInfo := op.deferInfo
      some (stored.2,
        { deferInfo with
          mergeable := deferInfo.mergeable && !l.recordingComplexClip
          opaqueOverBounds :=
            deferInfo.opaqueOverBounds && (!l.recordingComplexClip && l.mSaveStack.isEmpty) })

/-- The overdraw avoidance of `addDrawOp`: discard the drawing batches and reset the
batching state when the operation is opaque and covers the display bounds. -/
def avoidOverdraw (l : DeferredDisplayList) (state : DeferredDisplayState)
    (deferInfo : DeferInfo) : DeferredDisplayList :=
  if l.mAvoidOverdraw && decide (l.mBatches.length ≠ 0) &&
      (state.mClipSideFlags != kClipSide_ConservativeFull) &&
      deferInfo.opaqueOverBounds && state.mBounds.contains l.mBounds then
    (l.discardDrawingBatches (l.mBatches.length - 1)).resetBatchingState
  else l

/-- The choice of the target batch in `addDrawOp`: the open merging batch of the same
batch-kind and merge-key if the operation can merge with it, or the last plain batch of
the same batch-kind.  A merge lookup entry that does not point to a merging batch is
outside the behaviour of the source; the embedding finds no target there. -/
def candidateTarget (l : DeferredDisplayList) (op : DrawOp) (state : DeferredDisplayState)
    (deferInfo : DeferInfo) : Option Nat :=
  if deferInfo.mergeable then
    match l.mMergingBatches deferInfo.batchId deferInfo.mergeId with
    | some a =>
      match derefMerging l.mBatches a with
      | some b => if b.canMergeWith op state then some a else none
      | none => none
    | none => none
  else l.mBatchLookup deferInfo.batchId

/-- The target batch and insertion index of `addDrawOp` once the backward scan is done. -/
def findTarget (l : DeferredDisplayList) (op : DrawOp) (state : DeferredDisplayState)
    (deferInfo : DeferInfo) : Option Nat × Nat :=
  let targetBatch := l.candidateTarget op state deferInfo
  if targetBatch.isSome || deferInfo.mergeable then
    scanBack l.mBatches l.mEarliestBatchIndex deferInfo.batchId state.mBounds
      l.mBatches.length targetBatch l.mBatches.length
  else (targetBatch, l.mBatches.length)

/-- The end of `addDrawOp`: create and insert a batch when no target is left, then add the
operation to the target. -/
def placeInBatch (l : DeferredDisplayList) (renderer : OpenGLRenderer) (op : DrawOp)
    (state : DeferredDisplayState) (deferInfo : DeferInfo) (targetBatch : Option Nat)
    (insertBatchIndex : Nat) : DeferredDisplayList :=
  let created : DeferredDisplayList × Nat :=
    match targetBatch with
    | some a => (l, a)
    | none =>
      if deferInfo.mergeable then
        ({ l with
            mMergingBatches := fun k m =>
              if k = deferInfo.batchId ∧ m = deferInfo.mergeId then some l.nextAddr
              else l.mMergingBatches k m
            mBatches := insertAt l.mBatches insertBatchIndex
              (some (Batch.merging l.nextAddr
                (MergingDrawBatch.new deferInfo renderer.viewportWidth renderer.viewportHeight)))
            nextAddr := l.nextAddr + 1 }, l.nextAddr)
      else
        ({ l with
            mBatchLookup := fun k => if k = deferInfo.batchId then some l.nextAddr
              else l.mBatchLookup k
            mBatches := insertAt l.mBatches insertBatchIndex
              (some (Batch.draw l.nextAddr (DrawBatch.new deferInfo)))
            nextAddr := l.nextAddr + 1 }, l.nextAddr)
  { created.1 with
    mBatches := created.1.mBatches.map (addAt created.2 op state deferInfo.opaqueOverBounds) }

/-- A new plain batch holding the operation alone is appended to the batch list (the
reordering-disabled path and the unknown-bounds path of `addDrawOp`). -/
def appendAlone (l : DeferredDisplayList) (op : DrawOp) (state : DeferredDisplayState)
    (deferInfo : DeferInfo) : DeferredDisplayList :=
  { l with
    mBatches := l.mBatches ++
      [some (Batch.draw l.nextAddr
        ((DrawBatch.new deferInfo).add op state deferInfo.opaqueOverBounds))]
    nextAddr := l.nextAddr + 1 }

/-- The part of `addDrawOp` that follows the overdraw avoidance. -/
def insertDrawOp (l : DeferredDisplayList) (renderer : OpenGLRenderer) (op : DrawOp)
    (state : DeferredDisplayState) (deferInfo : DeferInfo) : DeferredDisplayList :=
  if renderer.drawReorderDisabled then l.appendAlone op state deferInfo
  else if !l.mBatches.isEmpty then
    if state.mBounds.isEmpty then (l.appendAlone op state deferInfo).resetBatchingState
    else
      let found := l.findTarget op state deferInfo
      l.placeInBatch renderer op state deferInfo found.1 found.2
  else l.placeInBatch renderer op state deferInfo none l.mBatches.length

/-- The method `addDrawOp`. -/
def addDrawOp (l : DeferredDisplayList) (renderer : OpenGLRenderer) (op : DrawOp) :
    DeferredDisplayList :=
  match l.deferDrawOp renderer op with
  | none => l
  | some (state, deferInfo) =>
    (l.avoidOverdraw state deferInfo).insertDrawOp renderer op state deferInfo

end DeferredDisplayList

/-! ### Recording sequences -/

/-- A call on the engine during recording. -/
inductive Cmd where
  | clear
  | addClip (renderer : OpenGLRenderer) (op : ClipOp)
  | addSaveLayer (renderer : OpenGLRenderer) (op : StateOp) (newSaveCount : Int)
  | addSave (renderer : OpenGLRenderer) (op : SaveOp) (newSaveCount : Int)
  | addRestoreToCount (renderer : OpenGLRenderer) (op : StateOp) (newSaveCount : Int)
  | addDrawOp (renderer : OpenGLRenderer) (op : DrawOp)

/-- The engine after one call. -/
def step (l : DeferredDisplayList) : Cmd → DeferredDisplayList
  | Cmd.clear => l.clear
  | Cmd.addClip r op => l.addClip r op
  | Cmd.addSaveLayer r op n => l.addSaveLayer r op n
  | Cmd.addSave r op n => l.addSave r op n
  | Cmd.addRestoreToCount r op n => l.addRestoreToCount r op n
  | Cmd.addDrawOp r op => l.addDrawOp r op

/-- The engine after a sequence of calls. -/
def run (l : DeferredDisplayList) (cmds : List Cmd) : DeferredDisplayList :=
  cmds.foldl step l

/-! ### Vocabulary of the properties -/

/-- Members of a slot of the batch list (none for an empty slot or a barrier). -/
def slotOps : Option Batch → List OpStatePair
  | some b => b.ops
  | none => []

/-- Address of the draw batch held by a slot. -/
def slotAddr : Option Batch → Option Nat
  | some b => b.addr?
  | none => none

/-- The members of a batch list in replay order: slot after slot, and inside a batch in
member order. -/
def entries : List (Option Batch) → List OpStatePair
  | [] => []
  | s :: rest => slotOps s ++ entries rest

/-- Addresses of the draw batches of a batch list. -/
def addrs (bs : List (Option Batch)) : List Nat := bs.filterMap slotAddr

/-- The pair `e` is member number `k` of the batch in slot `i`. -/
def located (l : DeferredDisplayList) (i k : Nat) (e : OpStatePair) : Prop :=
  ∃ b, l.mBatches[i]? = some (some b) ∧ b.ops[k]? = some e

/-- A side is clip-constrained in a clip-side mask. -/
def clipConstrained (flags side : Nat) : Bool := (flags &&& side) != 0

/-- The paint attributes `canMergeWith` compares when the paints differ. -/
def samePaintAttributes (op : DrawOp) (state : DeferredDisplayState) (first : OpStatePair) :
    Prop :=
  op.paintAlpha = first.op.paintAlpha ∧
  state.mDrawModifiers.mShader = first.state.mDrawModifiers.mShader ∧
  state.mDrawModifiers.mColorFilter = first.state.mDrawModifiers.mColorFilter ∧
  state.mDrawModifiers.mHasDrawFilter = first.state.mDrawModifiers.mHasDrawFilter ∧
  state.mDrawModifiers.mPaintFilterClearBits = first.state.mDrawModifiers.mPaintFilterClearBits ∧
  state.mDrawModifiers.mPaintFilterSetBits = first.state.mDrawModifiers.mPaintFilterSetBits

/-- The state with its has-shadow and override-layer-alpha modifiers replaced. -/
def withShadowAndLayerAlpha (state : DeferredDisplayState) (hasShadow : Bool)
    (layerAlpha : ℚ) : DeferredDisplayState :=
  { state with
    mDrawModifiers :=
      { state.mDrawModifiers with mHasShadow := hasShadow, mOverrideLayerAlpha := layerAlpha } }

/-- The clip check of `canMergeWith` fails on some side: the batch is clip-constrained
there and the bound of the operation lies strictly outside the bounds of the batch, or the
operation is clip-constrained there and the bounds of the batch lie strictly outside the
bound of the operation. -/
def sideConflict (b : MergingDrawBatch) (state : DeferredDisplayState) : Prop :=
  (clipConstrained b.mClipSideFlags kClipSide_Left = true ∧ state.mBounds.left < b.mBounds.left) ∨
  (clipConstrained state.mClipSideFlags kClipSide_Left = true ∧
    b.mBounds.left < state.mBounds.left) ∨
  (clipConstrained b.mClipSideFlags kClipSide_Top = true ∧ state.mBounds.top < b.mBounds.top) ∨
  (clipConstrained state.mClipSideFlags kClipSide_Top = true ∧
    b.mBounds.top < state.mBounds.top) ∨
  (clipConstrained b.mClipSideFlags kClipSide_Right = true ∧
    b.mBounds.right < state.mBounds.right) ∨
  (clipConstrained state.mClipSideFlags kClipSide_Right = true ∧
    state.mBounds.right < b.mBounds.right) ∨
  (clipConstrained b.mClipSideFlags kClipSide_Bottom = true ∧
    b.mBounds.bottom < state.mBounds.bottom) ∨
  (clipConstrained state.mClipSideFlags kClipSide_Bottom = true ∧
    state.mBounds.bottom < b.mBounds.bottom)

/-- The batch is a text batch (text or coloured text). -/
def DrawBatch.isTextBatch (b : DrawBatch) : Bool :=
  b.mBatchId == kOpBatch_Text || b.mBatchId == kOpBatch_ColorText

/-- The bounds of the batch cover its members: a rectangle that intersects the bounds of
a member intersects the bounds of the batch. -/
def DrawBatch.Covers (b : DrawBatch) : Prop :=
  ∀ e ∈ b.mOps, ∀ r : Rect, r.intersects e.state.mBounds = true → r.intersects b.mBounds = true

/-- What holds of every draw batch the engine builds: it has a member, its bounds cover
its members, and every member was deferred with the batch-kind of the batch. -/
structure DrawBatch.OK (b : DrawBatch) : Prop where
  nonempty : b.mOps ≠ []
  covers : b.Covers
  kind : ∀ e ∈ b.mOps, e.op.deferInfo.batchId = b.mBatchId

/-- What holds of every merging batch the engine builds: besides the properties of a draw
batch, every member was deferred as mergeable with the merge-key of the batch, every
member has the alpha of the first member up to the margin, and of two members that
overlap the later one is a text without shadow in a text batch. -/
structure MergingDrawBatch.OK (b : MergingDrawBatch) : Prop where
  toDraw : b.toDrawBatch.OK
  key : ∀ e ∈ b.mOps, e.op.deferInfo.mergeable = true ∧ e.op.deferInfo.mergeId = b.mMergeId
  alpha : ∀ first ∈ b.mOps.head?, ∀ e ∈ b.mOps,
    NEQ_FALPHA e.state.mAlpha first.state.mAlpha = false
  overlap : b.mOps.Pairwise fun e1 e2 =>
    e2.state.mBounds.intersects e1.state.mBounds = true →
      b.toDrawBatch.isTextBatch = true ∧ e2.state.mDrawModifiers.mHasShadow = false

/-- The batch invariant, by variant. -/
def Batch.OK : Batch → Prop
  | Batch.draw _ b => b.OK
  | Batch.merging _ b => b.OK
  | Batch.stateOp _ _ => True
  | Batch.restoreToCount _ _ _ => True

/-- No member of the slot intersects the rectangle. -/
def slotClear (bounds : Rect) (s : Option Batch) : Prop :=
  ∀ e ∈ slotOps s, bounds.intersects e.state.mBounds = false

/-- The part of the engine invariant that does not depend on the batching state: addresses
of draw batches are below the next address and pairwise different, and every batch
satisfies the batch invariant. -/
structure BaseWF (l : DeferredDisplayList) : Prop where
  addr_lt : ∀ a ∈ addrs l.mBatches, a < l.nextAddr
  addr_nodup : (addrs l.mBatches).Nodup
  batches : ∀ b, some b ∈ l.mBatches → b.OK

/-- The engine invariant: the reorder window starts inside the list and holds draw batches
only, and every lookup entry points to a batch of the window of the right variant,
batch-kind and merge-key. -/
structure WF (l : DeferredDisplayList) extends BaseWF l : Prop where
  earliest_le : l.mEarliestBatchIndex ≤ l.mBatches.length
  window : ∀ i, l.mEarliestBatchIndex ≤ i → i < l.mBatches.length →
    ∃ b, l.mBatches[i]? = some (some b) ∧ b.purelyDrawBatch = true
  lookup : ∀ k a, l.mBatchLookup k = some a →
    ∃ i b, l.mEarliestBatchIndex ≤ i ∧ l.mBatches[i]? = some (some (Batch.draw a b)) ∧
      b.mBatchId = k
  merging : ∀ k m a, l.mMergingBatches k m = some a →
    ∃ i b, l.mEarliestBatchIndex ≤ i ∧ l.mBatches[i]? = some (some (Batch.merging a b)) ∧
      b.mBatchId = k ∧ b.mMergeId = m

/-- The engine after the operation joined the batch stored at address `a`. -/
def DeferredDisplayList.joinAt (l : DeferredDisplayList) (a : Nat) (op : DrawOp)
    (state : DeferredDisplayState) (opaqueOverBounds : Bool) : DeferredDisplayList :=
  { l with mBatches := l.mBatches.map (addAt a op state opaqueOverBounds) }

/-- The batch `addDrawOp` creates for an operation that found no target: a merging batch
for a mergeable operation, a plain batch otherwise, holding the operation alone. -/
def newBatchFor (addr : Nat) (renderer : OpenGLRenderer) (op : DrawOp)
    (state : DeferredDisplayState) (deferInfo : DeferInfo) : Batch :=
  if deferInfo.mergeable then
    Batch.merging addr
      ((MergingDrawBatch.new deferInfo renderer.viewportWidth renderer.viewportHeight).add
        op state deferInfo.opaqueOverBounds)
  else Batch.draw addr ((DrawBatch.new deferInfo).add op state deferInfo.opaqueOverBounds)

/-- The engine after a new batch holding the operation alone was inserted at index `k` and
entered in the lookup of its variant. -/
def DeferredDisplayList.createAt (l : DeferredDisplayList) (renderer : OpenGLRenderer)
    (op : DrawOp) (state : DeferredDisplayState) (deferInfo : DeferInfo) (k : Nat) :
    DeferredDisplayList :=
  { l with
    mBatchLookup := fun i =>
      if deferInfo.mergeable = false ∧ i = deferInfo.batchId then some l.nextAddr
      else l.mBatchLookup i
    mMergingBatches := fun i m =>
      if deferInfo.mergeable = true ∧ i = deferInfo.batchId ∧ m = deferInfo.mergeId then
        some l.nextAddr
      else l.mMergingBatches i m
    mBatches := insertAt l.mBatches k (some (newBatchFor l.nextAddr renderer op state deferInfo))
    nextAddr := l.nextAddr + 1 }

/-- The descriptor `deferInfo` computed in `addDrawOp` stems from the descriptor the
operation reported: same batch-kind and merge-key, and mergeable only if reported so. -/
def InfoOf (op : DrawOp) (deferInfo : DeferInfo) : Prop :=
  deferInfo.batchId = op.deferInfo.batchId ∧ deferInfo.mergeId = op.deferInfo.mergeId ∧
    (deferInfo.mergeable = true → op.deferInfo.mergeable = true)

/-- The batch `b` at index `t`, stored at address `a`, is a target the operation may
join: it lies in the window, no later slot intersects the bounds of the operation, and it
is the open merging batch of the batch-kind and merge-key the operation can merge with,
or the plain batch of the batch-kind. -/
structure Joinable (l : DeferredDisplayList) (op : DrawOp) (state : DeferredDisplayState)
    (deferInfo : DeferInfo) (a t : Nat) (b : Batch) : Prop where
  in_window : l.mEarliestBatchIndex ≤ t
  at_index : l.mBatches[t]? = some (some b)
  addr : b.addr? = some a
  clear_after : ∀ j s, t < j → l.mBatches[j]? = some s → slotClear state.mBounds s
  variant :
    (deferInfo.mergeable = true ∧ ∃ mb, b = Batch.merging a mb ∧
      mb.mBatchId = deferInfo.batchId ∧ mb.mMergeId = deferInfo.mergeId ∧
      mb.canMergeWith op state = true) ∨
    (deferInfo.mergeable = false ∧ ∃ db, b = Batch.draw a db ∧ db.mBatchId = deferInfo.batchId)

/-- Address of the operation a call records, for a call of `addDrawOp`. -/
def Cmd.drawId? : Cmd → Option Nat
  | Cmd.addDrawOp _ op => some op.id
  | _ => none

/-- Addresses of the draw operations of a sequence of calls, in recording order. -/
def drawIds (cmds : List Cmd) : List Nat := cmds.filterMap Cmd.drawId?

/-- The operation at address `a` is recorded before the operation at address `b`. -/
def recordedBefore (cmds : List Cmd) (a b : Nat) : Prop :=
  ∃ i j : Nat, i < j ∧ (drawIds cmds)[i]? = some a ∧ (drawIds cmds)[j]? = some b

/-- No pair of members in replay order is an intersecting pair recorded in the opposite
order. -/
def Ordered (cmds : List Cmd) (es : List OpStatePair) : Prop :=
  es.Pairwise fun e1 e2 =>
    ¬ (recordedBefore cmds e2.op.id e1.op.id ∧
      e1.state.mBounds.intersects e2.state.mBounds = true)

/-! ### Sample inputs -/

/-- A renderer that never quick-rejects and stores the bounds it is given, with the given
alpha and has-shadow modifier; reordering is enabled. -/
def sampleRenderer (alpha : ℚ) (hasShadow : Bool) : OpenGLRenderer :=
  { storeDisplayState := fun s _ =>
      (false, { s with mAlpha := alpha,
                       mDrawModifiers := { s.mDrawModifiers with mHasShadow := hasShadow } })
    drawReorderDisabled := false
    viewportWidth := 100
    viewportHeight := 100
    saveCount := 1
    hasRectToRectTransform := true }

/-- A draw operation with the given address, local bounds and descriptor. -/
def sampleOp (id : Nat) (bounds : Option Rect) (deferInfo : DeferInfo) : DrawOp :=
  { id := id, mPaint := 1, paintAlpha := 255, localBounds := bounds, deferInfo := deferInfo }

/-- The state `sampleRenderer` stores for the given bounds. -/
def sampleState (bounds : Rect) (alpha : ℚ) (hasShadow : Bool) : DeferredDisplayState :=
  { createState with
    mBounds := bounds, mAlpha := alpha,
    mDrawModifiers := { createState.mDrawModifiers with mHasShadow := hasShadow } }

/-- Two intersecting operations of different batch-kinds, recorded one after the other. -/
def sampleTwoKinds : List Cmd :=
  [Cmd.addDrawOp (sampleRenderer 1 false) (sampleOp 1 (some ⟨0, 0, 5, 5⟩) ⟨1, 0, false, false⟩),
   Cmd.addDrawOp (sampleRenderer 1 false) (sampleOp 2 (some ⟨2, 2, 8, 8⟩) ⟨2, 0, false, false⟩)]

/-- The call is `clear`. -/
def Cmd.isClear : Cmd → Bool
  | Cmd.clear => true
  | _ => false

/-- The first `n` slots of `bs` are frozen in `bs2`: each is unchanged, or a
purely-drawing batch that was discarded and left an empty slot. -/
def Frozen (n : Nat) (bs bs2 : List (Option Batch)) : Prop :=
  ∀ i s, i < n → bs[i]? = some s →
    bs2[i]? = some s ∨ (bs2[i]? = some none ∧ ∃ b, s = some b ∧ b.purelyDrawBatch = true)

/-- A save-layer barrier followed by one draw operation. -/
def sampleBarrierThenDraw : List Cmd :=
  [Cmd.addDrawOp (sampleRenderer 1 false) (sampleOp 2 (some ⟨2, 2, 8, 8⟩) ⟨2, 0, false, false⟩)]

/-- The engine can be reached from a freshly constructed engine by a sequence of calls. -/
def Reachable (l : DeferredDisplayList) : Prop :=
  ∃ bounds avoid cmds, l = run (DeferredDisplayList.init bounds avoid) cmds

/-- The slot holds a merging batch. -/
def slotIsMerging : Option Batch → Bool
  | some (Batch.merging _ _) => true
  | _ => false

/-- The sample renderer with reordering disabled. -/
def sampleRendererNoReorder : OpenGLRenderer :=
  { sampleRenderer 1 false with drawReorderDisabled := true }

/-- A mergeable operation of kind 1 and merge-key 1 with bounds `(0, 0, 1, 1)`. -/
def sampleMergeable : DrawOp := sampleOp 1 (some ⟨0, 0, 1, 1⟩) ⟨1, 1, true, false⟩

/-- A mergeable operation of kind 1 and merge-key 1 whose extent is unknown. -/
def sampleMergeableUnknown : DrawOp := sampleOp 2 none ⟨1, 1, true, false⟩

/-- Three mergeable operations of the same batch-kind and merge-key with disjoint bounds
and alphas 0.5, 0.501 and 0.499. -/
def sampleThreeAlphas : List Cmd :=
  [Cmd.addDrawOp (sampleRenderer (1 / 2) false) (sampleOp 1 (some ⟨0, 0, 1, 1⟩) ⟨1, 1, true, false⟩),
   Cmd.addDrawOp (sampleRenderer (501 / 1000) false)
     (sampleOp 2 (some ⟨1, 0, 2, 1⟩) ⟨1, 1, true, false⟩),
   Cmd.addDrawOp (sampleRenderer (499 / 1000) false)
     (sampleOp 3 (some ⟨2, 0, 3, 1⟩) ⟨1, 1, true, false⟩)]

/-- Two mergeable operations of the same batch-kind and merge-key with disjoint bounds
and alphas 0 and `0.001f` (8589935 / 2 ^ 33), both `float` values. -/
def sampleMarginAlphas : List Cmd :=
  [Cmd.addDrawOp (sampleRenderer 0 false) (sampleOp 1 (some ⟨0, 0, 1, 1⟩) ⟨1, 1, true, false⟩),
   Cmd.addDrawOp (sampleRenderer (8589935 / 8589934592) false)
     (sampleOp 2 (some ⟨1, 0, 2, 1⟩) ⟨1, 1, true, false⟩)]

/-- Two mergeable text operations with the same bounds, the first with a shadow, the
second without. -/
def sampleShadowThenText : List Cmd :=
  [Cmd.addDrawOp (sampleRenderer 1 true)
     (sampleOp 1 (some ⟨0, 0, 10, 10⟩) ⟨kOpBatch_Text, 1, true, false⟩),
   Cmd.addDrawOp (sampleRenderer 1 false)
     (sampleOp 2 (some ⟨0, 0, 10, 10⟩) ⟨kOpBatch_Text, 1, true, false⟩)]

/-- A non-mergeable operation of kind 1 whose extent is unknown. -/
def sampleUnknown : DrawOp := sampleOp 1 none ⟨1, 0, false, false⟩

/-- A non-mergeable operation of kind 1 with bounds `(0, 0, 1, 1)`. -/
def samplePlain : DrawOp := sampleOp 2 (some ⟨0, 0, 1, 1⟩) ⟨1, 0, false, false⟩

/-! ### Replay and flush -/

/-- Modelled from the spec: the status word `DrawGlInfo::kStatusDone` (declared in a header
that is not among the sources). -/
def kStatusDone : Nat := 0x0

/-- Modelled from the spec: `SkCanvas::kMatrix_SaveFlag` (Skia header, not among the
sources). -/
def kMatrix_SaveFlag : Nat := 0x01

/-- Modelled from the spec: `Region` of the missing header `ui/Region.h`, as a list of
rectangles whose union is the region. -/
def Region : Type := List Rect

namespace Region

/-- Modelled from the spec: what is left of the rectangle `a` once `s` is taken away, as
the strips above, below, left and right of `s` (missing header `ui/Region.h`). -/
def subtractRect (a s : Rect) : List Rect :=
  if a.isEmpty then []
  else if !a.intersects s then [a]
  else
    ([⟨a.left, a.top, a.right, s.top⟩,
      ⟨a.left, s.bottom, a.right, a.bottom⟩,
      ⟨a.left, max a.top s.top, s.left, min a.bottom s.bottom⟩,
      ⟨s.right, max a.top s.top, a.right, min a.bottom s.bottom⟩] : List Rect).filter
      fun p => !p.isEmpty

/-- Modelled from the spec: the region made of one rectangle (missing header
`ui/Region.h`). -/
def ofRect (r : Rect) : Region := [r]

/-- Modelled from the spec: `Region::subtractSelf`, subtracting a rectangle from the region
(missing header `ui/Region.h`). -/
def subtractSelf (reg : Region) (s : Rect) : Region :=
  List.foldr (fun (a : Rect) (acc : List Rect) => subtractRect a s ++ acc) [] reg

/-- Modelled from the spec: `Region::isEmpty`, the remainder is empty (missing header
`ui/Region.h`). -/
def isEmpty (reg : Region) : Bool := List.all reg fun (a : Rect) => a.isEmpty

end Region

/-- The method `DrawBatch::coversBounds`. -/
def DrawBatch.coversBounds (b : DrawBatch) (bounds : Rect) : Bool :=
  if !b.mAllOpsOpaque || !b.mBounds.contains bounds || decide (b.mOps.length = 1) then false
  else
    let uncovered :=
      b.mOps.foldl (fun (reg : Region) p => reg.subtractSelf p.state.mBounds)
        (Region.ofRect bounds)
    uncovered.isEmpty

/-- The virtual method `coversBounds`: false for the barriers. -/
def Batch.coversBounds : Batch → Rect → Bool
  | Batch.draw _ b, bounds => b.coversBounds bounds
  | Batch.merging _ b, bounds => b.toDrawBatch.coversBounds bounds
  | Batch.stateOp _ _, _ => false
  | Batch.restoreToCount _ _ _, _ => false

/-- A call the engine makes during `flush`: on the font renderer of the caches
(`endPrecaching`), on the renderer, or on an operation with the renderer as argument.
Calls made only in debug builds, tracing and logging are left out. -/
inductive Event where
  | endPrecaching
  | restoreToCount (saveCount : Int)
  | eventMark
  | getDrawModifiers
  | save (flags : Nat)
  | setDrawModifiers
  | restoreDisplayState (state : DeferredDisplayState)
  | applyDraw (op : DrawOp)
  | setupMergedMultiDraw (clipRect : Rect)
  | multiDraw (op : DrawOp) (ops : List OpStatePair) (bounds : Rect)
  | applyState (op : StateOp)
deriving DecidableEq, Repr

/-- Modelled from the spec: the backend seen from the engine during replay.  It answers a
draw call with a status word, which may depend on the calls made before. -/
def Backend : Type := List Event → Event → Nat

/-- The method `DrawBatch::replay`: for each member the state is applied and the member is
drawn; the status words are accumulated.  `calls` holds the calls made so far. -/
def DrawBatch.replay (b : DrawBatch) (backend : Backend) (calls : List Event) :
    List Event × Nat :=
  b.mOps.foldl
    (fun (acc : List Event × Nat) p =>
      let calls1 := acc.1 ++ [Event.restoreDisplayState p.state]
      (calls1 ++ [Event.applyDraw p.op], acc.2 ||| backend calls1 (Event.applyDraw p.op)))
    (calls, kStatusDone)

/-- The method `MergingDrawBatch::replay`.  Reading `mOps[0]` of a batch without members is
outside the behaviour of the source; the embedding stops after the clip setup there. -/
def MergingDrawBatch.replay (b : MergingDrawBatch) (backend : Backend) (calls : List Event) :
    List Event × Nat :=
  if b.mOps.length = 1 then b.toDrawBatch.replay backend calls
  else
    let calls1 := calls ++ [Event.setupMergedMultiDraw b.mClipRect]
    match b.mOps with
    | first :: _ =>
      (calls1 ++ [Event.multiDraw first.op b.mOps b.mBounds],
        backend calls1 (Event.multiDraw first.op b.mOps b.mBounds))
    | [] => (calls1, kStatusDone)

/-- The virtual method `replay` of the four batch variants. -/
def Batch.replay (backend : Backend) (calls : List Event) : Batch → List Event × Nat
  | Batch.draw _ b => b.replay backend calls
  | Batch.merging _ b => b.replay backend calls
  | Batch.stateOp op state =>
    (calls ++ [Event.restoreDisplayState state, Event.applyState op], kStatusDone)
  | Batch.restoreToCount _ state mRestoreCount =>
    (calls ++ [Event.restoreDisplayState state, Event.restoreToCount mRestoreCount],
      kStatusDone)

/-- The function `replayBatchList`. -/
def replayBatchList (batchList : List (Option Batch)) (backend : Backend)
    (calls : List Event) : List Event × Nat :=
  batchList.foldl
    (fun (acc : List Event × Nat) slot =>
      match slot with
      | some b => ((b.replay backend acc.1).1, acc.2 ||| (b.replay backend acc.1).2)
      | none => acc)
    (calls, kStatusDone)

namespace DeferredDisplayList

/-- The overdraw loop of `flush`, from index `i` on for `n` more indices: where the batch
in slot `i` covers the display bounds, the drawing batches before it are discarded. -/
def flushDiscardFrom : DeferredDisplayList → Nat → Nat → DeferredDisplayList
  | l, _, 0 => l
  | l, i, n + 1 =>
    flushDiscardFrom
      (match l.mBatches[i]? with
      | some (some b) => if b.coversBounds l.mBounds then l.discardDrawingBatches (i - 1) else l
      | _ => l)
      (i + 1) n

/-- The overdraw loop of `flush` (`for (i = 1; i < mBatches.size(); i++)`). -/
def flushDiscard (l : DeferredDisplayList) : DeferredDisplayList :=
  flushDiscardFrom l 1 (l.mBatches.length - 1)

/-- The method `flush`: the engine afterwards, the calls made, and the status returned. -/
def flush (l : DeferredDisplayList) (backend : Backend) :
    DeferredDisplayList × List Event × Nat :=
  if l.isEmpty then (l, [Event.endPrecaching], kStatusDone)
  else
    let calls1 :=
      [Event.endPrecaching, Event.restoreToCount 1, Event.eventMark, Event.getDrawModifiers,
        Event.save (kMatrix_SaveFlag ||| kClip_SaveFlag)]
    let l1 := if l.mAvoidOverdraw then l.flushDiscard else l
    let replayed := replayBatchList l1.mBatches backend calls1
    (l1.clear, replayed.1 ++ [Event.restoreToCount 1, Event.setDrawModifiers],
      kStatusDone ||| replayed.2)

end DeferredDisplayList

/-- The call is made on the renderer (directly, or by an operation that is handed the
renderer); `endPrecaching` is made on the font renderer of the caches. -/
def Event.onRenderer : Event → Bool
  | Event.endPrecaching => false
  | _ => true

/-- The calls the members of a batch make when they are drawn one by one. -/
def drawCalls : List OpStatePair → List Event
  | [] => []
  | p :: rest => Event.restoreDisplayState p.state :: Event.applyDraw p.op :: drawCalls rest

/-- The calls a batch makes when it is replayed. -/
def Batch.calls : Batch → List Event
  | Batch.draw _ b => drawCalls b.mOps
  | Batch.merging _ b =>
    if b.mOps.length = 1 then drawCalls b.mOps
    else
      match b.mOps with
      | first :: _ =>
        [Event.setupMergedMultiDraw b.mClipRect, Event.multiDraw first.op b.mOps b.mBounds]
      | [] => [Event.setupMergedMultiDraw b.mClipRect]
  | Batch.stateOp op state => [Event.restoreDisplayState state, Event.applyState op]
  | Batch.restoreToCount _ state n =>
    [Event.restoreDisplayState state, Event.restoreToCount n]

/-- The calls the slots of a batch list make when the list is replayed; an empty slot
makes none. -/
def slotCalls : List (Option Batch) → List Event
  | [] => []
  | some b :: rest => b.calls ++ slotCalls rest
  | none :: rest => slotCalls rest

/-- The call keeps a complex-clip window open that was opened at renderer save count `c`:
every call but `clear` and a restore to a count below `c`. -/
def Cmd.keepsWindow (c : Int) : Cmd → Bool
  | Cmd.clear => false
  | Cmd.addRestoreToCount _ _ n => decide (c ≤ n)
  | _ => true

/-- A clip operation that can cause a complex clip. -/
def sampleClip : ClipOp := { id := 7, canCauseComplexClip := true }

/-- A rectangular clip operation that cannot cause a complex clip. -/
def sampleRectClip : ClipOp := { id := 7, canCauseComplexClip := false }

/-- A plain batch holding `samplePlain`, at address 0. -/
def sampleBatch : Batch :=
  Batch.draw 0 ((DrawBatch.new ⟨1, 0, false, false⟩).add samplePlain
    (sampleState ⟨0, 0, 1, 1⟩ 1 false) false)

/-- A state-op barrier. -/
def sampleBarrier : Batch := Batch.stateOp { id := 7 } createState

/-- An engine holding a plain batch followed by a barrier. -/
def sampleEngine : DeferredDisplayList :=
  { DeferredDisplayList.init ⟨0, 0, 10, 10⟩ true with
    mBatches := [some sampleBatch, some sampleBarrier]
    mEarliestBatchIndex := 2
    nextAddr := 1 }

/-- A restore operation. -/
def sampleRestore : StateOp := { id := 9 }

/-- An opaque operation `A` of batch-kind 1 with bounds `(0, 0, 5, 5)`. -/
def sampleOpaqueA : DrawOp := sampleOp 1 (some ⟨0, 0, 5, 5⟩) ⟨1, 0, false, true⟩

/-- An opaque operation `B` of batch-kind 2 with bounds `(0, 0, 10, 10)`. -/
def sampleOpaqueB : DrawOp := sampleOp 2 (some ⟨0, 0, 10, 10⟩) ⟨2, 0, false, true⟩

/-- The scenario: a clip operation, then `A`, then `B`, recorded on a fresh engine with
display bounds `(0, 0, 10, 10)` and overdraw avoidance, with a renderer at save count 1. -/
def sampleScenario (clip : ClipOp) : DeferredDisplayList :=
  run (DeferredDisplayList.init ⟨0, 0, 10, 10⟩ true)
    [Cmd.addClip (sampleRenderer 1 false) clip,
      Cmd.addDrawOp (sampleRenderer 1 false) sampleOpaqueA,
      Cmd.addDrawOp (sampleRenderer 1 false) sampleOpaqueB]

/-- The save count of the scope-push barrier the call stores on the engine `l`, if it
stores one: `addSaveLayer` always does, `addSave` only while a complex clip is recorded and
the clip flag of the save is set. -/
def Cmd.push? (l : DeferredDisplayList) : Cmd → Option Int
  | Cmd.addSaveLayer _ _ n => some n
  | Cmd.addSave _ op n =>
    if l.recordingComplexClip && (op.flags &&& kClip_SaveFlag) != 0 then some n else none
  | _ => none

/-- The save counts of the scope-push barriers that were stored and are still open after
the calls `cmds` on the engine `l`, innermost first, where `acc` lists the ones open
before: a barrier pushed at save count `d` stays open until a restore to a count `n ≤ d`,
and `clear` drops every barrier. -/
def openPushes : DeferredDisplayList → List Cmd → List Int → List Int
  | _, [], acc => acc
  | l, c :: rest, acc =>
    openPushes (step l c) rest
      (match c with
      | Cmd.clear => []
      | Cmd.addRestoreToCount _ _ n => acc.filter fun d => decide (d < n)
      | _ =>
        match c.push? l with
        | some n => n :: acc
        | none => acc)

/-- The save counts of the run are nested: every scope-push barrier is stored at a save
count above the save counts of the barriers still open. -/
def NestedRun : DeferredDisplayList → List Cmd → Prop
  | _, [] => True
  | l, c :: rest =>
    (∀ n, c.push? l = some n → ∀ d ∈ l.mSaveStack, d < n) ∧ NestedRun (step l c) rest

/-- A save-layer operation. -/
def sampleSaveLayer : StateOp := { id := 5 }

/-- An opaque operation of batch-kind 2 with bounds `(0, 0, 5, 5)`. -/
def sampleOpaqueSmall : DrawOp := sampleOp 3 (some ⟨0, 0, 5, 5⟩) ⟨2, 0, false, true⟩

/-- The slot at index `m` holds no purely-drawing batch: it is empty, holds a barrier, or
lies beyond the end of the list. -/
def noDrawAt (bs : List (Option Batch)) (m : Nat) : Prop :=
  ∀ x : Batch, bs[m]? = some (some x) → x.purelyDrawBatch = false

/-- An opaque operation of batch-kind 2 covering the upper half of `(0, 0, 10, 10)`. -/
def sampleUpperHalf : DrawOp := sampleOp 4 (some ⟨0, 0, 10, 5⟩) ⟨2, 0, false, true⟩

/-- An opaque operation of batch-kind 2 covering the lower half of `(0, 0, 10, 10)`. -/
def sampleLowerHalf : DrawOp := sampleOp 5 (some ⟨0, 5, 10, 10⟩) ⟨2, 0, false, true⟩

/-- An engine with display bounds `(0, 0, 10, 10)` holding the batch of `A` followed by a
batch of two opaque operations that cover the display bounds together. -/
def sampleCovered : DeferredDisplayList :=
  run (DeferredDisplayList.init ⟨0, 0, 10, 10⟩ true)
    [Cmd.addDrawOp (sampleRenderer 1 false) sampleOpaqueA,
      Cmd.addDrawOp (sampleRenderer 1 false) sampleUpperHalf,
      Cmd.addDrawOp (sampleRenderer 1 false) sampleLowerHalf]

/-- The batch of the two halves in `sampleCovered`. -/
def sampleCoveringBatch : Batch :=
  Batch.draw 1 (((DrawBatch.new ⟨2, 0, false, true⟩).add sampleUpperHalf
    (sampleState ⟨0, 0, 10, 5⟩ 1 false) true).add sampleLowerHalf
    (sampleState ⟨0, 5, 10, 10⟩ 1 false) true)

/-- An engine holding the batch of the opaque `A` followed by the batch of a second opaque
operation with the same bounds `(0, 0, 5, 5)`. -/
def sampleTwoOpaque : DeferredDisplayList :=
  run (DeferredDisplayList.init ⟨0, 0, 10, 10⟩ true)
    [Cmd.addDrawOp (sampleRenderer 1 false) sampleOpaqueA,
      Cmd.addDrawOp (sampleRenderer 1 false) sampleOpaqueSmall]

/-- Every batch of the list that is stored at address `a` is a plain batch whose
all-opaque accumulator is false. -/
def dullAt (a : Nat) (bs : List (Option Batch)) : Prop :=
  ∀ b : Batch, some b ∈ bs → b.addr? = some a →
    ∃ d, b = Batch.draw a d ∧ d.mAllOpsOpaque = false

/-- A mergeable operation that reports itself opaque, with bounds `(0, 0, 10, 10)`. -/
def sampleMergeableOpaque : DrawOp := sampleOp 6 (some ⟨0, 0, 10, 10⟩) ⟨1, 1, true, true⟩

/-- The call is a draw call: the single draw of a member, or the fused draw of a merging
batch. -/
def Event.isDraw : Event → Bool
  | Event.applyDraw _ => true
  | Event.multiDraw _ _ _ => true
  | _ => false

/-- The bitwise OR of the status words the backend returns for the draw calls among
`calls`, made one after the other after the calls `hist`. -/
def drawStatus (backend : Backend) : List Event → List Event → Nat
  | _, [] => 0
  | hist, e :: rest =>
    (if e.isDraw then backend hist e else 0) ||| drawStatus backend (hist ++ [e]) rest

/-- A merging batch with one member, replayed like a plain batch. -/
def sampleSoloMerging : Batch :=
  Batch.merging 3 ((MergingDrawBatch.new ⟨1, 1, true, false⟩ 100 100).add sampleMergeable
    (sampleState ⟨0, 0, 1, 1⟩ 1 false) false)

/-- The assumption the clipping check of `canMergeWith` exploits: the bounds of a deferred
state are not empty and, on every side flagged in its clip-side mask, equal its clip. -/
def ClipTight (st : DeferredDisplayState) : Prop :=
  st.mBounds.isEmpty = false ∧
  (clipConstrained st.mClipSideFlags kClipSide_Left = true → st.mBounds.left = st.mClip.left) ∧
  (clipConstrained st.mClipSideFlags kClipSide_Top = true → st.mBounds.top = st.mClip.top) ∧
  (clipConstrained st.mClipSideFlags kClipSide_Right = true →
    st.mBounds.right = st.mClip.right) ∧
  (clipConstrained st.mClipSideFlags kClipSide_Bottom = true →
    st.mBounds.bottom = st.mClip.bottom)

/-- Members are added to a merging batch one after the other, each one only if
`canMergeWith` admits it; `none` when a member is refused.  Each entry carries the
operation with its state and its opaque-over-bounds flag. -/
def MergingDrawBatch.addAll (b : MergingDrawBatch) :
    List (OpStatePair × Bool) → Option MergingDrawBatch
  | [] => some b
  | (p, o) :: rest =>
    if b.canMergeWith p.op p.state then addAll (b.add p.op p.state o) rest else none

/-- On every side flagged in the clip-side mask of the batch, the bounds of the batch
equal its shared clip rectangle; and the bounds are not empty. -/
def MergingDrawBatch.ClipTight (b : MergingDrawBatch) : Prop :=
  b.mBounds.isEmpty = false ∧
  (clipConstrained b.mClipSideFlags kClipSide_Left = true → b.mBounds.left = b.mClipRect.left) ∧
  (clipConstrained b.mClipSideFlags kClipSide_Top = true → b.mBounds.top = b.mClipRect.top) ∧
  (clipConstrained b.mClipSideFlags kClipSide_Right = true →
    b.mBounds.right = b.mClipRect.right) ∧
  (clipConstrained b.mClipSideFlags kClipSide_Bottom = true →
    b.mBounds.bottom = b.mClipRect.bottom)

/-- A merging batch entry clipped on its left side, with bounds `(0, 0, 1, 1)`. -/
def sampleClippedLeft : OpStatePair × Bool :=
  (⟨sampleMergeable,
    { sampleState ⟨0, 0, 1, 1⟩ 1 false with mClip := ⟨0, 0, 9, 9⟩, mClipSideFlags := 1 }⟩, false)

/-- A merging batch entry without clip, with bounds `(1, 0, 2, 1)`. -/
def sampleUnclipped : OpStatePair × Bool :=
  (⟨sampleOp 2 (some ⟨1, 0, 2, 1⟩) ⟨1, 1, true, false⟩, sampleState ⟨1, 0, 2, 1⟩ 1 false⟩, false)

/-- The merging batch built from `sampleClippedLeft` and `sampleUnclipped`. -/
def sampleClippedBatch : MergingDrawBatch :=
  ((MergingDrawBatch.new ⟨1, 1, true, false⟩ 100 100).add sampleClippedLeft.1.op
    sampleClippedLeft.1.state sampleClippedLeft.2).add sampleUnclipped.1.op
    sampleUnclipped.1.state sampleUnclipped.2

/-- Members are added to a draw batch one after the other; each entry carries the
operation with its state and its opaque-over-bounds flag. -/
def DrawBatch.addAll (b : DrawBatch) : List (OpStatePair × Bool) → DrawBatch
  | [] => b
  | (p, o) :: rest => addAll (b.add p.op p.state o) rest

/-- Two opaque entries covering the upper and the lower half of `(0, 0, 10, 10)`. -/
def sampleHalves : List (OpStatePair × Bool) :=
  [(⟨sampleUpperHalf, sampleState ⟨0, 0, 10, 5⟩ 1 false⟩, true),
    (⟨sampleLowerHalf, sampleState ⟨0, 5, 10, 10⟩ 1 false⟩, true)]

/-- The saves of the run are nested: every scope-push barrier is stored at a save count
above the current top of the save stack. -/
def NestedTopRun : DeferredDisplayList → List Cmd → Prop
  | _, [] => True
  | l, c :: rest =>
    (∀ n, c.push? l = some n → ∀ top ∈ l.mSaveStack.head?, top < n) ∧
      NestedTopRun (step l c) rest

/-- The `boundsDelta` that `canMergeWith` passes to `checkSide` for the left side. -/
def MergingDrawBatch.boundsDeltaLeft (b : MergingDrawBatch) (state : DeferredDisplayState) :
    ℚ :=
  b.mBounds.left - state.mBounds.left

/-- The `boundsDelta` that `canMergeWith` passes to `checkSide` for the top side. -/
def MergingDrawBatch.boundsDeltaTop (b : MergingDrawBatch) (state : DeferredDisplayState) :
    ℚ :=
  b.mBounds.top - state.mBounds.top

/-- The `boundsDelta` that `canMergeWith` passes to `checkSide` for the right side. -/
def MergingDrawBatch.boundsDeltaRight (b : MergingDrawBatch) (state : DeferredDisplayState) :
    ℚ :=
  state.mBounds.right - b.mBounds.right

/-- The `boundsDelta` that `canMergeWith` passes to `checkSide` for the bottom side. -/
def MergingDrawBatch.boundsDeltaBottom (b : MergingDrawBatch) (state : DeferredDisplayState) :
    ℚ :=
  state.mBounds.bottom - b.mBounds.bottom

/-- A merging batch with bounds `(2, 2, 8, 8)`. -/
def sampleInnerBatch : MergingDrawBatch :=
  (MergingDrawBatch.new ⟨1, 1, true, false⟩ 100 100).add sampleMergeable
    (sampleState ⟨2, 2, 8, 8⟩ 1 false) false

/-- The batch-kind of the draw batch in a slot, if the slot holds one. -/
def slotKind : Option Batch → Option Nat
  | some b => b.asDraw?.map fun d => d.mBatchId
  | none => none

/-- The draw batch in the slot intersects the rectangle (`DrawBatch::intersects`). -/
def slotIntersects (bounds : Rect) : Option Batch → Bool
  | some b =>
    match b.asDraw? with
    | some d => d.intersects bounds
    | none => false
  | none => false

/-- Slot `m` holds the most recent batch of the batch-kind `batchId` among the slots of the
window below index `n`, and no later slot below `n` intersects the rectangle. -/
def anchorAt (bs : List (Option Batch)) (earliest batchId : Nat) (bounds : Rect)
    (n m : Nat) : Prop :=
  earliest ≤ m ∧ m < n ∧ (∃ s, bs[m]? = some s ∧ slotKind s = some batchId) ∧
    ∀ j s, m < j → j < n → bs[j]? = some s →
      slotKind s ≠ some batchId ∧ slotIntersects bounds s = false

/-- A non-mergeable operation of batch-kind 2 with bounds `(5, 5, 6, 6)`. -/
def sampleKindTwo : DrawOp := sampleOp 2 (some ⟨5, 5, 6, 6⟩) ⟨2, 0, false, false⟩

/-- A mergeable operation of batch-kind 1 and merge-key 2 whose extent is unknown. -/
def sampleOtherKeyUnknown : DrawOp := sampleOp 3 none ⟨1, 2, true, false⟩

/-- A mergeable operation of batch-kind 1 and merge-key 2 with bounds `(2, 0, 3, 1)`. -/
def sampleOtherKey : DrawOp := sampleOp 3 (some ⟨2, 0, 3, 1⟩) ⟨1, 2, true, false⟩

/-- An engine whose window holds a merging batch of batch-kind 1 and merge-key 1 followed
by a plain batch of batch-kind 2. -/
def sampleWindow : DeferredDisplayList :=
  run (DeferredDisplayList.init ⟨0, 0, 10, 10⟩ true)
    [Cmd.addDrawOp (sampleRenderer 1 false) sampleMergeable,
      Cmd.addDrawOp (sampleRenderer 1 false) sampleKindTwo]

/-! ### The glyph cache texture (`font/CacheTexture.cpp`)

The constants `TEXTURE_BORDER_SIZE` and `CACHE_BLOCK_ROUNDING_SIZE` are declared in headers
that are not among the sources; the embedding takes them as parameters. -/

/-- Modelled from the spec: a node of the linked list of cache blocks (`struct CacheBlock`
of the missing header `CacheTexture.h`): position and size in 16 bits.  `addr` is the
address of the node; the links `mNext` and `mPrev` are given by the order of the list that
holds the node. -/
structure CacheBlock where
  addr : Nat
  mX : Nat
  mY : Nat
  mWidth : Nat
  mHeight : Nat
deriving DecidableEq, Repr

/-- The conversion of an integer value to `uint16_t`. -/
def toU16 (x : Int) : Nat := (x % 65536).toNat

/-- The conversion of an integer value to `uint32_t`. -/
def toU32 (x : Int) : Nat := (x % 4294967296).toNat

namespace CacheBlock

/-- The function `CacheBlock::insertBlock`, with the list given from `head` on. -/
def insertBlock (TEXTURE_BORDER_SIZE : Nat) : List CacheBlock → CacheBlock → List CacheBlock
  | [], newBlock => [newBlock]
  | currBlock :: rest, newBlock =>
    if currBlock.mY ≠ TEXTURE_BORDER_SIZE then
      if newBlock.mWidth < currBlock.mWidth then newBlock :: currBlock :: rest
      else currBlock :: insertBlock TEXTURE_BORDER_SIZE rest newBlock
    else newBlock :: currBlock :: rest

/-- The function `CacheBlock::removeBlock`: the node at the address `blockToRemove` is
unlinked. -/
def removeBlock (head : List CacheBlock) (blockToRemove : Nat) : List CacheBlock :=
  head.eraseP fun b => b.addr == blockToRemove

end CacheBlock

/-- Modelled from the spec: the mask formats of a glyph (`SkMask::Format` of a Skia header
that is not among the sources). -/
inductive MaskFormat where
  | kBW_Format
  | kA8_Format
  | k3D_Format
  | kARGB32_Format
  | kLCD16_Format
  | kLCD32_Format
deriving DecidableEq, Repr

/-- Modelled from the spec: the OpenGL format `GL_ALPHA` (header not among the sources). -/
def GL_ALPHA : Nat := 0x1906

/-- Modelled from the spec: the OpenGL format `GL_RGBA` (header not among the sources). -/
def GL_RGBA : Nat := 0x1908

/-- Modelled from the spec: what `fitBitmap` reads of a glyph (`SkGlyph` of a Skia header
that is not among the sources): the mask format and the 16-bit width and height. -/
structure SkGlyph where
  fMaskFormat : MaskFormat
  fWidth : Nat
  fHeight : Nat
deriving DecidableEq, Repr

/-- Modelled from the spec: the fields of `class CacheTexture` (missing header
`CacheTexture.h`) that `init`, `reset` and `fitBitmap` use.  `nextAddr` is the address the
next allocated node gets. -/
structure CacheTexture where
  mWidth : Nat
  mHeight : Nat
  mFormat : Nat
  mCacheBlocks : List CacheBlock
  mDirty : Bool
  mDirtyRect : Rect
  mNumGlyphs : Nat
  mCurrentQuad : Nat
  nextAddr : Nat

namespace CacheTexture

/-- The method `CacheTexture::reset`. -/
def reset (t : CacheTexture) : CacheTexture :=
  { t with mCacheBlocks := [], mNumGlyphs := 0, mCurrentQuad := 0 }

/-- The method `CacheTexture::init`: reset, then a new remainder space. -/
def init (TEXTURE_BORDER_SIZE : Nat) (t : CacheTexture) : CacheTexture :=
  { t.reset with
    mCacheBlocks :=
      [{ addr := t.nextAddr, mX := toU16 TEXTURE_BORDER_SIZE, mY := toU16 TEXTURE_BORDER_SIZE,
         mWidth := toU16 ((t.mWidth : Int) - TEXTURE_BORDER_SIZE),
         mHeight := toU16 ((t.mHeight : Int) - TEXTURE_BORDER_SIZE) }]
    nextAddr := t.nextAddr + 1 }

/-- The format test that opens `fitBitmap`: true where the source goes on. -/
def formatFits (t : CacheTexture) (glyph : SkGlyph) : Bool :=
  match glyph.fMaskFormat with
  | MaskFormat.kA8_Format => t.mFormat == GL_ALPHA
  | MaskFormat.kBW_Format => t.mFormat == GL_ALPHA
  | MaskFormat.kARGB32_Format => t.mFormat == GL_RGBA
  | _ => false

/-- The local `glyphW` of `fitBitmap`. -/
def glyphW (TEXTURE_BORDER_SIZE : Nat) (glyph : SkGlyph) : Nat :=
  toU16 ((glyph.fWidth : Int) + TEXTURE_BORDER_SIZE)

/-- The local `glyphH` of `fitBitmap`. -/
def glyphH (TEXTURE_BORDER_SIZE : Nat) (glyph : SkGlyph) : Nat :=
  toU16 ((glyph.fHeight : Int) + TEXTURE_BORDER_SIZE)

/-- The local `roundedUpW` of `fitBitmap` as first computed:
`(glyphW + CACHE_BLOCK_ROUNDING_SIZE - 1) & -CACHE_BLOCK_ROUNDING_SIZE` in 32-bit integers
(the negated constant has the bit pattern `2^32 - CACHE_BLOCK_ROUNDING_SIZE`), stored in 16
bits. -/
def roundedUpW (TEXTURE_BORDER_SIZE CACHE_BLOCK_ROUNDING_SIZE : Nat) (glyph : SkGlyph) : Nat :=
  toU16 (((glyphW TEXTURE_BORDER_SIZE glyph + CACHE_BLOCK_ROUNDING_SIZE - 1) &&&
    (4294967296 - CACHE_BLOCK_ROUNDING_SIZE) : Nat) : Int)

/-- The search loop of `fitBitmap`: the first block of the list that passes the test of
the `if`. -/
def findBlock (TEXTURE_BORDER_SIZE CACHE_BLOCK_ROUNDING_SIZE roundedUpW glyphH : Nat) :
    List CacheBlock → Option CacheBlock
  | [] => none
  | cacheBlock :: rest =>
    if roundedUpW ≤ cacheBlock.mWidth ∧ glyphH ≤ cacheBlock.mHeight ∧
        (cacheBlock.mY = TEXTURE_BORDER_SIZE ∨
          (cacheBlock.mWidth : Int) - roundedUpW < CACHE_BLOCK_ROUNDING_SIZE) then
      some cacheBlock
    else findBlock TEXTURE_BORDER_SIZE CACHE_BLOCK_ROUNDING_SIZE roundedUpW glyphH rest

/-- Writing through the pointer `cacheBlock`: the node at the address is replaced. -/
def setBlock (blocks : List CacheBlock) (b : CacheBlock) : List CacheBlock :=
  blocks.map fun c => if c.addr = b.addr then b else c

/-- The method `CacheTexture::fitBitmap`: the origin written to `retOriginX` and
`retOriginY` when the method returns true (`none` when it returns false), and the texture
afterwards. -/
def fitBitmap (TEXTURE_BORDER_SIZE CACHE_BLOCK_ROUNDING_SIZE : Nat) (t : CacheTexture)
    (glyph : SkGlyph) : Option (Nat × Nat) × CacheTexture :=
  if !t.formatFits glyph then (none, t)
  else if glyph.fHeight + TEXTURE_BORDER_SIZE * 2 > t.mHeight then (none, t)
  else
    let glyphW := glyphW TEXTURE_BORDER_SIZE glyph
    let glyphH := glyphH TEXTURE_BORDER_SIZE glyph
    let roundedUpW0 := roundedUpW TEXTURE_BORDER_SIZE CACHE_BLOCK_ROUNDING_SIZE glyph
    match findBlock TEXTURE_BORDER_SIZE CACHE_BLOCK_ROUNDING_SIZE roundedUpW0 glyphH
        t.mCacheBlocks with
    | none => (none, t)
    | some cacheBlock =>
      let roundedUpW :=
        if (cacheBlock.mHeight : Int) - glyphH < glyphH then glyphW else roundedUpW0
      let retOriginX := cacheBlock.mX
      let retOriginY := cacheBlock.mY
      let placed : List CacheBlock × CacheBlock × Nat :=
        if cacheBlock.mY = TEXTURE_BORDER_SIZE then
          let oldX := cacheBlock.mX
          let cacheBlock1 :=
            { cacheBlock with
              mWidth := toU16 ((cacheBlock.mWidth : Int) - roundedUpW)
              mX := toU16 ((cacheBlock.mX : Int) + roundedUpW) }
          let blocks1 := setBlock t.mCacheBlocks cacheBlock1
          if (t.mHeight : Int) - glyphH ≥ glyphH then
            let newBlock : CacheBlock :=
              { addr := t.nextAddr, mX := oldX,
                mY := toU16 ((glyphH : Int) + TEXTURE_BORDER_SIZE),
                mWidth := roundedUpW,
                mHeight := toU16 ((t.mHeight : Int) - glyphH - TEXTURE_BORDER_SIZE) }
            (CacheBlock.insertBlock TEXTURE_BORDER_SIZE blocks1 newBlock, cacheBlock1,
              t.nextAddr + 1)
          else (blocks1, cacheBlock1, t.nextAddr)
        else
          let cacheBlock1 :=
            { cacheBlock with
              mY := toU16 ((cacheBlock.mY : Int) + glyphH)
              mHeight := toU16 ((cacheBlock.mHeight : Int) - glyphH) }
          (setBlock t.mCacheBlocks cacheBlock1, cacheBlock1, t.nextAddr)
      let blocks2 :=
        if placed.2.1.mHeight < min glyphH glyphW then
          CacheBlock.removeBlock placed.1 placed.2.1.addr
        else placed.1
      let r : Rect :=
        ⟨(toU32 ((retOriginX : Int) - TEXTURE_BORDER_SIZE) : ℚ),
          (toU32 ((retOriginY : Int) - TEXTURE_BORDER_SIZE) : ℚ),
          (toU32 ((retOriginX : Int) + glyphW) : ℚ), (toU32 ((retOriginY : Int) + glyphH) : ℚ)⟩
      (some (retOriginX, retOriginY),
        { t with
          mCacheBlocks := blocks2
          mDirty := true
          mDirtyRect := t.mDirtyRect.unionWith r
          mNumGlyphs := t.mNumGlyphs + 1
          nextAddr := placed.2.2 })

end CacheTexture

namespace CacheBlock

/-- The order of the block list as the comment above `insertBlock` describes it: every
block but the last is not the remainder space (so there is at most one remainder block, and
it is last), and the blocks other than the remainder space are in non-decreasing width. -/
def SortedBlocks (TEXTURE_BORDER_SIZE : Nat) (bs : List CacheBlock) : Prop :=
  (∀ b ∈ bs.dropLast, b.mY ≠ TEXTURE_BORDER_SIZE) ∧
    (bs.filter fun b => b.mY != TEXTURE_BORDER_SIZE).Pairwise fun a b => a.mWidth ≤ b.mWidth

instance (B : Nat) (bs : List CacheBlock) : Decidable (SortedBlocks B bs) := by
  unfold SortedBlocks; infer_instance

/-- The whole list, the remainder block included, is in non-decreasing width. -/
def WidthSorted (bs : List CacheBlock) : Prop :=
  bs.Pairwise fun a b => a.mWidth ≤ b.mWidth

instance (bs : List CacheBlock) : Decidable (WidthSorted bs) := by
  unfold WidthSorted; infer_instance

end CacheBlock

/-- A remainder block of width 5 at the border 1. -/
def sampleRemainder : CacheBlock := ⟨100, 1, 1, 5, 31⟩

/-- A column of width 10 below a glyph of height 11. -/
def sampleColumn : CacheBlock := ⟨101, 1, 12, 10, 20⟩

/-- A narrow column of width 4. -/
def sampleNarrowColumn : CacheBlock := ⟨102, 11, 12, 4, 20⟩

/-- A wide column of width 16. -/
def sampleWideColumn : CacheBlock := ⟨103, 15, 12, 16, 20⟩

namespace CacheTexture

/-- The test of the `if` in the search loop of `fitBitmap`, for the glyph: the rounded
width and the padded height fit the block, and the block is the remainder space or its
width is within `CACHE_BLOCK_ROUNDING_SIZE` of the rounded width. -/
def Qualifies (TEXTURE_BORDER_SIZE CACHE_BLOCK_ROUNDING_SIZE : Nat) (glyph : SkGlyph)
    (b : CacheBlock) : Prop :=
  roundedUpW TEXTURE_BORDER_SIZE CACHE_BLOCK_ROUNDING_SIZE glyph ≤ b.mWidth ∧
    glyphH TEXTURE_BORDER_SIZE glyph ≤ b.mHeight ∧
    (b.mY = TEXTURE_BORDER_SIZE ∨
      b.mWidth - roundedUpW TEXTURE_BORDER_SIZE CACHE_BLOCK_ROUNDING_SIZE glyph <
        CACHE_BLOCK_ROUNDING_SIZE)

instance (B R : Nat) (glyph : SkGlyph) (b : CacheBlock) : Decidable (Qualifies B R glyph b) := by
  unfold Qualifies; infer_instance

/-- The condition with the three alternatives of the comment above the test: the glyph
fits the block, and the block is the remainder space, or has only enough height for this
one glyph, or its width is within `CACHE_BLOCK_ROUNDING_SIZE` of the rounded width. -/
def QualifiesAsCommented (TEXTURE_BORDER_SIZE CACHE_BLOCK_ROUNDING_SIZE : Nat) (glyph : SkGlyph)
    (b : CacheBlock) : Prop :=
  roundedUpW TEXTURE_BORDER_SIZE CACHE_BLOCK_ROUNDING_SIZE glyph ≤ b.mWidth ∧
    glyphH TEXTURE_BORDER_SIZE glyph ≤ b.mHeight ∧
    (b.mY = TEXTURE_BORDER_SIZE ∨
      b.mHeight - glyphH TEXTURE_BORDER_SIZE glyph < glyphH TEXTURE_BORDER_SIZE glyph ∨
      b.mWidth - roundedUpW TEXTURE_BORDER_SIZE CACHE_BLOCK_ROUNDING_SIZE glyph <
        CACHE_BLOCK_ROUNDING_SIZE)

instance (B R : Nat) (glyph : SkGlyph) (b : CacheBlock) :
    Decidable (QualifiesAsCommented B R glyph b) := by
  unfold QualifiesAsCommented; infer_instance

end CacheTexture

/-- A texture of 32 by 32 texels for monochromatic glyphs, after `init` with the border 1. -/
def sampleTexture : CacheTexture :=
  CacheTexture.init 1 ⟨32, 32, GL_ALPHA, [], false, ⟨0, 0, 0, 0⟩, 0, 0, 100⟩

/-- A glyph 15 wide and 9 high. -/
def sampleWideGlyph : SkGlyph := ⟨MaskFormat.kA8_Format, 15, 9⟩

/-- A glyph 3 wide and 14 high. -/
def sampleTallGlyph : SkGlyph := ⟨MaskFormat.kA8_Format, 3, 14⟩

/-- The sample texture after the wide glyph was cached with the border 1 and the rounding
size 4. -/
def sampleFilled : CacheTexture :=
  (CacheTexture.fitBitmap 1 4 sampleTexture sampleWideGlyph).2

/-- A glyph 65533 wide and 9 high: with the border 1 its padded width 65534 still fits 16
bits, the next multiple of 4 does not. -/
def sampleHugeGlyph : SkGlyph := ⟨MaskFormat.kA8_Format, 65533, 9⟩

/-- The rectangle of texels `[x, x + w) x [y, y + h)` a cached glyph takes in the texture:
the origin `fitBitmap` returned, and the size of the glyph plus the border. -/
structure Placement where
  x : Nat
  y : Nat
  w : Nat
  h : Nat
deriving DecidableEq, Repr

namespace Placement

/-- The texel `(i, j)` lies in the rectangle. -/
def covers (p : Placement) (i j : Nat) : Prop :=
  p.x ≤ i ∧ i < p.x + p.w ∧ p.y ≤ j ∧ j < p.y + p.h

instance (p : Placement) (i j : Nat) : Decidable (p.covers i j) := by
  unfold covers; infer_instance

/-- The rectangle lies inside the texture of width `W` and height `H`, off the border. -/
def Inside (B W H : Nat) (p : Placement) : Prop :=
  B ≤ p.x ∧ B ≤ p.y ∧ p.x + p.w ≤ W ∧ p.y + p.h ≤ H

instance (B W H : Nat) (p : Placement) : Decidable (p.Inside B W H) := by
  unfold Inside; infer_instance

/-- Two rectangles are apart: one ends before the other begins, in `x` or in `y`. -/
def Apart (p q : Placement) : Prop :=
  p.x + p.w ≤ q.x ∨ q.x + q.w ≤ p.x ∨ p.y + p.h ≤ q.y ∨ q.y + q.h ≤ p.y

instance (p q : Placement) : Decidable (p.Apart q) := by
  unfold Apart; infer_instance

end Placement

namespace CacheTexture

/-- A sequence of `fitBitmap` calls: the rectangles of the calls that returned true, in call
order, and the texture afterwards. -/
def fitAll (TEXTURE_BORDER_SIZE CACHE_BLOCK_ROUNDING_SIZE : Nat) :
    CacheTexture → List SkGlyph → List Placement × CacheTexture
  | t, [] => ([], t)
  | t, glyph :: rest =>
    match (t.fitBitmap TEXTURE_BORDER_SIZE CACHE_BLOCK_ROUNDING_SIZE glyph).1 with
    | some origin =>
      let r := fitAll TEXTURE_BORDER_SIZE CACHE_BLOCK_ROUNDING_SIZE
        (t.fitBitmap TEXTURE_BORDER_SIZE CACHE_BLOCK_ROUNDING_SIZE glyph).2 rest
      (⟨origin.1, origin.2, glyph.fWidth + TEXTURE_BORDER_SIZE,
          glyph.fHeight + TEXTURE_BORDER_SIZE⟩ :: r.1, r.2)
    | none =>
      fitAll TEXTURE_BORDER_SIZE CACHE_BLOCK_ROUNDING_SIZE
        (t.fitBitmap TEXTURE_BORDER_SIZE CACHE_BLOCK_ROUNDING_SIZE glyph).2 rest

/-- The invariant of the glyph cache, for the texture of width `W` and height `H`, the
block list `L` and the rectangles `P` taken so far: every block lies inside the texture,
off the border, and reaches down to the bottom edge; blocks at different addresses take
different columns; every rectangle taken is apart from every block and lies inside the
texture; the rectangles taken are pairwise apart. -/
structure BlocksOK (B W H : Nat) (L : List CacheBlock) (P : List Placement) : Prop where
  inside : ∀ b ∈ L, B ≤ b.mX ∧ b.mX + b.mWidth ≤ W ∧ B ≤ b.mY ∧ b.mY + b.mHeight = H
  apart : ∀ a ∈ L, ∀ b ∈ L, a.addr ≠ b.addr →
    a.mX + a.mWidth ≤ b.mX ∨ b.mX + b.mWidth ≤ a.mX
  free : ∀ p ∈ P, ∀ b ∈ L,
    p.x + p.w ≤ b.mX ∨ b.mX + b.mWidth ≤ p.x ∨ p.y + p.h ≤ b.mY
  placed : ∀ p ∈ P, p.Inside B W H
  disjoint : P.Pairwise Placement.Apart

end CacheTexture

/-! ## Part II: lemmas and theorems -/

/-! ### The alpha margin in single precision -/

theorem floatExp_spec (n d : Nat) :
    ∀ (fuel k0 : Nat), k0 ≤ floatExp n d fuel k0 ∧ floatExp n d fuel k0 ≤ k0 + fuel ∧
      (floatExp n d fuel k0 < k0 + fuel → n < 2 ^ (floatExp n d fuel k0 + 24) * d) ∧
      ∀ j, k0 ≤ j → j < floatExp n d fuel k0 → 2 ^ (j + 24) * d ≤ n := by
  intro fuel
  induction fuel with
  | zero =>
    intro k0
    simp only [floatExp]
    exact ⟨Nat.le_refl _, Nat.le_refl _, fun h => absurd h (Nat.lt_irrefl _),
      fun j h1 h2 => by omega⟩
  | succ fuel ih =>
    intro k0
    simp only [floatExp]
    split_ifs with h
    · exact ⟨Nat.le_refl _, by omega, fun _ => h, fun j h1 h2 => by omega⟩
    · obtain ⟨i1, i2, i3, i4⟩ := ih (k0 + 1)
      refine ⟨by omega, by omega, fun h5 => i3 (by omega), ?_⟩
      intro j h1 h2
      rcases Nat.eq_or_lt_of_le h1 with e | h6
      · subst e
        exact Nat.le_of_not_lt h
      · exact i4 j h6 h2

theorem roundHalfEven_bounds (n d : Nat) :
    n / d ≤ roundHalfEven n d ∧ roundHalfEven n d ≤ n / d + 1 := by
  unfold roundHalfEven
  split_ifs <;> omega

/-- Rounding to nearest even passes an odd integer `m` exactly from half way on. -/
theorem roundHalfEven_gt_odd (n d m : Nat) (hd : 0 < d) (hm : m % 2 = 1) :
    m < roundHalfEven n d ↔ (2 * m + 1) * d ≤ 2 * n := by
  have h1 := Nat.div_add_mod n d
  have h2 := Nat.mod_lt n hd
  have hq : ∀ c, c ≤ n / d → c * d ≤ d * (n / d) := fun c hc => by
    rw [Nat.mul_comm d]; exact Nat.mul_le_mul_right d hc
  have hq2 : ∀ c, n / d ≤ c → d * (n / d) ≤ c * d := fun c hc => by
    rw [Nat.mul_comm d]; exact Nat.mul_le_mul_right d hc
  have e1 : (2 * m + 1) * d = 2 * (m * d) + d := by ring
  have e2 : (m + 1) * d = m * d + d := by ring
  rw [e1]
  unfold roundHalfEven
  split_ifs with h3 h4
  · constructor
    · intro h
      have := hq (m + 1) h
      omega
    · intro h
      by_contra hc
      have := hq2 m (by omega)
      omega
  · constructor
    · intro h
      have := hq m (by omega)
      omega
    · intro h
      by_contra hc
      rcases Nat.lt_or_ge (n / d) m with h5 | h5
      · have := hq2 (m - 1) (by omega)
        have e3 : (m - 1) * d + d = m * d := by
          rw [← Nat.succ_mul]; congr 1; omega
        omega
      · omega
  · constructor
    · intro h
      rcases Nat.lt_or_ge (n / d) m with h5 | h5
      · omega
      · have := hq m h5
        omega
    · intro h
      by_contra hc
      have h6 : n / d ≤ m := by omega
      rcases Nat.eq_or_lt_of_le h6 with e | h5
      · omega
      · have := hq2 (m - 1) (by omega)
        have e3 : (m - 1) * d + d = m * d := by
          rw [← Nat.succ_mul]; congr 1; omega
        omega

/-- In units of `2 ^ (-149)`: the rounded value exceeds `0.001f`, which is
`8589935 * 2 ^ 116` units, exactly when the exact value is at least half a unit in the last
place above it. -/
theorem floatUnits_gt (N D : Nat) (hD : 0 < D) :
    8589935 * 2 ^ 116 <
        roundHalfEven N (D * 2 ^ floatExp N D 254 0) * 2 ^ floatExp N D 254 0 ↔
      17179871 * 2 ^ 115 * D ≤ N := by
  obtain ⟨_, hk1, hk2, hk3⟩ := floatExp_spec N D 254 0
  obtain ⟨k, hk⟩ : ∃ k, k = floatExp N D 254 0 := ⟨_, rfl⟩
  rw [← hk] at hk1 hk2 hk3 ⊢
  have hP : 0 < 2 ^ k := Nat.pow_pos (by decide)
  have hb := roundHalfEven_bounds N (D * 2 ^ k)
  rcases Nat.lt_or_ge N (2 ^ 139 * D) with hA | hA
  · -- below the binade of the margin
    have hk115 : k ≤ 115 := by
      by_contra hc
      have := hk3 115 (Nat.zero_le _) (by omega)
      omega
    have hlt : N < 2 ^ (k + 24) * D := hk2 (by omega)
    have hq : N / (D * 2 ^ k) < 2 ^ 24 := by
      rw [Nat.div_lt_iff_lt_mul (Nat.mul_pos hD hP)]
      calc N < 2 ^ (k + 24) * D := hlt
        _ = 2 ^ 24 * (D * 2 ^ k) := by rw [Nat.pow_add]; ring
    have hu : roundHalfEven N (D * 2 ^ k) * 2 ^ k ≤ 2 ^ 139 := by
      calc roundHalfEven N (D * 2 ^ k) * 2 ^ k ≤ 2 ^ 24 * 2 ^ k :=
            Nat.mul_le_mul_right _ (by omega)
        _ = 2 ^ (24 + k) := (Nat.pow_add 2 24 k).symm
        _ ≤ 2 ^ 139 := Nat.pow_le_pow_right (by decide) (by omega)
    norm_num at hA hu ⊢
    omega
  · rcases Nat.lt_or_ge N (2 ^ 140 * D) with hB | hB
    · -- in the binade of the margin
      have hk116 : k = 116 := by
        rcases Nat.lt_trichotomy k 116 with h | h | h
        · have hlt : N < 2 ^ (k + 24) * D := hk2 (by omega)
          have : 2 ^ (k + 24) ≤ 2 ^ 139 := Nat.pow_le_pow_right (by decide) (by omega)
          have := Nat.mul_le_mul_right D this
          omega
        · exact h
        · have := hk3 116 (Nat.zero_le _) h
          omega
      subst hk116
      have hodd := roundHalfEven_gt_odd N (D * 2 ^ 116) 8589935
        (Nat.mul_pos hD (Nat.pow_pos (by decide))) (by decide)
      have e : 8589935 * 2 ^ 116 < roundHalfEven N (D * 2 ^ 116) * 2 ^ 116 ↔
          8589935 < roundHalfEven N (D * 2 ^ 116) :=
        Nat.mul_lt_mul_right (Nat.pow_pos (by decide))
      rw [e, hodd]
      norm_num
      omega
    · -- above the binade of the margin
      have hk117 : 117 ≤ k := by
        by_contra hc
        have hlt : N < 2 ^ (k + 24) * D := hk2 (by omega)
        have : 2 ^ (k + 24) ≤ 2 ^ 140 := Nat.pow_le_pow_right (by decide) (by omega)
        have := Nat.mul_le_mul_right D this
        omega
      have hge := hk3 (k - 1) (Nat.zero_le _) (by omega)
      have hq : 2 ^ 23 ≤ N / (D * 2 ^ k) := by
        rw [Nat.le_div_iff_mul_le (Nat.mul_pos hD hP)]
        calc 2 ^ 23 * (D * 2 ^ k) = 2 ^ (k - 1 + 24) * D := by
              rw [show k - 1 + 24 = 23 + k by omega, Nat.pow_add]; ring
          _ ≤ N := hge
      have hu : 2 ^ 140 ≤ roundHalfEven N (D * 2 ^ k) * 2 ^ k := by
        calc 2 ^ 140 = 2 ^ 23 * 2 ^ 117 := by norm_num
          _ ≤ 2 ^ 23 * 2 ^ k :=
            Nat.mul_le_mul_left _ (Nat.pow_le_pow_right (by decide) hk117)
          _ ≤ roundHalfEven N (D * 2 ^ k) * 2 ^ k := Nat.mul_le_mul_right _ (by omega)
      norm_num at hB hu ⊢
      constructor
      · intro _; omega
      · intro _; omega

set_option maxRecDepth 100000 in
theorem toFloat_margin :
    toFloat (1 / 1000) = ((8589935 * 2 ^ 116 : ℕ) : ℚ) / 2 ^ 149 :=
  le_antisymm (by with_unfolding_all decide) (by with_unfolding_all decide)

theorem abs_toFloat (x : ℚ) :
    |toFloat x| =
      ((roundHalfEven (x.num.natAbs * 2 ^ 149)
          (x.den * 2 ^ floatExp (x.num.natAbs * 2 ^ 149) x.den 254 0) *
        2 ^ floatExp (x.num.natAbs * 2 ^ 149) x.den 254 0 : ℕ) : ℚ) / 2 ^ 149 := by
  unfold toFloat
  dsimp only
  rw [abs_div, abs_of_pos (show (0 : ℚ) < 2 ^ 149 by positivity)]
  congr 1
  split_ifs
  · rw [abs_neg, Nat.abs_cast]
  · rw [Nat.abs_cast]

theorem abs_eq_natAbs_div (x : ℚ) : |x| = (x.num.natAbs : ℚ) / x.den := by
  have h := Rat.num_div_den x
  calc |x| = |(x.num : ℚ) / (x.den : ℚ)| := by rw [h]
    _ = (x.num.natAbs : ℚ) / x.den := by
      rw [abs_div, Nat.abs_cast, Nat.cast_natAbs, Int.cast_abs]

/-- The margin test on an exact difference: its `float` value exceeds `0.001f` exactly
when the difference is at least `0.001f` plus half a unit in its last place, which is
17179871 / 2 ^ 34. -/
theorem abs_toFloat_gt (x : ℚ) :
    toFloat (1 / 1000) < |toFloat x| ↔ 17179871 / 17179869184 ≤ |x| := by
  have hden : (0 : ℚ) < x.den := by exact_mod_cast x.den_pos
  rw [toFloat_margin, abs_toFloat, abs_eq_natAbs_div,
    div_lt_div_iff_of_pos_right (show (0 : ℚ) < 2 ^ 149 by positivity), Nat.cast_lt,
    floatUnits_gt _ _ x.den_pos, div_le_div_iff₀ (by norm_num) hden]
  constructor
  · intro h
    have h1 : ((17179871 * 2 ^ 115 * x.den : ℕ) : ℚ) ≤ ((x.num.natAbs * 2 ^ 149 : ℕ) : ℚ) := by
      exact_mod_cast h
    push_cast at h1
    linarith
  · intro h
    have h1 : ((17179871 * 2 ^ 115 * x.den : ℕ) : ℚ) ≤ ((x.num.natAbs * 2 ^ 149 : ℕ) : ℚ) := by
      push_cast
      linarith
    exact_mod_cast h1

/-- The alpha test of the source in exact terms: the two alphas, as `float` values, differ
by at least `0.001f` plus half a unit in its last place. -/
theorem NEQ_FALPHA_iff (x y : ℚ) :
    NEQ_FALPHA x y = true ↔ 17179871 / 17179869184 ≤ |toFloat x - toFloat y| := by
  unfold NEQ_FALPHA
  rw [decide_eq_true_iff, gt_iff_lt, abs_toFloat_gt]

theorem NEQ_FALPHA_eq_false (x y : ℚ) :
    NEQ_FALPHA x y = false ↔ |toFloat x - toFloat y| < 17179871 / 17179869184 := by
  rw [← not_le, ← NEQ_FALPHA_iff, Bool.not_eq_true]

theorem NEQ_FALPHA_self (x : ℚ) : NEQ_FALPHA x x = false := by
  rw [NEQ_FALPHA_eq_false, sub_self, abs_zero]
  norm_num

set_option maxRecDepth 100000 in
/-- The difference is rounded before it is compared: the `float` values 11000000 / 2 ^ 33
and 9640259 / 2 ^ 35 differ by `0.001f` plus a quarter of a unit in its last place, which
is more than `0.001f`; their difference in `float` is `0.001f`, and the test finds them
equal. -/
theorem NEQ_FALPHA_rounds :
    NEQ_FALPHA (11000000 / 8589934592) (9640259 / 34359738368) = false ∧
      (8589935 / 8589934592 : ℚ) < |11000000 / 8589934592 - 9640259 / 34359738368| := by
  refine ⟨by with_unfolding_all decide, ?_⟩
  norm_num [abs_of_pos]

/-! ### The pairwise mergeability test -/

/-- C8. Paint clause of `canMergeWith`: when the overlap, alpha and clip-side checks pass
on a batch with a first member, the answer is true if the paint is the paint of the first
member; if the paints differ the answer is true exactly when paint alpha, shader,
color filter, draw-filter flag and both draw-filter bit masks equal those of the first
member.  Replacing the has-shadow and override-layer-alpha modifiers of the operation and
of the first member does not change the answer as long as the three checks still pass. -/
theorem canMergeWith_paint_clause (b : MergingDrawBatch) (first : OpStatePair)
    (rest : List OpStatePair) (op : DrawOp) (state : DeferredDisplayState)
    (hops : b.mOps = first :: rest)
    (hoverlap : b.overlapAllowed state = true)
    (halpha : NEQ_FALPHA state.mAlpha first.state.mAlpha = false)
    (hclip : b.clipSidesCompatible state = true) :
    (op.mPaint = first.op.mPaint → b.canMergeWith op state = true) ∧
    (op.mPaint ≠ first.op.mPaint →
      (b.canMergeWith op state = true ↔ samePaintAttributes op state first)) ∧
    (∀ (sh1 sh2 : Bool) (la1 la2 : ℚ) (b2 : MergingDrawBatch),
      b2.mOps = { first with state := withShadowAndLayerAlpha first.state sh2 la2 } :: rest →
      b2.overlapAllowed (withShadowAndLayerAlpha state sh1 la1) = true →
      b2.clipSidesCompatible (withShadowAndLayerAlpha state sh1 la1) = true →
      b2.canMergeWith op (withShadowAndLayerAlpha state sh1 la1) = b.canMergeWith op state) := by
  refine ⟨?_, ?_, ?_⟩
  · intro hp
    simp [MergingDrawBatch.canMergeWith, hops, hoverlap, halpha, hclip, hp]
  · intro hp
    simp only [MergingDrawBatch.canMergeWith, hops, hoverlap, halpha, hclip, samePaintAttributes]
    simp [hp]
  · intro sh1 sh2 la1 la2 b2 hops2 hov2 hclip2
    have halpha2 : NEQ_FALPHA (withShadowAndLayerAlpha state sh1 la1).mAlpha
        (withShadowAndLayerAlpha first.state sh2 la2).mAlpha = false := by
      simpa [withShadowAndLayerAlpha] using halpha
    simp only [MergingDrawBatch.canMergeWith, hops, hops2, hoverlap, hov2, halpha, halpha2,
      hclip, hclip2]
    simp [withShadowAndLayerAlpha]

set_option maxRecDepth 100000 in
/-- C8, at a concrete input: a batch whose first member has paint 1 and shader 3, and an
operation with paint 2 and the same attributes. -/
theorem canMergeWith_paint_clause_witness :
    MergingDrawBatch.canMergeWith
        { mOps := [⟨⟨1, 1, 255, none, ⟨1, 1, true, false⟩⟩, createState⟩],
          mBounds := ⟨0, 0, 1, 1⟩, mAllOpsOpaque := false, mBatchId := 1, mMergeId := 1,
          mClipRect := ⟨0, 0, 9, 9⟩, mClipSideFlags := 0 }
        ⟨2, 2, 255, none, ⟨1, 1, true, false⟩⟩
        { createState with mBounds := ⟨1, 0, 2, 1⟩ } = true ↔
      samePaintAttributes ⟨2, 2, 255, none, ⟨1, 1, true, false⟩⟩
        { createState with mBounds := ⟨1, 0, 2, 1⟩ }
        ⟨⟨1, 1, 255, none, ⟨1, 1, true, false⟩⟩, createState⟩ :=
  (canMergeWith_paint_clause
    { mOps := [⟨⟨1, 1, 255, none, ⟨1, 1, true, false⟩⟩, createState⟩],
      mBounds := ⟨0, 0, 1, 1⟩, mAllOpsOpaque := false, mBatchId := 1, mMergeId := 1,
      mClipRect := ⟨0, 0, 9, 9⟩, mClipSideFlags := 0 }
    ⟨⟨1, 1, 255, none, ⟨1, 1, true, false⟩⟩, createState⟩ []
    ⟨2, 2, 255, none, ⟨1, 1, true, false⟩⟩
    { createState with mBounds := ⟨1, 0, 2, 1⟩ } rfl
    (by with_unfolding_all decide) (by with_unfolding_all decide)
    (by with_unfolding_all decide)).2.1 (by decide)

theorem checkSide_eq_false (cur new side : Nat) (delta : ℚ) :
    MergingDrawBatch.checkSide cur new side delta = false ↔
      (clipConstrained cur side = true ∧ 0 < delta) ∨
      (clipConstrained new side = true ∧ delta < 0) := by
  unfold MergingDrawBatch.checkSide clipConstrained
  by_cases h1 : 0 < delta <;> by_cases h2 : delta < 0 <;>
    by_cases h3 : (cur &&& side) = 0 <;> by_cases h4 : (new &&& side) = 0 <;>
    simp [h1, h2, h3, h4]

theorem clipConstrained_zero (side : Nat) : clipConstrained 0 side = false := by
  simp [clipConstrained]

theorem sideChain_eq_false (cL cT cR cB : Bool) :
    (if (!cL) = true then false else if (!cT) = true then false
      else if (!cR) = true then false else if (!cB) = true then false else true) = false ↔
      (cL = false ∨ cT = false ∨ cR = false ∨ cB = false) := by
  cases cL <;> cases cT <;> cases cR <;> cases cB <;> simp

/-- C9. Clip-side compatibility in `canMergeWith`: the clip check rejects exactly when on
some side the batch is clip-constrained and the bound of the operation lies strictly
outside the bounds of the batch, or the operation is clip-constrained and the bounds of
the batch lie strictly outside the bound of the operation; when neither carries a
clip-side flag the check rejects nothing; and an operation the check rejects is not
merged. -/
theorem clip_side_compatibility (b : MergingDrawBatch) (state : DeferredDisplayState) :
    (b.clipSidesCompatible state = false ↔ sideConflict b state) ∧
    (b.mClipSideFlags = kClipSide_None ∧ state.mClipSideFlags = kClipSide_None →
      b.clipSidesCompatible state = true) ∧
    (∀ op, b.clipSidesCompatible state = false → b.canMergeWith op state = false) := by
  refine ⟨?_, ?_, ?_⟩
  · unfold MergingDrawBatch.clipSidesCompatible sideConflict
    by_cases hflags :
        (b.mClipSideFlags != kClipSide_None || state.mClipSideFlags != kClipSide_None) = true
    · simp only [hflags, if_true]
      rw [sideChain_eq_false, checkSide_eq_false, checkSide_eq_false, checkSide_eq_false,
        checkSide_eq_false]
      simp only [sub_pos, sub_neg, or_assoc]
    · have h0 : b.mClipSideFlags = 0 ∧ state.mClipSideFlags = 0 := by
        simpa [kClipSide_None] using hflags
      simp [h0.1, h0.2, clipConstrained_zero, kClipSide_None]
  · rintro ⟨h1, h2⟩
    simp [MergingDrawBatch.clipSidesCompatible, h1, h2]
  · intro op h
    unfold MergingDrawBatch.canMergeWith
    split
    · rfl
    · split
      · rfl
      · simp [h]

/-! ### Rectangles -/

theorem Rect.isEmpty_eq_false (r : Rect) :
    r.isEmpty = false ↔ r.left < r.right ∧ r.top < r.bottom := by
  simp [Rect.isEmpty]

theorem Rect.intersects_iff (a b : Rect) :
    a.intersects b = true ↔
      (a.left < a.right ∧ a.left < b.right ∧ b.left < a.right ∧ b.left < b.right) ∧
      (a.top < a.bottom ∧ a.top < b.bottom ∧ b.top < a.bottom ∧ b.top < b.bottom) := by
  simp only [Rect.intersects, Rect.isEmpty, Bool.not_not, Bool.and_eq_true, decide_eq_true_eq,
    max_lt_iff, lt_min_iff]
  tauto

theorem Rect.intersects_comm (a b : Rect) : a.intersects b = b.intersects a := by
  rw [Bool.eq_iff_iff, Rect.intersects_iff, Rect.intersects_iff]
  tauto

theorem Rect.intersects_nonempty (a b : Rect) (h : a.intersects b = true) :
    a.isEmpty = false ∧ b.isEmpty = false := by
  rw [Rect.intersects_iff] at h
  rw [Rect.isEmpty_eq_false, Rect.isEmpty_eq_false]
  tauto

theorem Rect.intersects_of_isEmpty (a b : Rect) (h : a.isEmpty = true) :
    a.intersects b = false := by
  cases hi : a.intersects b
  · rfl
  · have := (Rect.intersects_nonempty a b hi).1
    rw [h] at this
    cases this

theorem Rect.intersects_unionWith_left (r a x : Rect) (h : r.intersects a = true) :
    r.intersects (a.unionWith x) = true := by
  rw [Rect.intersects_iff] at h
  obtain ⟨⟨h1, h2, h3, h4⟩, h5, h6, h7, h8⟩ := h
  unfold Rect.unionWith
  split
  · rename_i hx
    rw [if_pos ⟨h4, h8⟩, Rect.intersects_iff]
    dsimp only
    refine ⟨⟨h1, ?_, ?_, ?_⟩, h5, ?_, ?_, ?_⟩ <;> split_ifs <;> linarith [hx.1, hx.2]
  · rw [Rect.intersects_iff]
    exact ⟨⟨h1, h2, h3, h4⟩, h5, h6, h7, h8⟩

theorem Rect.intersects_unionWith_right (r a x : Rect) (h : r.intersects x = true) :
    r.intersects (a.unionWith x) = true := by
  have hx := h
  rw [Rect.intersects_iff] at h
  obtain ⟨⟨h1, h2, h3, h4⟩, h5, h6, h7, h8⟩ := h
  unfold Rect.unionWith
  rw [if_pos ⟨h4, h8⟩]
  split
  · rename_i ha
    rw [Rect.intersects_iff]
    dsimp only
    refine ⟨⟨h1, ?_, ?_, ?_⟩, h5, ?_, ?_, ?_⟩ <;> split_ifs <;> linarith [ha.1, ha.2]
  · exact hx

/-! ### Draw batches -/

theorem DrawBatch.covers_new (info : DeferInfo) : (DrawBatch.new info).Covers := by
  intro e he
  simp [DrawBatch.new] at he

theorem DrawBatch.covers_add (b : DrawBatch) (op : DrawOp) (state : DeferredDisplayState)
    (o : Bool) (h : b.Covers) : (b.add op state o).Covers := by
  intro e he r hr
  simp only [DrawBatch.add, List.mem_append, List.mem_singleton] at he
  rcases he with he | he
  · exact Rect.intersects_unionWith_left r _ _ (h e he r hr)
  · subst he
    exact Rect.intersects_unionWith_right r _ _ hr

theorem DrawBatch.intersects_eq_false (b : DrawBatch) (rect : Rect) (h : b.Covers) :
    b.intersects rect = false ↔ ∀ e ∈ b.mOps, rect.intersects e.state.mBounds = false := by
  unfold DrawBatch.intersects
  constructor
  · intro hi e he
    cases hr : rect.intersects e.state.mBounds
    · rfl
    · have hb := h e he rect hr
      simp only [hb, Bool.not_true, Bool.false_eq_true, if_false, List.any_eq_false] at hi
      exact absurd hr (hi e he)
  · intro hall
    split
    · rfl
    · simp only [List.any_eq_false]
      intro e he
      simp [hall e he]


/-! ### Lists of slots -/

theorem length_insertAt (bs : List (Option Batch)) (k : Nat) (x : Option Batch) :
    (insertAt bs k x).length = bs.length + 1 := by
  simp only [insertAt, List.length_append, List.length_cons, List.length_take, List.length_drop]
  omega

theorem getElem?_insertAt (bs : List (Option Batch)) (k : Nat) (x : Option Batch)
    (hk : k ≤ bs.length) (i : Nat) :
    (insertAt bs k x)[i]? = if i < k then bs[i]? else if i = k then some x else bs[i - 1]? := by
  unfold insertAt
  have hlen : (bs.take k).length = k := by simp [hk]
  by_cases h1 : i < k
  · rw [if_pos h1, List.getElem?_append_left (by omega), List.getElem?_take_of_lt h1]
  · rw [if_neg h1, List.getElem?_append_right (by omega), hlen]
    by_cases h2 : i = k
    · simp [h2]
    · rw [if_neg h2]
      obtain ⟨d, hd⟩ : ∃ d, i - k = d + 1 := ⟨i - k - 1, by omega⟩
      rw [hd, List.getElem?_cons_succ, List.getElem?_drop]
      congr 1
      omega

theorem entries_append (xs ys : List (Option Batch)) :
    entries (xs ++ ys) = entries xs ++ entries ys := by
  induction xs with
  | nil => rfl
  | cons s rest ih => simp [entries, ih]

theorem entries_take_drop (bs : List (Option Batch)) (k : Nat) :
    entries bs = entries (bs.take k) ++ entries (bs.drop k) := by
  rw [← entries_append, List.take_append_drop]

theorem entries_insertAt (bs : List (Option Batch)) (k : Nat) (x : Option Batch) :
    entries (insertAt bs k x) = entries (bs.take k) ++ (slotOps x ++ entries (bs.drop k)) := by
  simp [insertAt, entries_append, entries]

theorem mem_entries (bs : List (Option Batch)) (e : OpStatePair) :
    e ∈ entries bs ↔ ∃ s ∈ bs, e ∈ slotOps s := by
  induction bs with
  | nil => simp [entries]
  | cons s rest ih => simp [entries, ih]

theorem mem_addrs (bs : List (Option Batch)) (a : Nat) :
    a ∈ addrs bs ↔ ∃ s ∈ bs, slotAddr s = some a := by
  simp [addrs, List.mem_filterMap]

theorem addrs_append (xs ys : List (Option Batch)) : addrs (xs ++ ys) = addrs xs ++ addrs ys := by
  simp [addrs, List.filterMap_append]

theorem addrs_cons_some (s : Option Batch) (a : Nat) (rest : List (Option Batch))
    (h : slotAddr s = some a) : addrs (s :: rest) = a :: addrs rest := by
  simp [addrs, List.filterMap_cons, h]

theorem addrs_cons_none (s : Option Batch) (rest : List (Option Batch))
    (h : slotAddr s = none) : addrs (s :: rest) = addrs rest := by
  simp [addrs, List.filterMap_cons, h]

theorem mem_of_getElem? {α : Type} (xs : List α) (i : Nat) (x : α) (h : xs[i]? = some x) :
    x ∈ xs := by
  rw [List.mem_iff_getElem?]
  exact ⟨i, h⟩

/-- Two slots that hold the same address are the same slot. -/
theorem addr_unique (bs : List (Option Batch)) (hn : (addrs bs).Nodup) :
    ∀ (i j : Nat) (s1 s2 : Option Batch) (a : Nat), bs[i]? = some s1 → bs[j]? = some s2 →
      slotAddr s1 = some a → slotAddr s2 = some a → i = j := by
  induction bs with
  | nil => intro i j s1 s2 a h1; simp at h1
  | cons x rest ih =>
    intro i j s1 s2 a h1 h2 ha1 ha2
    have hnr : (addrs rest).Nodup := by
      cases hx : slotAddr x with
      | none => rw [addrs_cons_none x rest hx] at hn; exact hn
      | some b => rw [addrs_cons_some x b rest hx] at hn; exact (List.nodup_cons.mp hn).2
    cases i with
    | zero =>
      cases j with
      | zero => rfl
      | succ j =>
        exfalso
        simp only [List.getElem?_cons_zero, Option.some.injEq] at h1
        simp only [List.getElem?_cons_succ] at h2
        subst h1
        rw [addrs_cons_some x a rest ha1] at hn
        exact (List.nodup_cons.mp hn).1 ((mem_addrs rest a).2 ⟨s2, mem_of_getElem? _ _ _ h2, ha2⟩)
    | succ i =>
      cases j with
      | zero =>
        exfalso
        simp only [List.getElem?_cons_zero, Option.some.injEq] at h2
        simp only [List.getElem?_cons_succ] at h1
        subst h2
        rw [addrs_cons_some x a rest ha2] at hn
        exact (List.nodup_cons.mp hn).1 ((mem_addrs rest a).2 ⟨s1, mem_of_getElem? _ _ _ h1, ha1⟩)
      | succ j =>
        simp only [List.getElem?_cons_succ] at h1 h2
        rw [ih hnr i j s1 s2 a h1 h2 ha1 ha2]

theorem slotAddr_addAt (a : Nat) (op : DrawOp) (st : DeferredDisplayState) (o : Bool)
    (s : Option Batch) : slotAddr (addAt a op st o s) = slotAddr s := by
  cases s with
  | none => rfl
  | some b =>
    simp only [addAt]
    split
    · cases b <;> rfl
    · rfl

theorem addAt_of_ne (a : Nat) (op : DrawOp) (st : DeferredDisplayState) (o : Bool)
    (s : Option Batch) (h : slotAddr s ≠ some a) : addAt a op st o s = s := by
  cases s with
  | none => rfl
  | some b =>
    simp only [slotAddr] at h
    simp [addAt, h]

theorem addAt_of_eq (a : Nat) (op : DrawOp) (st : DeferredDisplayState) (o : Bool)
    (b : Batch) (h : b.addr? = some a) : addAt a op st o (some b) = some (b.add op st o) := by
  simp [addAt, h]

theorem map_addAt_of_fresh (a : Nat) (op : DrawOp) (st : DeferredDisplayState) (o : Bool)
    (bs : List (Option Batch)) (h : a ∉ addrs bs) : bs.map (addAt a op st o) = bs := by
  induction bs with
  | nil => rfl
  | cons s rest ih =>
    have hs : slotAddr s ≠ some a := by
      intro hs
      exact h ((mem_addrs _ a).2 ⟨s, List.mem_cons_self _ _, hs⟩)
    have hr : a ∉ addrs rest := by
      intro hr
      obtain ⟨s2, hs2, ha⟩ := (mem_addrs _ a).1 hr
      exact h ((mem_addrs _ a).2 ⟨s2, List.mem_cons_of_mem _ hs2, ha⟩)
    simp [addAt_of_ne a op st o s hs, ih hr]

theorem addrs_map_addAt (a : Nat) (op : DrawOp) (st : DeferredDisplayState) (o : Bool)
    (bs : List (Option Batch)) : addrs (bs.map (addAt a op st o)) = addrs bs := by
  induction bs with
  | nil => rfl
  | cons s rest ih =>
    simp only [List.map_cons]
    cases hs : slotAddr s with
    | none =>
      rw [addrs_cons_none _ _ (by rw [slotAddr_addAt]; exact hs), addrs_cons_none _ _ hs, ih]
    | some b =>
      rw [addrs_cons_some _ b _ (by rw [slotAddr_addAt]; exact hs), addrs_cons_some _ b _ hs, ih]

theorem split_at (bs : List (Option Batch)) (t : Nat) (s : Option Batch)
    (h : bs[t]? = some s) : bs = bs.take t ++ s :: bs.drop (t + 1) := by
  have ht : t < bs.length := by
    rcases Nat.lt_or_ge t bs.length with h1 | h1
    · exact h1
    · rw [List.getElem?_eq_none h1] at h
      cases h
  have hs : bs[t] = s := by
    rw [List.getElem?_eq_getElem ht] at h
    exact Option.some.inj h
  rw [← hs, ← List.drop_eq_getElem_cons ht, List.take_append_drop]

/-- Adding through an address changes the one slot that holds the address. -/
theorem map_addAt_eq (a : Nat) (op : DrawOp) (st : DeferredDisplayState) (o : Bool)
    (bs : List (Option Batch)) (hn : (addrs bs).Nodup) (t : Nat) (b : Batch)
    (ht : bs[t]? = some (some b)) (ha : b.addr? = some a) :
    bs.map (addAt a op st o) = bs.take t ++ some (b.add op st o) :: bs.drop (t + 1) := by
  have hsplit := split_at bs t (some b) ht
  have hn2 := hn
  rw [hsplit, addrs_append, addrs_cons_some (some b) a _ (by simpa [slotAddr] using ha)] at hn2
  have h1 : a ∉ addrs (bs.take t) := by
    intro hmem
    exact (List.nodup_append.mp hn2).2.2 hmem (List.mem_cons_self _ _)
  have h2 : a ∉ addrs (bs.drop (t + 1)) :=
    (List.nodup_cons.mp (List.nodup_append.mp hn2).2.1).1
  conv_lhs => rw [hsplit]
  rw [List.map_append, List.map_cons, map_addAt_of_fresh a op st o _ h1,
    map_addAt_of_fresh a op st o _ h2, addAt_of_eq a op st o b ha]

/-! ### The backward scan -/

theorem Batch.ok_asDraw (b : Batch) (h : b.OK) (d : DrawBatch) (hd : b.asDraw? = some d) :
    d.OK ∧ b.ops = d.mOps := by
  cases b with
  | draw a x =>
    simp only [Batch.asDraw?, Option.some.injEq] at hd
    subst hd
    exact ⟨h, rfl⟩
  | merging a x =>
    simp only [Batch.asDraw?, Option.some.injEq] at hd
    subst hd
    exact ⟨h.toDraw, rfl⟩
  | stateOp o s => cases hd
  | restoreToCount o s n => cases hd

theorem Batch.purelyDraw_cases (b : Batch) (h : b.purelyDrawBatch = true) :
    ∃ a d, b.addr? = some a ∧ b.asDraw? = some d := by
  cases b with
  | draw a x => exact ⟨a, x, rfl, rfl⟩
  | merging a x => exact ⟨a, x.toDrawBatch, rfl, rfl⟩
  | stateOp o s => cases h
  | restoreToCount o s n => cases h

theorem lt_length_of_getElem? {α : Type} (xs : List α) (i : Nat) (x : α)
    (h : xs[i]? = some x) : i < xs.length := by
  rcases Nat.lt_or_ge i xs.length with h1 | h1
  · exact h1
  · rw [List.getElem?_eq_none h1] at h
    cases h

/-- What the backward scan returns.  The target is kept or dropped; the insertion index
lies in the window; when the target is dropped no slot from the insertion index on
intersects the bounds; when the target is kept and lies in the scanned part of the
window, no slot after it intersects the bounds. -/
theorem scanBack_spec (bs : List (Option Batch)) (earliest batchId : Nat) (bounds : Rect)
    (hok : ∀ b, some b ∈ bs → b.OK) :
    ∀ (n : Nat) (target : Option Nat) (ins : Nat), n ≤ ins → ins ≤ bs.length →
      earliest ≤ ins →
      (∀ j s, n ≤ j → bs[j]? = some s → slotClear bounds s) →
      ((scanBack bs earliest batchId bounds n target ins).1 = none ∨
        (scanBack bs earliest batchId bounds n target ins).1 = target) ∧
      earliest ≤ (scanBack bs earliest batchId bounds n target ins).2 ∧
      (scanBack bs earliest batchId bounds n target ins).2 ≤ bs.length ∧
      ((scanBack bs earliest batchId bounds n target ins).1 = none →
        ∀ j s, (scanBack bs earliest batchId bounds n target ins).2 ≤ j → bs[j]? = some s →
          slotClear bounds s) ∧
      (∀ a, (scanBack bs earliest batchId bounds n target ins).1 = some a →
        (∃ t0 s0, earliest ≤ t0 ∧ t0 < n ∧ bs[t0]? = some s0 ∧ slotAddr s0 = some a) →
        (∀ i, earliest ≤ i → i < n → ∃ b, bs[i]? = some (some b) ∧ b.purelyDrawBatch = true) →
        ∃ t s, earliest ≤ t ∧ t < n ∧ bs[t]? = some s ∧ slotAddr s = some a ∧
          ∀ j s1, t < j → bs[j]? = some s1 → slotClear bounds s1) := by
  intro n
  induction n with
  | zero =>
    intro target ins h1 h2 h3 hclear
    have e : scanBack bs earliest batchId bounds 0 target ins = (target, ins) := rfl
    rw [e]
    refine ⟨Or.inr rfl, h3, h2, ?_, ?_⟩
    · intro _ j s hj hs
      exact hclear j s (by dsimp only at hj; omega) hs
    · rintro a _ ⟨t0, s0, _, ht0, _⟩
      omega
  | succ i ih =>
    intro target ins h1 h2 h3 hclear
    -- the result when the scan stops without a change
    have hstop : (¬ (earliest ≤ i ∧ ∃ b, bs[i]? = some (some b) ∧ b.purelyDrawBatch = true)) →
        ((target, ins).1 = none ∨ (target, ins).1 = target) ∧
        earliest ≤ (target, ins).2 ∧ (target, ins).2 ≤ bs.length ∧
        ((target, ins).1 = none → ∀ j s, (target, ins).2 ≤ j → bs[j]? = some s →
          slotClear bounds s) ∧
        (∀ a, (target, ins).1 = some a →
          (∃ t0 s0, earliest ≤ t0 ∧ t0 < i + 1 ∧ bs[t0]? = some s0 ∧ slotAddr s0 = some a) →
          (∀ k, earliest ≤ k → k < i + 1 →
            ∃ b, bs[k]? = some (some b) ∧ b.purelyDrawBatch = true) →
          ∃ t s, earliest ≤ t ∧ t < i + 1 ∧ bs[t]? = some s ∧ slotAddr s = some a ∧
            ∀ j s1, t < j → bs[j]? = some s1 → slotClear bounds s1) := by
      intro hno
      refine ⟨Or.inr rfl, h3, h2, ?_, ?_⟩
      · intro _ j s hj hs
        exact hclear j s (by dsimp only at hj; omega) hs
      · rintro a _ ⟨t0, s0, ht0, ht1, _, _⟩ hwin
        exfalso
        by_cases hi : earliest ≤ i
        · exact hno ⟨hi, hwin i hi (by omega)⟩
        · omega
    unfold scanBack
    by_cases hlt : i < earliest
    · rw [if_pos hlt]
      exact hstop (by omega)
    · rw [if_neg hlt]
      cases hslot : bs[i]? with
      | none =>
        exact hstop (by rintro ⟨_, b, hb, _⟩; rw [hslot] at hb; cases hb)
      | some slot =>
        cases slot with
        | none =>
          exact hstop (by rintro ⟨_, b, hb, _⟩; rw [hslot] at hb; cases hb)
        | some over =>
          have hover : over.OK := hok over (mem_of_getElem? _ _ _ hslot)
          have hilen : i < bs.length := lt_length_of_getElem? _ _ _ hslot
          by_cases hpd : over.purelyDrawBatch = true
          · obtain ⟨a1, d, ha1, hd⟩ := Batch.purelyDraw_cases over hpd
            obtain ⟨hdok, hops⟩ := Batch.ok_asDraw over hover d hd
            simp only [ha1, hd]
            by_cases hfound : target = some a1
            · rw [if_pos hfound]
              refine ⟨Or.inr rfl, h3, h2, ?_, ?_⟩
              · intro _ j s hj hs
                exact hclear j s (by dsimp only at hj; omega) hs
              · intro a hres _ _
                refine ⟨i, some over, by omega, by omega, hslot, ?_, ?_⟩
                · dsimp only at hres
                  rw [hfound] at hres
                  rw [← Option.some.inj hres]
                  exact ha1
                · intro j s1 hj hs1
                  exact hclear j s1 (by omega) hs1
            · rw [if_neg hfound]
              have hins1 : i + 1 ≤ (if batchId = d.mBatchId then i + 1 else ins) ∧
                  (if batchId = d.mBatchId then i + 1 else ins) ≤ bs.length ∧
                  earliest ≤ (if batchId = d.mBatchId then i + 1 else ins) := by
                split <;> omega
              generalize (if batchId = d.mBatchId then i + 1 else ins) = ins1 at hins1 ⊢
              by_cases hsame : batchId = d.mBatchId ∧ target = none
              · rw [if_pos hsame]
                refine ⟨Or.inl hsame.2, hins1.2.2, hins1.2.1, ?_, ?_⟩
                · intro _ j s hj hs
                  exact hclear j s (by dsimp only at hj; omega) hs
                · intro a hres
                  dsimp only at hres
                  rw [hsame.2] at hres
                  cases hres
              · rw [if_neg hsame]
                by_cases hint : d.intersects bounds = true
                · rw [if_pos hint]
                  refine ⟨Or.inl rfl, hins1.2.2, hins1.2.1, ?_, ?_⟩
                  · intro _ j s hj hs
                    exact hclear j s (by dsimp only at hj; omega) hs
                  · intro a hres
                    cases hres
                · rw [if_neg hint]
                  have hclear1 : ∀ j s, i ≤ j → bs[j]? = some s → slotClear bounds s := by
                    intro j s hj hs
                    rcases Nat.eq_or_lt_of_le hj with hji | hji
                    · subst hji
                      rw [hslot] at hs
                      rw [← Option.some.inj hs]
                      intro e he
                      simp only [slotOps, hops] at he
                      exact (DrawBatch.intersects_eq_false d bounds hdok.covers).1
                        (by simpa using hint) e he
                    · exact hclear j s (by omega) hs
                  obtain ⟨r1, r2, r3, r4, r5⟩ :=
                    ih target ins1 (by omega) hins1.2.1 hins1.2.2 hclear1
                  refine ⟨r1, r2, r3, r4, ?_⟩
                  rintro a hres ⟨t0, s0, ht0, ht1, hs0, hs0a⟩ hwin
                  have htarget : target = some a := by
                    rcases r1 with r1 | r1
                    · rw [r1] at hres
                      cases hres
                    · rw [← r1]
                      exact hres
                  have ht0i : t0 ≠ i := by
                    intro h
                    subst h
                    rw [hslot] at hs0
                    rw [← Option.some.inj hs0] at hs0a
                    simp only [slotAddr, ha1, Option.some.injEq] at hs0a
                    exact hfound (by rw [htarget, hs0a])
                  obtain ⟨t, s, ht, htn, hts, hta, htc⟩ :=
                    r5 a hres ⟨t0, s0, ht0, by omega, hs0, hs0a⟩
                      (fun k hk1 hk2 => hwin k hk1 (by omega))
                  exact ⟨t, s, ht, by omega, hts, hta, htc⟩
          · have hno : ¬ (earliest ≤ i ∧
                ∃ b, bs[i]? = some (some b) ∧ b.purelyDrawBatch = true) := by
              rintro ⟨_, b, hb, hbp⟩
              rw [hslot] at hb
              rw [← Option.some.inj (Option.some.inj hb)] at hbp
              exact hpd hbp
            cases over with
            | draw a x => exact absurd rfl hpd
            | merging a x => exact absurd rfl hpd
            | stateOp o s => exact hstop hno
            | restoreToCount o s k => exact hstop hno

/-! ### Batches keep their invariant -/

theorem drawBatch_ok_new_add (info : DeferInfo) (op : DrawOp) (st : DeferredDisplayState)
    (o : Bool) (hk : info.batchId = op.deferInfo.batchId) :
    ((DrawBatch.new info).add op st o).OK := by
  refine ⟨?_, DrawBatch.covers_add _ _ _ _ (DrawBatch.covers_new info), ?_⟩
  · simp [DrawBatch.add]
  · intro e he
    simp only [DrawBatch.add, DrawBatch.new, List.nil_append, List.mem_singleton] at he
    subst he
    exact hk.symm

theorem drawBatch_ok_add (b : DrawBatch) (op : DrawOp) (st : DeferredDisplayState) (o : Bool)
    (h : b.OK) (hk : b.mBatchId = op.deferInfo.batchId) : (b.add op st o).OK := by
  refine ⟨?_, DrawBatch.covers_add _ _ _ _ h.covers, ?_⟩
  · simp [DrawBatch.add]
  · intro e he
    simp only [DrawBatch.add, List.mem_append, List.mem_singleton] at he
    rcases he with he | he
    · exact h.kind e he
    · subst he
      exact hk.symm

theorem mergingBatch_ok_new_add (info : DeferInfo) (w h : ℚ) (op : DrawOp)
    (st : DeferredDisplayState) (o : Bool) (hinfo : InfoOf op info)
    (hm : info.mergeable = true) : ((MergingDrawBatch.new info w h).add op st o).OK := by
  refine ⟨drawBatch_ok_new_add info op st o hinfo.1, ?_, ?_, ?_⟩
  · intro e he
    simp only [MergingDrawBatch.add, MergingDrawBatch.new, DrawBatch.add, DrawBatch.new,
      List.nil_append, List.mem_singleton] at he
    subst he
    exact ⟨hinfo.2.2 hm, hinfo.2.1.symm⟩
  · intro first hf e he
    simp only [MergingDrawBatch.add, MergingDrawBatch.new, DrawBatch.add, DrawBatch.new,
      List.nil_append, List.mem_singleton, List.head?_cons, Option.mem_def,
      Option.some.injEq] at he hf
    subst he hf
    exact NEQ_FALPHA_self _
  · simp [MergingDrawBatch.add, MergingDrawBatch.new, DrawBatch.add, DrawBatch.new]

theorem MergingDrawBatch.canMergeWith_true (b : MergingDrawBatch) (op : DrawOp)
    (st : DeferredDisplayState) (h : b.canMergeWith op st = true) :
    b.overlapAllowed st = true ∧
      ∃ first rest, b.mOps = first :: rest ∧ NEQ_FALPHA st.mAlpha first.state.mAlpha = false := by
  unfold MergingDrawBatch.canMergeWith at h
  cases hov : b.overlapAllowed st
  · simp [hov] at h
  · refine ⟨rfl, ?_⟩
    simp only [hov, Bool.not_true, Bool.false_eq_true, if_false] at h
    cases hops : b.mOps with
    | nil => simp [hops] at h
    | cons first rest =>
      refine ⟨first, rest, rfl, ?_⟩
      simp only [hops] at h
      cases ha : NEQ_FALPHA st.mAlpha first.state.mAlpha
      · rfl
      · simp [ha] at h

theorem mergingBatch_ok_add (b : MergingDrawBatch) (op : DrawOp)
    (st : DeferredDisplayState) (o : Bool) (h : b.OK) (hk : b.mBatchId = op.deferInfo.batchId)
    (hm : op.deferInfo.mergeable = true) (hmid : b.mMergeId = op.deferInfo.mergeId)
    (hcan : b.canMergeWith op st = true) : (b.add op st o).OK := by
  obtain ⟨hov, first, rest, hops, halpha⟩ := MergingDrawBatch.canMergeWith_true b op st hcan
  refine ⟨drawBatch_ok_add _ op st o h.toDraw hk, ?_, ?_, ?_⟩
  · intro e he
    simp only [MergingDrawBatch.add, DrawBatch.add, List.mem_append, List.mem_singleton] at he
    rcases he with he | he
    · exact h.key e he
    · subst he
      exact ⟨hm, hmid.symm⟩
  · intro f hf e he
    simp only [MergingDrawBatch.add, DrawBatch.add, hops, List.cons_append, List.head?_cons,
      Option.mem_def, Option.some.injEq, List.mem_cons, List.mem_append,
      List.mem_singleton] at he hf
    subst hf
    have hold := h.alpha first (by simp [hops])
    rcases he with he | he | he | he
    · subst he
      exact hold e (by simp [hops])
    · exact hold e (by simp [hops, he])
    · subst he
      exact halpha
    · cases he
  · have hov2 := h.overlap
    simp only [MergingDrawBatch.add, DrawBatch.add]
    rw [List.pairwise_append]
    refine ⟨hov2, List.pairwise_singleton _ _, ?_⟩
    intro e1 he1 e2 he2 hint
    simp only [List.mem_singleton] at he2
    subst he2
    simp only [MergingDrawBatch.overlapAllowed] at hov
    by_cases hc : (!(b.mBatchId == kOpBatch_Text || b.mBatchId == kOpBatch_ColorText) ||
        st.mDrawModifiers.mHasShadow) = true
    · rw [if_pos hc] at hov
      have hni : b.toDrawBatch.intersects st.mBounds = false := by simpa using hov
      have := (DrawBatch.intersects_eq_false _ _ h.toDraw.covers).1 hni e1 he1
      dsimp only at hint
      rw [this] at hint
      cases hint
    · simp only [Bool.or_eq_true, Bool.not_eq_true', not_or, Bool.not_eq_false,
        Bool.not_eq_true] at hc
      exact ⟨by simpa [DrawBatch.isTextBatch] using hc.1, hc.2⟩

theorem Batch.ok_newBatchFor (addr : Nat) (r : OpenGLRenderer) (op : DrawOp)
    (st : DeferredDisplayState) (info : DeferInfo) (hinfo : InfoOf op info) :
    (newBatchFor addr r op st info).OK := by
  unfold newBatchFor
  split
  · rename_i hm
    exact mergingBatch_ok_new_add info _ _ op st _ hinfo hm
  · exact drawBatch_ok_new_add info op st _ hinfo.1

theorem Batch.addr_newBatchFor (addr : Nat) (r : OpenGLRenderer) (op : DrawOp)
    (st : DeferredDisplayState) (info : DeferInfo) :
    (newBatchFor addr r op st info).addr? = some addr := by
  unfold newBatchFor
  split <;> rfl

theorem Batch.purelyDraw_newBatchFor (addr : Nat) (r : OpenGLRenderer) (op : DrawOp)
    (st : DeferredDisplayState) (info : DeferInfo) :
    (newBatchFor addr r op st info).purelyDrawBatch = true := by
  unfold newBatchFor
  split <;> rfl

theorem Batch.ops_newBatchFor (addr : Nat) (r : OpenGLRenderer) (op : DrawOp)
    (st : DeferredDisplayState) (info : DeferInfo) :
    (newBatchFor addr r op st info).ops = [⟨op, st⟩] := by
  unfold newBatchFor
  split <;> simp [Batch.ops, MergingDrawBatch.add, MergingDrawBatch.new, DrawBatch.add,
    DrawBatch.new]

theorem Batch.addr_add (b : Batch) (op : DrawOp) (st : DeferredDisplayState) (o : Bool) :
    (b.add op st o).addr? = b.addr? := by
  cases b <;> rfl

theorem Batch.purelyDraw_add (b : Batch) (op : DrawOp) (st : DeferredDisplayState) (o : Bool) :
    (b.add op st o).purelyDrawBatch = b.purelyDrawBatch := by
  cases b <;> rfl

theorem Batch.ops_add (b : Batch) (op : DrawOp) (st : DeferredDisplayState) (o : Bool)
    (h : b.purelyDrawBatch = true) : (b.add op st o).ops = b.ops ++ [⟨op, st⟩] := by
  cases b with
  | draw a x => rfl
  | merging a x => rfl
  | stateOp x s => cases h
  | restoreToCount x s n => cases h

/-! ### The engine invariant is kept -/

theorem addrs_take_drop (bs : List (Option Batch)) (k : Nat) :
    addrs bs = addrs (bs.take k) ++ addrs (bs.drop k) := by
  rw [← addrs_append, List.take_append_drop]

theorem addrs_insertAt (bs : List (Option Batch)) (k : Nat) (b : Batch) (a : Nat)
    (ha : b.addr? = some a) :
    addrs (insertAt bs k (some b)) = addrs (bs.take k) ++ a :: addrs (bs.drop k) := by
  unfold insertAt
  rw [addrs_append, addrs_cons_some (some b) a _ (by simpa [slotAddr] using ha)]

theorem map_addAt_insertAt (a : Nat) (op : DrawOp) (st : DeferredDisplayState) (o : Bool)
    (bs : List (Option Batch)) (k : Nat) (x : Option Batch) (h : a ∉ addrs bs) :
    (insertAt bs k x).map (addAt a op st o) = insertAt bs k (addAt a op st o x) := by
  rw [addrs_take_drop bs k, List.mem_append, not_or] at h
  unfold insertAt
  rw [List.map_append, List.map_cons, map_addAt_of_fresh a op st o _ h.1,
    map_addAt_of_fresh a op st o _ h.2]

theorem DeferredDisplayList.placeInBatch_some (l : DeferredDisplayList) (r : OpenGLRenderer)
    (op : DrawOp) (st : DeferredDisplayState) (info : DeferInfo) (a k : Nat) :
    l.placeInBatch r op st info (some a) k = l.joinAt a op st info.opaqueOverBounds := rfl

theorem DeferredDisplayList.placeInBatch_none (l : DeferredDisplayList) (r : OpenGLRenderer)
    (op : DrawOp) (st : DeferredDisplayState) (info : DeferInfo) (k : Nat)
    (hlt : ∀ a ∈ addrs l.mBatches, a < l.nextAddr) :
    l.placeInBatch r op st info none k = l.createAt r op st info k := by
  have hfresh : l.nextAddr ∉ addrs l.mBatches := fun h => Nat.lt_irrefl _ (hlt _ h)
  unfold DeferredDisplayList.placeInBatch DeferredDisplayList.createAt newBatchFor
  cases hm : info.mergeable
  · simp only [Bool.false_eq_true, if_false, map_addAt_insertAt _ _ _ _ _ _ _ hfresh]
    simp [addAt, Batch.addr?, Batch.add]
  · simp only [if_true, map_addAt_insertAt _ _ _ _ _ _ _ hfresh]
    simp [addAt, Batch.addr?, Batch.add]

theorem baseWF_of_eq (l l2 : DeferredDisplayList) (h : BaseWF l)
    (hb : l2.mBatches = l.mBatches) (hn : l2.nextAddr = l.nextAddr) : BaseWF l2 := by
  refine ⟨?_, ?_, ?_⟩
  · rw [hb, hn]; exact h.addr_lt
  · rw [hb]; exact h.addr_nodup
  · rw [hb]; exact h.batches

theorem wf_of_eq (l l2 : DeferredDisplayList) (h : WF l)
    (hb : l2.mBatches = l.mBatches) (hn : l2.nextAddr = l.nextAddr)
    (he : l2.mEarliestBatchIndex = l.mEarliestBatchIndex)
    (hl : l2.mBatchLookup = l.mBatchLookup) (hm : l2.mMergingBatches = l.mMergingBatches) :
    WF l2 := by
  refine ⟨baseWF_of_eq l l2 h.toBaseWF hb hn, ?_, ?_, ?_, ?_⟩
  · rw [hb, he]; exact h.earliest_le
  · rw [hb, he]; exact h.window
  · rw [hb, he, hl]; exact h.lookup
  · rw [hb, he, hm]; exact h.merging

theorem wf_reset (l : DeferredDisplayList) (h : BaseWF l) : WF l.resetBatchingState := by
  refine ⟨⟨h.addr_lt, h.addr_nodup, h.batches⟩, Nat.le_refl _, ?_, ?_, ?_⟩
  · intro i h1 h2
    simp only [DeferredDisplayList.resetBatchingState] at h1 h2
    omega
  · intro k a hk
    simp [DeferredDisplayList.resetBatchingState] at hk
  · intro k m a hk
    simp [DeferredDisplayList.resetBatchingState] at hk

theorem wf_clear (l : DeferredDisplayList) : WF l.clear := by
  refine ⟨⟨?_, ?_, ?_⟩, ?_, ?_, ?_, ?_⟩ <;>
    simp [DeferredDisplayList.clear, DeferredDisplayList.resetBatchingState, addrs]

theorem wf_init (bounds : Rect) (avoid : Bool) : WF (DeferredDisplayList.init bounds avoid) :=
  wf_clear _

theorem discardSlot_cases (s : Option Batch) :
    discardSlot s = s ∨
      (discardSlot s = none ∧ ∃ b, s = some b ∧ b.purelyDrawBatch = true) := by
  cases s with
  | none => exact Or.inl rfl
  | some b =>
    cases hp : b.purelyDrawBatch
    · left; simp [discardSlot, hp]
    · right; exact ⟨by simp [discardSlot, hp], b, rfl, hp⟩

theorem length_discardRange (lo hi : Nat) (bs : List (Option Batch)) :
    ∀ i, (discardRange lo hi i bs).length = bs.length := by
  induction bs with
  | nil => intro i; rfl
  | cons s rest ih => intro i; simp [discardRange, ih]

/-- A slot after the discard loop is the slot before it, or empty where a purely-drawing
batch was discarded. -/
theorem getElem?_discardRange (lo hi : Nat) (bs : List (Option Batch)) :
    ∀ (i j : Nat) (s : Option Batch), bs[j]? = some s →
      (discardRange lo hi i bs)[j]? = some s ∨
      ((discardRange lo hi i bs)[j]? = some none ∧ ∃ b, s = some b ∧ b.purelyDrawBatch = true) := by
  induction bs with
  | nil => intro i j s h; simp at h
  | cons x rest ih =>
    intro i j s h
    cases j with
    | zero =>
      simp only [List.getElem?_cons_zero, Option.some.injEq] at h
      subst h
      simp only [discardRange, List.getElem?_cons_zero, Option.some.injEq]
      split
      · exact discardSlot_cases x
      · exact Or.inl rfl
    | succ j =>
      simp only [List.getElem?_cons_succ] at h
      simp only [discardRange, List.getElem?_cons_succ]
      exact ih (i + 1) j s h

theorem mem_discardRange (lo hi : Nat) (bs : List (Option Batch)) (i : Nat) (b : Batch)
    (h : some b ∈ discardRange lo hi i bs) : some b ∈ bs := by
  rw [List.mem_iff_getElem?] at h
  obtain ⟨j, hj⟩ := h
  have hjl : j < bs.length := by
    have := lt_length_of_getElem? _ _ _ hj
    rwa [length_discardRange] at this
  rcases getElem?_discardRange lo hi bs i j bs[j] (List.getElem?_eq_getElem hjl) with h1 | h1
  · rw [hj] at h1
    rw [Option.some.inj h1]
    exact List.getElem_mem hjl
  · rw [hj] at h1
    cases h1.1

theorem addrs_discardRange (lo hi : Nat) (bs : List (Option Batch)) :
    ∀ i, (addrs (discardRange lo hi i bs)).Sublist (addrs bs) := by
  induction bs with
  | nil => intro i; exact List.Sublist.refl _
  | cons x rest ih =>
    intro i
    simp only [discardRange]
    by_cases hc : lo ≤ i ∧ i ≤ hi
    · rw [if_pos hc]
      rcases discardSlot_cases x with h1 | ⟨h1, _⟩
      · rw [h1]
        cases hx : slotAddr x with
        | none =>
          rw [addrs_cons_none _ _ hx, addrs_cons_none _ _ hx]
          exact ih _
        | some a =>
          rw [addrs_cons_some _ a _ hx, addrs_cons_some _ a _ hx]
          exact (ih _).cons₂ a
      · rw [h1, addrs_cons_none none _ rfl]
        cases hx : slotAddr x with
        | none =>
          rw [addrs_cons_none _ _ hx]
          exact ih _
        | some a =>
          rw [addrs_cons_some _ a _ hx]
          exact (ih _).cons a
    · rw [if_neg hc]
      cases hx : slotAddr x with
      | none =>
        rw [addrs_cons_none _ _ hx, addrs_cons_none _ _ hx]
        exact ih _
      | some a =>
        rw [addrs_cons_some _ a _ hx, addrs_cons_some _ a _ hx]
        exact (ih _).cons₂ a

theorem baseWF_discard (l : DeferredDisplayList) (m : Nat) (h : BaseWF l) :
    BaseWF (l.discardDrawingBatches m) := by
  refine ⟨?_, ?_, ?_⟩
  · intro a ha
    exact h.addr_lt a ((addrs_discardRange _ _ _ _).subset ha)
  · exact h.addr_nodup.sublist (addrs_discardRange _ _ _ _)
  · intro b hb
    exact h.batches b (mem_discardRange _ _ _ _ b hb)

theorem wf_avoidOverdraw (l : DeferredDisplayList) (st : DeferredDisplayState)
    (info : DeferInfo) (h : WF l) : WF (l.avoidOverdraw st info) := by
  unfold DeferredDisplayList.avoidOverdraw
  split
  · exact wf_reset _ (baseWF_discard l _ h.toBaseWF)
  · exact h

theorem baseWF_appendBarrier (l : DeferredDisplayList) (bar : Batch)
    (hbar : bar.purelyDrawBatch = false) (h : BaseWF l) :
    BaseWF { l with mBatches := l.mBatches ++ [some bar] } := by
  have hnone : slotAddr (some bar) = none := by
    cases bar with
    | draw a x => cases hbar
    | merging a x => cases hbar
    | stateOp o s => rfl
    | restoreToCount o s n => rfl
  have haddrs : addrs (l.mBatches ++ [some bar]) = addrs l.mBatches := by
    rw [addrs_append, addrs_cons_none _ _ hnone]
    simp [addrs]
  refine ⟨?_, ?_, ?_⟩
  · dsimp only
    rw [haddrs]
    exact h.addr_lt
  · dsimp only
    rw [haddrs]
    exact h.addr_nodup
  · intro b hb
    simp only [List.mem_append, List.mem_singleton, Option.some.injEq] at hb
    rcases hb with hb | hb
    · exact h.batches b hb
    · subst hb
      cases b with
      | draw a x => cases hbar
      | merging a x => cases hbar
      | stateOp o s => trivial
      | restoreToCount o s n => trivial

theorem wf_storeStateOpBarrier (l : DeferredDisplayList) (r : OpenGLRenderer) (op : StateOp)
    (h : BaseWF l) : WF (l.storeStateOpBarrier r op) :=
  wf_reset _ (baseWF_appendBarrier l _ rfl h)

theorem wf_storeRestoreToCountBarrier (l : DeferredDisplayList) (r : OpenGLRenderer)
    (op : StateOp) (n : Int) (h : BaseWF l) : WF (l.storeRestoreToCountBarrier r op n) :=
  wf_reset _ (baseWF_appendBarrier l _ rfl h)

theorem wf_addClip (l : DeferredDisplayList) (r : OpenGLRenderer) (op : ClipOp) (h : WF l) :
    WF (l.addClip r op) := by
  unfold DeferredDisplayList.addClip
  split
  · have h1 := wf_storeStateOpBarrier l r op.toStateOp h.toBaseWF
    dsimp only
    split
    · exact wf_of_eq _ _ h1 rfl rfl rfl rfl rfl
    · exact h1
  · exact h

theorem wf_addSaveLayer (l : DeferredDisplayList) (r : OpenGLRenderer) (op : StateOp)
    (n : Int) (h : WF l) : WF (l.addSaveLayer r op n) :=
  wf_of_eq _ _ (wf_storeStateOpBarrier l r op h.toBaseWF) rfl rfl rfl rfl rfl

theorem wf_addSave (l : DeferredDisplayList) (r : OpenGLRenderer) (op : SaveOp)
    (n : Int) (h : WF l) : WF (l.addSave r op n) := by
  unfold DeferredDisplayList.addSave
  dsimp only
  split
  · exact wf_of_eq _ _ (wf_storeStateOpBarrier l r op.toStateOp h.toBaseWF) rfl rfl rfl rfl rfl
  · exact h

theorem wf_addRestoreToCount (l : DeferredDisplayList) (r : OpenGLRenderer) (op : StateOp)
    (n : Int) (h : WF l) : WF (l.addRestoreToCount r op n) := by
  unfold DeferredDisplayList.addRestoreToCount
  have h1 : WF (if (l.recordingComplexClip && decide (n ≤ l.mComplexClipStackStart)) = true then
      DeferredDisplayList.resetBatchingState { l with mComplexClipStackStart := -1 } else l) := by
    split
    · exact wf_reset _ (baseWF_of_eq l _ h.toBaseWF rfl rfl)
    · exact h
  generalize (if (l.recordingComplexClip && decide (n ≤ l.mComplexClipStackStart)) = true then
      DeferredDisplayList.resetBatchingState { l with mComplexClipStackStart := -1 } else l) = l1
    at h1
  dsimp only
  split
  · exact h1
  · split
    · exact h1
    · exact wf_storeRestoreToCountBarrier _ r op _ (baseWF_of_eq l1 _ h1.toBaseWF rfl rfl)

theorem getElem?_append_old {α : Type} (xs ys : List α) (i : Nat) (x : α)
    (h : xs[i]? = some x) : (xs ++ ys)[i]? = some x := by
  rw [List.getElem?_append_left (lt_length_of_getElem? _ _ _ h)]
  exact h

theorem baseWF_appendAlone (l : DeferredDisplayList) (op : DrawOp)
    (st : DeferredDisplayState) (info : DeferInfo) (hinfo : InfoOf op info) (h : BaseWF l) :
    BaseWF (l.appendAlone op st info) := by
  have haddrs : addrs (l.appendAlone op st info).mBatches = addrs l.mBatches ++ [l.nextAddr] := by
    simp [DeferredDisplayList.appendAlone, addrs, List.filterMap_append, slotAddr, Batch.addr?]
  refine ⟨?_, ?_, ?_⟩
  · intro a ha
    rw [haddrs, List.mem_append, List.mem_singleton] at ha
    simp only [DeferredDisplayList.appendAlone]
    rcases ha with ha | ha
    · have := h.addr_lt a ha
      omega
    · omega
  · rw [haddrs, List.nodup_append]
    refine ⟨h.addr_nodup, List.nodup_singleton _, ?_⟩
    intro a ha hb
    rw [List.mem_singleton] at hb
    subst hb
    exact Nat.lt_irrefl _ (h.addr_lt _ ha)
  · intro b hb
    simp only [DeferredDisplayList.appendAlone, List.mem_append, List.mem_singleton,
      Option.some.injEq] at hb
    rcases hb with hb | hb
    · exact h.batches b hb
    · subst hb
      exact drawBatch_ok_new_add info op st _ hinfo.1

theorem wf_appendAlone (l : DeferredDisplayList) (op : DrawOp)
    (st : DeferredDisplayState) (info : DeferInfo) (hinfo : InfoOf op info) (h : WF l) :
    WF (l.appendAlone op st info) := by
  refine ⟨baseWF_appendAlone l op st info hinfo h.toBaseWF, ?_, ?_, ?_, ?_⟩
  · have := h.earliest_le
    simp only [DeferredDisplayList.appendAlone, List.length_append, List.length_singleton]
    omega
  · intro i h1 h2
    simp only [DeferredDisplayList.appendAlone, List.length_append, List.length_singleton]
      at h1 h2 ⊢
    by_cases hi : i < l.mBatches.length
    · obtain ⟨b, hb, hp⟩ := h.window i h1 hi
      exact ⟨b, getElem?_append_old _ _ _ _ hb, hp⟩
    · have hi2 : i = l.mBatches.length := by omega
      subst hi2
      refine ⟨Batch.draw l.nextAddr
        ((DrawBatch.new info).add op st info.opaqueOverBounds), ?_, rfl⟩
      rw [List.getElem?_append_right (Nat.le_refl _)]
      simp
  · intro k a hk
    obtain ⟨i, b, h1, h2, h3⟩ := h.lookup k a hk
    exact ⟨i, b, h1, getElem?_append_old _ _ _ _ h2, h3⟩
  · intro k m a hk
    obtain ⟨i, b, h1, h2, h3⟩ := h.merging k m a hk
    exact ⟨i, b, h1, getElem?_append_old _ _ _ _ h2, h3⟩

theorem Batch.ok_add_joinable (l : DeferredDisplayList) (op : DrawOp)
    (st : DeferredDisplayState) (info : DeferInfo) (a t : Nat) (b : Batch)
    (hinfo : InfoOf op info) (hj : Joinable l op st info a t b) (hb : b.OK) :
    (b.add op st info.opaqueOverBounds).OK := by
  rcases hj.variant with ⟨hm, mb, rfl, h1, h2, h3⟩ | ⟨_, db, rfl, h1⟩
  · exact mergingBatch_ok_add mb op st _ hb (by rw [h1, hinfo.1]) (hinfo.2.2 hm)
      (by rw [h2, hinfo.2.1]) h3
  · exact drawBatch_ok_add db op st _ hb (by rw [h1, hinfo.1])

theorem wf_joinAt (l : DeferredDisplayList) (op : DrawOp)
    (st : DeferredDisplayState) (info : DeferInfo) (a t : Nat) (b : Batch)
    (hinfo : InfoOf op info) (hj : Joinable l op st info a t b) (h : WF l) :
    WF (l.joinAt a op st info.opaqueOverBounds) := by
  refine ⟨⟨?_, ?_, ?_⟩, ?_, ?_, ?_, ?_⟩
  · simp only [DeferredDisplayList.joinAt, addrs_map_addAt]
    exact h.addr_lt
  · simp only [DeferredDisplayList.joinAt, addrs_map_addAt]
    exact h.addr_nodup
  · intro b2 hb2
    simp only [DeferredDisplayList.joinAt, List.mem_map] at hb2
    obtain ⟨s, hs, hsb⟩ := hb2
    cases s with
    | none => cases hsb
    | some b1 =>
      have hb1 := h.batches b1 hs
      simp only [addAt] at hsb
      split at hsb
      · rename_i haddr
        obtain ⟨i, hi⟩ := List.mem_iff_getElem?.1 hs
        have hit : i = t := addr_unique _ h.addr_nodup i t (some b1) (some b) a hi hj.at_index
          (by simpa [slotAddr] using haddr) (by simpa [slotAddr] using hj.addr)
        subst hit
        rw [hj.at_index] at hi
        have hbb : b = b1 := Option.some.inj (Option.some.inj hi)
        subst hbb
        rw [← Option.some.inj hsb]
        exact Batch.ok_add_joinable l op st info a i b hinfo hj hb1
      · rw [← Option.some.inj hsb]
        exact hb1
  · simp only [DeferredDisplayList.joinAt, List.length_map]
    exact h.earliest_le
  · intro i h1 h2
    simp only [DeferredDisplayList.joinAt, List.length_map, List.getElem?_map] at h1 h2 ⊢
    obtain ⟨b1, hb1, hp⟩ := h.window i h1 h2
    rw [hb1]
    simp only [Option.map_some', addAt]
    split
    · exact ⟨_, rfl, by rw [Batch.purelyDraw_add]; exact hp⟩
    · exact ⟨_, rfl, hp⟩
  · intro k a1 hk
    obtain ⟨i, b1, h1, h2, h3⟩ := h.lookup k a1 hk
    have hx : ∃ b2, addAt a op st info.opaqueOverBounds (some (Batch.draw a1 b1)) =
        some (Batch.draw a1 b2) ∧ b2.mBatchId = k := by
      simp only [addAt]
      split
      · exact ⟨_, rfl, h3⟩
      · exact ⟨_, rfl, h3⟩
    obtain ⟨b2, hb2, hb3⟩ := hx
    refine ⟨i, b2, h1, ?_, hb3⟩
    simp only [DeferredDisplayList.joinAt, List.getElem?_map, h2, Option.map_some', hb2]
  · intro k m a1 hk
    obtain ⟨i, b1, h1, h2, h3⟩ := h.merging k m a1 hk
    have hx : ∃ b2, addAt a op st info.opaqueOverBounds (some (Batch.merging a1 b1)) =
        some (Batch.merging a1 b2) ∧ b2.mBatchId = k ∧ b2.mMergeId = m := by
      simp only [addAt]
      split
      · exact ⟨_, rfl, h3⟩
      · exact ⟨_, rfl, h3⟩
    obtain ⟨b2, hb2, hb3⟩ := hx
    refine ⟨i, b2, h1, ?_, hb3⟩
    simp only [DeferredDisplayList.joinAt, List.getElem?_map, h2, Option.map_some', hb2]

theorem getElem?_insertAt_old (bs : List (Option Batch)) (k : Nat) (x : Option Batch)
    (hk : k ≤ bs.length) (i : Nat) (s : Option Batch) (h : bs[i]? = some s) :
    (insertAt bs k x)[if i < k then i else i + 1]? = some s := by
  rw [getElem?_insertAt bs k x hk]
  by_cases hi : i < k
  · simp [hi, h]
  · simp only [hi, if_false]
    rw [if_neg (by omega), if_neg (by omega)]
    simpa using h

theorem mem_insertAt (bs : List (Option Batch)) (k : Nat) (x s : Option Batch)
    (h : s ∈ insertAt bs k x) : s = x ∨ s ∈ bs := by
  simp only [insertAt, List.mem_append, List.mem_cons] at h
  rcases h with h | h | h
  · exact Or.inr (List.mem_of_mem_take h)
  · exact Or.inl h
  · exact Or.inr (List.mem_of_mem_drop h)

theorem wf_createAt (l : DeferredDisplayList) (r : OpenGLRenderer) (op : DrawOp)
    (st : DeferredDisplayState) (info : DeferInfo) (k : Nat) (hinfo : InfoOf op info)
    (hk1 : l.mEarliestBatchIndex ≤ k) (hk2 : k ≤ l.mBatches.length) (h : WF l) :
    WF (l.createAt r op st info k) := by
  have haddrs := addrs_insertAt l.mBatches k (newBatchFor l.nextAddr r op st info) l.nextAddr
    (Batch.addr_newBatchFor _ _ _ _ _)
  have hfresh : l.nextAddr ∉ addrs l.mBatches := fun hm => Nat.lt_irrefl _ (h.addr_lt _ hm)
  refine ⟨⟨?_, ?_, ?_⟩, ?_, ?_, ?_, ?_⟩
  · intro a ha
    simp only [DeferredDisplayList.createAt] at ha ⊢
    rw [haddrs, List.mem_append, List.mem_cons] at ha
    have hsub : a = l.nextAddr ∨ a ∈ addrs l.mBatches := by
      rw [addrs_take_drop l.mBatches k, List.mem_append]
      tauto
    rcases hsub with hs | hs
    · omega
    · have := h.addr_lt a hs
      omega
  · simp only [DeferredDisplayList.createAt]
    rw [haddrs, List.nodup_middle, List.nodup_cons, ← addrs_take_drop]
    exact ⟨hfresh, h.addr_nodup⟩
  · intro b hb
    simp only [DeferredDisplayList.createAt] at hb
    rcases mem_insertAt _ _ _ _ hb with hb | hb
    · rw [Option.some.inj hb]
      exact Batch.ok_newBatchFor _ _ _ _ _ hinfo
    · exact h.batches b hb
  · simp only [DeferredDisplayList.createAt, length_insertAt]
    omega
  · intro i h1 h2
    simp only [DeferredDisplayList.createAt, length_insertAt] at h1 h2 ⊢
    rw [getElem?_insertAt _ _ _ hk2]
    by_cases hik : i < k
    · rw [if_pos hik]
      exact h.window i h1 (by omega)
    · rw [if_neg hik]
      by_cases hik2 : i = k
      · rw [if_pos hik2]
        exact ⟨_, rfl, Batch.purelyDraw_newBatchFor _ _ _ _ _⟩
      · rw [if_neg hik2]
        exact h.window (i - 1) (by omega) (by omega)
  · intro k1 a hk
    simp only [DeferredDisplayList.createAt] at hk ⊢
    split at hk
    · rename_i hc
      refine ⟨k, (DrawBatch.new info).add op st info.opaqueOverBounds, hk1, ?_, ?_⟩
      · rw [getElem?_insertAt _ _ _ hk2, if_neg (Nat.lt_irrefl _), if_pos rfl,
          ← Option.some.inj hk]
        simp [newBatchFor, hc.1]
      · rw [hc.2]
        rfl
    · obtain ⟨i, b, h1, h2, h3⟩ := h.lookup k1 a hk
      refine ⟨if i < k then i else i + 1, b, ?_, getElem?_insertAt_old _ _ _ hk2 _ _ h2, h3⟩
      split <;> omega
  · intro k1 m a hk
    simp only [DeferredDisplayList.createAt] at hk ⊢
    split at hk
    · rename_i hc
      refine ⟨k, (MergingDrawBatch.new info r.viewportWidth r.viewportHeight).add op st
        info.opaqueOverBounds, hk1, ?_, ?_, ?_⟩
      · rw [getElem?_insertAt _ _ _ hk2, if_neg (Nat.lt_irrefl _), if_pos rfl,
          ← Option.some.inj hk]
        simp [newBatchFor, hc.1]
      · rw [hc.2.1]
        rfl
      · rw [hc.2.2]
        rfl
    · obtain ⟨i, b, h1, h2, h3⟩ := h.merging k1 m a hk
      refine ⟨if i < k then i else i + 1, b, ?_, getElem?_insertAt_old _ _ _ hk2 _ _ h2, h3⟩
      split <;> omega

/-! ### The target of an operation -/

theorem derefMerging_spec (bs : List (Option Batch)) (a : Nat) (b : MergingDrawBatch)
    (h : derefMerging bs a = some b) :
    ∃ i : Nat, bs[i]? = some (some (Batch.merging a b)) := by
  induction bs with
  | nil => simp [derefMerging] at h
  | cons x rest ih =>
    simp only [derefMerging, List.findSome?_cons] at h
    split at h
    · rename_i b1 hb1
      refine ⟨0, ?_⟩
      split at hb1
      · rename_i a1 b2
        split at hb1
        · rename_i ha
          simp only [Option.some.injEq] at hb1 h
          rw [List.getElem?_cons_zero, ha, hb1, h]
        · cases hb1
      · cases hb1
    · obtain ⟨i, hi⟩ := ih h
      exact ⟨i + 1, by rw [List.getElem?_cons_succ]; exact hi⟩

/-- A candidate target is the open merging batch of the batch-kind and merge-key, with
which the operation can merge, or the plain batch of the batch-kind; it lies in the
window. -/
theorem candidateTarget_spec (l : DeferredDisplayList) (op : DrawOp)
    (st : DeferredDisplayState) (info : DeferInfo) (a : Nat) (h : WF l)
    (hc : l.candidateTarget op st info = some a) :
    ∃ t b, l.mEarliestBatchIndex ≤ t ∧ l.mBatches[t]? = some (some b) ∧ b.addr? = some a ∧
      ((info.mergeable = true ∧ ∃ mb, b = Batch.merging a mb ∧
          mb.mBatchId = info.batchId ∧ mb.mMergeId = info.mergeId ∧
          mb.canMergeWith op st = true) ∨
        (info.mergeable = false ∧ ∃ db, b = Batch.draw a db ∧ db.mBatchId = info.batchId)) := by
  unfold DeferredDisplayList.candidateTarget at hc
  cases hm : info.mergeable
  · simp only [hm, Bool.false_eq_true, if_false] at hc
    obtain ⟨t, db, h1, h2, h3⟩ := h.lookup _ _ hc
    exact ⟨t, _, h1, h2, rfl, Or.inr ⟨rfl, db, rfl, h3⟩⟩
  · simp only [hm, if_true] at hc
    cases hlook : l.mMergingBatches info.batchId info.mergeId with
    | none => simp [hlook] at hc
    | some a1 =>
      simp only [hlook] at hc
      cases hd : derefMerging l.mBatches a1 with
      | none => simp [hd] at hc
      | some mb =>
        simp only [hd] at hc
        split at hc
        · rename_i hcan
          have ha : a1 = a := Option.some.inj hc
          subst ha
          obtain ⟨t, mb2, h1, h2, h3, h4⟩ := h.merging _ _ _ hlook
          obtain ⟨i, hi⟩ := derefMerging_spec _ _ _ hd
          have hit : i = t := addr_unique _ h.addr_nodup i t _ _ a1 hi h2 rfl rfl
          subst hit
          rw [hi] at h2
          have hmb : mb = mb2 := by
            have := Option.some.inj (Option.some.inj h2)
            injection this
          subst hmb
          exact ⟨i, _, h1, hi, rfl, Or.inl ⟨rfl, mb, rfl, h3, h4, hcan⟩⟩
        · cases hc

/-- What `findTarget` returns on a well-formed engine: a target the operation may join,
or an insertion index in the window from which on no slot intersects the bounds of the
operation. -/
theorem findTarget_spec (l : DeferredDisplayList) (op : DrawOp)
    (st : DeferredDisplayState) (info : DeferInfo) (h : WF l) :
    (∀ a, (l.findTarget op st info).1 = some a →
      l.candidateTarget op st info = some a ∧ ∃ t b, Joinable l op st info a t b) ∧
    ((l.findTarget op st info).1 = none →
      l.mEarliestBatchIndex ≤ (l.findTarget op st info).2 ∧
      (l.findTarget op st info).2 ≤ l.mBatches.length ∧
      ∀ j s, (l.findTarget op st info).2 ≤ j → l.mBatches[j]? = some s →
        slotClear st.mBounds s) := by
  unfold DeferredDisplayList.findTarget
  dsimp only
  split
  · have hvac : ∀ j s, l.mBatches.length ≤ j → l.mBatches[j]? = some s →
        slotClear st.mBounds s := by
      intro j s hj hs
      have := lt_length_of_getElem? _ _ _ hs
      omega
    obtain ⟨r1, r2, r3, r4, r5⟩ := scanBack_spec l.mBatches l.mEarliestBatchIndex info.batchId
      st.mBounds h.batches l.mBatches.length (l.candidateTarget op st info) l.mBatches.length
      (Nat.le_refl _) (Nat.le_refl _) h.earliest_le hvac
    refine ⟨?_, fun hn => ⟨r2, r3, r4 hn⟩⟩
    intro a ha
    have hcand : l.candidateTarget op st info = some a := by
      rcases r1 with r1 | r1
      · rw [r1] at ha
        cases ha
      · rw [← r1]
        exact ha
    refine ⟨hcand, ?_⟩
    obtain ⟨t0, b0, c1, c2, c3, c4⟩ := candidateTarget_spec l op st info a h hcand
    obtain ⟨t, s, d1, d2, d3, d4, d5⟩ := r5 a ha
      ⟨t0, some b0, c1, lt_length_of_getElem? _ _ _ c2, c2, by simpa [slotAddr] using c3⟩
      (fun i hi1 hi2 => h.window i hi1 hi2)
    have htt : t = t0 := addr_unique _ h.addr_nodup t t0 s (some b0) a d3 c2 d4
      (by simpa [slotAddr] using c3)
    subst htt
    exact ⟨t, b0, ⟨c1, c2, c3, d5, c4⟩⟩
  · rename_i hcond
    simp only [Bool.or_eq_true, not_or, Bool.not_eq_true, Option.not_isSome,
      Option.isNone_iff_eq_none] at hcond
    refine ⟨?_, ?_⟩
    · intro a ha
      dsimp only at ha
      rw [hcond.1] at ha
      cases ha
    · intro _
      refine ⟨h.earliest_le, Nat.le_refl _, ?_⟩
      intro j s hj hs
      have := lt_length_of_getElem? _ _ _ hs
      dsimp only at hj
      omega

theorem deferDrawOp_infoOf (l : DeferredDisplayList) (r : OpenGLRenderer) (op : DrawOp)
    (st : DeferredDisplayState) (info : DeferInfo)
    (h : l.deferDrawOp r op = some (st, info)) : InfoOf op info := by
  unfold DeferredDisplayList.deferDrawOp at h
  dsimp only at h
  split at h
  · cases h
  · split at h
    · cases h
    · simp only [Option.some.injEq, Prod.mk.injEq] at h
      rw [← h.2]
      refine ⟨rfl, rfl, ?_⟩
      intro hm
      simp only [Bool.and_eq_true] at hm
      exact hm.1

/-- The four ways `insertDrawOp` places an operation on a well-formed engine. -/
theorem insertDrawOp_outcome (l : DeferredDisplayList) (r : OpenGLRenderer) (op : DrawOp)
    (st : DeferredDisplayState) (info : DeferInfo) (h : WF l) :
    (r.drawReorderDisabled = true ∧
      l.insertDrawOp r op st info = l.appendAlone op st info) ∨
    (r.drawReorderDisabled = false ∧ l.mBatches ≠ [] ∧ st.mBounds.isEmpty = true ∧
      l.insertDrawOp r op st info = (l.appendAlone op st info).resetBatchingState) ∨
    (r.drawReorderDisabled = false ∧ l.mBatches ≠ [] ∧ st.mBounds.isEmpty = false ∧
      ∃ a t b, Joinable l op st info a t b ∧ l.candidateTarget op st info = some a ∧
        l.insertDrawOp r op st info = l.joinAt a op st info.opaqueOverBounds) ∨
    (r.drawReorderDisabled = false ∧ (l.mBatches = [] ∨ st.mBounds.isEmpty = false) ∧
      ∃ k, l.mEarliestBatchIndex ≤ k ∧ k ≤ l.mBatches.length ∧
        (∀ j s, k ≤ j → l.mBatches[j]? = some s → slotClear st.mBounds s) ∧
        l.insertDrawOp r op st info = l.createAt r op st info k) := by
  cases hr : r.drawReorderDisabled
  · cases hbs : l.mBatches with
    | nil =>
      have he : l.insertDrawOp r op st info = l.createAt r op st info 0 := by
        unfold DeferredDisplayList.insertDrawOp
        simp only [hr, hbs, Bool.false_eq_true, if_false, List.isEmpty_nil, Bool.not_true,
          List.length_nil]
        rw [DeferredDisplayList.placeInBatch_none _ _ _ _ _ _ h.addr_lt]
      refine Or.inr (Or.inr (Or.inr ⟨rfl, Or.inl rfl, 0, ?_, Nat.le_refl _, ?_, he⟩))
      · have := h.earliest_le
        rw [hbs] at this
        simpa using this
      · intro j s _ hs
        simp at hs
    | cons x rest =>
      rw [← hbs]
      have hne : l.mBatches ≠ [] := by rw [hbs]; exact List.cons_ne_nil _ _
      have hie : l.mBatches.isEmpty = false := by rw [hbs]; rfl
      cases hemp : st.mBounds.isEmpty
      · have he : l.insertDrawOp r op st info =
            l.placeInBatch r op st info (l.findTarget op st info).1
              (l.findTarget op st info).2 := by
          unfold DeferredDisplayList.insertDrawOp
          simp only [hr, hie, hemp, Bool.false_eq_true, if_false, Bool.not_false, if_true]
        obtain ⟨f1, f2⟩ := findTarget_spec l op st info h
        cases hres : (l.findTarget op st info).1 with
        | none =>
          obtain ⟨g1, g2, g3⟩ := f2 hres
          refine Or.inr (Or.inr (Or.inr
            ⟨rfl, Or.inr rfl, (l.findTarget op st info).2, g1, g2, g3, ?_⟩))
          rw [he, hres, DeferredDisplayList.placeInBatch_none _ _ _ _ _ _ h.addr_lt]
        | some a =>
          obtain ⟨g1, t, b, g2⟩ := f1 a hres
          refine Or.inr (Or.inr (Or.inl ⟨rfl, hne, rfl, a, t, b, g2, g1, ?_⟩))
          rw [he, hres, DeferredDisplayList.placeInBatch_some]
      · have he : l.insertDrawOp r op st info =
            (l.appendAlone op st info).resetBatchingState := by
          unfold DeferredDisplayList.insertDrawOp
          simp only [hr, hie, hemp, Bool.false_eq_true, if_false, Bool.not_false, if_true]
        exact Or.inr (Or.inl ⟨rfl, hne, rfl, he⟩)
  · have he : l.insertDrawOp r op st info = l.appendAlone op st info := by
      unfold DeferredDisplayList.insertDrawOp
      simp only [hr, if_true]
    exact Or.inl ⟨rfl, he⟩

theorem wf_insertDrawOp (l : DeferredDisplayList) (r : OpenGLRenderer) (op : DrawOp)
    (st : DeferredDisplayState) (info : DeferInfo) (hinfo : InfoOf op info) (h : WF l) :
    WF (l.insertDrawOp r op st info) := by
  rcases insertDrawOp_outcome l r op st info h with ⟨_, he⟩ | ⟨_, _, _, he⟩ |
    ⟨_, _, _, a, t, b, hj, _, he⟩ | ⟨_, _, k, hk1, hk2, _, he⟩
  · rw [he]
    exact wf_appendAlone l op st info hinfo h
  · rw [he]
    exact wf_reset _ (baseWF_appendAlone l op st info hinfo h.toBaseWF)
  · rw [he]
    exact wf_joinAt l op st info a t b hinfo hj h
  · rw [he]
    exact wf_createAt l r op st info k hinfo hk1 hk2 h

theorem wf_addDrawOp (l : DeferredDisplayList) (r : OpenGLRenderer) (op : DrawOp) (h : WF l) :
    WF (l.addDrawOp r op) := by
  unfold DeferredDisplayList.addDrawOp
  cases hd : l.deferDrawOp r op with
  | none => exact h
  | some p =>
    obtain ⟨st, info⟩ := p
    exact wf_insertDrawOp _ r op st info (deferDrawOp_infoOf l r op st info hd)
      (wf_avoidOverdraw l st info h)

theorem wf_step (l : DeferredDisplayList) (c : Cmd) (h : WF l) : WF (step l c) := by
  cases c with
  | clear => exact wf_clear l
  | addClip r op => exact wf_addClip l r op h
  | addSaveLayer r op n => exact wf_addSaveLayer l r op n h
  | addSave r op n => exact wf_addSave l r op n h
  | addRestoreToCount r op n => exact wf_addRestoreToCount l r op n h
  | addDrawOp r op => exact wf_addDrawOp l r op h

theorem wf_run (cmds : List Cmd) : ∀ l, WF l → WF (run l cmds) := by
  induction cmds with
  | nil => intro l h; exact h
  | cons c rest ih => intro l h; exact ih _ (wf_step l c h)

theorem run_append (l : DeferredDisplayList) (xs ys : List Cmd) :
    run l (xs ++ ys) = run (run l xs) ys := by
  simp [run, List.foldl_append]

/-! ### Replay order -/

theorem slotOps_discardSlot (s : Option Batch) : (slotOps (discardSlot s)).Sublist (slotOps s) := by
  rcases discardSlot_cases s with h | ⟨h, _⟩
  · rw [h]
  · rw [h]
    exact List.nil_sublist _

theorem entries_discardRange (lo hi : Nat) (bs : List (Option Batch)) :
    ∀ i, (entries (discardRange lo hi i bs)).Sublist (entries bs) := by
  induction bs with
  | nil => intro i; exact List.Sublist.refl _
  | cons x rest ih =>
    intro i
    simp only [discardRange, entries]
    refine List.Sublist.append ?_ (ih _)
    split
    · exact slotOps_discardSlot x
    · exact List.Sublist.refl _

theorem entries_avoidOverdraw (l : DeferredDisplayList) (st : DeferredDisplayState)
    (info : DeferInfo) :
    (entries (l.avoidOverdraw st info).mBatches).Sublist (entries l.mBatches) := by
  unfold DeferredDisplayList.avoidOverdraw
  split
  · exact entries_discardRange _ _ _ _
  · exact List.Sublist.refl _

theorem clear_of_drop (bs : List (Option Batch)) (k : Nat) (bounds : Rect)
    (h : ∀ j s, k ≤ j → bs[j]? = some s → slotClear bounds s) :
    ∀ x ∈ entries (bs.drop k), bounds.intersects x.state.mBounds = false := by
  intro x hx
  obtain ⟨s, hs, hxs⟩ := (mem_entries _ _).1 hx
  obtain ⟨i, hi⟩ := List.mem_iff_getElem?.1 hs
  rw [List.getElem?_drop] at hi
  exact h (k + i) s (by omega) hi x hxs

/-- Where `insertDrawOp` puts the new member in replay order: the earlier members keep
their order, and no member that follows the new one intersects its bounds. -/
theorem entries_insertDrawOp (l : DeferredDisplayList) (r : OpenGLRenderer) (op : DrawOp)
    (st : DeferredDisplayState) (info : DeferInfo) (h : WF l) :
    ∃ L1 L2, entries (l.insertDrawOp r op st info).mBatches = L1 ++ ⟨op, st⟩ :: L2 ∧
      entries l.mBatches = L1 ++ L2 ∧
      ∀ x ∈ L2, st.mBounds.intersects x.state.mBounds = false := by
  rcases insertDrawOp_outcome l r op st info h with ⟨_, he⟩ | ⟨_, _, _, he⟩ |
    ⟨_, _, _, a, t, b, hj, _, he⟩ | ⟨_, _, k, hk1, hk2, hclear, he⟩
  · refine ⟨entries l.mBatches, [], ?_, by simp, by simp⟩
    rw [he]
    simp [DeferredDisplayList.appendAlone, entries_append, entries, slotOps, Batch.ops,
      DrawBatch.add, DrawBatch.new]
  · refine ⟨entries l.mBatches, [], ?_, by simp, by simp⟩
    rw [he]
    simp [DeferredDisplayList.appendAlone, DeferredDisplayList.resetBatchingState,
      entries_append, entries, slotOps, Batch.ops, DrawBatch.add, DrawBatch.new]
  · have hpd : b.purelyDrawBatch = true := by
      rcases hj.variant with ⟨_, mb, rfl, _⟩ | ⟨_, db, rfl, _⟩ <;> rfl
    refine ⟨entries (l.mBatches.take t) ++ b.ops, entries (l.mBatches.drop (t + 1)), ?_, ?_, ?_⟩
    · rw [he]
      simp only [DeferredDisplayList.joinAt]
      rw [map_addAt_eq a op st _ _ h.addr_nodup t b hj.at_index hj.addr, entries_append]
      simp [entries, slotOps, Batch.ops_add b op st _ hpd]
    · conv_lhs => rw [split_at l.mBatches t (some b) hj.at_index]
      rw [entries_append]
      simp [entries, slotOps]
    · exact clear_of_drop _ _ _ (fun j s hjt hs => hj.clear_after j s (by omega) hs)
  · refine ⟨entries (l.mBatches.take k), entries (l.mBatches.drop k), ?_, ?_, ?_⟩
    · rw [he]
      simp only [DeferredDisplayList.createAt]
      rw [entries_insertAt]
      simp [slotOps, Batch.ops_newBatchFor]
    · exact entries_take_drop _ _
    · exact clear_of_drop _ _ _ hclear

theorem deferDrawOp_state_op (l : DeferredDisplayList) (r : OpenGLRenderer) (op : DrawOp) :
    l.addDrawOp r op = l ∨
      ∃ st info, l.deferDrawOp r op = some (st, info) ∧
        l.addDrawOp r op = (l.avoidOverdraw st info).insertDrawOp r op st info := by
  unfold DeferredDisplayList.addDrawOp
  cases hd : l.deferDrawOp r op with
  | none => exact Or.inl rfl
  | some p => exact Or.inr ⟨p.1, p.2, rfl, rfl⟩

/-- Replay order after one call: the members are members from before in the same order,
apart from the member a call of `addDrawOp` adds, which no later member intersects. -/
theorem entries_step (l : DeferredDisplayList) (c : Cmd) (h : WF l) :
    (entries (step l c).mBatches).Sublist (entries l.mBatches) ∨
    ∃ r op st L1 L2, c = Cmd.addDrawOp r op ∧
      entries (step l c).mBatches = L1 ++ ⟨op, st⟩ :: L2 ∧
      (L1 ++ L2).Sublist (entries l.mBatches) ∧
      ∀ x ∈ L2, st.mBounds.intersects x.state.mBounds = false := by
  cases c with
  | clear =>
    left
    simp only [step, DeferredDisplayList.clear, entries]
    exact List.nil_sublist _
  | addClip r op =>
    left
    simp only [step, DeferredDisplayList.addClip]
    split
    · split <;>
        simp [DeferredDisplayList.storeStateOpBarrier, DeferredDisplayList.resetBatchingState,
          entries_append, entries, slotOps, Batch.ops]
    · exact List.Sublist.refl _
  | addSaveLayer r op n =>
    left
    simp [step, DeferredDisplayList.addSaveLayer, DeferredDisplayList.storeStateOpBarrier,
      DeferredDisplayList.resetBatchingState, entries_append, entries, slotOps, Batch.ops]
  | addSave r op n =>
    left
    simp only [step, DeferredDisplayList.addSave]
    split
    · simp [DeferredDisplayList.storeStateOpBarrier, DeferredDisplayList.resetBatchingState,
        entries_append, entries, slotOps, Batch.ops]
    · exact List.Sublist.refl _
  | addRestoreToCount r op n =>
    left
    simp only [step, DeferredDisplayList.addRestoreToCount]
    split
    · split <;> simp [DeferredDisplayList.resetBatchingState]
    · split
      · split <;> simp [DeferredDisplayList.resetBatchingState]
      · split <;>
          simp [DeferredDisplayList.storeRestoreToCountBarrier,
            DeferredDisplayList.resetBatchingState, entries_append, entries, slotOps, Batch.ops]
  | addDrawOp r op =>
    rcases deferDrawOp_state_op l r op with he | ⟨st, info, _, he⟩
    · left
      simp only [step, he]
      exact List.Sublist.refl _
    · right
      obtain ⟨L1, L2, h1, h2, h3⟩ := entries_insertDrawOp (l.avoidOverdraw st info) r op st info
        (wf_avoidOverdraw l st info h)
      refine ⟨r, op, st, L1, L2, rfl, ?_, ?_, h3⟩
      · simp only [step, he, h1]
      · rw [← h2]
        exact entries_avoidOverdraw l st info

theorem drawIds_append (xs ys : List Cmd) : drawIds (xs ++ ys) = drawIds xs ++ drawIds ys := by
  simp [drawIds, List.filterMap_append]

theorem nodup_index_eq (l : List Nat) (h : l.Nodup) (i j : Nat) (x : Nat)
    (hi : l[i]? = some x) (hj : l[j]? = some x) : i = j := by
  have hil := lt_length_of_getElem? _ _ _ hi
  exact List.getElem?_inj hil h (by rw [hi, hj])

theorem recordedBefore_irrefl (cmds : List Cmd) (h : (drawIds cmds).Nodup) (a : Nat) :
    ¬ recordedBefore cmds a a := by
  rintro ⟨i, j, hij, hi, hj⟩
  have := nodup_index_eq _ h i j a hi hj
  omega

theorem recordedBefore_of_append (cmds : List Cmd) (c : Cmd)
    (h : (drawIds (cmds ++ [c])).Nodup) (a b : Nat) (hb : b ∈ drawIds cmds)
    (hr : recordedBefore (cmds ++ [c]) a b) : recordedBefore cmds a b := by
  obtain ⟨i, j, hij, hi, hj⟩ := hr
  obtain ⟨j2, hj2⟩ := List.mem_iff_getElem?.1 hb
  have hj2len := lt_length_of_getElem? _ _ _ hj2
  rw [drawIds_append] at h hi hj
  have hjj : j = j2 := nodup_index_eq _ h j j2 b hj (getElem?_append_old _ _ _ _ hj2)
  subst hjj
  refine ⟨i, j, hij, ?_, hj2⟩
  rw [List.getElem?_append_left (by omega)] at hi
  exact hi

theorem not_recordedBefore_new (cmds : List Cmd) (r : OpenGLRenderer) (op : DrawOp)
    (h : (drawIds (cmds ++ [Cmd.addDrawOp r op])).Nodup) (b : Nat) :
    ¬ recordedBefore (cmds ++ [Cmd.addDrawOp r op]) op.id b := by
  rintro ⟨i, j, hij, hi, hj⟩
  have hlast : (drawIds (cmds ++ [Cmd.addDrawOp r op]))[(drawIds cmds).length]? = some op.id := by
    rw [drawIds_append, List.getElem?_append_right (Nat.le_refl _)]
    simp [drawIds, Cmd.drawId?]
  have hi2 := nodup_index_eq _ h i _ op.id hi hlast
  have hjlen := lt_length_of_getElem? _ _ _ hj
  rw [drawIds_append, List.length_append] at hjlen
  simp only [drawIds, Cmd.drawId?, List.filterMap_cons, List.filterMap_nil,
    List.length_singleton] at hjlen hi2
  omega

theorem ordered_extend (cmds : List Cmd) (c : Cmd) (es : List OpStatePair)
    (h : (drawIds (cmds ++ [c])).Nodup) (hids : ∀ e ∈ es, e.op.id ∈ drawIds cmds)
    (ho : Ordered cmds es) : Ordered (cmds ++ [c]) es := by
  unfold Ordered at ho ⊢
  refine List.Pairwise.imp_of_mem ?_ ho
  intro e1 e2 h1 _ hR hn
  exact hR ⟨recordedBefore_of_append cmds c h _ _ (hids e1 h1) hn.1, hn.2⟩

/-- Along every run from the initial engine the members come from recorded operations and
are kept in an order that respects the recording order of intersecting operations. -/
theorem ordered_run (bounds : Rect) (avoid : Bool) (cmds : List Cmd)
    (hn : (drawIds cmds).Nodup) :
    (∀ e ∈ entries (run (DeferredDisplayList.init bounds avoid) cmds).mBatches,
      e.op.id ∈ drawIds cmds) ∧
    Ordered cmds (entries (run (DeferredDisplayList.init bounds avoid) cmds).mBatches) := by
  induction cmds using List.reverseRecOn with
  | nil =>
    simp [run, DeferredDisplayList.init, DeferredDisplayList.clear, entries, Ordered]
  | append_singleton cmds c ih =>
    have hn1 : (drawIds cmds).Nodup := by
      rw [drawIds_append] at hn
      exact (List.nodup_append.1 hn).1
    obtain ⟨ids, ord⟩ := ih hn1
    have hwf : WF (run (DeferredDisplayList.init bounds avoid) cmds) :=
      wf_run cmds _ (wf_init bounds avoid)
    have hsub : ∀ x, x ∈ drawIds cmds → x ∈ drawIds (cmds ++ [c]) := by
      intro x hx
      rw [drawIds_append]
      exact List.mem_append_left _ hx
    have hext := ordered_extend cmds c _ hn ids ord
    rw [run_append]
    have hstep : run (run (DeferredDisplayList.init bounds avoid) cmds) [c] =
        step (run (DeferredDisplayList.init bounds avoid) cmds) c := rfl
    rw [hstep]
    rcases entries_step _ c hwf with hs | ⟨r, op, st, L1, L2, hc, he, hs, hclear⟩
    · exact ⟨fun e he => hsub _ (ids e (hs.subset he)), List.Pairwise.sublist hs hext⟩
    · subst hc
      rw [he]
      have hp := List.Pairwise.sublist hs hext
      rw [List.pairwise_append] at hp
      refine ⟨?_, ?_⟩
      · intro e hmem
        rw [List.mem_append, List.mem_cons] at hmem
        have : e = ⟨op, st⟩ ∨ e ∈ L1 ++ L2 := by
          rw [List.mem_append]
          tauto
        rcases this with h1 | h1
        · subst h1
          rw [drawIds_append]
          simp [drawIds, Cmd.drawId?]
        · exact hsub _ (ids e (hs.subset h1))
      · unfold Ordered
        rw [List.pairwise_append, List.pairwise_cons]
        refine ⟨hp.1, ⟨?_, hp.2.1⟩, ?_⟩
        · intro b hb hcon
          have := hclear b hb
          dsimp only at hcon
          rw [this] at hcon
          exact Bool.noConfusion hcon.2
        · intro a ha b hb
          rw [List.mem_cons] at hb
          rcases hb with hb | hb
          · subst hb
            intro hcon
            exact not_recordedBefore_new cmds r op hn _ hcon.1
          · exact hp.2.2 a ha b hb

theorem pair_sublist {α : Type} (l : List α) :
    ∀ (k k2 : Nat) (A B : α), l[k]? = some A → l[k2]? = some B → k < k2 →
      [A, B].Sublist l := by
  induction l with
  | nil => intro k k2 A B h; simp at h
  | cons x xs ih =>
    intro k k2 A B hA hB hlt
    cases k2 with
    | zero => omega
    | succ k2 =>
      rw [List.getElem?_cons_succ] at hB
      cases k with
      | zero =>
        rw [List.getElem?_cons_zero] at hA
        rw [← Option.some.inj hA]
        exact List.Sublist.cons₂ x (List.singleton_sublist.2 (mem_of_getElem? _ _ _ hB))
      | succ k =>
        rw [List.getElem?_cons_succ] at hA
        exact List.Sublist.cons x (ih k k2 A B hA hB (by omega))

/-- A member in an earlier position precedes a member in a later position in replay
order. -/
theorem located_sublist (bs : List (Option Batch)) :
    ∀ (i k i2 k2 : Nat) (sA sB : Option Batch) (A B : OpStatePair), bs[i]? = some sA →
      (slotOps sA)[k]? = some A → bs[i2]? = some sB → (slotOps sB)[k2]? = some B →
      (i < i2 ∨ (i = i2 ∧ k < k2)) → [A, B].Sublist (entries bs) := by
  induction bs with
  | nil => intro i k i2 k2 sA sB A B h; simp at h
  | cons x xs ih =>
    intro i k i2 k2 sA sB A B hA hAk hB hBk hlt
    cases i with
    | zero =>
      rw [List.getElem?_cons_zero] at hA
      have hxA : x = sA := Option.some.inj hA
      subst hxA
      cases i2 with
      | zero =>
        rw [List.getElem?_cons_zero] at hB
        have hxB : x = sB := Option.some.inj hB
        subst hxB
        have hk : k < k2 := by omega
        exact (pair_sublist _ k k2 A B hAk hBk hk).trans (List.sublist_append_left _ _)
      | succ i2 =>
        rw [List.getElem?_cons_succ] at hB
        have h1 : [A].Sublist (slotOps x) :=
          List.singleton_sublist.2 (mem_of_getElem? _ _ _ hAk)
        have h2 : [B].Sublist (entries xs) :=
          List.singleton_sublist.2
            ((mem_entries _ _).2 ⟨sB, mem_of_getElem? _ _ _ hB, mem_of_getElem? _ _ _ hBk⟩)
        exact List.Sublist.append h1 h2
    | succ i =>
      cases i2 with
      | zero => omega
      | succ i2 =>
        rw [List.getElem?_cons_succ] at hA hB
        exact (ih i k i2 k2 sA sB A B hA hAk hB hBk (by omega)).trans
          (List.sublist_append_right _ _)

/-- C1. Order preservation: after every sequence of calls on a fresh engine in which
every draw operation is recorded once, if operation `A` was recorded before operation `B`,
their bounds intersect (so neither is empty) and both are still in the batch list, then
`A` is replayed before `B`: the batch of `A` has the smaller index, or both are in the
same batch and `A` comes earlier in the member order.  This holds with reordering enabled
or disabled. -/
theorem order_preservation (bounds : Rect) (avoid : Bool) (cmds : List Cmd)
    (hn : (drawIds cmds).Nodup) (A B : OpStatePair) (i k i2 k2 : Nat)
    (hA : located (run (DeferredDisplayList.init bounds avoid) cmds) i k A)
    (hB : located (run (DeferredDisplayList.init bounds avoid) cmds) i2 k2 B)
    (hrec : recordedBefore cmds A.op.id B.op.id)
    (hint : A.state.mBounds.intersects B.state.mBounds = true) :
    i < i2 ∨ (i = i2 ∧ k < k2) := by
  obtain ⟨bA, hA1, hA2⟩ := hA
  obtain ⟨bB, hB1, hB2⟩ := hB
  obtain ⟨_, ord⟩ := ordered_run bounds avoid cmds hn
  have hbad : ¬ [B, A].Sublist
      (entries (run (DeferredDisplayList.init bounds avoid) cmds).mBatches) := by
    intro hsub
    have hp := List.Pairwise.sublist hsub ord
    have hR := List.rel_of_pairwise_cons hp (List.mem_singleton_self A)
    exact hR ⟨hrec, by rw [Rect.intersects_comm]; exact hint⟩
  by_contra hcon
  have hcases : (i2 < i ∨ (i2 = i ∧ k2 < k)) ∨ (i = i2 ∧ k = k2) := by omega
  rcases hcases with h1 | ⟨h1, h2⟩
  · exact hbad (located_sublist _ i2 k2 i k (some bB) (some bA) B A hB1 hB2 hA1 hA2 h1)
  · subst h1 h2
    rw [hA1] at hB1
    have hbb : bA = bB := Option.some.inj (Option.some.inj hB1)
    subst hbb
    rw [hA2] at hB2
    have hAB : A = B := Option.some.inj hB2
    subst hAB
    exact recordedBefore_irrefl cmds hn _ hrec

/-- C1, at a concrete input: two intersecting operations of different batch-kinds end up
in two batches in recording order. -/
theorem order_preservation_witness :
    (drawIds sampleTwoKinds).Nodup ∧
    located (run (DeferredDisplayList.init ⟨0, 0, 100, 100⟩ true) sampleTwoKinds) 0 0
      ⟨sampleOp 1 (some ⟨0, 0, 5, 5⟩) ⟨1, 0, false, false⟩, sampleState ⟨0, 0, 5, 5⟩ 1 false⟩ ∧
    located (run (DeferredDisplayList.init ⟨0, 0, 100, 100⟩ true) sampleTwoKinds) 1 0
      ⟨sampleOp 2 (some ⟨2, 2, 8, 8⟩) ⟨2, 0, false, false⟩, sampleState ⟨2, 2, 8, 8⟩ 1 false⟩ ∧
    ((0 : Nat) < 1 ∨ ((0 : Nat) = 1 ∧ (0 : Nat) < 0)) :=
  have h1 : (drawIds sampleTwoKinds).Nodup := by decide
  have hA : located (run (DeferredDisplayList.init ⟨0, 0, 100, 100⟩ true) sampleTwoKinds) 0 0
      ⟨sampleOp 1 (some ⟨0, 0, 5, 5⟩) ⟨1, 0, false, false⟩, sampleState ⟨0, 0, 5, 5⟩ 1 false⟩ :=
    ⟨Batch.draw 0 ((DrawBatch.new ⟨1, 0, false, false⟩).add
        (sampleOp 1 (some ⟨0, 0, 5, 5⟩) ⟨1, 0, false, false⟩) (sampleState ⟨0, 0, 5, 5⟩ 1 false)
        false),
      by with_unfolding_all decide, by with_unfolding_all decide⟩
  have hB : located (run (DeferredDisplayList.init ⟨0, 0, 100, 100⟩ true) sampleTwoKinds) 1 0
      ⟨sampleOp 2 (some ⟨2, 2, 8, 8⟩) ⟨2, 0, false, false⟩, sampleState ⟨2, 2, 8, 8⟩ 1 false⟩ :=
    ⟨Batch.draw 1 ((DrawBatch.new ⟨2, 0, false, false⟩).add
        (sampleOp 2 (some ⟨2, 2, 8, 8⟩) ⟨2, 0, false, false⟩) (sampleState ⟨2, 2, 8, 8⟩ 1 false)
        false),
      by with_unfolding_all decide, by with_unfolding_all decide⟩
  ⟨h1, hA, hB,
    order_preservation ⟨0, 0, 100, 100⟩ true sampleTwoKinds h1 _ _ 0 0 1 0 hA hB
      ⟨0, 1, by decide, by decide, by decide⟩ (by with_unfolding_all decide)⟩

/-! ### Slots below the window are frozen -/

theorem frozen_refl (n : Nat) (bs : List (Option Batch)) : Frozen n bs bs :=
  fun _ _ _ h => Or.inl h

theorem frozen_mono (n m : Nat) (bs bs2 : List (Option Batch)) (hnm : n ≤ m)
    (h : Frozen m bs bs2) : Frozen n bs bs2 :=
  fun i s hi hs => h i s (by omega) hs

theorem frozen_trans (n m : Nat) (bs bs2 bs3 : List (Option Batch)) (hnm : n ≤ m)
    (h1 : Frozen n bs bs2) (h2 : Frozen m bs2 bs3) : Frozen n bs bs3 := by
  intro i s hi hs
  rcases h1 i s hi hs with h | ⟨h, hb⟩
  · exact h2 i s (by omega) h
  · rcases h2 i none (by omega) h with h3 | ⟨h3, _⟩
    · exact Or.inr ⟨h3, hb⟩
    · exact Or.inr ⟨h3, hb⟩

theorem frozen_append (n : Nat) (bs xs : List (Option Batch)) : Frozen n bs (bs ++ xs) :=
  fun _ _ _ h => Or.inl (getElem?_append_old _ _ _ _ h)

theorem frozen_discard (n lo hi : Nat) (bs : List (Option Batch)) :
    Frozen n bs (discardRange lo hi 0 bs) :=
  fun i s _ h => getElem?_discardRange lo hi bs 0 i s h

theorem frozen_insertAt (k : Nat) (bs : List (Option Batch)) (x : Option Batch)
    (hk : k ≤ bs.length) : Frozen k bs (insertAt bs k x) := by
  intro i s hi hs
  left
  rw [getElem?_insertAt bs k x hk, if_pos hi]
  exact hs

theorem frozen_join (l : DeferredDisplayList) (op : DrawOp) (st : DeferredDisplayState)
    (info : DeferInfo) (a t : Nat) (b : Batch) (h : WF l) (hj : Joinable l op st info a t b) :
    Frozen t l.mBatches (l.mBatches.map (addAt a op st info.opaqueOverBounds)) := by
  intro i s hi hs
  left
  have htl := lt_length_of_getElem? _ _ _ hj.at_index
  rw [map_addAt_eq a op st _ _ h.addr_nodup t b hj.at_index hj.addr,
    List.getElem?_append_left (by rw [List.length_take]; omega), List.getElem?_take_of_lt hi]
  exact hs

theorem frozen_avoidOverdraw (l : DeferredDisplayList) (st : DeferredDisplayState)
    (info : DeferInfo) (n : Nat) (h : WF l) :
    Frozen n l.mBatches (l.avoidOverdraw st info).mBatches ∧
      l.mEarliestBatchIndex ≤ (l.avoidOverdraw st info).mEarliestBatchIndex := by
  unfold DeferredDisplayList.avoidOverdraw
  split
  · refine ⟨frozen_discard _ _ _ _, ?_⟩
    simp only [DeferredDisplayList.resetBatchingState, DeferredDisplayList.discardDrawingBatches,
      length_discardRange]
    exact h.earliest_le
  · exact ⟨frozen_refl _ _, Nat.le_refl _⟩

theorem frozen_insertDrawOp (l : DeferredDisplayList) (r : OpenGLRenderer) (op : DrawOp)
    (st : DeferredDisplayState) (info : DeferInfo) (h : WF l) :
    Frozen l.mEarliestBatchIndex l.mBatches (l.insertDrawOp r op st info).mBatches ∧
      l.mEarliestBatchIndex ≤ (l.insertDrawOp r op st info).mEarliestBatchIndex := by
  rcases insertDrawOp_outcome l r op st info h with ⟨_, he⟩ | ⟨_, _, _, he⟩ |
    ⟨_, _, _, a, t, b, hj, _, he⟩ | ⟨_, _, k, hk1, hk2, _, he⟩
  · rw [he]
    exact ⟨frozen_append _ _ _, Nat.le_refl _⟩
  · rw [he]
    refine ⟨frozen_append _ _ _, ?_⟩
    have := h.earliest_le
    simp only [DeferredDisplayList.resetBatchingState, DeferredDisplayList.appendAlone,
      List.length_append, List.length_singleton]
    omega
  · rw [he]
    exact ⟨frozen_mono _ _ _ _ hj.in_window (frozen_join l op st info a t b h hj), Nat.le_refl _⟩
  · rw [he]
    exact ⟨frozen_mono _ _ _ _ hk1 (frozen_insertAt k _ _ hk2), Nat.le_refl _⟩

theorem frozen_barrier (l : DeferredDisplayList) (r : OpenGLRenderer) (op : StateOp)
    (h : l.mEarliestBatchIndex ≤ l.mBatches.length) :
    Frozen l.mEarliestBatchIndex l.mBatches (l.storeStateOpBarrier r op).mBatches ∧
      l.mEarliestBatchIndex ≤ (l.storeStateOpBarrier r op).mEarliestBatchIndex := by
  refine ⟨frozen_append _ _ _, ?_⟩
  simp only [DeferredDisplayList.storeStateOpBarrier, DeferredDisplayList.resetBatchingState,
    List.length_append, List.length_singleton]
  omega

/-- One call other than `clear` leaves the slots below the window frozen and does not
move the start of the window back. -/
theorem frozen_step (l : DeferredDisplayList) (c : Cmd) (h : WF l) (hc : c.isClear = false) :
    Frozen l.mEarliestBatchIndex l.mBatches (step l c).mBatches ∧
      l.mEarliestBatchIndex ≤ (step l c).mEarliestBatchIndex := by
  cases c with
  | clear => cases hc
  | addClip r op =>
    simp only [step, DeferredDisplayList.addClip]
    split
    · split
      · exact frozen_barrier l r op.toStateOp h.earliest_le
      · exact frozen_barrier l r op.toStateOp h.earliest_le
    · exact ⟨frozen_refl _ _, Nat.le_refl _⟩
  | addSaveLayer r op n => exact frozen_barrier l r op h.earliest_le
  | addSave r op n =>
    simp only [step, DeferredDisplayList.addSave]
    split
    · exact frozen_barrier l r op.toStateOp h.earliest_le
    · exact ⟨frozen_refl _ _, Nat.le_refl _⟩
  | addRestoreToCount r op n =>
    have hle := h.earliest_le
    have h1 : ∀ l1 : DeferredDisplayList, l1.mBatches = l.mBatches →
        l.mEarliestBatchIndex ≤ l1.mEarliestBatchIndex →
        Frozen l.mEarliestBatchIndex l.mBatches
          (match l1.mSaveStack with
          | [] => l1
          | top :: _ =>
            if n > top then l1
            else
              DeferredDisplayList.storeRestoreToCountBarrier
                { l1 with mSaveStack := l1.mSaveStack.dropWhile fun d => decide (d ≥ n) } r op
                (((l1.mSaveStack.dropWhile fun d => decide (d ≥ n)).length : Int) +
                  FLUSH_SAVE_STACK_DEPTH)).mBatches ∧
        l.mEarliestBatchIndex ≤
          (match l1.mSaveStack with
          | [] => l1
          | top :: _ =>
            if n > top then l1
            else
              DeferredDisplayList.storeRestoreToCountBarrier
                { l1 with mSaveStack := l1.mSaveStack.dropWhile fun d => decide (d ≥ n) } r op
                (((l1.mSaveStack.dropWhile fun d => decide (d ≥ n)).length : Int) +
                  FLUSH_SAVE_STACK_DEPTH)).mEarliestBatchIndex := by
      intro l1 hb he
      split
      · rw [hb]
        exact ⟨frozen_refl _ _, he⟩
      · split
        · rw [hb]
          exact ⟨frozen_refl _ _, he⟩
        · simp only [DeferredDisplayList.storeRestoreToCountBarrier,
            DeferredDisplayList.resetBatchingState, List.length_append, List.length_singleton,
            hb]
          refine ⟨frozen_append _ _ _, ?_⟩
          omega
    have h2 : (if (l.recordingComplexClip && decide (n ≤ l.mComplexClipStackStart)) = true then
        DeferredDisplayList.resetBatchingState { l with mComplexClipStackStart := -1 }
        else l).mBatches = l.mBatches ∧
        l.mEarliestBatchIndex ≤
          (if (l.recordingComplexClip && decide (n ≤ l.mComplexClipStackStart)) = true then
            DeferredDisplayList.resetBatchingState { l with mComplexClipStackStart := -1 }
            else l).mEarliestBatchIndex := by
      split
      · exact ⟨rfl, hle⟩
      · exact ⟨rfl, Nat.le_refl _⟩
    exact h1 _ h2.1 h2.2
  | addDrawOp r op =>
    rcases deferDrawOp_state_op l r op with he | ⟨st, info, _, he⟩
    · simp only [step, he]
      exact ⟨frozen_refl _ _, Nat.le_refl _⟩
    · simp only [step, he]
      obtain ⟨f1, e1⟩ := frozen_avoidOverdraw l st info l.mEarliestBatchIndex h
      obtain ⟨f2, e2⟩ := frozen_insertDrawOp (l.avoidOverdraw st info) r op st info
        (wf_avoidOverdraw l st info h)
      exact ⟨frozen_trans _ _ _ _ _ e1 f1 f2, Nat.le_trans e1 e2⟩

theorem frozen_run (cmds : List Cmd) :
    ∀ l, WF l → (∀ c ∈ cmds, c.isClear = false) →
      Frozen l.mEarliestBatchIndex l.mBatches (run l cmds).mBatches ∧
        l.mEarliestBatchIndex ≤ (run l cmds).mEarliestBatchIndex := by
  induction cmds with
  | nil => intro l _ _; exact ⟨frozen_refl _ _, Nat.le_refl _⟩
  | cons c rest ih =>
    intro l h hc
    obtain ⟨f1, e1⟩ := frozen_step l c h (hc c (List.mem_cons_self _ _))
    obtain ⟨f2, e2⟩ := ih (step l c) (wf_step l c h)
      (fun c2 hc2 => hc c2 (List.mem_cons_of_mem _ hc2))
    exact ⟨frozen_trans _ _ _ _ _ e1 f1 f2, Nat.le_trans e1 e2⟩

/-- A barrier lies below the window. -/
theorem barrier_below_window (l : DeferredDisplayList) (h : WF l) (k : Nat) (bar : Batch)
    (hk : l.mBatches[k]? = some (some bar)) (hbar : bar.purelyDrawBatch = false) :
    k < l.mEarliestBatchIndex := by
  by_contra hcon
  obtain ⟨b, hb, hp⟩ := h.window k (by omega) (lt_length_of_getElem? _ _ _ hk)
  rw [hk] at hb
  rw [Option.some.inj (Option.some.inj hb), hp] at hbar
  cases hbar

/-- C2. Barrier non-crossing: once a state-op or restore-to-count barrier sits at index
`k` of the batch list of an engine reached from the initial one, then after any further
calls other than `clear` the barrier is still at index `k`, every slot up to `k` is
unchanged or is an emptied slot of a discarded drawing batch, and every member found in a
slot up to `k` was a member of that slot, at the same place, before: no draw operation
added afterwards is placed at an index up to `k`. -/
theorem barrier_non_crossing (bounds : Rect) (avoid : Bool) (cmds0 cmds1 : List Cmd)
    (k : Nat) (bar : Batch)
    (hk : (run (DeferredDisplayList.init bounds avoid) cmds0).mBatches[k]? = some (some bar))
    (hbar : bar.purelyDrawBatch = false) (hnc : ∀ c ∈ cmds1, c.isClear = false) :
    (run (run (DeferredDisplayList.init bounds avoid) cmds0) cmds1).mBatches[k]? =
      some (some bar) ∧
    (∀ i s, i ≤ k → (run (DeferredDisplayList.init bounds avoid) cmds0).mBatches[i]? = some s →
      (run (run (DeferredDisplayList.init bounds avoid) cmds0) cmds1).mBatches[i]? = some s ∨
      ((run (run (DeferredDisplayList.init bounds avoid) cmds0) cmds1).mBatches[i]? = some none ∧
        ∃ b, s = some b ∧ b.purelyDrawBatch = true)) ∧
    (∀ i j e, i ≤ k →
      located (run (run (DeferredDisplayList.init bounds avoid) cmds0) cmds1) i j e →
      located (run (DeferredDisplayList.init bounds avoid) cmds0) i j e) := by
  have hwf : WF (run (DeferredDisplayList.init bounds avoid) cmds0) :=
    wf_run cmds0 _ (wf_init bounds avoid)
  have hlt := barrier_below_window _ hwf k bar hk hbar
  obtain ⟨hf, _⟩ := frozen_run cmds1 _ hwf hnc
  refine ⟨?_, ?_, ?_⟩
  · rcases hf k (some bar) hlt hk with h1 | ⟨_, b, hb, hp⟩
    · exact h1
    · rw [← Option.some.inj hb, hbar] at hp
      cases hp
  · intro i s hi hs
    exact hf i s (by omega) hs
  · rintro i j e hi ⟨b, hb, he⟩
    have hil : i < (run (DeferredDisplayList.init bounds avoid) cmds0).mBatches.length := by
      have := hwf.earliest_le
      omega
    rcases hf i _ (by omega) (List.getElem?_eq_getElem hil) with h1 | ⟨h1, _⟩
    · rw [hb] at h1
      exact ⟨b, by rw [List.getElem?_eq_getElem hil, ← Option.some.inj h1], he⟩
    · rw [hb] at h1
      cases Option.some.inj h1

/-- C2, at a concrete input: a save-layer barrier at index 0, then a draw operation. -/
theorem barrier_non_crossing_witness :
    (run (run (DeferredDisplayList.init ⟨0, 0, 100, 100⟩ true)
      [Cmd.addSaveLayer (sampleRenderer 1 false) ⟨7⟩ 2]) sampleBarrierThenDraw).mBatches[0]? =
      some (some (Batch.stateOp ⟨7⟩ (sampleState ⟨0, 0, 0, 0⟩ 1 false))) :=
  (barrier_non_crossing ⟨0, 0, 100, 100⟩ true
    [Cmd.addSaveLayer (sampleRenderer 1 false) ⟨7⟩ 2] sampleBarrierThenDraw 0
    (Batch.stateOp ⟨7⟩ (sampleState ⟨0, 0, 0, 0⟩ 1 false))
    (by with_unfolding_all decide) rfl
    (by intro c hc; simp only [sampleBarrierThenDraw, List.mem_singleton] at hc; subst hc; rfl)).1

/-! ### The tie-break rule -/

/-- C3. Tie-break rule: on an engine reached from the initial one, with reordering
enabled, if `addDrawOp` finds a candidate target (stored at address `a` in slot `t`) and
a slot `j` after it has a member whose bounds intersect the bounds of the new operation,
whatever the batch-kind of that slot, then the operation does not join the target: the
batch list is the old one with a newly created batch, holding the operation alone,
inserted after slot `j`. -/
theorem tie_break (bounds : Rect) (avoid : Bool) (cmds : List Cmd) (r : OpenGLRenderer)
    (op : DrawOp) (st : DeferredDisplayState) (info : DeferInfo) (a t j : Nat)
    (sT sJ : Option Batch) (e : OpStatePair)
    (hdefer : (run (DeferredDisplayList.init bounds avoid) cmds).deferDrawOp r op =
      some (st, info))
    (hreorder : r.drawReorderDisabled = false)
    (hcand : ((run (DeferredDisplayList.init bounds avoid) cmds).avoidOverdraw st
      info).candidateTarget op st info = some a)
    (hT : ((run (DeferredDisplayList.init bounds avoid) cmds).avoidOverdraw st
      info).mBatches[t]? = some sT)
    (hTa : slotAddr sT = some a) (htj : t < j)
    (hJ : ((run (DeferredDisplayList.init bounds avoid) cmds).avoidOverdraw st
      info).mBatches[j]? = some sJ)
    (he : e ∈ slotOps sJ) (hint : st.mBounds.intersects e.state.mBounds = true) :
    ∃ k, j < k ∧
      ((run (DeferredDisplayList.init bounds avoid) cmds).addDrawOp r op).mBatches =
        insertAt ((run (DeferredDisplayList.init bounds avoid) cmds).avoidOverdraw st
          info).mBatches k
          (some (newBatchFor ((run (DeferredDisplayList.init bounds avoid) cmds).avoidOverdraw
            st info).nextAddr r op st info)) ∧
      (newBatchFor ((run (DeferredDisplayList.init bounds avoid) cmds).avoidOverdraw
        st info).nextAddr r op st info).ops = [⟨op, st⟩] := by
  have hwf0 : WF (run (DeferredDisplayList.init bounds avoid) cmds) :=
    wf_run cmds _ (wf_init bounds avoid)
  have hwf := wf_avoidOverdraw _ st info hwf0
  have hadd : (run (DeferredDisplayList.init bounds avoid) cmds).addDrawOp r op =
      ((run (DeferredDisplayList.init bounds avoid) cmds).avoidOverdraw st info).insertDrawOp
        r op st info := by
    unfold DeferredDisplayList.addDrawOp
    rw [hdefer]
  generalize (run (DeferredDisplayList.init bounds avoid) cmds).avoidOverdraw st info = l1
    at hwf hadd hcand hT hJ ⊢
  have hnotclear : ¬ slotClear st.mBounds sJ := by
    intro hc
    rw [hc e he] at hint
    cases hint
  rw [hadd]
  rcases insertDrawOp_outcome l1 r op st info hwf with ⟨hr, _⟩ | ⟨_, _, hemp, _⟩ |
    ⟨_, _, _, a2, t2, b2, hj2, hc2, _⟩ | ⟨_, _, k, _, _, hclear, hres⟩
  · rw [hreorder] at hr
    cases hr
  · rw [(Rect.intersects_nonempty _ _ hint).1] at hemp
    cases hemp
  · exfalso
    rw [hcand] at hc2
    have haa : a = a2 := Option.some.inj hc2
    subst haa
    have htt : t = t2 := addr_unique _ hwf.addr_nodup t t2 sT (some b2) a hT hj2.at_index hTa
      (by simpa [slotAddr] using hj2.addr)
    subst htt
    exact hnotclear (hj2.clear_after j sJ htj hJ)
  · refine ⟨k, ?_, ?_, Batch.ops_newBatchFor _ _ _ _ _⟩
    · by_contra hcon
      exact hnotclear (hclear j sJ (by omega) hJ)
    · rw [hres]
      rfl

/-- C3, at a concrete input: a plain batch of kind 1 in slot 0, an intersecting batch of
kind 2 in slot 1, and a new operation of kind 1 that intersects slot 1: it goes into a
new batch at index 2. -/
theorem tie_break_witness :
    ∃ k, 1 < k ∧
      ((run (DeferredDisplayList.init ⟨0, 0, 100, 100⟩ true) sampleTwoKinds).addDrawOp
        (sampleRenderer 1 false)
        (sampleOp 3 (some ⟨4, 4, 6, 6⟩) ⟨1, 0, false, false⟩)).mBatches =
        insertAt ((run (DeferredDisplayList.init ⟨0, 0, 100, 100⟩ true)
          sampleTwoKinds).avoidOverdraw (sampleState ⟨4, 4, 6, 6⟩ 1 false)
          ⟨1, 0, false, false⟩).mBatches k
          (some (newBatchFor ((run (DeferredDisplayList.init ⟨0, 0, 100, 100⟩ true)
            sampleTwoKinds).avoidOverdraw (sampleState ⟨4, 4, 6, 6⟩ 1 false)
            ⟨1, 0, false, false⟩).nextAddr (sampleRenderer 1 false)
            (sampleOp 3 (some ⟨4, 4, 6, 6⟩) ⟨1, 0, false, false⟩)
            (sampleState ⟨4, 4, 6, 6⟩ 1 false) ⟨1, 0, false, false⟩)) ∧
      (newBatchFor ((run (DeferredDisplayList.init ⟨0, 0, 100, 100⟩ true)
        sampleTwoKinds).avoidOverdraw (sampleState ⟨4, 4, 6, 6⟩ 1 false)
        ⟨1, 0, false, false⟩).nextAddr (sampleRenderer 1 false)
        (sampleOp 3 (some ⟨4, 4, 6, 6⟩) ⟨1, 0, false, false⟩)
        (sampleState ⟨4, 4, 6, 6⟩ 1 false) ⟨1, 0, false, false⟩).ops =
        [⟨sampleOp 3 (some ⟨4, 4, 6, 6⟩) ⟨1, 0, false, false⟩,
          sampleState ⟨4, 4, 6, 6⟩ 1 false⟩] :=
  tie_break ⟨0, 0, 100, 100⟩ true sampleTwoKinds (sampleRenderer 1 false)
    (sampleOp 3 (some ⟨4, 4, 6, 6⟩) ⟨1, 0, false, false⟩) (sampleState ⟨4, 4, 6, 6⟩ 1 false)
    ⟨1, 0, false, false⟩ 0 0 1
    (some (Batch.draw 0 ((DrawBatch.new ⟨1, 0, false, false⟩).add
      (sampleOp 1 (some ⟨0, 0, 5, 5⟩) ⟨1, 0, false, false⟩) (sampleState ⟨0, 0, 5, 5⟩ 1 false)
      false)))
    (some (Batch.draw 1 ((DrawBatch.new ⟨2, 0, false, false⟩).add
      (sampleOp 2 (some ⟨2, 2, 8, 8⟩) ⟨2, 0, false, false⟩) (sampleState ⟨2, 2, 8, 8⟩ 1 false)
      false)))
    ⟨sampleOp 2 (some ⟨2, 2, 8, 8⟩) ⟨2, 0, false, false⟩, sampleState ⟨2, 2, 8, 8⟩ 1 false⟩
    (by with_unfolding_all decide) rfl (by with_unfolding_all decide)
    (by with_unfolding_all decide) rfl (by decide) (by with_unfolding_all decide)
    (by with_unfolding_all decide) (by with_unfolding_all decide)

/-! ### Invariants of the batches of a reachable engine -/

theorem wf_reachable (l : DeferredDisplayList) (h : Reachable l) : WF l := by
  obtain ⟨bounds, avoid, cmds, rfl⟩ := h
  exact wf_run cmds _ (wf_init bounds avoid)

theorem addDrawOp_eq (l : DeferredDisplayList) (r : OpenGLRenderer) (op : DrawOp)
    (st : DeferredDisplayState) (info : DeferInfo) (h : l.deferDrawOp r op = some (st, info)) :
    l.addDrawOp r op = (l.avoidOverdraw st info).insertDrawOp r op st info := by
  unfold DeferredDisplayList.addDrawOp
  rw [h]

theorem deferDrawOp_mergeable (l : DeferredDisplayList) (r : OpenGLRenderer) (op : DrawOp)
    (st : DeferredDisplayState) (info : DeferInfo)
    (h : l.deferDrawOp r op = some (st, info)) :
    info.mergeable = (op.deferInfo.mergeable && !l.recordingComplexClip) := by
  unfold DeferredDisplayList.deferDrawOp at h
  dsimp only at h
  split at h
  · cases h
  · split at h
    · cases h
    · simp only [Option.some.injEq, Prod.mk.injEq] at h
      rw [← h.2]

/-- C4 (amended). Batch homogeneity: in every engine reached from the initial one, every
member of a draw batch was deferred with the batch-kind of the batch, and every member of
a merging batch was deferred as mergeable with the merge-key of the batch, so that a
non-mergeable operation is never in a merging batch.  An operation deferred as mergeable
goes into a merging batch (it joins one or a new one is created for it) whenever
reordering is enabled, no complex clip is being recorded, and its bounds are not empty or
the batch list is empty; on the other paths it is placed in a plain batch. -/
theorem batch_homogeneity (l : DeferredDisplayList) (h : Reachable l) :
    (∀ b d, some b ∈ l.mBatches → b.asDraw? = some d →
      ∀ e ∈ d.mOps, e.op.deferInfo.batchId = d.mBatchId) ∧
    (∀ a mb, some (Batch.merging a mb) ∈ l.mBatches →
      ∀ e ∈ mb.mOps, e.op.deferInfo.mergeable = true ∧ e.op.deferInfo.mergeId = mb.mMergeId) ∧
    (∀ r op st info, l.deferDrawOp r op = some (st, info) → op.deferInfo.mergeable = true →
      r.drawReorderDisabled = false → l.recordingComplexClip = false →
      ((l.avoidOverdraw st info).mBatches = [] ∨ st.mBounds.isEmpty = false) →
      (∃ a t mb, (l.avoidOverdraw st info).mBatches[t]? = some (some (Batch.merging a mb)) ∧
        (l.addDrawOp r op).mBatches =
          (l.avoidOverdraw st info).mBatches.take t ++
            some (Batch.merging a (mb.add op st info.opaqueOverBounds)) ::
              (l.avoidOverdraw st info).mBatches.drop (t + 1)) ∨
      (∃ k, (l.addDrawOp r op).mBatches =
        insertAt (l.avoidOverdraw st info).mBatches k
          (some (Batch.merging (l.avoidOverdraw st info).nextAddr
            ((MergingDrawBatch.new info r.viewportWidth r.viewportHeight).add op st
              info.opaqueOverBounds))))) := by
  have hwf := wf_reachable l h
  refine ⟨?_, ?_, ?_⟩
  · intro b d hb hd e he
    exact (Batch.ok_asDraw b (hwf.batches b hb) d hd).1.kind e he
  · intro a mb hb e he
    exact (hwf.batches _ hb).key e he
  · intro r op st info hdefer hm hr hcc hpath
    have hinfo : info.mergeable = true := by
      rw [deferDrawOp_mergeable l r op st info hdefer, hm, hcc]
      rfl
    have hwf1 := wf_avoidOverdraw l st info hwf
    rw [addDrawOp_eq l r op st info hdefer]
    rcases insertDrawOp_outcome _ r op st info hwf1 with ⟨hr2, _⟩ | ⟨_, hne, hemp, _⟩ |
      ⟨_, _, _, a, t, b, hj, _, hres⟩ | ⟨_, _, k, _, _, _, hres⟩
    · rw [hr] at hr2
      cases hr2
    · rcases hpath with hp | hp
      · exact absurd hp hne
      · rw [hp] at hemp
        cases hemp
    · left
      rcases hj.variant with ⟨_, mb, hb, _⟩ | ⟨hm2, _⟩
      · subst hb
        refine ⟨a, t, mb, hj.at_index, ?_⟩
        rw [hres]
        simp only [DeferredDisplayList.joinAt]
        rw [map_addAt_eq a op st _ _ hwf1.addr_nodup t _ hj.at_index hj.addr]
        rfl
      · rw [hinfo] at hm2
        cases hm2
    · right
      refine ⟨k, ?_⟩
      rw [hres]
      simp only [DeferredDisplayList.createAt, newBatchFor, hinfo, if_true]

/-- C4 as stated fails: with reordering disabled a mergeable operation is placed in a
plain batch, and with reordering enabled a mergeable operation of unknown extent recorded
on a non-empty batch list is placed in a plain batch as well. -/
theorem batch_homogeneity_counterexample :
    sampleMergeable.deferInfo.mergeable = true ∧
    (run (DeferredDisplayList.init ⟨0, 0, 100, 100⟩ true)
        [Cmd.addDrawOp sampleRendererNoReorder sampleMergeable]).mBatches =
      [some (Batch.draw 0 ((DrawBatch.new ⟨1, 1, true, false⟩).add sampleMergeable
        (sampleState ⟨0, 0, 1, 1⟩ 1 false) false))] ∧
    sampleMergeableUnknown.deferInfo.mergeable = true ∧
    (run (DeferredDisplayList.init ⟨0, 0, 100, 100⟩ true)
        [Cmd.addDrawOp (sampleRenderer 1 false) sampleMergeable,
         Cmd.addDrawOp (sampleRenderer 1 false) sampleMergeableUnknown]).mBatches.map
        (fun s => (slotIsMerging s, (slotOps s).map fun e => e.op.id)) =
      [(true, [1]), (false, [2])] := by
  refine ⟨rfl, ?_, rfl, ?_⟩
  · with_unfolding_all decide
  · with_unfolding_all decide

/-- C4, at a concrete input: a mergeable operation recorded on the initial engine creates
a merging batch. -/
theorem batch_homogeneity_witness :
    (∃ a t mb, ((DeferredDisplayList.init ⟨0, 0, 100, 100⟩ true).avoidOverdraw
        (sampleState ⟨0, 0, 1, 1⟩ 1 false) ⟨1, 1, true, false⟩).mBatches[t]? =
          some (some (Batch.merging a mb)) ∧
        ((DeferredDisplayList.init ⟨0, 0, 100, 100⟩ true).addDrawOp (sampleRenderer 1 false)
          sampleMergeable).mBatches =
          ((DeferredDisplayList.init ⟨0, 0, 100, 100⟩ true).avoidOverdraw
            (sampleState ⟨0, 0, 1, 1⟩ 1 false) ⟨1, 1, true, false⟩).mBatches.take t ++
            some (Batch.merging a (mb.add sampleMergeable (sampleState ⟨0, 0, 1, 1⟩ 1 false)
              false)) ::
              ((DeferredDisplayList.init ⟨0, 0, 100, 100⟩ true).avoidOverdraw
                (sampleState ⟨0, 0, 1, 1⟩ 1 false) ⟨1, 1, true, false⟩).mBatches.drop (t + 1)) ∨
      (∃ k, ((DeferredDisplayList.init ⟨0, 0, 100, 100⟩ true).addDrawOp (sampleRenderer 1 false)
          sampleMergeable).mBatches =
        insertAt ((DeferredDisplayList.init ⟨0, 0, 100, 100⟩ true).avoidOverdraw
            (sampleState ⟨0, 0, 1, 1⟩ 1 false) ⟨1, 1, true, false⟩).mBatches k
          (some (Batch.merging ((DeferredDisplayList.init ⟨0, 0, 100, 100⟩ true).avoidOverdraw
            (sampleState ⟨0, 0, 1, 1⟩ 1 false) ⟨1, 1, true, false⟩).nextAddr
            ((MergingDrawBatch.new ⟨1, 1, true, false⟩ (sampleRenderer 1 false).viewportWidth
              (sampleRenderer 1 false).viewportHeight).add sampleMergeable
              (sampleState ⟨0, 0, 1, 1⟩ 1 false) false)))) :=
  (batch_homogeneity (DeferredDisplayList.init ⟨0, 0, 100, 100⟩ true)
    ⟨⟨0, 0, 100, 100⟩, true, [], rfl⟩).2.2 (sampleRenderer 1 false) sampleMergeable
    (sampleState ⟨0, 0, 1, 1⟩ 1 false) ⟨1, 1, true, false⟩ (by with_unfolding_all decide) rfl rfl
    (by with_unfolding_all decide) (Or.inl (by with_unfolding_all decide))

/-- C5 (amended). Merge soundness for alpha: in every engine reached from the initial
one, every member of a merging batch passes the alpha test of `canMergeWith` against the
first member of the batch (the test made when the member was added): the two alphas, as
`float` values, differ by less than `0.001f` plus half a unit in its last place, that is
by less than 17179871 / 2 ^ 34, where `0.001f` is 8589935 / 2 ^ 33; hence the alphas of
any two members differ by less than twice that.  The test is made against the first member
only, not for each pair of members. -/
theorem merge_alpha_soundness (l : DeferredDisplayList) (h : Reachable l) (a : Nat)
    (mb : MergingDrawBatch) (hb : some (Batch.merging a mb) ∈ l.mBatches) :
    toFloat (1 / 1000) = 8589935 / 8589934592 ∧
    ∃ first rest, mb.mOps = first :: rest ∧
      (∀ e ∈ mb.mOps, NEQ_FALPHA e.state.mAlpha first.state.mAlpha = false) ∧
      (∀ e ∈ mb.mOps,
        |toFloat e.state.mAlpha - toFloat first.state.mAlpha| < 17179871 / 17179869184) ∧
      (∀ e1 ∈ mb.mOps, ∀ e2 ∈ mb.mOps,
        |toFloat e1.state.mAlpha - toFloat e2.state.mAlpha| <
          2 * (17179871 / 17179869184)) := by
  refine ⟨by rw [toFloat_margin]; norm_num, ?_⟩
  have hok : mb.OK := (wf_reachable l h).batches _ hb
  cases hops : mb.mOps with
  | nil => exact absurd hops hok.toDraw.nonempty
  | cons first rest =>
    have halpha : ∀ e ∈ mb.mOps, NEQ_FALPHA e.state.mAlpha first.state.mAlpha = false :=
      hok.alpha first (by simp [hops])
    rw [hops] at halpha
    refine ⟨first, rest, rfl, halpha,
      fun e he => (NEQ_FALPHA_eq_false _ _).1 (halpha e he), ?_⟩
    intro e1 he1 e2 he2
    have h1 := (NEQ_FALPHA_eq_false _ _).1 (halpha e1 he1)
    have h2 := (NEQ_FALPHA_eq_false _ _).1 (halpha e2 he2)
    rw [abs_lt] at h1 h2 ⊢
    constructor <;> linarith [h1.1, h1.2, h2.1, h2.2]

set_option maxRecDepth 100000 in
/-- C5 as stated fails: three mergeable operations with disjoint bounds and alphas 0.5,
0.501 and 0.499 end up in one merging batch, although the alphas of the second and the
third differ by more than 0.001 and fail the alpha test against each other.  And two
mergeable operations with the alphas 0 and `0.001f`, which differ by more than 0.001, end
up in one merging batch: the margin of the test is `0.001f`, not 0.001. -/
theorem merge_alpha_soundness_counterexample :
    (run (DeferredDisplayList.init ⟨0, 0, 100, 100⟩ true) sampleThreeAlphas).mBatches.map
        (fun s => (slotIsMerging s, (slotOps s).map fun e => e.state.mAlpha)) =
      [(true, [1 / 2, 501 / 1000, 499 / 1000])] ∧
    NEQ_FALPHA (501 / 1000) (499 / 1000) = true ∧
    (run (DeferredDisplayList.init ⟨0, 0, 100, 100⟩ true) sampleMarginAlphas).mBatches.map
        (fun s => (slotIsMerging s, (slotOps s).map fun e => e.op.id)) =
      [(true, [1, 2])] ∧
    (1 / 1000 : ℚ) < |0 - 8589935 / 8589934592| := by
  refine ⟨?_, ?_, ?_, ?_⟩
  · with_unfolding_all decide
  · with_unfolding_all decide
  · with_unfolding_all decide
  · norm_num [abs_of_pos]

set_option maxRecDepth 100000 in
/-- C5, at a concrete input: in the batch of the first two of the three operations above
the alpha 0.501 passes the test against the alpha 0.5 of the first member. -/
theorem merge_alpha_soundness_witness :
    ∃ first rest,
      (((MergingDrawBatch.new ⟨1, 1, true, false⟩ 100 100).add
          (sampleOp 1 (some ⟨0, 0, 1, 1⟩) ⟨1, 1, true, false⟩)
          (sampleState ⟨0, 0, 1, 1⟩ (1 / 2) false) false).add
          (sampleOp 2 (some ⟨1, 0, 2, 1⟩) ⟨1, 1, true, false⟩)
          (sampleState ⟨1, 0, 2, 1⟩ (501 / 1000) false) false).mOps = first :: rest ∧
      (∀ e ∈ (((MergingDrawBatch.new ⟨1, 1, true, false⟩ 100 100).add
          (sampleOp 1 (some ⟨0, 0, 1, 1⟩) ⟨1, 1, true, false⟩)
          (sampleState ⟨0, 0, 1, 1⟩ (1 / 2) false) false).add
          (sampleOp 2 (some ⟨1, 0, 2, 1⟩) ⟨1, 1, true, false⟩)
          (sampleState ⟨1, 0, 2, 1⟩ (501 / 1000) false) false).mOps,
        NEQ_FALPHA e.state.mAlpha first.state.mAlpha = false) ∧
      (∀ e ∈ (((MergingDrawBatch.new ⟨1, 1, true, false⟩ 100 100).add
          (sampleOp 1 (some ⟨0, 0, 1, 1⟩) ⟨1, 1, true, false⟩)
          (sampleState ⟨0, 0, 1, 1⟩ (1 / 2) false) false).add
          (sampleOp 2 (some ⟨1, 0, 2, 1⟩) ⟨1, 1, true, false⟩)
          (sampleState ⟨1, 0, 2, 1⟩ (501 / 1000) false) false).mOps,
        |toFloat e.state.mAlpha - toFloat first.state.mAlpha| < 17179871 / 17179869184) ∧
      (∀ e1 ∈ (((MergingDrawBatch.new ⟨1, 1, true, false⟩ 100 100).add
          (sampleOp 1 (some ⟨0, 0, 1, 1⟩) ⟨1, 1, true, false⟩)
          (sampleState ⟨0, 0, 1, 1⟩ (1 / 2) false) false).add
          (sampleOp 2 (some ⟨1, 0, 2, 1⟩) ⟨1, 1, true, false⟩)
          (sampleState ⟨1, 0, 2, 1⟩ (501 / 1000) false) false).mOps,
        ∀ e2 ∈ (((MergingDrawBatch.new ⟨1, 1, true, false⟩ 100 100).add
          (sampleOp 1 (some ⟨0, 0, 1, 1⟩) ⟨1, 1, true, false⟩)
          (sampleState ⟨0, 0, 1, 1⟩ (1 / 2) false) false).add
          (sampleOp 2 (some ⟨1, 0, 2, 1⟩) ⟨1, 1, true, false⟩)
          (sampleState ⟨1, 0, 2, 1⟩ (501 / 1000) false) false).mOps,
        |toFloat e1.state.mAlpha - toFloat e2.state.mAlpha| <
          2 * (17179871 / 17179869184)) :=
  (merge_alpha_soundness
    (run (DeferredDisplayList.init ⟨0, 0, 100, 100⟩ true)
      [Cmd.addDrawOp (sampleRenderer (1 / 2) false)
          (sampleOp 1 (some ⟨0, 0, 1, 1⟩) ⟨1, 1, true, false⟩),
        Cmd.addDrawOp (sampleRenderer (501 / 1000) false)
          (sampleOp 2 (some ⟨1, 0, 2, 1⟩) ⟨1, 1, true, false⟩)])
    ⟨⟨0, 0, 100, 100⟩, true, _, rfl⟩ 0 _ (by with_unfolding_all decide)).2

/-- C6 (amended). Overlap in merging batches: in every engine reached from the initial
one, if two members of a merging batch overlap, then the batch is a text batch and the
member added later carries no shadow (the member added earlier may carry one); in a
merging batch that is not a text batch no two members overlap. -/
theorem merge_overlap (l : DeferredDisplayList) (h : Reachable l) (a : Nat)
    (mb : MergingDrawBatch) (hb : some (Batch.merging a mb) ∈ l.mBatches) :
    (∀ (i j : Nat) (e1 e2 : OpStatePair), i < j → mb.mOps[i]? = some e1 →
      mb.mOps[j]? = some e2 → e1.state.mBounds.intersects e2.state.mBounds = true →
      mb.toDrawBatch.isTextBatch = true ∧ e2.state.mDrawModifiers.mHasShadow = false) ∧
    (mb.toDrawBatch.isTextBatch = false →
      ∀ (i j : Nat) (e1 e2 : OpStatePair), i ≠ j → mb.mOps[i]? = some e1 →
        mb.mOps[j]? = some e2 → e1.state.mBounds.intersects e2.state.mBounds = false) := by
  have hok : mb.OK := (wf_reachable l h).batches _ hb
  have key : ∀ (i j : Nat) (e1 e2 : OpStatePair), i < j → mb.mOps[i]? = some e1 →
      mb.mOps[j]? = some e2 → e1.state.mBounds.intersects e2.state.mBounds = true →
      mb.toDrawBatch.isTextBatch = true ∧ e2.state.mDrawModifiers.mHasShadow = false := by
    intro i j e1 e2 hij h1 h2 hint
    have hsub := pair_sublist mb.mOps i j e1 e2 h1 h2 hij
    have hp := List.Pairwise.sublist hsub hok.overlap
    have hR := List.rel_of_pairwise_cons hp (List.mem_singleton_self e2)
    exact hR (by rw [Rect.intersects_comm]; exact hint)
  refine ⟨key, ?_⟩
  intro hnt i j e1 e2 hij h1 h2
  cases hint : e1.state.mBounds.intersects e2.state.mBounds
  · rfl
  · exfalso
    rcases Nat.lt_or_gt_of_ne hij with hlt | hlt
    · have := (key i j e1 e2 hlt h1 h2 hint).1
      rw [hnt] at this
      cases this
    · have := (key j i e2 e1 hlt h2 h1 (by rw [Rect.intersects_comm]; exact hint)).1
      rw [hnt] at this
      cases this

set_option maxRecDepth 100000 in
/-- C6 as stated fails: a text operation with a shadow followed by a text operation
without shadow and with the same bounds are merged into one text batch, so two
overlapping members of a merging batch need not both be without shadow. -/
theorem merge_overlap_counterexample :
    (run (DeferredDisplayList.init ⟨0, 0, 100, 100⟩ true) sampleShadowThenText).mBatches.map
        (fun s => (slotIsMerging s,
          (slotOps s).map fun e => (e.state.mBounds, e.state.mDrawModifiers.mHasShadow))) =
      [(true, [((⟨0, 0, 10, 10⟩ : Rect), true), (⟨0, 0, 10, 10⟩, false)])] ∧
    Rect.intersects ⟨0, 0, 10, 10⟩ ⟨0, 0, 10, 10⟩ = true := by
  constructor
  · with_unfolding_all decide
  · with_unfolding_all decide

set_option maxRecDepth 100000 in
/-- C6, at a concrete input: the two text operations above, where the later one carries
no shadow. -/
theorem merge_overlap_witness :
    DrawBatch.isTextBatch (DrawBatch.add (DrawBatch.add (DrawBatch.new ⟨6, 1, true, false⟩)
        (sampleOp 1 (some ⟨0, 0, 10, 10⟩) ⟨6, 1, true, false⟩)
        (sampleState ⟨0, 0, 10, 10⟩ 1 true) false)
        (sampleOp 2 (some ⟨0, 0, 10, 10⟩) ⟨6, 1, true, false⟩)
        (sampleState ⟨0, 0, 10, 10⟩ 1 false) false) = true ∧
      (sampleState ⟨0, 0, 10, 10⟩ 1 false).mDrawModifiers.mHasShadow = false :=
  (merge_overlap (run (DeferredDisplayList.init ⟨0, 0, 100, 100⟩ true) sampleShadowThenText)
    ⟨⟨0, 0, 100, 100⟩, true, _, rfl⟩ 0
    (MergingDrawBatch.add (MergingDrawBatch.add (MergingDrawBatch.new ⟨6, 1, true, false⟩ 100 100)
        (sampleOp 1 (some ⟨0, 0, 10, 10⟩) ⟨6, 1, true, false⟩)
        (sampleState ⟨0, 0, 10, 10⟩ 1 true) false)
        (sampleOp 2 (some ⟨0, 0, 10, 10⟩) ⟨6, 1, true, false⟩)
        (sampleState ⟨0, 0, 10, 10⟩ 1 false) false)
    (by with_unfolding_all decide)).1 0 1
    ⟨sampleOp 1 (some ⟨0, 0, 10, 10⟩) ⟨6, 1, true, false⟩, sampleState ⟨0, 0, 10, 10⟩ 1 true⟩
    ⟨sampleOp 2 (some ⟨0, 0, 10, 10⟩) ⟨6, 1, true, false⟩, sampleState ⟨0, 0, 10, 10⟩ 1 false⟩
    (by decide) (by with_unfolding_all decide) (by with_unfolding_all decide)
    (by with_unfolding_all decide)

/-! ### Unequal alpha -/

theorem mem_insertAt_of_mem (bs : List (Option Batch)) (k : Nat) (x s : Option Batch)
    (h : s ∈ bs) : s ∈ insertAt bs k x := by
  rw [← List.take_append_drop k bs, List.mem_append] at h
  simp only [insertAt, List.mem_append, List.mem_cons]
  tauto

theorem canMergeWith_of_alpha (mb : MergingDrawBatch) (op : DrawOp)
    (st : DeferredDisplayState) (first : OpStatePair) (hfirst : mb.mOps.head? = some first)
    (halpha : 17179871 / 17179869184 ≤ |toFloat st.mAlpha - toFloat first.state.mAlpha|) :
    mb.canMergeWith op st = false := by
  cases hops : mb.mOps with
  | nil => simp [hops] at hfirst
  | cons f rest =>
    rw [hops] at hfirst
    simp only [List.head?_cons, Option.some.injEq] at hfirst
    subst hfirst
    have hneq : NEQ_FALPHA st.mAlpha f.state.mAlpha = true :=
      (NEQ_FALPHA_iff _ _).2 halpha
    unfold MergingDrawBatch.canMergeWith
    split
    · rfl
    · simp only [hops, hneq, if_true]

/-- C7 (amended). Unequal alpha prevents fusion: on an engine reached from the initial
one, let an operation be deferred as mergeable with reordering enabled and non-empty
bounds, and let its alpha, as a `float` value, differ by at least `0.001f` plus half a unit
in its last place (17179871 / 2 ^ 34, where `0.001f` is 8589935 / 2 ^ 33) from the alpha
of the first member of the open merging batch of its batch-kind and merge-key (the entry of
the merge lookup once the overdraw avoidance has run); this is exactly where the alpha
test of the source, whose difference is made in `float`, finds the alphas unequal.  Then
`canMergeWith` returns false, the batch list is the
old one with a new merging batch, holding the operation alone, inserted at some index;
the old batch is still in the list with its members unchanged, and the merge lookup now
points to the new batch. -/
theorem unequal_alpha_prevents_fusion (l : DeferredDisplayList) (h : Reachable l)
    (r : OpenGLRenderer) (op : DrawOp) (st : DeferredDisplayState) (info : DeferInfo)
    (a : Nat) (mb : MergingDrawBatch) (first : OpStatePair)
    (hdefer : l.deferDrawOp r op = some (st, info)) (hm : info.mergeable = true)
    (hr : r.drawReorderDisabled = false) (hne : st.mBounds.isEmpty = false)
    (hlook : (l.avoidOverdraw st info).mMergingBatches info.batchId info.mergeId = some a)
    (hb : some (Batch.merging a mb) ∈ (l.avoidOverdraw st info).mBatches)
    (hfirst : mb.mOps.head? = some first)
    (halpha : 17179871 / 17179869184 ≤ |toFloat st.mAlpha - toFloat first.state.mAlpha|) :
    (NEQ_FALPHA st.mAlpha first.state.mAlpha = true ↔
      17179871 / 17179869184 ≤ |toFloat st.mAlpha - toFloat first.state.mAlpha|) ∧
    mb.canMergeWith op st = false ∧
    ∃ k, (l.addDrawOp r op).mBatches =
        insertAt (l.avoidOverdraw st info).mBatches k
          (some (Batch.merging (l.avoidOverdraw st info).nextAddr
            ((MergingDrawBatch.new info r.viewportWidth r.viewportHeight).add op st
              info.opaqueOverBounds))) ∧
      ((MergingDrawBatch.new info r.viewportWidth r.viewportHeight).add op st
        info.opaqueOverBounds).mOps = [⟨op, st⟩] ∧
      (l.addDrawOp r op).mMergingBatches info.batchId info.mergeId =
        some (l.avoidOverdraw st info).nextAddr ∧
      some (Batch.merging a mb) ∈ (l.addDrawOp r op).mBatches ∧
      a ≠ (l.avoidOverdraw st info).nextAddr := by
  have hwf := wf_avoidOverdraw l st info (wf_reachable l h)
  have hcan := canMergeWith_of_alpha mb op st first hfirst halpha
  refine ⟨NEQ_FALPHA_iff _ _, hcan, ?_⟩
  rw [addDrawOp_eq l r op st info hdefer]
  generalize l.avoidOverdraw st info = l1 at hwf hlook hb ⊢
  have hcand : l1.candidateTarget op st info = none := by
    unfold DeferredDisplayList.candidateTarget
    simp only [hm, if_true, hlook]
    cases hd : derefMerging l1.mBatches a with
    | none => rfl
    | some mb2 =>
      obtain ⟨i, hi⟩ := derefMerging_spec _ _ _ hd
      obtain ⟨i2, hi2⟩ := List.mem_iff_getElem?.1 hb
      have hii : i = i2 := addr_unique _ hwf.addr_nodup i i2 _ _ a hi hi2 rfl rfl
      subst hii
      rw [hi] at hi2
      have hmb : mb2 = mb := by
        have := Option.some.inj (Option.some.inj hi2)
        injection this
      subst hmb
      simp [hcan]
  have halt : a < l1.nextAddr :=
    hwf.addr_lt a ((mem_addrs _ _).2 ⟨_, hb, rfl⟩)
  rcases insertDrawOp_outcome l1 r op st info hwf with ⟨hr2, _⟩ | ⟨_, _, hemp, _⟩ |
    ⟨_, _, _, a2, t2, b2, _, hc2, _⟩ | ⟨_, _, k, _, _, _, hres⟩
  · rw [hr] at hr2
    cases hr2
  · rw [hne] at hemp
    cases hemp
  · rw [hcand] at hc2
    cases hc2
  · refine ⟨k, ?_, ?_, ?_, ?_, by omega⟩
    · rw [hres]
      simp only [DeferredDisplayList.createAt, newBatchFor, hm, if_true]
    · simp [MergingDrawBatch.add, MergingDrawBatch.new, DrawBatch.add, DrawBatch.new]
    · rw [hres]
      simp [DeferredDisplayList.createAt, hm]
    · rw [hres]
      exact mem_insertAt_of_mem _ _ _ _ hb

set_option maxRecDepth 100000 in
/-- C7 as stated fails: a mergeable operation whose alpha differs from that of the open
merging batch does not become the first member of a new merging batch when reordering is
disabled (it is placed in a plain batch and the merge lookup keeps the old batch), nor
when its extent is unknown on a non-empty batch list (it is placed in a plain batch and
the merge lookup is emptied).  And an operation with the alpha `0.001f`, which differs by
more than 0.001 from the alpha 0 of the first member, passes `canMergeWith` and joins the
batch: the margin of the test is `0.001f`, not 0.001. -/
theorem unequal_alpha_prevents_fusion_counterexample :
    ((run (DeferredDisplayList.init ⟨0, 0, 100, 100⟩ true)
        [Cmd.addDrawOp (sampleRenderer (1 / 2) false) sampleMergeable,
         Cmd.addDrawOp sampleRendererNoReorder
           (sampleOp 2 (some ⟨5, 5, 6, 6⟩) ⟨1, 1, true, false⟩)]).mBatches.map
        (fun s => (slotIsMerging s, (slotOps s).map fun e => (e.op.id, e.state.mAlpha))) =
      [(true, [(1, 1 / 2)]), (false, [(2, 1)])] ∧
    (run (DeferredDisplayList.init ⟨0, 0, 100, 100⟩ true)
        [Cmd.addDrawOp (sampleRenderer (1 / 2) false) sampleMergeable,
         Cmd.addDrawOp sampleRendererNoReorder
           (sampleOp 2 (some ⟨5, 5, 6, 6⟩) ⟨1, 1, true, false⟩)]).mMergingBatches 1 1 =
      some 0) ∧
    ((run (DeferredDisplayList.init ⟨0, 0, 100, 100⟩ true)
        [Cmd.addDrawOp (sampleRenderer (1 / 2) false) sampleMergeable,
         Cmd.addDrawOp (sampleRenderer 1 false) sampleMergeableUnknown]).mBatches.map
        (fun s => (slotIsMerging s, (slotOps s).map fun e => (e.op.id, e.state.mAlpha))) =
      [(true, [(1, 1 / 2)]), (false, [(2, 1)])] ∧
    (run (DeferredDisplayList.init ⟨0, 0, 100, 100⟩ true)
        [Cmd.addDrawOp (sampleRenderer (1 / 2) false) sampleMergeable,
         Cmd.addDrawOp (sampleRenderer 1 false) sampleMergeableUnknown]).mMergingBatches 1 1 =
      none) ∧
    ((1 / 1000 : ℚ) < |8589935 / 8589934592 - 0| ∧
      MergingDrawBatch.canMergeWith
        ((MergingDrawBatch.new ⟨1, 1, true, false⟩ 100 100).add
          (sampleOp 1 (some ⟨0, 0, 1, 1⟩) ⟨1, 1, true, false⟩)
          (sampleState ⟨0, 0, 1, 1⟩ 0 false) false)
        (sampleOp 2 (some ⟨1, 0, 2, 1⟩) ⟨1, 1, true, false⟩)
        (sampleState ⟨1, 0, 2, 1⟩ (8589935 / 8589934592) false) = true ∧
      (run (DeferredDisplayList.init ⟨0, 0, 100, 100⟩ true) sampleMarginAlphas).mBatches.map
          (fun s => (slotIsMerging s, (slotOps s).map fun e => e.op.id)) =
        [(true, [1, 2])]) := by
  refine ⟨⟨?_, ?_⟩, ⟨?_, ?_⟩, ?_, ?_, ?_⟩
  · with_unfolding_all decide
  · with_unfolding_all decide
  · with_unfolding_all decide
  · with_unfolding_all decide
  · norm_num [abs_of_pos]
  · with_unfolding_all decide
  · with_unfolding_all decide

set_option maxRecDepth 100000 in
/-- C7, at a concrete input: a second mergeable operation of the same batch-kind and
merge-key with alpha 1 after a first with alpha 0.5. -/
theorem unequal_alpha_prevents_fusion_witness :
    MergingDrawBatch.canMergeWith
      ((MergingDrawBatch.new ⟨1, 1, true, false⟩ 100 100).add sampleMergeable
        (sampleState ⟨0, 0, 1, 1⟩ (1 / 2) false) false)
      (sampleOp 2 (some ⟨5, 5, 6, 6⟩) ⟨1, 1, true, false⟩)
      (sampleState ⟨5, 5, 6, 6⟩ 1 false) = false :=
  (unequal_alpha_prevents_fusion
    (run (DeferredDisplayList.init ⟨0, 0, 100, 100⟩ true)
      [Cmd.addDrawOp (sampleRenderer (1 / 2) false) sampleMergeable])
    ⟨⟨0, 0, 100, 100⟩, true, _, rfl⟩ (sampleRenderer 1 false)
    (sampleOp 2 (some ⟨5, 5, 6, 6⟩) ⟨1, 1, true, false⟩)
    (sampleState ⟨5, 5, 6, 6⟩ 1 false) ⟨1, 1, true, false⟩ 0
    ((MergingDrawBatch.new ⟨1, 1, true, false⟩ 100 100).add sampleMergeable
      (sampleState ⟨0, 0, 1, 1⟩ (1 / 2) false) false)
    ⟨sampleMergeable, sampleState ⟨0, 0, 1, 1⟩ (1 / 2) false⟩
    (by with_unfolding_all decide) rfl rfl (by with_unfolding_all decide)
    (by with_unfolding_all decide) (by with_unfolding_all decide)
    (by with_unfolding_all decide) (by with_unfolding_all decide)).2.1

/-! ### Operations of unknown extent -/

theorem length_avoidOverdraw (l : DeferredDisplayList) (st : DeferredDisplayState)
    (info : DeferInfo) : (l.avoidOverdraw st info).mBatches.length = l.mBatches.length := by
  unfold DeferredDisplayList.avoidOverdraw
  split
  · simp [DeferredDisplayList.resetBatchingState, DeferredDisplayList.discardDrawingBatches,
      length_discardRange]
  · rfl

/-- C10 (amended). Unknown bounds: on an engine reached from the initial one whose batch
list is not empty, with reordering enabled, an operation that is not dropped and whose
stored bounds are empty is placed alone in a new plain batch appended at the end of the
batch list (after the overdraw avoidance, which keeps the length of the list), and the
batching state is reset: both lookups are empty and the window starts behind the new
batch.  After any further calls other than `clear` the slot of the new batch still holds
that batch unchanged or is empty, and every member of a slot up to it was a member of that
slot before: no later operation joins the batch or is placed before it. -/
theorem unknown_bounds (l : DeferredDisplayList) (h : Reachable l) (r : OpenGLRenderer)
    (op : DrawOp) (st : DeferredDisplayState) (info : DeferInfo)
    (hdefer : l.deferDrawOp r op = some (st, info)) (hemp : st.mBounds.isEmpty = true)
    (hr : r.drawReorderDisabled = false) (hne : l.mBatches ≠ []) :
    (l.addDrawOp r op).mBatches =
      (l.avoidOverdraw st info).mBatches ++
        [some (Batch.draw (l.avoidOverdraw st info).nextAddr
          ((DrawBatch.new info).add op st info.opaqueOverBounds))] ∧
    ((DrawBatch.new info).add op st info.opaqueOverBounds).mOps = [⟨op, st⟩] ∧
    (l.avoidOverdraw st info).mBatches.length = l.mBatches.length ∧
    (l.addDrawOp r op).mEarliestBatchIndex = l.mBatches.length + 1 ∧
    (∀ k, (l.addDrawOp r op).mBatchLookup k = none) ∧
    (∀ k m, (l.addDrawOp r op).mMergingBatches k m = none) ∧
    (∀ cmds, (∀ c ∈ cmds, c.isClear = false) →
      ((run (l.addDrawOp r op) cmds).mBatches[l.mBatches.length]? =
          some (some (Batch.draw (l.avoidOverdraw st info).nextAddr
            ((DrawBatch.new info).add op st info.opaqueOverBounds))) ∨
        (run (l.addDrawOp r op) cmds).mBatches[l.mBatches.length]? = some none) ∧
      (∀ i j e, i ≤ l.mBatches.length → located (run (l.addDrawOp r op) cmds) i j e →
        located (l.addDrawOp r op) i j e)) := by
  have hwf0 := wf_reachable l h
  have hwf := wf_avoidOverdraw l st info hwf0
  have hwf2 : WF (l.addDrawOp r op) := wf_addDrawOp l r op hwf0
  have hlen := length_avoidOverdraw l st info
  have hne1 : (l.avoidOverdraw st info).mBatches ≠ [] := by
    intro hcon
    rw [hcon] at hlen
    exact hne (List.length_eq_zero.1 hlen.symm)
  have hres : l.addDrawOp r op =
      ((l.avoidOverdraw st info).appendAlone op st info).resetBatchingState := by
    rw [addDrawOp_eq l r op st info hdefer]
    rcases insertDrawOp_outcome _ r op st info hwf with ⟨hr2, _⟩ | ⟨_, _, _, he⟩ |
      ⟨_, _, hemp2, _⟩ | ⟨_, hpath, _⟩
    · rw [hr] at hr2
      cases hr2
    · exact he
    · rw [hemp] at hemp2
      cases hemp2
    · rcases hpath with hp | hp
      · exact absurd hp hne1
      · rw [hemp] at hp
        cases hp
  have hbatches : (l.addDrawOp r op).mBatches =
      (l.avoidOverdraw st info).mBatches ++
        [some (Batch.draw (l.avoidOverdraw st info).nextAddr
          ((DrawBatch.new info).add op st info.opaqueOverBounds))] := by
    rw [hres]
    rfl
  have hearliest : (l.addDrawOp r op).mEarliestBatchIndex = l.mBatches.length + 1 := by
    rw [hres]
    simp [DeferredDisplayList.resetBatchingState, DeferredDisplayList.appendAlone, hlen]
  have hslot : (l.addDrawOp r op).mBatches[l.mBatches.length]? =
      some (some (Batch.draw (l.avoidOverdraw st info).nextAddr
        ((DrawBatch.new info).add op st info.opaqueOverBounds))) := by
    rw [hbatches, List.getElem?_append_right (by omega), hlen]
    simp
  refine ⟨hbatches, ?_, hlen, hearliest, ?_, ?_, ?_⟩
  · simp [DrawBatch.add, DrawBatch.new]
  · intro k
    rw [hres]
    rfl
  · intro k m
    rw [hres]
    rfl
  · intro cmds hnc
    obtain ⟨hf, _⟩ := frozen_run cmds _ hwf2 hnc
    rw [hearliest] at hf
    refine ⟨?_, ?_⟩
    · rcases hf _ _ (Nat.lt_succ_self _) hslot with h1 | ⟨h1, _⟩
      · exact Or.inl h1
      · exact Or.inr h1
    · rintro i j e hi ⟨b, hb, he⟩
      have hil : i < (l.addDrawOp r op).mBatches.length := by
        rw [hbatches, List.length_append, hlen, List.length_singleton]
        omega
      rcases hf i _ (by omega) (List.getElem?_eq_getElem hil) with h1 | ⟨h1, _⟩
      · rw [hb] at h1
        exact ⟨b, by rw [List.getElem?_eq_getElem hil, ← Option.some.inj h1], he⟩
      · rw [hb] at h1
        cases Option.some.inj h1

set_option maxRecDepth 100000 in
/-- C10 as stated fails on an empty batch list: an operation of unknown extent recorded on
the initial engine is placed in a new batch, but the batching state is not reset (the
lookup of its batch-kind points to the batch and the window still starts at index 0), and
a later operation of the same batch-kind joins that batch. -/
theorem unknown_bounds_counterexample :
    (run (DeferredDisplayList.init ⟨0, 0, 100, 100⟩ true)
      [Cmd.addDrawOp (sampleRenderer 1 false) sampleUnknown]).mBatchLookup 1 = some 0 ∧
    (run (DeferredDisplayList.init ⟨0, 0, 100, 100⟩ true)
      [Cmd.addDrawOp (sampleRenderer 1 false) sampleUnknown]).mEarliestBatchIndex = 0 ∧
    (run (DeferredDisplayList.init ⟨0, 0, 100, 100⟩ true)
      [Cmd.addDrawOp (sampleRenderer 1 false) sampleUnknown,
       Cmd.addDrawOp (sampleRenderer 1 false) samplePlain]).mBatches.map
        (fun s => (slotOps s).map fun e => (e.op.id, e.op.localBounds)) =
      [[(1, none), (2, some ⟨0, 0, 1, 1⟩)]] := by
  refine ⟨?_, ?_, ?_⟩ <;> with_unfolding_all decide

set_option maxRecDepth 100000 in
/-- C10, at a concrete input: an operation of unknown extent recorded after one other
operation. -/
theorem unknown_bounds_witness :
    ((run (DeferredDisplayList.init ⟨0, 0, 100, 100⟩ true)
      [Cmd.addDrawOp (sampleRenderer 1 false) samplePlain]).addDrawOp (sampleRenderer 1 false)
        sampleUnknown).mEarliestBatchIndex =
      (run (DeferredDisplayList.init ⟨0, 0, 100, 100⟩ true)
        [Cmd.addDrawOp (sampleRenderer 1 false) samplePlain]).mBatches.length + 1 :=
  (unknown_bounds
    (run (DeferredDisplayList.init ⟨0, 0, 100, 100⟩ true)
      [Cmd.addDrawOp (sampleRenderer 1 false) samplePlain])
    ⟨⟨0, 0, 100, 100⟩, true, _, rfl⟩ (sampleRenderer 1 false) sampleUnknown
    (sampleState ⟨0, 0, 0, 0⟩ 1 false) ⟨1, 0, false, false⟩
    (by with_unfolding_all decide) (by with_unfolding_all decide) rfl
    (by with_unfolding_all decide)).2.2.2.1

/-! ### Early return, discarding, and the complex-clip window -/

theorem getElem?_discardRange_eq (lo hi : Nat) :
    ∀ (bs : List (Option Batch)) (i j : Nat),
      (discardRange lo hi i bs)[j]? =
        (bs[j]?).map fun s => if lo ≤ i + j ∧ i + j ≤ hi then discardSlot s else s := by
  intro bs
  induction bs with
  | nil => intro i j; simp [discardRange]
  | cons s rest ih =>
    intro i j
    cases j with
    | zero => simp [discardRange]
    | succ j =>
      simp only [discardRange, List.getElem?_cons_succ]
      rw [ih (i + 1) j]
      have e : i + 1 + j = i + (j + 1) := by omega
      rw [e]

theorem discardSlot_barrier (b : Batch) (h : b.purelyDrawBatch = false) :
    discardSlot (some b) = some b := by
  simp [discardSlot, h]

theorem discardSlot_draw (b : Batch) (h : b.purelyDrawBatch = true) :
    discardSlot (some b) = none := by
  simp [discardSlot, h]

theorem discardSlot_none : discardSlot none = none := rfl

/-- C11 (early return).  For every engine, renderer and draw operation: when the operation
reports valid but empty local bounds, or the renderer quick-rejects it while storing its
display state, `addDrawOp` returns the engine as it was, so the batch list, the lookups of
the batching state, the window index, the save stack and the complex-clip window are all
unchanged. -/
theorem early_return (l : DeferredDisplayList) (renderer : OpenGLRenderer) (op : DrawOp)
    (h : (∃ b, op.localBounds = some b ∧ b.isEmpty = true) ∨
      (renderer.storeDisplayState
        { createState with mBounds := op.localBounds.getD Rect.setEmpty }
        l.getDrawOpDeferFlags).1 = true) :
    l.addDrawOp renderer op = l ∧
      (l.addDrawOp renderer op).mBatches = l.mBatches ∧
      (l.addDrawOp renderer op).mBatchLookup = l.mBatchLookup ∧
      (l.addDrawOp renderer op).mMergingBatches = l.mMergingBatches ∧
      (l.addDrawOp renderer op).mEarliestBatchIndex = l.mEarliestBatchIndex ∧
      (l.addDrawOp renderer op).mSaveStack = l.mSaveStack ∧
      (l.addDrawOp renderer op).mComplexClipStackStart = l.mComplexClipStackStart := by
  have key : l.addDrawOp renderer op = l := by
    unfold DeferredDisplayList.addDrawOp
    have hd : l.deferDrawOp renderer op = none := by
      unfold DeferredDisplayList.deferDrawOp
      rcases h with ⟨b, hb, he⟩ | h
      · simp [hb, he]
      · cases hlb : op.localBounds with
        | none =>
          rw [hlb] at h
          simp only [Option.getD_none] at h
          simp [h]
        | some b =>
          rw [hlb] at h
          simp only [Option.getD_some] at h
          by_cases he : b.isEmpty = true
          · simp [he]
          · simp [he, h]
    rw [hd]
  rw [key]
  exact ⟨rfl, rfl, rfl, rfl, rfl, rfl, rfl⟩

theorem early_return_witness :
    (run (DeferredDisplayList.init ⟨0, 0, 10, 10⟩ true) sampleTwoKinds).addDrawOp
        (sampleRenderer 1 false) (sampleOp 3 (some ⟨4, 4, 4, 9⟩) ⟨1, 0, false, true⟩) =
      run (DeferredDisplayList.init ⟨0, 0, 10, 10⟩ true) sampleTwoKinds :=
  (early_return _ _ _ (Or.inl ⟨_, rfl, by with_unfolding_all decide⟩)).1

/-- C14 (discard keeps slots and barriers).  `discardDrawingBatches(maxIndex)` leaves the
length of the batch list unchanged; a purely-drawing batch at an index from
`mEarliestUnclearedIndex` to `maxIndex` is replaced by an empty slot; a state-op or
restore-to-count batch is never changed; every slot below `mEarliestUnclearedIndex` or above
`maxIndex` is unchanged; every batch present afterwards sits at the index it had before;
and `mEarliestUnclearedIndex` becomes `maxIndex + 1`. -/
theorem discard_keeps_slots (l : DeferredDisplayList) (maxIndex : Nat) :
    (l.discardDrawingBatches maxIndex).mBatches.length = l.mBatches.length ∧
    (∀ (i : Nat) (b : Batch), l.mBatches[i]? = some (some b) → b.purelyDrawBatch = true →
      l.mEarliestUnclearedIndex ≤ i → i ≤ maxIndex →
      (l.discardDrawingBatches maxIndex).mBatches[i]? = some none) ∧
    (∀ (i : Nat) (b : Batch), l.mBatches[i]? = some (some b) → b.purelyDrawBatch = false →
      (l.discardDrawingBatches maxIndex).mBatches[i]? = some (some b)) ∧
    (∀ (i : Nat) (s : Option Batch), l.mBatches[i]? = some s →
      (i < l.mEarliestUnclearedIndex ∨ maxIndex < i) →
      (l.discardDrawingBatches maxIndex).mBatches[i]? = some s) ∧
    (∀ (i : Nat) (b : Batch), (l.discardDrawingBatches maxIndex).mBatches[i]? = some (some b) →
      l.mBatches[i]? = some (some b) ∧
        (b.purelyDrawBatch = true → i < l.mEarliestUnclearedIndex ∨ maxIndex < i)) ∧
    (l.discardDrawingBatches maxIndex).mEarliestUnclearedIndex = maxIndex + 1 := by
  have key : ∀ j : Nat, (l.discardDrawingBatches maxIndex).mBatches[j]? =
      (l.mBatches[j]?).map fun s =>
        if l.mEarliestUnclearedIndex ≤ j ∧ j ≤ maxIndex then discardSlot s else s := by
    intro j
    have := getElem?_discardRange_eq l.mEarliestUnclearedIndex maxIndex l.mBatches 0 j
    simpa [DeferredDisplayList.discardDrawingBatches] using this
  refine ⟨?_, ?_, ?_, ?_, ?_, rfl⟩
  · simp [DeferredDisplayList.discardDrawingBatches, length_discardRange]
  · intro i b hb hp h1 h2
    rw [key, hb]
    simp [h1, h2, discardSlot_draw b hp]
  · intro i b hb hp
    rw [key, hb]
    simp [discardSlot_barrier b hp]
  · intro i s hs hor
    rw [key, hs]
    have : ¬ (l.mEarliestUnclearedIndex ≤ i ∧ i ≤ maxIndex) := by omega
    simp [this]
  · intro i b hb
    rw [key] at hb
    cases hs : l.mBatches[i]? with
    | none => rw [hs] at hb; simp at hb
    | some s =>
      rw [hs] at hb
      simp only [Option.map_some'] at hb
      by_cases hr : l.mEarliestUnclearedIndex ≤ i ∧ i ≤ maxIndex
      · rw [if_pos hr] at hb
        cases s with
        | none => simp [discardSlot] at hb
        | some b0 =>
          cases hp : b0.purelyDrawBatch with
          | true => rw [discardSlot_draw b0 hp] at hb; simp at hb
          | false =>
            rw [discardSlot_barrier b0 hp] at hb
            have e : b0 = b := by simpa using hb
            subst e
            refine ⟨rfl, ?_⟩
            intro hp2
            rw [hp] at hp2
            exact absurd hp2 (by simp)
      · rw [if_neg hr] at hb
        have e : s = some b := by simpa using hb
        subst e
        refine ⟨rfl, ?_⟩
        intro _
        omega

theorem discard_keeps_slots_witness :
    (sampleEngine.discardDrawingBatches 1).mBatches[0]? = some none ∧
      (sampleEngine.discardDrawingBatches 1).mBatches[1]? = some (some sampleBarrier) :=
  ⟨(discard_keeps_slots sampleEngine 1).2.1 0 sampleBatch rfl rfl (by decide) (by decide),
    (discard_keeps_slots sampleEngine 1).2.2.1 1 sampleBarrier rfl rfl⟩

theorem addClip_outcome (l : DeferredDisplayList) (renderer : OpenGLRenderer)
    (op : ClipOp) :
    ((l.recordingComplexClip || op.canCauseComplexClip ||
        !renderer.hasRectToRectTransform) = true →
      (l.addClip renderer op).mBatches =
          l.mBatches ++ [some (Batch.stateOp op.toStateOp
            (renderer.storeDisplayState createState l.getStateOpDeferFlags).2)] ∧
        (∀ k, (l.addClip renderer op).mBatchLookup k = none) ∧
        (∀ k m, (l.addClip renderer op).mMergingBatches k m = none) ∧
        (l.addClip renderer op).mEarliestBatchIndex = (l.addClip renderer op).mBatches.length ∧
        (l.addClip renderer op).mSaveStack = l.mSaveStack ∧
        (l.recordingComplexClip = false →
          (l.addClip renderer op).mComplexClipStackStart = renderer.saveCount - 1) ∧
        (l.recordingComplexClip = true →
          (l.addClip renderer op).mComplexClipStackStart = l.mComplexClipStackStart)) ∧
    ((l.recordingComplexClip || op.canCauseComplexClip ||
        !renderer.hasRectToRectTransform) = false →
      l.addClip renderer op = l) ∧
    ((l.addClip renderer op).mBatches.length = l.mBatches.length + 1 ↔
      (l.recordingComplexClip || op.canCauseComplexClip ||
        !renderer.hasRectToRectTransform) = true) := by
  have hyes : (l.recordingComplexClip || op.canCauseComplexClip ||
        !renderer.hasRectToRectTransform) = true →
      (l.addClip renderer op).mBatches =
          l.mBatches ++ [some (Batch.stateOp op.toStateOp
            (renderer.storeDisplayState createState l.getStateOpDeferFlags).2)] ∧
        (∀ k, (l.addClip renderer op).mBatchLookup k = none) ∧
        (∀ k m, (l.addClip renderer op).mMergingBatches k m = none) ∧
        (l.addClip renderer op).mEarliestBatchIndex = (l.addClip renderer op).mBatches.length ∧
        (l.addClip renderer op).mSaveStack = l.mSaveStack ∧
        (l.recordingComplexClip = false →
          (l.addClip renderer op).mComplexClipStackStart = renderer.saveCount - 1) ∧
        (l.recordingComplexClip = true →
          (l.addClip renderer op).mComplexClipStackStart = l.mComplexClipStackStart) := by
    intro hc
    have hrec : (l.storeStateOpBarrier renderer op.toStateOp).recordingComplexClip =
        l.recordingComplexClip := rfl
    unfold DeferredDisplayList.addClip
    rw [if_pos hc]
    dsimp only
    rw [hrec]
    cases hr : l.recordingComplexClip with
    | true =>
      refine ⟨rfl, fun _ => rfl, fun _ _ => rfl, rfl, rfl, ?_, fun _ => rfl⟩
      intro h; exact absurd h (by simp)
    | false =>
      refine ⟨rfl, fun _ => rfl, fun _ _ => rfl, rfl, rfl, fun _ => rfl, ?_⟩
      intro h; exact absurd h (by simp)
  have hno : (l.recordingComplexClip || op.canCauseComplexClip ||
        !renderer.hasRectToRectTransform) = false → l.addClip renderer op = l := by
    intro hc
    unfold DeferredDisplayList.addClip
    rw [if_neg (by rw [hc]; simp)]
  refine ⟨hyes, hno, ?_⟩
  constructor
  · intro hlen
    by_contra hc
    have hc2 := hno (by simpa using hc)
    rw [hc2] at hlen
    omega
  · intro hc
    rw [(hyes hc).1]
    simp

/-- C18 (opening the complex-clip window).  `addClip` appends one state-op barrier holding
the clip operation, with an empty batching state and an unchanged save stack, exactly when
a complex clip is already being recorded, or the clip operation can cause a complex clip,
or the transform of the renderer does not map rectangles to rectangles; then, if no complex
clip was being recorded, `mComplexClipStackStart` becomes the save count of the renderer
minus one, and otherwise it keeps its value.  In every other case `addClip` returns the
engine unchanged. -/
theorem addClip_opens_window (l : DeferredDisplayList) (renderer : OpenGLRenderer)
    (op : ClipOp) :
    ((l.recordingComplexClip || op.canCauseComplexClip ||
        !renderer.hasRectToRectTransform) = true →
      (l.addClip renderer op).mBatches =
          l.mBatches ++ [some (Batch.stateOp op.toStateOp
            (renderer.storeDisplayState createState l.getStateOpDeferFlags).2)] ∧
        (∀ k, (l.addClip renderer op).mBatchLookup k = none) ∧
        (∀ k m, (l.addClip renderer op).mMergingBatches k m = none) ∧
        (l.addClip renderer op).mEarliestBatchIndex = (l.addClip renderer op).mBatches.length ∧
        (l.addClip renderer op).mSaveStack = l.mSaveStack ∧
        (l.recordingComplexClip = false →
          (l.addClip renderer op).mComplexClipStackStart = renderer.saveCount - 1) ∧
        (l.recordingComplexClip = true →
          (l.addClip renderer op).mComplexClipStackStart = l.mComplexClipStackStart)) ∧
    ((l.recordingComplexClip || op.canCauseComplexClip ||
        !renderer.hasRectToRectTransform) = false →
      l.addClip renderer op = l) ∧
    ((l.addClip renderer op).mBatches.length = l.mBatches.length + 1 ↔
      (l.recordingComplexClip || op.canCauseComplexClip ||
        !renderer.hasRectToRectTransform) = true) :=
  addClip_outcome l renderer op

theorem addClip_opens_window_witness :
    ((DeferredDisplayList.init ⟨0, 0, 10, 10⟩ true).addClip (sampleRenderer 1 false)
        sampleClip).mComplexClipStackStart = 0 ∧
      (DeferredDisplayList.init ⟨0, 0, 10, 10⟩ true).addClip (sampleRenderer 1 false)
        sampleRectClip = DeferredDisplayList.init ⟨0, 0, 10, 10⟩ true :=
  ⟨((addClip_opens_window (DeferredDisplayList.init ⟨0, 0, 10, 10⟩ true)
      (sampleRenderer 1 false) sampleClip).1 (by decide)).2.2.2.2.2.1 (by decide),
    (addClip_opens_window (DeferredDisplayList.init ⟨0, 0, 10, 10⟩ true)
      (sampleRenderer 1 false) sampleRectClip).2.1 (by decide)⟩

theorem placeInBatch_fixed (l : DeferredDisplayList) (r : OpenGLRenderer) (op : DrawOp)
    (st : DeferredDisplayState) (info : DeferInfo) (t : Option Nat) (k : Nat) :
    (l.placeInBatch r op st info t k).mComplexClipStackStart = l.mComplexClipStackStart ∧
      (l.placeInBatch r op st info t k).mSaveStack = l.mSaveStack ∧
      (l.placeInBatch r op st info t k).mEarliestUnclearedIndex = l.mEarliestUnclearedIndex ∧
      (l.placeInBatch r op st info t k).mBounds = l.mBounds ∧
      (l.placeInBatch r op st info t k).mAvoidOverdraw = l.mAvoidOverdraw := by
  unfold DeferredDisplayList.placeInBatch
  cases t with
  | some a => exact ⟨rfl, rfl, rfl, rfl, rfl⟩
  | none =>
    dsimp only
    split_ifs <;> exact ⟨rfl, rfl, rfl, rfl, rfl⟩

theorem insertDrawOp_fixed (l : DeferredDisplayList) (r : OpenGLRenderer) (op : DrawOp)
    (st : DeferredDisplayState) (info : DeferInfo) :
    (l.insertDrawOp r op st info).mComplexClipStackStart = l.mComplexClipStackStart ∧
      (l.insertDrawOp r op st info).mSaveStack = l.mSaveStack ∧
      (l.insertDrawOp r op st info).mEarliestUnclearedIndex = l.mEarliestUnclearedIndex ∧
      (l.insertDrawOp r op st info).mBounds = l.mBounds ∧
      (l.insertDrawOp r op st info).mAvoidOverdraw = l.mAvoidOverdraw := by
  unfold DeferredDisplayList.insertDrawOp
  split_ifs
  · exact ⟨rfl, rfl, rfl, rfl, rfl⟩
  · exact ⟨rfl, rfl, rfl, rfl, rfl⟩
  · exact placeInBatch_fixed _ _ _ _ _ _ _
  · exact placeInBatch_fixed _ _ _ _ _ _ _

theorem avoidOverdraw_fixed (l : DeferredDisplayList) (st : DeferredDisplayState)
    (info : DeferInfo) :
    (l.avoidOverdraw st info).mComplexClipStackStart = l.mComplexClipStackStart ∧
      (l.avoidOverdraw st info).mSaveStack = l.mSaveStack ∧
      (l.avoidOverdraw st info).mBounds = l.mBounds ∧
      (l.avoidOverdraw st info).mAvoidOverdraw = l.mAvoidOverdraw := by
  unfold DeferredDisplayList.avoidOverdraw
  split_ifs
  · exact ⟨rfl, rfl, rfl, rfl⟩
  · exact ⟨rfl, rfl, rfl, rfl⟩

theorem addDrawOp_fixed (l : DeferredDisplayList) (r : OpenGLRenderer) (op : DrawOp) :
    (l.addDrawOp r op).mComplexClipStackStart = l.mComplexClipStackStart ∧
      (l.addDrawOp r op).mSaveStack = l.mSaveStack ∧
      (l.addDrawOp r op).mBounds = l.mBounds ∧
      (l.addDrawOp r op).mAvoidOverdraw = l.mAvoidOverdraw := by
  rcases deferDrawOp_state_op l r op with h | ⟨st, info, _, h⟩
  · rw [h]; exact ⟨rfl, rfl, rfl, rfl⟩
  · rw [h]
    obtain ⟨a1, a2, _, a4, a5⟩ := insertDrawOp_fixed (l.avoidOverdraw st info) r op st info
    obtain ⟨b1, b2, b3, b4⟩ := avoidOverdraw_fixed l st info
    exact ⟨a1.trans b1, a2.trans b2, a4.trans b3, a5.trans b4⟩

theorem addRestoreToCount_start (l : DeferredDisplayList) (r : OpenGLRenderer) (op : StateOp)
    (n : Int) :
    (l.addRestoreToCount r op n).mComplexClipStackStart =
      if l.recordingComplexClip = true ∧ n ≤ l.mComplexClipStackStart then -1
      else l.mComplexClipStackStart := by
  have h1 : ∀ l1 : DeferredDisplayList,
      (match l1.mSaveStack with
        | [] => l1
        | top :: _ =>
          if n > top then l1
          else
            DeferredDisplayList.storeRestoreToCountBarrier
              { l1 with mSaveStack := l1.mSaveStack.dropWhile fun d => decide (d ≥ n) } r op
              ((((l1.mSaveStack.dropWhile fun d => decide (d ≥ n)).length : Nat) : Int) +
                FLUSH_SAVE_STACK_DEPTH)).mComplexClipStackStart =
        l1.mComplexClipStackStart := by
    intro l1
    cases l1.mSaveStack with
    | nil => rfl
    | cons top rest =>
      dsimp only
      split_ifs
      · rfl
      · rfl
  unfold DeferredDisplayList.addRestoreToCount
  dsimp only
  rw [h1]
  by_cases hc : l.recordingComplexClip = true ∧ n ≤ l.mComplexClipStackStart
  · rw [if_pos hc]
    have : (l.recordingComplexClip && decide (n ≤ l.mComplexClipStackStart)) = true := by
      simp [hc.1, hc.2]
    rw [if_pos this]
    rfl
  · rw [if_neg hc]
    have : ¬ (l.recordingComplexClip && decide (n ≤ l.mComplexClipStackStart)) = true := by
      simpa using hc
    rw [if_neg this]

theorem step_keepsWindow (l : DeferredDisplayList) (c : Int) (x : Cmd)
    (hopen : l.mComplexClipStackStart = c - 1) (hc : 1 ≤ c) (hx : x.keepsWindow c = true) :
    (step l x).mComplexClipStackStart = c - 1 := by
  have hrec : l.recordingComplexClip = true := by
    simp only [DeferredDisplayList.recordingComplexClip, hopen, decide_eq_true_eq]
    omega
  cases x with
  | clear => simp [Cmd.keepsWindow] at hx
  | addClip r op =>
    have := (addClip_outcome l r op).1 (by simp [hrec])
    exact (this.2.2.2.2.2.2 hrec).trans hopen
  | addSaveLayer r op n => exact hopen
  | addSave r op n =>
    show (l.addSave r op n).mComplexClipStackStart = c - 1
    unfold DeferredDisplayList.addSave
    dsimp only
    split_ifs
    · exact hopen
    · exact hopen
  | addRestoreToCount r op n =>
    show (l.addRestoreToCount r op n).mComplexClipStackStart = c - 1
    rw [addRestoreToCount_start]
    have hn : c ≤ n := by simpa [Cmd.keepsWindow] using hx
    rw [if_neg (by rw [hopen]; omega)]
    exact hopen
  | addDrawOp r op => exact (addDrawOp_fixed l r op).1.trans hopen

theorem run_keepsWindow (c : Int) (hc : 1 ≤ c) :
    ∀ (cmds : List Cmd) (l : DeferredDisplayList), l.mComplexClipStackStart = c - 1 →
      (∀ x ∈ cmds, x.keepsWindow c = true) → (run l cmds).mComplexClipStackStart = c - 1 := by
  intro cmds
  induction cmds with
  | nil => intro l h _; exact h
  | cons x rest ih =>
    intro l h hall
    have e : run l (x :: rest) = run (step l x) rest := rfl
    rw [e]
    exact ih _ (step_keepsWindow l c x h hc (hall x (List.mem_cons_self _ _)))
      fun y hy => hall y (List.mem_cons_of_mem _ hy)

theorem addRestoreToCount_reset (l : DeferredDisplayList) (r : OpenGLRenderer) (op : StateOp)
    (n : Int) (hc : l.recordingComplexClip = true ∧ n ≤ l.mComplexClipStackStart) :
    (∀ k, (l.addRestoreToCount r op n).mBatchLookup k = none) ∧
      (∀ k m, (l.addRestoreToCount r op n).mMergingBatches k m = none) ∧
      (l.addRestoreToCount r op n).mEarliestBatchIndex =
        (l.addRestoreToCount r op n).mBatches.length := by
  have h1 : ∀ l1 : DeferredDisplayList,
      ((∀ k, l1.mBatchLookup k = none) ∧ (∀ k m, l1.mMergingBatches k m = none) ∧
        l1.mEarliestBatchIndex = l1.mBatches.length) →
      ((∀ k, (match l1.mSaveStack with
        | [] => l1
        | top :: _ =>
          if n > top then l1
          else
            DeferredDisplayList.storeRestoreToCountBarrier
              { l1 with mSaveStack := l1.mSaveStack.dropWhile fun d => decide (d ≥ n) } r op
              ((((l1.mSaveStack.dropWhile fun d => decide (d ≥ n)).length : Nat) : Int) +
                FLUSH_SAVE_STACK_DEPTH)).mBatchLookup k = none) ∧
       (∀ k m, (match l1.mSaveStack with
        | [] => l1
        | top :: _ =>
          if n > top then l1
          else
            DeferredDisplayList.storeRestoreToCountBarrier
              { l1 with mSaveStack := l1.mSaveStack.dropWhile fun d => decide (d ≥ n) } r op
              ((((l1.mSaveStack.dropWhile fun d => decide (d ≥ n)).length : Nat) : Int) +
                FLUSH_SAVE_STACK_DEPTH)).mMergingBatches k m = none) ∧
       (match l1.mSaveStack with
        | [] => l1
        | top :: _ =>
          if n > top then l1
          else
            DeferredDisplayList.storeRestoreToCountBarrier
              { l1 with mSaveStack := l1.mSaveStack.dropWhile fun d => decide (d ≥ n) } r op
              ((((l1.mSaveStack.dropWhile fun d => decide (d ≥ n)).length : Nat) : Int) +
                FLUSH_SAVE_STACK_DEPTH)).mEarliestBatchIndex =
         (match l1.mSaveStack with
        | [] => l1
        | top :: _ =>
          if n > top then l1
          else
            DeferredDisplayList.storeRestoreToCountBarrier
              { l1 with mSaveStack := l1.mSaveStack.dropWhile fun d => decide (d ≥ n) } r op
              ((((l1.mSaveStack.dropWhile fun d => decide (d ≥ n)).length : Nat) : Int) +
                FLUSH_SAVE_STACK_DEPTH)).mBatches.length) := by
    intro l1 hl1
    cases l1.mSaveStack with
    | nil => exact hl1
    | cons top rest =>
      dsimp only
      split_ifs
      · exact hl1
      · exact ⟨fun _ => rfl, fun _ _ => rfl, rfl⟩
  unfold DeferredDisplayList.addRestoreToCount
  dsimp only
  have : (l.recordingComplexClip && decide (n ≤ l.mComplexClipStackStart)) = true := by
    simp [hc.1, hc.2]
  rw [if_pos this]
  exact h1 _ ⟨fun _ => rfl, fun _ _ => rfl, rfl⟩

/-- C19 (closing the complex-clip window).  Let the window be open with start depth
`c - 1`, as `addClip` leaves it when it opens the window at renderer save count `c ≥ 1`.
After any sequence of `addClip`, `addSave`, `addSaveLayer`, `addDrawOp` and
`addRestoreToCount(n)` with `n ≥ c` the window is still open with the same start depth;
and the next `addRestoreToCount(n)` with `n < c` closes it: afterwards
`recordingComplexClip` is false, `mComplexClipStackStart` is -1, both lookups are empty
and the reorder window starts at the end of the batch list. -/
theorem window_closes (l : DeferredDisplayList) (c : Int)
    (hopen : l.mComplexClipStackStart = c - 1) (hc : 1 ≤ c) (cmds : List Cmd)
    (hkeep : ∀ x ∈ cmds, x.keepsWindow c = true) :
    (run l cmds).mComplexClipStackStart = c - 1 ∧
      (run l cmds).recordingComplexClip = true ∧
      ∀ (r : OpenGLRenderer) (op : StateOp) (n : Int), n < c →
        ((run l cmds).addRestoreToCount r op n).recordingComplexClip = false ∧
          ((run l cmds).addRestoreToCount r op n).mComplexClipStackStart = -1 ∧
          (∀ k, ((run l cmds).addRestoreToCount r op n).mBatchLookup k = none) ∧
          (∀ k m, ((run l cmds).addRestoreToCount r op n).mMergingBatches k m = none) ∧
          ((run l cmds).addRestoreToCount r op n).mEarliestBatchIndex =
            ((run l cmds).addRestoreToCount r op n).mBatches.length := by
  have h1 := run_keepsWindow c hc cmds l hopen hkeep
  have hrec : (run l cmds).recordingComplexClip = true := by
    simp only [DeferredDisplayList.recordingComplexClip, h1, decide_eq_true_eq]
    omega
  refine ⟨h1, hrec, ?_⟩
  intro r op n hn
  have hcl : (run l cmds).recordingComplexClip = true ∧
      n ≤ (run l cmds).mComplexClipStackStart := ⟨hrec, by rw [h1]; omega⟩
  have hs := addRestoreToCount_start (run l cmds) r op n
  rw [if_pos hcl] at hs
  obtain ⟨a, b, e⟩ := addRestoreToCount_reset (run l cmds) r op n hcl
  refine ⟨?_, hs, a, b, e⟩
  simp [DeferredDisplayList.recordingComplexClip, hs]

theorem window_closes_witness :
    (run ((DeferredDisplayList.init ⟨0, 0, 10, 10⟩ true).addClip (sampleRenderer 1 false)
        sampleClip)
      [Cmd.addDrawOp (sampleRenderer 1 false) samplePlain,
        Cmd.addRestoreToCount (sampleRenderer 1 false) sampleRestore 1]).recordingComplexClip
      = true ∧
    ((run ((DeferredDisplayList.init ⟨0, 0, 10, 10⟩ true).addClip (sampleRenderer 1 false)
        sampleClip)
      [Cmd.addDrawOp (sampleRenderer 1 false) samplePlain,
        Cmd.addRestoreToCount (sampleRenderer 1 false) sampleRestore 1]).addRestoreToCount
      (sampleRenderer 1 false) sampleRestore 0).recordingComplexClip = false :=
  have h := window_closes
    ((DeferredDisplayList.init ⟨0, 0, 10, 10⟩ true).addClip (sampleRenderer 1 false) sampleClip)
    1 (by decide) (by decide)
    [Cmd.addDrawOp (sampleRenderer 1 false) samplePlain,
      Cmd.addRestoreToCount (sampleRenderer 1 false) sampleRestore 1]
    (by
      intro x hx
      simp only [List.mem_cons, List.mem_singleton, List.not_mem_nil, or_false] at hx
      rcases hx with rfl | rfl <;> rfl)
  ⟨h.2.1, (h.2.2 (sampleRenderer 1 false) sampleRestore 0 (by decide)).1⟩

theorem flush_of_empty (l : DeferredDisplayList) (backend : Backend) (h : l.mBatches = []) :
    l.flush backend = (l, [Event.endPrecaching], kStatusDone) := by
  unfold DeferredDisplayList.flush
  have : l.isEmpty = true := by simp [DeferredDisplayList.isEmpty, h]
  rw [if_pos this]

theorem flush_leaves_empty (l : DeferredDisplayList) (backend : Backend) :
    (l.flush backend).1.mBatches = [] := by
  by_cases h : l.isEmpty = true
  · have hb : l.mBatches = [] := by simpa [DeferredDisplayList.isEmpty] using h
    rw [flush_of_empty l backend hb]
    exact hb
  · unfold DeferredDisplayList.flush
    rw [if_neg h]
    rfl

/-- C20 (empty and repeated flush).  On an engine whose batch list is empty, `flush`
returns the status done, makes no call on the renderer (its only call is `endPrecaching`
on the font renderer of the caches) and leaves the engine as it was.  Hence for every
engine and every backend, a second `flush` right after a `flush` returns the status done
and makes no call on the renderer. -/
theorem flush_empty_and_repeated (l : DeferredDisplayList) (backend backend2 : Backend) :
    (l.mBatches = [] →
      (l.flush backend).2.2 = kStatusDone ∧
        (l.flush backend).2.1.filter Event.onRenderer = [] ∧
        (l.flush backend).2.1 = [Event.endPrecaching] ∧
        (l.flush backend).1 = l) ∧
    (((l.flush backend).1.flush backend2).2.2 = kStatusDone ∧
      ((l.flush backend).1.flush backend2).2.1.filter Event.onRenderer = [] ∧
      ((l.flush backend).1.flush backend2).2.1 = [Event.endPrecaching]) := by
  constructor
  · intro h
    rw [flush_of_empty l backend h]
    exact ⟨rfl, rfl, rfl, rfl⟩
  · rw [flush_of_empty _ backend2 (flush_leaves_empty l backend)]
    exact ⟨rfl, rfl, rfl⟩

theorem flush_empty_and_repeated_witness :
    ((DeferredDisplayList.init ⟨0, 0, 10, 10⟩ true).flush fun _ _ => 1).2.2 = kStatusDone ∧
      ((DeferredDisplayList.init ⟨0, 0, 10, 10⟩ true).flush fun _ _ => 1).2.1.filter
        Event.onRenderer = [] :=
  ⟨((flush_empty_and_repeated (DeferredDisplayList.init ⟨0, 0, 10, 10⟩ true)
      (fun _ _ => 1) (fun _ _ => 1)).1 rfl).1,
    ((flush_empty_and_repeated (DeferredDisplayList.init ⟨0, 0, 10, 10⟩ true)
      (fun _ _ => 1) (fun _ _ => 1)).1 rfl).2.1⟩

/-! ### Replay -/

theorem drawBatch_replay_calls (backend : Backend) :
    ∀ (ops : List OpStatePair) (acc : List Event × Nat),
      (ops.foldl
        (fun (acc : List Event × Nat) p =>
          (acc.1 ++ [Event.restoreDisplayState p.state] ++ [Event.applyDraw p.op],
            acc.2 ||| backend (acc.1 ++ [Event.restoreDisplayState p.state])
              (Event.applyDraw p.op)))
        acc).1 = acc.1 ++ drawCalls ops := by
  intro ops
  induction ops with
  | nil => intro acc; simp [drawCalls]
  | cons p rest ih =>
    intro acc
    rw [List.foldl_cons, ih]
    simp [drawCalls]

theorem drawBatch_replay_eq (b : DrawBatch) (backend : Backend) (calls : List Event) :
    (b.replay backend calls).1 = calls ++ drawCalls b.mOps :=
  drawBatch_replay_calls backend b.mOps (calls, kStatusDone)

theorem batch_replay_calls (b : Batch) (backend : Backend) (calls : List Event) :
    (b.replay backend calls).1 = calls ++ b.calls := by
  cases b with
  | draw a d => exact drawBatch_replay_eq d backend calls
  | merging a m =>
    simp only [Batch.replay, Batch.calls, MergingDrawBatch.replay]
    by_cases h1 : m.mOps.length = 1
    · rw [if_pos h1, if_pos h1]
      exact drawBatch_replay_eq m.toDrawBatch backend calls
    · rw [if_neg h1, if_neg h1]
      cases m.mOps with
      | nil => rfl
      | cons first rest => simp
  | stateOp op state => rfl
  | restoreToCount op state n => rfl

theorem replayBatchList_calls (backend : Backend) :
    ∀ (bs : List (Option Batch)) (acc : List Event × Nat),
      (bs.foldl
        (fun (acc : List Event × Nat) slot =>
          match slot with
          | some b => ((b.replay backend acc.1).1, acc.2 ||| (b.replay backend acc.1).2)
          | none => acc)
        acc).1 = acc.1 ++ slotCalls bs := by
  intro bs
  induction bs with
  | nil => intro acc; simp [slotCalls]
  | cons s rest ih =>
    intro acc
    rw [List.foldl_cons, ih]
    cases s with
    | none => simp [slotCalls]
    | some b => simp [slotCalls, batch_replay_calls]

theorem flush_calls (l : DeferredDisplayList) (backend : Backend) (h : l.mBatches ≠ []) :
    (l.flush backend).2.1 =
      [Event.endPrecaching, Event.restoreToCount 1, Event.eventMark, Event.getDrawModifiers,
        Event.save (kMatrix_SaveFlag ||| kClip_SaveFlag)] ++
      slotCalls (if l.mAvoidOverdraw then l.flushDiscard else l).mBatches ++
      [Event.restoreToCount 1, Event.setDrawModifiers] := by
  unfold DeferredDisplayList.flush
  have he : ¬ l.isEmpty = true := by
    simpa [DeferredDisplayList.isEmpty] using h
  rw [if_neg he]
  dsimp only
  unfold replayBatchList
  rw [replayBatchList_calls]

/-! ### The concrete scenario -/

set_option maxRecDepth 100000 in
theorem concrete_scenario_counterexample :
    ((DeferredDisplayList.init ⟨0, 0, 10, 10⟩ true).addClip (sampleRenderer 1 false)
        sampleClip).mBatches =
      [some (Batch.stateOp sampleClip.toStateOp (sampleState ⟨0, 0, 0, 0⟩ 1 false))] ∧
    (sampleScenario sampleClip).mBatches[1]? =
      some (some (Batch.draw 0 ((DrawBatch.new ⟨1, 0, false, false⟩).add sampleOpaqueA
        (sampleState ⟨0, 0, 5, 5⟩ 1 false) false))) ∧
    Event.applyDraw sampleOpaqueA ∈ ((sampleScenario sampleClip).flush fun _ _ => 0).2.1 := by
  refine ⟨by with_unfolding_all decide, by with_unfolding_all decide, ?_⟩
  rw [flush_calls _ _ (by with_unfolding_all decide)]
  with_unfolding_all decide

set_option maxRecDepth 100000 in
/-- C15 (amended).  On a fresh engine with display bounds `(0, 0, 10, 10)` and overdraw
avoidance, with a renderer at save count 1: a clip operation that can cause a complex clip
is recorded through `addClip`, which stores a barrier and opens the complex-clip window;
then the opaque operation `A` with bounds `(0, 0, 5, 5)` and the opaque operation `B` of
another batch-kind with bounds `(0, 0, 10, 10)` are recorded; then the engine is flushed.
No batch is discarded, and after the opening calls of `flush` the backend receives the
clip state-op, the draw of `A` and the draw of `B`, in this order.  When the clip operation
is rectangular instead, so that `addClip` stores no barrier, the insertion of `B` discards
the batch of `A` and the backend receives the draw of `B` only. -/
theorem concrete_scenario (backend : Backend) :
    ((sampleScenario sampleClip).flush backend).2.1 =
      [Event.endPrecaching, Event.restoreToCount 1, Event.eventMark, Event.getDrawModifiers,
        Event.save 3,
        Event.restoreDisplayState (sampleState ⟨0, 0, 0, 0⟩ 1 false),
        Event.applyState sampleClip.toStateOp,
        Event.restoreDisplayState (sampleState ⟨0, 0, 5, 5⟩ 1 false),
        Event.applyDraw sampleOpaqueA,
        Event.restoreDisplayState (sampleState ⟨0, 0, 10, 10⟩ 1 false),
        Event.applyDraw sampleOpaqueB,
        Event.restoreToCount 1, Event.setDrawModifiers] ∧
    (sampleScenario sampleRectClip).mBatches =
      [none, some (Batch.draw 1 ((DrawBatch.new ⟨2, 0, false, true⟩).add sampleOpaqueB
        (sampleState ⟨0, 0, 10, 10⟩ 1 false) true))] ∧
    ((sampleScenario sampleRectClip).flush backend).2.1 =
      [Event.endPrecaching, Event.restoreToCount 1, Event.eventMark, Event.getDrawModifiers,
        Event.save 3,
        Event.restoreDisplayState (sampleState ⟨0, 0, 10, 10⟩ 1 false),
        Event.applyDraw sampleOpaqueB,
        Event.restoreToCount 1, Event.setDrawModifiers] := by
  refine ⟨?_, by with_unfolding_all decide, ?_⟩
  · rw [flush_calls _ _ (by with_unfolding_all decide)]
    with_unfolding_all decide
  · rw [flush_calls _ _ (by with_unfolding_all decide)]
    with_unfolding_all decide

/-! ### The save stack and the depth of a restore -/

theorem dropWhile_eq_filter (n : Int) :
    ∀ s : List Int, s.Pairwise (fun a b => a > b) →
      (s.dropWhile fun d => decide (d ≥ n)) = s.filter fun d => decide (d < n) := by
  intro s
  induction s with
  | nil => intro _; rfl
  | cons a t ih =>
    intro hp
    rw [List.pairwise_cons] at hp
    by_cases ha : a ≥ n
    · have h1 : decide (a ≥ n) = true := by simpa using ha
      have h2 : decide (a < n) = false := by simp; omega
      rw [List.dropWhile_cons, if_pos h1, List.filter_cons, if_neg (by rw [h2]; simp)]
      exact ih hp.2
    · have h1 : ¬ decide (a ≥ n) = true := by simpa using ha
      have h2 : decide (a < n) = true := by simp; omega
      rw [List.dropWhile_cons, if_neg h1, List.filter_cons, if_pos h2]
      congr 1
      symm
      rw [List.filter_eq_self]
      intro b hb
      have := hp.1 b hb
      simp
      omega

theorem addRestoreToCount_cases (l : DeferredDisplayList) (r : OpenGLRenderer) (op : StateOp)
    (n : Int) :
    ∃ l1 : DeferredDisplayList, l1.mSaveStack = l.mSaveStack ∧ l1.mBatches = l.mBatches ∧
      (((l.mSaveStack = [] ∨ ∃ top rest, l.mSaveStack = top :: rest ∧ n > top) ∧
          l.addRestoreToCount r op n = l1) ∨
        ((∃ top rest, l.mSaveStack = top :: rest ∧ n ≤ top) ∧
          l.addRestoreToCount r op n =
            DeferredDisplayList.storeRestoreToCountBarrier
              { l1 with mSaveStack := l.mSaveStack.dropWhile fun d => decide (d ≥ n) } r op
              ((((l.mSaveStack.dropWhile fun d => decide (d ≥ n)).length : Nat) : Int) +
                FLUSH_SAVE_STACK_DEPTH))) := by
  have h1 : ∀ l1 : DeferredDisplayList,
      ((l1.mSaveStack = [] ∨ ∃ top rest, l1.mSaveStack = top :: rest ∧ n > top) ∧
        (match l1.mSaveStack with
        | [] => l1
        | top :: _ =>
          if n > top then l1
          else
            DeferredDisplayList.storeRestoreToCountBarrier
              { l1 with mSaveStack := l1.mSaveStack.dropWhile fun d => decide (d ≥ n) } r op
              ((((l1.mSaveStack.dropWhile fun d => decide (d ≥ n)).length : Nat) : Int) +
                FLUSH_SAVE_STACK_DEPTH)) = l1) ∨
      ((∃ top rest, l1.mSaveStack = top :: rest ∧ n ≤ top) ∧
        (match l1.mSaveStack with
        | [] => l1
        | top :: _ =>
          if n > top then l1
          else
            DeferredDisplayList.storeRestoreToCountBarrier
              { l1 with mSaveStack := l1.mSaveStack.dropWhile fun d => decide (d ≥ n) } r op
              ((((l1.mSaveStack.dropWhile fun d => decide (d ≥ n)).length : Nat) : Int) +
                FLUSH_SAVE_STACK_DEPTH)) =
          DeferredDisplayList.storeRestoreToCountBarrier
              { l1 with mSaveStack := l1.mSaveStack.dropWhile fun d => decide (d ≥ n) } r op
              ((((l1.mSaveStack.dropWhile fun d => decide (d ≥ n)).length : Nat) : Int) +
                FLUSH_SAVE_STACK_DEPTH)) := by
    intro l1
    cases hs : l1.mSaveStack with
    | nil => exact Or.inl ⟨Or.inl rfl, rfl⟩
    | cons top rest =>
      dsimp only
      by_cases ht : n > top
      · rw [if_pos ht]
        exact Or.inl ⟨Or.inr ⟨top, rest, rfl, ht⟩, rfl⟩
      · rw [if_neg ht]
        exact Or.inr ⟨⟨top, rest, rfl, by omega⟩, rfl⟩
  unfold DeferredDisplayList.addRestoreToCount
  dsimp only
  by_cases hc : (l.recordingComplexClip && decide (n ≤ l.mComplexClipStackStart)) = true
  · rw [if_pos hc]
    exact ⟨DeferredDisplayList.resetBatchingState { l with mComplexClipStackStart := -1 },
      rfl, rfl, h1 (DeferredDisplayList.resetBatchingState { l with mComplexClipStackStart := -1 })⟩
  · rw [if_neg hc]
    exact ⟨l, rfl, rfl, h1 l⟩

theorem step_saveStack (l : DeferredDisplayList) (c : Cmd)
    (hs : l.mSaveStack.Pairwise fun a b => a > b) :
    (step l c).mSaveStack =
      (match c with
      | Cmd.clear => []
      | Cmd.addRestoreToCount _ _ n => l.mSaveStack.filter fun d => decide (d < n)
      | _ =>
        match c.push? l with
        | some n => n :: l.mSaveStack
        | none => l.mSaveStack) := by
  cases c with
  | clear => rfl
  | addClip r op =>
    show (l.addClip r op).mSaveStack = l.mSaveStack
    cases hc : (l.recordingComplexClip || op.canCauseComplexClip ||
        !r.hasRectToRectTransform)
    · rw [(addClip_outcome l r op).2.1 hc]
    · exact ((addClip_outcome l r op).1 hc).2.2.2.2.1
  | addSaveLayer r op n => rfl
  | addSave r op n =>
    show (l.addSave r op n).mSaveStack = _
    unfold DeferredDisplayList.addSave
    simp only [Cmd.push?]
    split_ifs <;> rfl
  | addRestoreToCount r op n =>
    show (l.addRestoreToCount r op n).mSaveStack = l.mSaveStack.filter fun d => decide (d < n)
    obtain ⟨l1, e1, _, h⟩ := addRestoreToCount_cases l r op n
    rcases h with ⟨hcase, he⟩ | ⟨_, he⟩
    · rw [he, e1]
      symm
      rw [List.filter_eq_self]
      intro d hd
      rcases hcase with h0 | ⟨top, rest, ht, hn⟩
      · rw [h0] at hd; cases hd
      · rw [ht] at hd hs
        rw [List.pairwise_cons] at hs
        rcases List.mem_cons.1 hd with rfl | hd2
        · simpa using hn
        · have := hs.1 d hd2
          simp
          omega
    · rw [he]
      exact dropWhile_eq_filter n l.mSaveStack hs
  | addDrawOp r op => exact (addDrawOp_fixed l r op).2.1

theorem step_sorted (l : DeferredDisplayList) (c : Cmd)
    (hs : l.mSaveStack.Pairwise fun a b => a > b)
    (hn : ∀ n, c.push? l = some n → ∀ d ∈ l.mSaveStack, d < n) :
    (step l c).mSaveStack.Pairwise fun a b => a > b := by
  rw [step_saveStack l c hs]
  have hpush : (match c.push? l with
      | some n => n :: l.mSaveStack
      | none => l.mSaveStack).Pairwise fun a b => a > b := by
    cases hp : c.push? l with
    | none => exact hs
    | some n =>
      exact List.pairwise_cons.2 ⟨fun d hd => hn n hp d hd, hs⟩
  cases c with
  | clear => exact List.Pairwise.nil
  | addRestoreToCount r op n => exact hs.filter _
  | addClip r op => exact hpush
  | addSaveLayer r op n => exact hpush
  | addSave r op n => exact hpush
  | addDrawOp r op => exact hpush

theorem run_saveStack :
    ∀ (cmds : List Cmd) (l : DeferredDisplayList),
      (l.mSaveStack.Pairwise fun a b => a > b) → NestedRun l cmds →
      (run l cmds).mSaveStack = openPushes l cmds l.mSaveStack ∧
        (run l cmds).mSaveStack.Pairwise fun a b => a > b := by
  intro cmds
  induction cmds with
  | nil => intro l hs _; exact ⟨rfl, hs⟩
  | cons c rest ih =>
    intro l hs hn
    obtain ⟨h1, h2⟩ := ih (step l c) (step_sorted l c hs hn.1) hn.2
    have e : run l (c :: rest) = run (step l c) rest := rfl
    rw [e]
    refine ⟨?_, h2⟩
    rw [h1, step_saveStack l c hs]
    rfl

theorem openPushes_append :
    ∀ (xs ys : List Cmd) (l : DeferredDisplayList) (acc : List Int),
      openPushes l (xs ++ ys) acc = openPushes (run l xs) ys (openPushes l xs acc) := by
  intro xs
  induction xs with
  | nil => intro ys l acc; rfl
  | cons c rest ih =>
    intro ys l acc
    have e : run l (c :: rest) = run (step l c) rest := rfl
    rw [e]
    simp only [List.cons_append, openPushes]
    exact ih ys (step l c) _

theorem restore_depth_counterexample :
    (run (DeferredDisplayList.init ⟨0, 0, 10, 10⟩ true)
      [Cmd.addSaveLayer (sampleRenderer 1 false) sampleSaveLayer 2,
        Cmd.addRestoreToCount (sampleRenderer 1 false) sampleRestore 1]).mBatches =
      [some (Batch.stateOp sampleSaveLayer (sampleState ⟨0, 0, 0, 0⟩ 1 false)),
        some (Batch.restoreToCount sampleRestore (sampleState ⟨0, 0, 0, 0⟩ 1 false) 2)] ∧
    openPushes (DeferredDisplayList.init ⟨0, 0, 10, 10⟩ true)
      [Cmd.addSaveLayer (sampleRenderer 1 false) sampleSaveLayer 2] [] = [2] ∧
    openPushes (DeferredDisplayList.init ⟨0, 0, 10, 10⟩ true)
      [Cmd.addSaveLayer (sampleRenderer 1 false) sampleSaveLayer 2,
        Cmd.addRestoreToCount (sampleRenderer 1 false) sampleRestore 1] [] = [] := by
  refine ⟨by with_unfolding_all decide, by with_unfolding_all decide,
    by with_unfolding_all decide⟩

/-- C16 (amended).  On an engine reached from the initial one by calls with nested save
counts, the save stack lists the save counts of the scope-push barriers that were stored
(by `addSaveLayer`, or by `addSave` with the clip flag while a complex clip is recorded)
and are still open.  `addRestoreToCount(n)` stores nothing when every open barrier was
pushed at a save count below `n`; otherwise it appends one restore-to-count batch, whose
stored depth is the number of scope-push barriers still open after the restore plus
`FLUSH_SAVE_STACK_DEPTH` (2), whatever the save count `n` passed to `addRestoreToCount`. -/
theorem restore_depth (bounds : Rect) (avoid : Bool) (cmds : List Cmd)
    (hn : NestedRun (DeferredDisplayList.init bounds avoid) cmds)
    (r : OpenGLRenderer) (op : StateOp) (n : Int) :
    (run (DeferredDisplayList.init bounds avoid) cmds).mSaveStack =
        openPushes (DeferredDisplayList.init bounds avoid) cmds [] ∧
    ((∀ d ∈ openPushes (DeferredDisplayList.init bounds avoid) cmds [], d < n) →
      ((run (DeferredDisplayList.init bounds avoid) cmds).addRestoreToCount r op n).mBatches =
        (run (DeferredDisplayList.init bounds avoid) cmds).mBatches) ∧
    ((∃ d ∈ openPushes (DeferredDisplayList.init bounds avoid) cmds [], n ≤ d) →
      ∃ st,
        ((run (DeferredDisplayList.init bounds avoid) cmds).addRestoreToCount r op n).mBatches =
          (run (DeferredDisplayList.init bounds avoid) cmds).mBatches ++
            [some (Batch.restoreToCount op st
              (((openPushes (DeferredDisplayList.init bounds avoid)
                  (cmds ++ [Cmd.addRestoreToCount r op n]) []).length : Int) +
                FLUSH_SAVE_STACK_DEPTH))]) := by
  obtain ⟨h1, h2⟩ := run_saveStack cmds (DeferredDisplayList.init bounds avoid)
    List.Pairwise.nil hn
  have h1b : (run (DeferredDisplayList.init bounds avoid) cmds).mSaveStack =
      openPushes (DeferredDisplayList.init bounds avoid) cmds [] := h1
  refine ⟨h1b, ?_, ?_⟩
  · intro hall
    rw [← h1b] at hall
    obtain ⟨l1, _, e2, h⟩ :=
      addRestoreToCount_cases (run (DeferredDisplayList.init bounds avoid) cmds) r op n
    rcases h with ⟨_, he⟩ | ⟨⟨top, rest, ht, hle⟩, _⟩
    · rw [he, e2]
    · have := hall top (by rw [ht]; exact List.mem_cons_self _ _)
      omega
  · rintro ⟨d, hd, hle⟩
    rw [← h1b] at hd
    obtain ⟨l1, _, e2, h⟩ :=
      addRestoreToCount_cases (run (DeferredDisplayList.init bounds avoid) cmds) r op n
    rcases h with ⟨hcase, _⟩ | ⟨_, he⟩
    · exfalso
      rcases hcase with h0 | ⟨top, rest, ht, hgt⟩
      · rw [h0] at hd; cases hd
      · rw [ht] at hd h2
        rw [List.pairwise_cons] at h2
        rcases List.mem_cons.1 hd with rfl | hd2
        · omega
        · have := h2.1 d hd2
          omega
    · refine ⟨(r.storeDisplayState createState l1.getStateOpDeferFlags).2, ?_⟩
      rw [he, openPushes_append, ← h1b, dropWhile_eq_filter n _ h2]
      simp only [DeferredDisplayList.storeRestoreToCountBarrier,
        DeferredDisplayList.resetBatchingState, e2]
      rfl

theorem restore_depth_witness :
    ∃ st,
      ((run (DeferredDisplayList.init ⟨0, 0, 10, 10⟩ true)
        [Cmd.addSaveLayer (sampleRenderer 1 false) sampleSaveLayer 5,
          Cmd.addSaveLayer (sampleRenderer 1 false) sampleSaveLayer 6]).addRestoreToCount
        (sampleRenderer 1 false) sampleRestore 6).mBatches =
      (run (DeferredDisplayList.init ⟨0, 0, 10, 10⟩ true)
        [Cmd.addSaveLayer (sampleRenderer 1 false) sampleSaveLayer 5,
          Cmd.addSaveLayer (sampleRenderer 1 false) sampleSaveLayer 6]).mBatches ++
        [some (Batch.restoreToCount sampleRestore st
          (((openPushes (DeferredDisplayList.init ⟨0, 0, 10, 10⟩ true)
            ([Cmd.addSaveLayer (sampleRenderer 1 false) sampleSaveLayer 5,
              Cmd.addSaveLayer (sampleRenderer 1 false) sampleSaveLayer 6] ++
              [Cmd.addRestoreToCount (sampleRenderer 1 false) sampleRestore 6]) []).length :
              Int) + FLUSH_SAVE_STACK_DEPTH))] :=
  (restore_depth ⟨0, 0, 10, 10⟩ true
    [Cmd.addSaveLayer (sampleRenderer 1 false) sampleSaveLayer 5,
      Cmd.addSaveLayer (sampleRenderer 1 false) sampleSaveLayer 6]
    ⟨fun _ _ _ hd => (by cases hd),
      fun n h d hd => (by
        have e : n = 6 := by simpa [Cmd.push?] using h.symm
        have e2 : d = 5 := by
          have : d ∈ ([5] : List Int) := hd
          simpa using this
        rw [e, e2]
        decide),
      trivial⟩
    (sampleRenderer 1 false) sampleRestore 6).2.2 ⟨6, by with_unfolding_all decide, by decide⟩

/-! ### Overdraw avoidance at insertion -/

theorem deferDrawOp_opacity (l : DeferredDisplayList) (r : OpenGLRenderer) (op : DrawOp)
    (st : DeferredDisplayState) (info : DeferInfo)
    (h : l.deferDrawOp r op = some (st, info)) :
    info.opaqueOverBounds =
      (op.deferInfo.opaqueOverBounds && (!l.recordingComplexClip && l.mSaveStack.isEmpty)) := by
  unfold DeferredDisplayList.deferDrawOp at h
  dsimp only at h
  split at h
  · cases h
  · split at h
    · cases h
    · simp only [Option.some.injEq, Prod.mk.injEq] at h
      rw [← h.2]

theorem avoidOverdraw_fires (l : DeferredDisplayList) (st : DeferredDisplayState)
    (info : DeferInfo) (havoid : l.mAvoidOverdraw = true) (hne : l.mBatches ≠ [])
    (hclip : st.mClipSideFlags ≠ kClipSide_ConservativeFull)
    (hop : info.opaqueOverBounds = true) (hcover : st.mBounds.contains l.mBounds = true) :
    l.avoidOverdraw st info =
      (l.discardDrawingBatches (l.mBatches.length - 1)).resetBatchingState := by
  unfold DeferredDisplayList.avoidOverdraw
  have hlen : l.mBatches.length ≠ 0 := by
    intro h0
    exact hne (List.length_eq_zero.1 h0)
  rw [if_pos]
  simp [havoid, hlen, hclip, hop, hcover]

theorem avoidOverdraw_idle (l : DeferredDisplayList) (st : DeferredDisplayState)
    (info : DeferInfo)
    (h : l.mAvoidOverdraw = false ∨ l.mBatches = [] ∨
      st.mClipSideFlags = kClipSide_ConservativeFull ∨ info.opaqueOverBounds = false ∨
      st.mBounds.contains l.mBounds = false) :
    l.avoidOverdraw st info = l := by
  unfold DeferredDisplayList.avoidOverdraw
  rw [if_neg]
  rcases h with h | h | h | h | h <;> simp [h]

theorem addRestoreToCount_uncleared (l : DeferredDisplayList) (r : OpenGLRenderer)
    (op : StateOp) (n : Int) :
    (l.addRestoreToCount r op n).mEarliestUnclearedIndex = l.mEarliestUnclearedIndex := by
  obtain ⟨l1, _, _, h⟩ := addRestoreToCount_cases l r op n
  have h1 : ∀ l1 : DeferredDisplayList,
      (match l1.mSaveStack with
        | [] => l1
        | top :: _ =>
          if n > top then l1
          else
            DeferredDisplayList.storeRestoreToCountBarrier
              { l1 with mSaveStack := l1.mSaveStack.dropWhile fun d => decide (d ≥ n) } r op
              ((((l1.mSaveStack.dropWhile fun d => decide (d ≥ n)).length : Nat) : Int) +
                FLUSH_SAVE_STACK_DEPTH)).mEarliestUnclearedIndex =
        l1.mEarliestUnclearedIndex := by
    intro l1
    cases l1.mSaveStack with
    | nil => rfl
    | cons top rest =>
      dsimp only
      split_ifs
      · rfl
      · rfl
  unfold DeferredDisplayList.addRestoreToCount
  dsimp only
  rw [h1]
  split_ifs
  · rfl
  · rfl

theorem uncleared_le_step (l : DeferredDisplayList) (c : Cmd) (h : WF l)
    (hu : l.mEarliestUnclearedIndex ≤ l.mEarliestBatchIndex) :
    (step l c).mEarliestUnclearedIndex ≤ (step l c).mEarliestBatchIndex := by
  have hbar : ∀ c2 : Cmd, c2.isClear = false →
      (step l c2).mEarliestUnclearedIndex = l.mEarliestUnclearedIndex →
      (step l c2).mEarliestUnclearedIndex ≤ (step l c2).mEarliestBatchIndex := by
    intro c2 hc2 he
    rw [he]
    exact Nat.le_trans hu (frozen_step l c2 h hc2).2
  cases c with
  | clear => exact Nat.le_refl 0
  | addClip r op =>
    refine hbar _ rfl ?_
    show (l.addClip r op).mEarliestUnclearedIndex = l.mEarliestUnclearedIndex
    unfold DeferredDisplayList.addClip
    split_ifs
    · dsimp only
      split_ifs <;> rfl
    · rfl
  | addSaveLayer r op n => exact hbar _ rfl rfl
  | addSave r op n =>
    refine hbar _ rfl ?_
    show (l.addSave r op n).mEarliestUnclearedIndex = l.mEarliestUnclearedIndex
    unfold DeferredDisplayList.addSave
    dsimp only
    split_ifs <;> rfl
  | addRestoreToCount r op n => exact hbar _ rfl (addRestoreToCount_uncleared l r op n)
  | addDrawOp r op =>
    show (l.addDrawOp r op).mEarliestUnclearedIndex ≤ (l.addDrawOp r op).mEarliestBatchIndex
    rcases deferDrawOp_state_op l r op with he | ⟨st, info, _, he⟩
    · rw [he]; exact hu
    · rw [he]
      have h1 : (l.avoidOverdraw st info).mEarliestUnclearedIndex ≤
          (l.avoidOverdraw st info).mEarliestBatchIndex := by
        unfold DeferredDisplayList.avoidOverdraw
        split_ifs with hc
        · have hlen : l.mBatches.length ≠ 0 := by
            simp only [Bool.and_eq_true, decide_eq_true_eq] at hc
            exact hc.1.1.1.2
          simp only [DeferredDisplayList.resetBatchingState,
            DeferredDisplayList.discardDrawingBatches, length_discardRange]
          omega
        · exact hu
      rw [(insertDrawOp_fixed _ r op st info).2.2.1]
      exact Nat.le_trans h1 (frozen_insertDrawOp _ r op st info (wf_avoidOverdraw l st info h)).2

theorem uncleared_le_run (cmds : List Cmd) :
    ∀ l, WF l → l.mEarliestUnclearedIndex ≤ l.mEarliestBatchIndex →
      (run l cmds).mEarliestUnclearedIndex ≤ (run l cmds).mEarliestBatchIndex := by
  induction cmds with
  | nil => intro l _ h; exact h
  | cons c rest ih =>
    intro l h hu
    exact ih _ (wf_step l c h) (uncleared_le_step l c h hu)

theorem uncleared_le_reachable (l : DeferredDisplayList) (h : Reachable l) :
    l.mEarliestUnclearedIndex ≤ l.mEarliestBatchIndex := by
  obtain ⟨bounds, avoid, cmds, rfl⟩ := h
  exact uncleared_le_run cmds _ (wf_init bounds avoid) (Nat.le_refl 0)

theorem discard_getElem? (l : DeferredDisplayList) (maxIndex j : Nat) :
    (l.discardDrawingBatches maxIndex).mBatches[j]? =
      (l.mBatches[j]?).map fun s =>
        if l.mEarliestUnclearedIndex ≤ j ∧ j ≤ maxIndex then discardSlot s else s := by
  have := getElem?_discardRange_eq l.mEarliestUnclearedIndex maxIndex l.mBatches 0 j
  simpa [DeferredDisplayList.discardDrawingBatches] using this

set_option maxRecDepth 100000 in
theorem insertion_overdraw_counterexample :
    (run (DeferredDisplayList.init ⟨0, 0, 10, 10⟩ true)
      [Cmd.addDrawOp (sampleRenderer 1 false) sampleOpaqueA]).mBatches =
      [some (Batch.draw 0 ((DrawBatch.new ⟨1, 0, false, true⟩).add sampleOpaqueA
        (sampleState ⟨0, 0, 5, 5⟩ 1 false) true))] ∧
    ((DrawBatch.new ⟨1, 0, false, true⟩).add sampleOpaqueA
        (sampleState ⟨0, 0, 5, 5⟩ 1 false) true).mBounds = ⟨0, 0, 5, 5⟩ ∧
    (run (DeferredDisplayList.init ⟨0, 0, 10, 10⟩ true)
      [Cmd.addDrawOp (sampleRenderer 1 false) sampleOpaqueA]).deferDrawOp
        (sampleRenderer 1 false) sampleOpaqueSmall =
      some (sampleState ⟨0, 0, 5, 5⟩ 1 false, ⟨2, 0, false, true⟩) ∧
    (sampleState ⟨0, 0, 5, 5⟩ 1 false).mBounds.contains ⟨0, 0, 5, 5⟩ = true ∧
    ((run (DeferredDisplayList.init ⟨0, 0, 10, 10⟩ true)
      [Cmd.addDrawOp (sampleRenderer 1 false) sampleOpaqueA]).addDrawOp
        (sampleRenderer 1 false) sampleOpaqueSmall).mBatches =
      [some (Batch.draw 0 ((DrawBatch.new ⟨1, 0, false, true⟩).add sampleOpaqueA
        (sampleState ⟨0, 0, 5, 5⟩ 1 false) true)),
       some (Batch.draw 1 ((DrawBatch.new ⟨2, 0, false, true⟩).add sampleOpaqueSmall
        (sampleState ⟨0, 0, 5, 5⟩ 1 false) true))] := by
  refine ⟨by with_unfolding_all decide, by with_unfolding_all decide,
    by with_unfolding_all decide, by with_unfolding_all decide, by with_unfolding_all decide⟩

/-- C12 (amended).  On an engine reached from the initial one with overdraw avoidance on
and a non-empty batch list, let `addDrawOp` receive an operation that is not dropped, that
reports itself opaque over its bounds while no complex clip is being recorded and the save
stack is empty, whose stored clip-side mask is not the conservative-full one, and whose
stored bounds contain the display bounds `mBounds` of the engine.  Then, before the
operation is placed, every purely-drawing batch at an index from `mEarliestUnclearedIndex`
on is replaced by an empty slot, which empties every slot of the reorder window; the
length of the list and every state-op or restore-to-count batch are unchanged; both lookups
are emptied and the reorder window starts at the end of the list.  When one of these
conditions fails, nothing is discarded and the batching state is kept. -/
theorem insertion_overdraw (l : DeferredDisplayList) (hl : Reachable l) (r : OpenGLRenderer)
    (op : DrawOp) (st : DeferredDisplayState) (info : DeferInfo)
    (hd : l.deferDrawOp r op = some (st, info)) :
    l.addDrawOp r op = (l.avoidOverdraw st info).insertDrawOp r op st info ∧
    (l.mAvoidOverdraw = true → l.mBatches ≠ [] →
      st.mClipSideFlags ≠ kClipSide_ConservativeFull →
      op.deferInfo.opaqueOverBounds = true → l.recordingComplexClip = false →
      l.mSaveStack = [] → st.mBounds.contains l.mBounds = true →
      (l.avoidOverdraw st info).mBatches.length = l.mBatches.length ∧
      (∀ (i : Nat) (b : Batch), l.mBatches[i]? = some (some b) → b.purelyDrawBatch = true →
        l.mEarliestUnclearedIndex ≤ i →
        (l.avoidOverdraw st info).mBatches[i]? = some none) ∧
      (∀ i : Nat, l.mEarliestBatchIndex ≤ i → i < l.mBatches.length →
        (l.avoidOverdraw st info).mBatches[i]? = some none) ∧
      (∀ (i : Nat) (b : Batch), l.mBatches[i]? = some (some b) → b.purelyDrawBatch = false →
        (l.avoidOverdraw st info).mBatches[i]? = some (some b)) ∧
      (∀ k, (l.avoidOverdraw st info).mBatchLookup k = none) ∧
      (∀ k m, (l.avoidOverdraw st info).mMergingBatches k m = none) ∧
      (l.avoidOverdraw st info).mEarliestBatchIndex = l.mBatches.length) ∧
    ((l.mAvoidOverdraw = false ∨ l.mBatches = [] ∨
        st.mClipSideFlags = kClipSide_ConservativeFull ∨
        op.deferInfo.opaqueOverBounds = false ∨ l.recordingComplexClip = true ∨
        l.mSaveStack ≠ [] ∨ st.mBounds.contains l.mBounds = false) →
      l.avoidOverdraw st info = l) := by
  have hinfo := deferDrawOp_opacity l r op st info hd
  refine ⟨addDrawOp_eq l r op st info hd, ?_, ?_⟩
  · intro havoid hne hclip hop hrec hstack hcover
    have hio : info.opaqueOverBounds = true := by
      rw [hinfo, hop, hrec, hstack]; rfl
    have he := avoidOverdraw_fires l st info havoid hne hclip hio hcover
    have hb : (l.avoidOverdraw st info).mBatches =
        (l.discardDrawingBatches (l.mBatches.length - 1)).mBatches := by rw [he]; rfl
    have hdraw : ∀ (i : Nat) (b : Batch), l.mBatches[i]? = some (some b) →
        b.purelyDrawBatch = true → l.mEarliestUnclearedIndex ≤ i →
        (l.avoidOverdraw st info).mBatches[i]? = some none := by
      intro i b hi hp hu
      have hlt := lt_length_of_getElem? _ _ _ hi
      rw [hb, discard_getElem?, hi]
      have : l.mEarliestUnclearedIndex ≤ i ∧ i ≤ l.mBatches.length - 1 := ⟨hu, by omega⟩
      simp [this, discardSlot_draw b hp]
    refine ⟨length_avoidOverdraw l st info, hdraw, ?_, ?_, ?_, ?_, ?_⟩
    · intro i h1 h2
      obtain ⟨b, hb1, hb2⟩ := (wf_reachable l hl).window i h1 h2
      exact hdraw i b hb1 hb2 (Nat.le_trans (uncleared_le_reachable l hl) h1)
    · intro i b hi hp
      rw [hb, discard_getElem?, hi]
      simp [discardSlot_barrier b hp]
    · intro k; rw [he]; rfl
    · intro k m; rw [he]; rfl
    · rw [he]
      simp [DeferredDisplayList.resetBatchingState, DeferredDisplayList.discardDrawingBatches,
        length_discardRange]
  · intro h
    apply avoidOverdraw_idle
    rcases h with h | h | h | h | h | h | h
    · exact Or.inl h
    · exact Or.inr (Or.inl h)
    · exact Or.inr (Or.inr (Or.inl h))
    · exact Or.inr (Or.inr (Or.inr (Or.inl (by rw [hinfo, h]; rfl))))
    · exact Or.inr (Or.inr (Or.inr (Or.inl (by rw [hinfo, h]; simp))))
    · refine Or.inr (Or.inr (Or.inr (Or.inl ?_)))
      rw [hinfo]
      cases hs : l.mSaveStack with
      | nil => exact absurd hs h
      | cons a t => simp
    · exact Or.inr (Or.inr (Or.inr (Or.inr h)))

set_option maxRecDepth 100000 in
theorem insertion_overdraw_witness :
    ((run (DeferredDisplayList.init ⟨0, 0, 10, 10⟩ true)
      [Cmd.addDrawOp (sampleRenderer 1 false) sampleOpaqueA]).avoidOverdraw
        (sampleState ⟨0, 0, 10, 10⟩ 1 false) ⟨2, 0, false, true⟩).mBatches[0]? = some none :=
  ((insertion_overdraw
    (run (DeferredDisplayList.init ⟨0, 0, 10, 10⟩ true)
      [Cmd.addDrawOp (sampleRenderer 1 false) sampleOpaqueA])
    ⟨_, _, _, rfl⟩ (sampleRenderer 1 false) sampleOpaqueB
    (sampleState ⟨0, 0, 10, 10⟩ 1 false) ⟨2, 0, false, true⟩
    (by with_unfolding_all decide)).2.1
    (by with_unfolding_all decide) (by with_unfolding_all decide)
    (by with_unfolding_all decide) (by with_unfolding_all decide)
    (by with_unfolding_all decide) (by with_unfolding_all decide)
    (by with_unfolding_all decide)).2.2.1 0 (by with_unfolding_all decide)
    (by with_unfolding_all decide)

/-! ### Overdraw avoidance at flush -/

theorem discard_survivor (l : DeferredDisplayList) (maxIndex m : Nat) (x : Batch)
    (h : (l.discardDrawingBatches maxIndex).mBatches[m]? = some (some x)) :
    l.mBatches[m]? = some (some x) ∧
      (x.purelyDrawBatch = true → m < l.mEarliestUnclearedIndex ∨ maxIndex < m) := by
  rw [discard_getElem?] at h
  cases hs : l.mBatches[m]? with
  | none => rw [hs] at h; simp at h
  | some s =>
    rw [hs] at h
    simp only [Option.map_some'] at h
    by_cases hr : l.mEarliestUnclearedIndex ≤ m ∧ m ≤ maxIndex
    · rw [if_pos hr] at h
      cases s with
      | none => simp [discardSlot] at h
      | some b0 =>
        cases hp : b0.purelyDrawBatch with
        | true => rw [discardSlot_draw b0 hp] at h; simp at h
        | false =>
          rw [discardSlot_barrier b0 hp] at h
          have e : b0 = x := by simpa using h
          subst e
          refine ⟨rfl, ?_⟩
          intro hp2
          rw [hp] at hp2
          exact absurd hp2 (by simp)
    · rw [if_neg hr] at h
      have e : s = some x := by simpa using h
      subst e
      refine ⟨rfl, ?_⟩
      intro _
      omega

theorem discard_noDraw (l : DeferredDisplayList) (maxIndex m : Nat)
    (h : noDrawAt l.mBatches m) : noDrawAt (l.discardDrawingBatches maxIndex).mBatches m := by
  intro x hx
  exact h x (discard_survivor l maxIndex m x hx).1

theorem discard_inv (u0 : Nat) (l : DeferredDisplayList) (maxIndex : Nat)
    (h : ∀ m, u0 ≤ m → m < l.mEarliestUnclearedIndex → noDrawAt l.mBatches m) :
    ∀ m, u0 ≤ m → m < (l.discardDrawingBatches maxIndex).mEarliestUnclearedIndex →
      noDrawAt (l.discardDrawingBatches maxIndex).mBatches m := by
  intro m h1 h2 x hx
  have h2b : m < maxIndex + 1 := h2
  obtain ⟨e, hside⟩ := discard_survivor l maxIndex m x hx
  cases hp : x.purelyDrawBatch with
  | false => rfl
  | true =>
    rcases hside hp with h3 | h3
    · rw [← hp]
      exact h m h1 h3 x e
    · omega

theorem flushDiscardFrom_induct (P : DeferredDisplayList → Prop)
    (hP : ∀ l mx, P l → P (l.discardDrawingBatches mx)) :
    ∀ (n : Nat) (l : DeferredDisplayList) (i : Nat), P l →
      P (DeferredDisplayList.flushDiscardFrom l i n) := by
  intro n
  induction n with
  | zero => intro l i h; exact h
  | succ n ih =>
    intro l i h
    simp only [DeferredDisplayList.flushDiscardFrom]
    apply ih
    split
    · split_ifs
      · exact hP _ _ h
      · exact h
    · exact h

theorem flushDiscardFrom_high :
    ∀ (n : Nat) (l : DeferredDisplayList) (i m : Nat), 1 ≤ i → i + n ≤ m + 1 →
      (DeferredDisplayList.flushDiscardFrom l i n).mBatches[m]? = l.mBatches[m]? ∧
        (DeferredDisplayList.flushDiscardFrom l i n).mBounds = l.mBounds := by
  intro n
  induction n with
  | zero => intro l i m _ _; exact ⟨rfl, rfl⟩
  | succ n ih =>
    intro l i m hi hm
    simp only [DeferredDisplayList.flushDiscardFrom]
    obtain ⟨a, b⟩ := ih
      (match l.mBatches[i]? with
      | some (some b) => if b.coversBounds l.mBounds then l.discardDrawingBatches (i - 1) else l
      | _ => l) (i + 1) m (by omega) (by omega)
    rw [a, b]
    have hd : (l.discardDrawingBatches (i - 1)).mBatches[m]? = l.mBatches[m]? := by
      rw [discard_getElem?]
      have : ¬ (l.mEarliestUnclearedIndex ≤ m ∧ m ≤ i - 1) := by omega
      simp [this]
    split
    · split_ifs
      · exact ⟨hd, rfl⟩
      · exact ⟨rfl, rfl⟩
    · exact ⟨rfl, rfl⟩

theorem flushDiscardFrom_add :
    ∀ (a b : Nat) (l : DeferredDisplayList) (i : Nat),
      DeferredDisplayList.flushDiscardFrom l i (a + b) =
        DeferredDisplayList.flushDiscardFrom (DeferredDisplayList.flushDiscardFrom l i a)
          (i + a) b := by
  intro a
  induction a with
  | zero => intro b l i; simp [DeferredDisplayList.flushDiscardFrom]
  | succ a ih =>
    intro b l i
    have e : a + 1 + b = (a + b) + 1 := by omega
    rw [e]
    simp only [DeferredDisplayList.flushDiscardFrom]
    rw [ih]
    have e2 : i + 1 + a = i + (a + 1) := by omega
    rw [e2]

theorem flushDiscardFrom_frozen (l : DeferredDisplayList) (n i : Nat) :
    ∀ (m : Nat) (s : Option Batch), l.mBatches[m]? = some s →
      (DeferredDisplayList.flushDiscardFrom l i n).mBatches[m]? = some s ∨
        (DeferredDisplayList.flushDiscardFrom l i n).mBatches[m]? = some none := by
  refine flushDiscardFrom_induct
    (fun l2 => ∀ (m : Nat) (s : Option Batch), l.mBatches[m]? = some s →
      l2.mBatches[m]? = some s ∨ l2.mBatches[m]? = some none) ?_ n l i ?_
  · intro l2 mx h m s hs
    rw [discard_getElem?]
    rcases h m s hs with h1 | h1
    · rw [h1]
      simp only [Option.map_some']
      split_ifs
      · rcases discardSlot_cases s with h2 | ⟨h2, _⟩
        · rw [h2]; exact Or.inl rfl
        · rw [h2]; exact Or.inr rfl
      · exact Or.inl rfl
    · rw [h1]
      simp only [Option.map_some']
      split_ifs
      · exact Or.inr rfl
      · exact Or.inr rfl
  · intro m s hs
    exact Or.inl hs

theorem flushDiscard_covered (l : DeferredDisplayList) (i : Nat) (y : Batch) (hi : 1 ≤ i)
    (hy : l.mBatches[i]? = some (some y)) (hcov : y.coversBounds l.mBounds = true)
    (j : Nat) (x : Batch) (hu : l.mEarliestUnclearedIndex ≤ j) (hj : j < i)
    (hx : l.mBatches[j]? = some (some x)) (hp : x.purelyDrawBatch = true) :
    l.flushDiscard.mBatches[j]? = some none := by
  have hlen := lt_length_of_getElem? _ _ _ hy
  obtain ⟨n, hsplit⟩ : ∃ n, l.mBatches.length - 1 = (i - 1) + (n + 1) :=
    ⟨l.mBatches.length - 1 - i, by omega⟩
  have e1 : l.flushDiscard =
      DeferredDisplayList.flushDiscardFrom
        (DeferredDisplayList.flushDiscardFrom l 1 (i - 1)) i (n + 1) := by
    unfold DeferredDisplayList.flushDiscard
    rw [hsplit, flushDiscardFrom_add]
    have : 1 + (i - 1) = i := by omega
    rw [this]
  obtain ⟨ha1, ha2⟩ := flushDiscardFrom_high (i - 1) l 1 i (Nat.le_refl 1) (by omega)
  have hinv : ∀ m, l.mEarliestUnclearedIndex ≤ m →
      m < (DeferredDisplayList.flushDiscardFrom l 1 (i - 1)).mEarliestUnclearedIndex →
      noDrawAt (DeferredDisplayList.flushDiscardFrom l 1 (i - 1)).mBatches m := by
    refine flushDiscardFrom_induct
      (fun l2 => ∀ m, l.mEarliestUnclearedIndex ≤ m → m < l2.mEarliestUnclearedIndex →
        noDrawAt l2.mBatches m)
      (fun l2 mx h => discard_inv l.mEarliestUnclearedIndex l2 mx h) (i - 1) l 1 ?_
    intro m h1 h2
    omega
  have e2 : DeferredDisplayList.flushDiscardFrom
      (DeferredDisplayList.flushDiscardFrom l 1 (i - 1)) i (n + 1) =
      DeferredDisplayList.flushDiscardFrom
        ((DeferredDisplayList.flushDiscardFrom l 1 (i - 1)).discardDrawingBatches (i - 1))
        (i + 1) n := by
    simp only [DeferredDisplayList.flushDiscardFrom]
    rw [ha1, hy, ha2]
    dsimp only
    rw [if_pos hcov]
  have hnd : noDrawAt
      ((DeferredDisplayList.flushDiscardFrom l 1 (i - 1)).discardDrawingBatches
        (i - 1)).mBatches j := by
    refine discard_inv l.mEarliestUnclearedIndex _ (i - 1) hinv j hu ?_
    show j < i - 1 + 1
    omega
  have hfinal : noDrawAt l.flushDiscard.mBatches j := by
    rw [e1, e2]
    exact flushDiscardFrom_induct (fun l2 => noDrawAt l2.mBatches j)
      (fun l2 mx h => discard_noDraw l2 mx j h) _ _ _ hnd
  rcases flushDiscardFrom_frozen l (l.mBatches.length - 1) 1 j (some x) hx with h1 | h1
  · have := hfinal x h1
    rw [hp] at this
    cases this
  · exact h1

theorem slotCalls_append (xs ys : List (Option Batch)) :
    slotCalls (xs ++ ys) = slotCalls xs ++ slotCalls ys := by
  induction xs with
  | nil => rfl
  | cons s rest ih =>
    cases s with
    | none => simpa [slotCalls] using ih
    | some b => simp [slotCalls, ih]

theorem slotCalls_skip (bs : List (Option Batch)) (j : Nat) (h : bs[j]? = some none) :
    slotCalls bs = slotCalls (bs.take j) ++ slotCalls (bs.drop (j + 1)) := by
  have e := split_at bs j none h
  have e2 : slotCalls bs = slotCalls (bs.take j ++ none :: bs.drop (j + 1)) := by rw [← e]
  rw [e2, slotCalls_append]
  rfl

theorem coversBounds_true (y : Batch) (bounds : Rect) (h : y.coversBounds bounds = true) :
    ∃ d, y.asDraw? = some d ∧ d.mAllOpsOpaque = true ∧ d.mBounds.contains bounds = true ∧
      d.mOps.length ≠ 1 ∧
      Region.isEmpty
        (d.mOps.foldl (fun (reg : Region) p => reg.subtractSelf p.state.mBounds)
          (Region.ofRect bounds)) = true := by
  have key : ∀ d : DrawBatch, d.coversBounds bounds = true →
      d.mAllOpsOpaque = true ∧ d.mBounds.contains bounds = true ∧ d.mOps.length ≠ 1 ∧
      Region.isEmpty
        (d.mOps.foldl (fun (reg : Region) p => reg.subtractSelf p.state.mBounds)
          (Region.ofRect bounds)) = true := by
    intro d hd
    unfold DrawBatch.coversBounds at hd
    split_ifs at hd with hc
    simp only [Bool.or_eq_true, Bool.not_eq_true', decide_eq_true_eq, not_or] at hc
    refine ⟨by simpa using hc.1.1, by simpa using hc.1.2, hc.2, hd⟩
  cases y with
  | draw a d => exact ⟨d, rfl, key d h⟩
  | merging a m => exact ⟨m.toDrawBatch, rfl, key m.toDrawBatch h⟩
  | stateOp op st => cases h
  | restoreToCount op st n => cases h

set_option maxRecDepth 100000 in
theorem flush_overdraw_counterexample :
    sampleTwoOpaque.mAvoidOverdraw = true ∧
    sampleTwoOpaque.mBatches =
      [some (Batch.draw 0 ((DrawBatch.new ⟨1, 0, false, true⟩).add sampleOpaqueA
        (sampleState ⟨0, 0, 5, 5⟩ 1 false) true)),
       some (Batch.draw 1 ((DrawBatch.new ⟨2, 0, false, true⟩).add sampleOpaqueSmall
        (sampleState ⟨0, 0, 5, 5⟩ 1 false) true))] ∧
    ((DrawBatch.new ⟨1, 0, false, true⟩).add sampleOpaqueA
        (sampleState ⟨0, 0, 5, 5⟩ 1 false) true).mBounds = ⟨0, 0, 5, 5⟩ ∧
    ((DrawBatch.new ⟨2, 0, false, true⟩).add sampleOpaqueSmall
        (sampleState ⟨0, 0, 5, 5⟩ 1 false) true).mAllOpsOpaque = true ∧
    ((DrawBatch.new ⟨2, 0, false, true⟩).add sampleOpaqueSmall
        (sampleState ⟨0, 0, 5, 5⟩ 1 false) true).mBounds.contains ⟨0, 0, 5, 5⟩ = true ∧
    Event.applyDraw sampleOpaqueA ∈ (sampleTwoOpaque.flush fun _ _ => 0).2.1 := by
  refine ⟨by with_unfolding_all decide, by with_unfolding_all decide,
    by with_unfolding_all decide, by with_unfolding_all decide,
    by with_unfolding_all decide, ?_⟩
  rw [flush_calls _ _ (by with_unfolding_all decide)]
  with_unfolding_all decide

/-- C13 (amended).  For every engine at flush with overdraw avoidance on: if the batch in
a slot `i ≥ 1` covers the display bounds `mBounds` of the engine (it is a draw batch whose
members are all opaque over their bounds, whose bounds contain `mBounds`, whose member
count is not one, and nothing of `mBounds` is left once the bounds of every member are
subtracted), then every purely-drawing batch `X` in a slot from `mEarliestUnclearedIndex`
to `i - 1` is not replayed: its slot is emptied before the replay, and the calls the
backend receives are the opening calls of `flush`, the calls of the slots before and after
the slot of `X`, and the closing calls. -/
theorem flush_overdraw (l : DeferredDisplayList) (backend : Backend)
    (havoid : l.mAvoidOverdraw = true) (i : Nat) (y : Batch) (hi : 1 ≤ i)
    (hy : l.mBatches[i]? = some (some y)) (hcov : y.coversBounds l.mBounds = true) :
    (∃ d, y.asDraw? = some d ∧ d.mAllOpsOpaque = true ∧
      d.mBounds.contains l.mBounds = true ∧ d.mOps.length ≠ 1 ∧
      Region.isEmpty
        (d.mOps.foldl (fun (reg : Region) p => reg.subtractSelf p.state.mBounds)
          (Region.ofRect l.mBounds)) = true) ∧
    ∀ (j : Nat) (x : Batch), l.mEarliestUnclearedIndex ≤ j → j < i →
      l.mBatches[j]? = some (some x) → x.purelyDrawBatch = true →
      l.flushDiscard.mBatches[j]? = some none ∧
      (l.flush backend).2.1 =
        [Event.endPrecaching, Event.restoreToCount 1, Event.eventMark,
          Event.getDrawModifiers, Event.save (kMatrix_SaveFlag ||| kClip_SaveFlag)] ++
        (slotCalls (l.flushDiscard.mBatches.take j) ++
          slotCalls (l.flushDiscard.mBatches.drop (j + 1))) ++
        [Event.restoreToCount 1, Event.setDrawModifiers] := by
  refine ⟨coversBounds_true y l.mBounds hcov, ?_⟩
  intro j x hu hj hx hp
  have h1 := flushDiscard_covered l i y hi hy hcov j x hu hj hx hp
  refine ⟨h1, ?_⟩
  have hne : l.mBatches ≠ [] := by
    intro h0
    rw [h0] at hy
    simp at hy
  rw [flush_calls l backend hne, havoid, if_pos rfl, slotCalls_skip _ j h1]

set_option maxRecDepth 100000 in
theorem flush_overdraw_witness :
    sampleCovered.flushDiscard.mBatches[0]? = some none ∧
      (sampleCovered.flush fun _ _ => 0).2.1 =
        [Event.endPrecaching, Event.restoreToCount 1, Event.eventMark,
          Event.getDrawModifiers, Event.save (kMatrix_SaveFlag ||| kClip_SaveFlag)] ++
        (slotCalls (sampleCovered.flushDiscard.mBatches.take 0) ++
          slotCalls (sampleCovered.flushDiscard.mBatches.drop (0 + 1))) ++
        [Event.restoreToCount 1, Event.setDrawModifiers] :=
  (flush_overdraw sampleCovered (fun _ _ => 0) (by with_unfolding_all decide) 1
    sampleCoveringBatch (by decide) (by with_unfolding_all decide)
    (by with_unfolding_all decide)).2 0
    (Batch.draw 0 ((DrawBatch.new ⟨1, 0, false, true⟩).add sampleOpaqueA
      (sampleState ⟨0, 0, 5, 5⟩ 1 false) true))
    (by with_unfolding_all decide) (by decide) (by with_unfolding_all decide)
    (by with_unfolding_all decide)

/-! ### Operations recorded under a complex clip -/

theorem addr_mem_unique (bs : List (Option Batch)) (hn : (addrs bs).Nodup) (a : Nat)
    (b1 b2 : Batch) (h1 : some b1 ∈ bs) (h2 : some b2 ∈ bs) (ha1 : b1.addr? = some a)
    (ha2 : b2.addr? = some a) : b1 = b2 := by
  obtain ⟨i, hi⟩ := List.mem_iff_getElem?.1 h1
  obtain ⟨j, hj⟩ := List.mem_iff_getElem?.1 h2
  have e := addr_unique bs hn i j (some b1) (some b2) a hi hj ha1 ha2
  subst e
  rw [hi] at hj
  exact Option.some.inj (Option.some.inj hj)

theorem dullAt_subset (a : Nat) (bs bs2 : List (Option Batch))
    (hsub : ∀ b : Batch, some b ∈ bs2 → some b ∈ bs) (h : dullAt a bs) : dullAt a bs2 :=
  fun b hb ha => h b (hsub b hb) ha

theorem dullAt_append (a : Nat) (bs : List (Option Batch)) (x : Batch)
    (hx : x.addr? ≠ some a) (h : dullAt a bs) : dullAt a (bs ++ [some x]) := by
  intro b hb ha
  rcases List.mem_append.1 hb with h1 | h1
  · exact h b h1 ha
  · have e : b = x := by simpa using h1
    rw [e] at ha
    exact absurd ha hx

theorem dullAt_insertAt (a k : Nat) (bs : List (Option Batch)) (x : Batch)
    (hx : x.addr? ≠ some a) (h : dullAt a bs) : dullAt a (insertAt bs k (some x)) := by
  intro b hb ha
  rcases mem_insertAt bs k (some x) (some b) hb with h1 | h1
  · have e : b = x := Option.some.inj h1
    rw [e] at ha
    exact absurd ha hx
  · exact h b h1 ha

theorem dullAt_map_addAt (a t : Nat) (op : DrawOp) (st : DeferredDisplayState) (o : Bool)
    (bs : List (Option Batch)) (h : dullAt a bs) : dullAt a (bs.map (addAt t op st o)) := by
  intro b hb ha
  obtain ⟨s, hs, he⟩ := List.mem_map.1 hb
  cases s with
  | none => simp [addAt] at he
  | some b0 =>
    simp only [addAt] at he
    split_ifs at he with hc
    · have e : b = b0.add op st o := (Option.some.inj he).symm
      rw [e, Batch.addr_add] at ha
      obtain ⟨d, hd1, hd2⟩ := h b0 hs ha
      refine ⟨d.add op st o, ?_, ?_⟩
      · rw [e, hd1]; rfl
      · simp [DrawBatch.add, hd2]
    · have e : b = b0 := (Option.some.inj he).symm
      rw [e] at ha ⊢
      exact h b0 hs ha

theorem placeInBatch_nextAddr (l : DeferredDisplayList) (r : OpenGLRenderer) (op : DrawOp)
    (st : DeferredDisplayState) (info : DeferInfo) (t : Option Nat) (k : Nat) :
    l.nextAddr ≤ (l.placeInBatch r op st info t k).nextAddr := by
  unfold DeferredDisplayList.placeInBatch
  cases t with
  | some a => exact Nat.le_refl _
  | none =>
    dsimp only
    split_ifs
    · exact Nat.le_succ _
    · exact Nat.le_succ _

theorem insertDrawOp_nextAddr (l : DeferredDisplayList) (r : OpenGLRenderer) (op : DrawOp)
    (st : DeferredDisplayState) (info : DeferInfo) :
    l.nextAddr ≤ (l.insertDrawOp r op st info).nextAddr := by
  unfold DeferredDisplayList.insertDrawOp
  split_ifs
  · exact Nat.le_succ _
  · exact Nat.le_succ _
  · exact placeInBatch_nextAddr _ _ _ _ _ _ _
  · exact placeInBatch_nextAddr _ _ _ _ _ _ _

theorem avoidOverdraw_nextAddr (l : DeferredDisplayList) (st : DeferredDisplayState)
    (info : DeferInfo) : (l.avoidOverdraw st info).nextAddr = l.nextAddr := by
  unfold DeferredDisplayList.avoidOverdraw
  split_ifs <;> rfl

theorem addRestoreToCount_nextAddr (l : DeferredDisplayList) (r : OpenGLRenderer)
    (op : StateOp) (n : Int) : (l.addRestoreToCount r op n).nextAddr = l.nextAddr := by
  have h1 : ∀ l1 : DeferredDisplayList,
      (match l1.mSaveStack with
        | [] => l1
        | top :: _ =>
          if n > top then l1
          else
            DeferredDisplayList.storeRestoreToCountBarrier
              { l1 with mSaveStack := l1.mSaveStack.dropWhile fun d => decide (d ≥ n) } r op
              ((((l1.mSaveStack.dropWhile fun d => decide (d ≥ n)).length : Nat) : Int) +
                FLUSH_SAVE_STACK_DEPTH)).nextAddr = l1.nextAddr := by
    intro l1
    cases l1.mSaveStack with
    | nil => rfl
    | cons top rest =>
      dsimp only
      split_ifs
      · rfl
      · rfl
  unfold DeferredDisplayList.addRestoreToCount
  dsimp only
  rw [h1]
  split_ifs
  · rfl
  · rfl

theorem nextAddr_step (l : DeferredDisplayList) (c : Cmd) :
    l.nextAddr ≤ (step l c).nextAddr := by
  cases c with
  | clear => exact Nat.le_refl _
  | addClip r op =>
    show l.nextAddr ≤ (l.addClip r op).nextAddr
    unfold DeferredDisplayList.addClip
    split_ifs
    · dsimp only
      split_ifs
      · exact Nat.le_refl _
      · exact Nat.le_refl _
    · exact Nat.le_refl _
  | addSaveLayer r op n => exact Nat.le_refl _
  | addSave r op n =>
    show l.nextAddr ≤ (l.addSave r op n).nextAddr
    unfold DeferredDisplayList.addSave
    dsimp only
    split_ifs
    · exact Nat.le_refl _
    · exact Nat.le_refl _
  | addRestoreToCount r op n =>
    show l.nextAddr ≤ (l.addRestoreToCount r op n).nextAddr
    rw [addRestoreToCount_nextAddr]
  | addDrawOp r op =>
    show l.nextAddr ≤ (l.addDrawOp r op).nextAddr
    rcases deferDrawOp_state_op l r op with he | ⟨st, info, _, he⟩
    · rw [he]
    · rw [he]
      have := insertDrawOp_nextAddr (l.avoidOverdraw st info) r op st info
      rw [avoidOverdraw_nextAddr] at this
      exact this

theorem dullAt_placeInBatch (a : Nat) (l : DeferredDisplayList) (r : OpenGLRenderer)
    (op : DrawOp) (st : DeferredDisplayState) (info : DeferInfo) (t : Option Nat) (k : Nat)
    (ha : a < l.nextAddr) (h : dullAt a l.mBatches) :
    dullAt a (l.placeInBatch r op st info t k).mBatches := by
  have hne : some l.nextAddr ≠ some a := by
    intro e
    have := Option.some.inj e
    omega
  unfold DeferredDisplayList.placeInBatch
  cases t with
  | some a2 => exact dullAt_map_addAt a a2 op st _ _ h
  | none =>
    dsimp only
    split_ifs
    · exact dullAt_map_addAt a _ op st _ _
        (dullAt_insertAt a k _ (Batch.merging l.nextAddr _) hne h)
    · exact dullAt_map_addAt a _ op st _ _
        (dullAt_insertAt a k _ (Batch.draw l.nextAddr _) hne h)

theorem dullAt_insertDrawOp (a : Nat) (l : DeferredDisplayList) (r : OpenGLRenderer)
    (op : DrawOp) (st : DeferredDisplayState) (info : DeferInfo)
    (ha : a < l.nextAddr) (h : dullAt a l.mBatches) :
    dullAt a (l.insertDrawOp r op st info).mBatches := by
  have hne : some l.nextAddr ≠ some a := by
    intro e
    have := Option.some.inj e
    omega
  unfold DeferredDisplayList.insertDrawOp
  split_ifs
  · exact dullAt_append a _ (Batch.draw l.nextAddr _) hne h
  · exact dullAt_append a _ (Batch.draw l.nextAddr _) hne h
  · exact dullAt_placeInBatch a l r op st info _ _ ha h
  · exact dullAt_placeInBatch a l r op st info _ _ ha h

theorem dullAt_avoidOverdraw (a : Nat) (l : DeferredDisplayList) (st : DeferredDisplayState)
    (info : DeferInfo) (h : dullAt a l.mBatches) :
    dullAt a (l.avoidOverdraw st info).mBatches := by
  unfold DeferredDisplayList.avoidOverdraw
  split_ifs
  · exact dullAt_subset a _ _ (fun b hb => mem_discardRange _ _ _ _ b hb) h
  · exact h

theorem dullAt_step (a : Nat) (l : DeferredDisplayList) (c : Cmd) (ha : a < l.nextAddr)
    (h : dullAt a l.mBatches) : dullAt a (step l c).mBatches := by
  have hnone : ∀ x : Batch, x.purelyDrawBatch = false → x.addr? ≠ some a := by
    intro x hx
    cases x with
    | draw a2 d => cases hx
    | merging a2 d => cases hx
    | stateOp o s => simp [Batch.addr?]
    | restoreToCount o s n => simp [Batch.addr?]
  cases c with
  | clear =>
    intro b hb
    have : some b ∈ ([] : List (Option Batch)) := hb
    cases this
  | addClip r op =>
    show dullAt a (l.addClip r op).mBatches
    cases hc : (l.recordingComplexClip || op.canCauseComplexClip ||
        !r.hasRectToRectTransform)
    · rw [(addClip_outcome l r op).2.1 hc]
      exact h
    · rw [((addClip_outcome l r op).1 hc).1]
      exact dullAt_append a _ _ (hnone _ rfl) h
  | addSaveLayer r op n =>
    exact dullAt_append a l.mBatches (Batch.stateOp op _) (hnone _ rfl) h
  | addSave r op n =>
    show dullAt a (l.addSave r op n).mBatches
    unfold DeferredDisplayList.addSave
    dsimp only
    split_ifs
    · exact dullAt_append a l.mBatches (Batch.stateOp op.toStateOp _) (hnone _ rfl) h
    · exact h
  | addRestoreToCount r op n =>
    show dullAt a (l.addRestoreToCount r op n).mBatches
    obtain ⟨l1, _, e2, hcase⟩ := addRestoreToCount_cases l r op n
    rcases hcase with ⟨_, he⟩ | ⟨_, he⟩
    · rw [he, e2]
      exact h
    · rw [he]
      have : dullAt a (l1.mBatches ++ [some (Batch.restoreToCount op
          (r.storeDisplayState createState l1.getStateOpDeferFlags).2
          ((((l.mSaveStack.dropWhile fun d => decide (d ≥ n)).length : Nat) : Int) +
            FLUSH_SAVE_STACK_DEPTH))]) := by
        rw [e2]
        exact dullAt_append a _ _ (hnone _ rfl) h
      exact this
  | addDrawOp r op =>
    show dullAt a (l.addDrawOp r op).mBatches
    rcases deferDrawOp_state_op l r op with he | ⟨st, info, _, he⟩
    · rw [he]; exact h
    · rw [he]
      exact dullAt_insertDrawOp a _ r op st info
        (by rw [avoidOverdraw_nextAddr]; exact ha) (dullAt_avoidOverdraw a l st info h)

theorem dullAt_run (a : Nat) :
    ∀ (cmds : List Cmd) (l : DeferredDisplayList), a < l.nextAddr → dullAt a l.mBatches →
      dullAt a (run l cmds).mBatches := by
  intro cmds
  induction cmds with
  | nil => intro l _ h; exact h
  | cons c rest ih =>
    intro l ha h
    exact ih (step l c) (Nat.lt_of_lt_of_le ha (nextAddr_step l c)) (dullAt_step a l c ha h)

theorem coversBounds_of_dull (a : Nat) (d : DrawBatch) (bounds : Rect)
    (h : d.mAllOpsOpaque = false) : (Batch.draw a d).coversBounds bounds = false := by
  simp [Batch.coversBounds, DrawBatch.coversBounds, h]

theorem plain_placement (l : DeferredDisplayList) (hwf : WF l) (r : OpenGLRenderer)
    (op : DrawOp) (st : DeferredDisplayState) (info : DeferInfo)
    (hm : info.mergeable = false) (ho : info.opaqueOverBounds = false) :
    (∀ a mb, some (Batch.merging a mb) ∈ (l.insertDrawOp r op st info).mBatches ↔
      some (Batch.merging a mb) ∈ l.mBatches) ∧
    ∃ a d, some (Batch.draw a d) ∈ (l.insertDrawOp r op st info).mBatches ∧
      (⟨op, st⟩ : OpStatePair) ∈ d.mOps ∧ d.mAllOpsOpaque = false := by
  have hnew : ((DrawBatch.new info).add op st info.opaqueOverBounds).mAllOpsOpaque = false := by
    simp [DrawBatch.add, ho]
  have hmem : (⟨op, st⟩ : OpStatePair) ∈
      ((DrawBatch.new info).add op st info.opaqueOverBounds).mOps := by
    simp [DrawBatch.add]
  have happ : (l.appendAlone op st info).mBatches =
      l.mBatches ++ [some (Batch.draw l.nextAddr
        ((DrawBatch.new info).add op st info.opaqueOverBounds))] := rfl
  have hA : (∀ a mb, some (Batch.merging a mb) ∈ (l.appendAlone op st info).mBatches ↔
        some (Batch.merging a mb) ∈ l.mBatches) ∧
      ∃ a d, some (Batch.draw a d) ∈ (l.appendAlone op st info).mBatches ∧
        (⟨op, st⟩ : OpStatePair) ∈ d.mOps ∧ d.mAllOpsOpaque = false := by
    rw [happ]
    refine ⟨?_, l.nextAddr, _, ?_, hmem, hnew⟩
    · intro a mb
      simp
    · simp
  rcases insertDrawOp_outcome l r op st info hwf with ⟨_, he⟩ | ⟨_, _, _, he⟩ |
    ⟨_, _, _, a, t, b, hj, _, he⟩ | ⟨_, _, k, _, _, _, he⟩
  · rw [he]; exact hA
  · rw [he]; exact hA
  · rw [he]
    rcases hj.variant with ⟨hm2, _⟩ | ⟨_, db, hb, _⟩
    · rw [hm] at hm2; cases hm2
    · have hat : l.mBatches[t]? = some (some (Batch.draw a db)) := by
        rw [← hb]; exact hj.at_index
      have hmap : (l.joinAt a op st info.opaqueOverBounds).mBatches =
          l.mBatches.take t ++
            some (Batch.draw a (db.add op st info.opaqueOverBounds)) :: l.mBatches.drop (t + 1) :=
        map_addAt_eq a op st info.opaqueOverBounds l.mBatches hwf.addr_nodup t
          (Batch.draw a db) hat rfl
      have hold : ∀ z : Option Batch, z ∈ l.mBatches ↔
          z ∈ l.mBatches.take t ∨ z = some (Batch.draw a db) ∨ z ∈ l.mBatches.drop (t + 1) := by
        intro z
        have e := split_at l.mBatches t _ hat
        constructor
        · intro hz
          rw [e] at hz
          simpa using hz
        · intro hz
          rw [e]
          simpa using hz
      rw [hmap]
      refine ⟨?_, a, db.add op st info.opaqueOverBounds, by simp, by simp [DrawBatch.add],
        by simp [DrawBatch.add, ho]⟩
      intro a2 mb
      rw [hold]
      simp
  · rw [he]
    have hnb : newBatchFor l.nextAddr r op st info =
        Batch.draw l.nextAddr ((DrawBatch.new info).add op st info.opaqueOverBounds) := by
      simp [newBatchFor, hm]
    have hc : (l.createAt r op st info k).mBatches =
        insertAt l.mBatches k (some (Batch.draw l.nextAddr
          ((DrawBatch.new info).add op st info.opaqueOverBounds))) := by
      rw [← hnb]; rfl
    rw [hc]
    refine ⟨?_, l.nextAddr, _, ?_, hmem, hnew⟩
    · intro a2 mb
      constructor
      · intro hz
        rcases mem_insertAt _ _ _ _ hz with h1 | h1
        · cases h1
        · exact h1
      · intro hz
        exact mem_insertAt_of_mem _ _ _ _ hz
    · simp [insertAt]

/-- C17 (complex-clip suppression).  On an engine reached from the initial one, while a
complex clip is being recorded, `addDrawOp` treats every draw operation it does not drop
as non-mergeable and as not opaque over its bounds, whatever its descriptor says: the
overdraw avoidance leaves the engine as it is, the merging batches of the batch list are
the same before and after, and the operation ends up in a plain batch whose all-opaque
accumulator is false; after any further calls, the batch stored at that address never
covers any bounds. -/
theorem complex_clip_suppression (l : DeferredDisplayList) (hl : Reachable l)
    (r : OpenGLRenderer) (op : DrawOp) (st : DeferredDisplayState) (info : DeferInfo)
    (hrec : l.recordingComplexClip = true) (hd : l.deferDrawOp r op = some (st, info)) :
    info.mergeable = false ∧ info.opaqueOverBounds = false ∧
    l.avoidOverdraw st info = l ∧
    (∀ a mb, some (Batch.merging a mb) ∈ (l.addDrawOp r op).mBatches ↔
      some (Batch.merging a mb) ∈ l.mBatches) ∧
    ∃ a d, some (Batch.draw a d) ∈ (l.addDrawOp r op).mBatches ∧
      (⟨op, st⟩ : OpStatePair) ∈ d.mOps ∧ d.mAllOpsOpaque = false ∧
      ∀ (cmds : List Cmd) (b : Batch) (bounds : Rect),
        some b ∈ (run (l.addDrawOp r op) cmds).mBatches → b.addr? = some a →
        b.coversBounds bounds = false := by
  have hwf := wf_reachable l hl
  have hm : info.mergeable = false := by
    rw [deferDrawOp_mergeable l r op st info hd, hrec]; simp
  have ho : info.opaqueOverBounds = false := by
    rw [deferDrawOp_opacity l r op st info hd, hrec]; simp
  have hav : l.avoidOverdraw st info = l :=
    avoidOverdraw_idle l st info (Or.inr (Or.inr (Or.inr (Or.inl ho))))
  have he : l.addDrawOp r op = l.insertDrawOp r op st info := by
    rw [addDrawOp_eq l r op st info hd, hav]
  obtain ⟨hmerge, a, d, hmem, hop, hdull⟩ := plain_placement l hwf r op st info hm ho
  refine ⟨hm, ho, hav, ?_, a, d, ?_, hop, hdull, ?_⟩
  · rw [he]; exact hmerge
  · rw [he]; exact hmem
  · intro cmds b bounds hb hba
    have hwf2 : WF (l.insertDrawOp r op st info) := by
      rw [← he]; exact wf_addDrawOp l r op hwf
    have halt : a < (l.insertDrawOp r op st info).nextAddr :=
      hwf2.addr_lt a ((mem_addrs _ a).2 ⟨some (Batch.draw a d), hmem, rfl⟩)
    have hdl : dullAt a (l.insertDrawOp r op st info).mBatches := by
      intro b2 hb2 ha2
      have e := addr_mem_unique _ hwf2.addr_nodup a b2 (Batch.draw a d) hb2 hmem ha2 rfl
      exact ⟨d, e, hdull⟩
    rw [he] at hb
    obtain ⟨d2, e2, hd2⟩ := dullAt_run a cmds _ halt hdl b hb hba
    rw [e2]
    exact coversBounds_of_dull a d2 bounds hd2

set_option maxRecDepth 100000 in
theorem complex_clip_suppression_witness :
    ((DeferredDisplayList.init ⟨0, 0, 10, 10⟩ true).addClip (sampleRenderer 1 false)
        sampleClip).recordingComplexClip = true ∧
      sampleMergeableOpaque.deferInfo = ⟨1, 1, true, true⟩ ∧
      ((DeferredDisplayList.init ⟨0, 0, 10, 10⟩ true).addClip (sampleRenderer 1 false)
        sampleClip).avoidOverdraw (sampleState ⟨0, 0, 10, 10⟩ 1 false) ⟨1, 1, false, false⟩ =
        (DeferredDisplayList.init ⟨0, 0, 10, 10⟩ true).addClip (sampleRenderer 1 false)
          sampleClip :=
  ⟨by decide, rfl,
    (complex_clip_suppression
      ((DeferredDisplayList.init ⟨0, 0, 10, 10⟩ true).addClip (sampleRenderer 1 false)
        sampleClip)
      ⟨⟨0, 0, 10, 10⟩, true, [Cmd.addClip (sampleRenderer 1 false) sampleClip], rfl⟩
      (sampleRenderer 1 false) sampleMergeableOpaque (sampleState ⟨0, 0, 10, 10⟩ 1 false)
      ⟨1, 1, false, false⟩ (by decide) (by with_unfolding_all decide)).2.2.1⟩

/-! ### Flush and clear return to the initial state -/

theorem length_placeInBatch (l : DeferredDisplayList) (r : OpenGLRenderer) (op : DrawOp)
    (st : DeferredDisplayState) (info : DeferInfo) (t : Option Nat) (k : Nat) :
    l.mBatches.length ≤ (l.placeInBatch r op st info t k).mBatches.length := by
  unfold DeferredDisplayList.placeInBatch
  cases t with
  | some a => simp
  | none =>
    dsimp only
    split_ifs <;> simp [insertAt] <;> omega

theorem length_insertDrawOp (l : DeferredDisplayList) (r : OpenGLRenderer) (op : DrawOp)
    (st : DeferredDisplayState) (info : DeferInfo) :
    l.mBatches.length ≤ (l.insertDrawOp r op st info).mBatches.length := by
  unfold DeferredDisplayList.insertDrawOp
  split_ifs
  · simp [DeferredDisplayList.appendAlone]
  · simp [DeferredDisplayList.appendAlone, DeferredDisplayList.resetBatchingState]
  · exact length_placeInBatch _ _ _ _ _ _ _
  · exact length_placeInBatch _ _ _ _ _ _ _

theorem length_addDrawOp (l : DeferredDisplayList) (r : OpenGLRenderer) (op : DrawOp) :
    l.mBatches.length ≤ (l.addDrawOp r op).mBatches.length := by
  rcases deferDrawOp_state_op l r op with he | ⟨st, info, _, he⟩
  · rw [he]
  · rw [he]
    have := length_insertDrawOp (l.avoidOverdraw st info) r op st info
    rw [length_avoidOverdraw] at this
    exact this

theorem emptyList_step (l : DeferredDisplayList) (c : Cmd)
    (h : l.mBatches = [] → l.mSaveStack = [] ∧ l.mComplexClipStackStart = -1) :
    (step l c).mBatches = [] →
      (step l c).mSaveStack = [] ∧ (step l c).mComplexClipStackStart = -1 := by
  cases c with
  | clear => intro _; exact ⟨rfl, rfl⟩
  | addClip r op =>
    show (l.addClip r op).mBatches = [] →
      (l.addClip r op).mSaveStack = [] ∧ (l.addClip r op).mComplexClipStackStart = -1
    cases hc : (l.recordingComplexClip || op.canCauseComplexClip ||
        !r.hasRectToRectTransform)
    · rw [(addClip_outcome l r op).2.1 hc]
      exact h
    · rw [((addClip_outcome l r op).1 hc).1]
      intro he
      simp at he
  | addSaveLayer r op n =>
    intro he
    have : l.mBatches ++ [some (Batch.stateOp op
        (r.storeDisplayState createState l.getStateOpDeferFlags).2)] = [] := he
    simp at this
  | addSave r op n =>
    show (l.addSave r op n).mBatches = [] →
      (l.addSave r op n).mSaveStack = [] ∧ (l.addSave r op n).mComplexClipStackStart = -1
    unfold DeferredDisplayList.addSave
    dsimp only
    split_ifs
    · intro he
      have : l.mBatches ++ [some (Batch.stateOp op.toStateOp
          (r.storeDisplayState createState l.getStateOpDeferFlags).2)] = [] := he
      simp at this
    · exact h
  | addRestoreToCount r op n =>
    show (l.addRestoreToCount r op n).mBatches = [] →
      (l.addRestoreToCount r op n).mSaveStack = [] ∧
        (l.addRestoreToCount r op n).mComplexClipStackStart = -1
    intro he
    have hs := addRestoreToCount_start l r op n
    obtain ⟨l1, e1, e2, hcase⟩ := addRestoreToCount_cases l r op n
    rcases hcase with ⟨_, heq⟩ | ⟨_, heq⟩
    · rw [heq, e2] at he
      obtain ⟨h1, h2⟩ := h he
      refine ⟨?_, ?_⟩
      · show (l.addRestoreToCount r op n).mSaveStack = []
        rw [heq, e1, h1]
      · show (l.addRestoreToCount r op n).mComplexClipStackStart = -1
        rw [hs]
        split_ifs
        · rfl
        · exact h2
    · rw [heq] at he
      have : l1.mBatches ++ [some (Batch.restoreToCount op
          (r.storeDisplayState createState l1.getStateOpDeferFlags).2
          ((((l.mSaveStack.dropWhile fun d => decide (d ≥ n)).length : Nat) : Int) +
            FLUSH_SAVE_STACK_DEPTH))] = [] := he
      simp at this
  | addDrawOp r op =>
    show (l.addDrawOp r op).mBatches = [] →
      (l.addDrawOp r op).mSaveStack = [] ∧ (l.addDrawOp r op).mComplexClipStackStart = -1
    intro he
    have hlen := length_addDrawOp l r op
    rw [he] at hlen
    have hl : l.mBatches = [] := List.length_eq_zero.1 (by simpa using hlen)
    obtain ⟨h1, h2⟩ := h hl
    obtain ⟨f1, f2, _, _⟩ := addDrawOp_fixed l r op
    exact ⟨f2.trans h1, f1.trans h2⟩

theorem emptyList_reachable (l : DeferredDisplayList) (hl : Reachable l)
    (he : l.mBatches = []) : l.mSaveStack = [] ∧ l.mComplexClipStackStart = -1 := by
  obtain ⟨bounds, avoid, cmds, rfl⟩ := hl
  have key : ∀ (cs : List Cmd) (l0 : DeferredDisplayList),
      (l0.mBatches = [] → l0.mSaveStack = [] ∧ l0.mComplexClipStackStart = -1) →
      (run l0 cs).mBatches = [] →
        (run l0 cs).mSaveStack = [] ∧ (run l0 cs).mComplexClipStackStart = -1 := by
    intro cs
    induction cs with
    | nil => intro l0 h; exact h
    | cons c rest ih => intro l0 h; exact ih (step l0 c) (emptyList_step l0 c h)
  exact key cmds _ (fun _ => ⟨rfl, rfl⟩) he

theorem flushDiscard_fixed (l : DeferredDisplayList) :
    l.flushDiscard.mBounds = l.mBounds ∧ l.flushDiscard.mAvoidOverdraw = l.mAvoidOverdraw ∧
      l.flushDiscard.nextAddr = l.nextAddr :=
  flushDiscardFrom_induct
    (fun l2 => l2.mBounds = l.mBounds ∧ l2.mAvoidOverdraw = l.mAvoidOverdraw ∧
      l2.nextAddr = l.nextAddr)
    (fun _ _ h => h) _ l 1 ⟨rfl, rfl, rfl⟩

theorem clear_eq_fresh (l : DeferredDisplayList) :
    l.clear =
      { DeferredDisplayList.init l.mBounds l.mAvoidOverdraw with nextAddr := l.nextAddr } :=
  rfl

theorem flush_state (l : DeferredDisplayList) (backend : Backend) :
    (l.mBatches = [] ∧ (l.flush backend).1 = l) ∨
      (l.mBatches ≠ [] ∧ (l.flush backend).1 = l.clear) := by
  by_cases h : l.mBatches = []
  · left
    refine ⟨h, ?_⟩
    rw [flush_of_empty l backend h]
  · right
    refine ⟨h, ?_⟩
    unfold DeferredDisplayList.flush
    have he : ¬ l.isEmpty = true := by
      simpa [DeferredDisplayList.isEmpty] using h
    rw [if_neg he]
    dsimp only
    cases ha : l.mAvoidOverdraw
    · rfl
    · obtain ⟨f1, f2, f3⟩ := flushDiscard_fixed l
      simp only [if_true]
      rw [clear_eq_fresh, clear_eq_fresh, f1, f2, f3]

theorem empty_eq_fresh (l : DeferredDisplayList) (hl : Reachable l) (he : l.mBatches = []) :
    l = { DeferredDisplayList.init l.mBounds l.mAvoidOverdraw with nextAddr := l.nextAddr } := by
  have hwf := wf_reachable l hl
  obtain ⟨h1, h2⟩ := emptyList_reachable l hl he
  have h3 : l.mEarliestBatchIndex = 0 := by
    have := hwf.earliest_le
    rw [he] at this
    simpa using this
  have h4 : l.mEarliestUnclearedIndex = 0 := by
    have := uncleared_le_reachable l hl
    omega
  have h5 : l.mBatchLookup = fun _ => none := by
    funext k
    cases hk : l.mBatchLookup k with
    | none => rfl
    | some a =>
      obtain ⟨i, b, _, hi, _⟩ := hwf.lookup k a hk
      rw [he] at hi
      simp at hi
  have h6 : l.mMergingBatches = fun _ _ => none := by
    funext k m
    cases hk : l.mMergingBatches k m with
    | none => rfl
    | some a =>
      obtain ⟨i, b, _, hi, _⟩ := hwf.merging k m a hk
      rw [he] at hi
      simp at hi
  rcases l with ⟨b, a, bs, st, cs, lk, mg, e, u, n⟩
  simp only at he h1 h2 h3 h4 h5 h6
  subst he h1 h2 h3 h4 h5 h6
  rfl

/-- C21 (flush and clear return to the initial state).  On every engine reached from the
initial one, after `flush` and after `clear` the batch list and the save stack are empty,
both lookups are empty, the complex-clip window is closed (start -1), and
`mEarliestBatchIndex` and `mEarliestUnclearedIndex` are 0: the engine equals a freshly
constructed engine with the same display bounds and overdraw switch (up to the counter of
the addresses handed out, which the embedding keeps to tell batches apart).  The engine
after `flush` or `clear` is again reached from the initial one. -/
theorem flush_and_clear_reset (l : DeferredDisplayList) (hl : Reachable l)
    (backend : Backend) :
    ((l.flush backend).1 =
        { DeferredDisplayList.init l.mBounds l.mAvoidOverdraw with nextAddr := l.nextAddr } ∧
      (l.flush backend).1.mBatches = [] ∧ (l.flush backend).1.mSaveStack = [] ∧
      (∀ k, (l.flush backend).1.mBatchLookup k = none) ∧
      (∀ k m, (l.flush backend).1.mMergingBatches k m = none) ∧
      (l.flush backend).1.mComplexClipStackStart = -1 ∧
      (l.flush backend).1.mEarliestBatchIndex = 0 ∧
      (l.flush backend).1.mEarliestUnclearedIndex = 0 ∧
      Reachable (l.flush backend).1) ∧
    (l.clear =
        { DeferredDisplayList.init l.mBounds l.mAvoidOverdraw with nextAddr := l.nextAddr } ∧
      l.clear.mBatches = [] ∧ l.clear.mSaveStack = [] ∧
      (∀ k, l.clear.mBatchLookup k = none) ∧
      (∀ k m, l.clear.mMergingBatches k m = none) ∧
      l.clear.mComplexClipStackStart = -1 ∧
      l.clear.mEarliestBatchIndex = 0 ∧
      l.clear.mEarliestUnclearedIndex = 0 ∧
      Reachable l.clear) := by
  have hclear : Reachable l.clear := by
    obtain ⟨bounds, avoid, cmds, rfl⟩ := hl
    refine ⟨bounds, avoid, cmds ++ [Cmd.clear], ?_⟩
    rw [run_append]
    rfl
  have hfresh : (l.flush backend).1 =
      { DeferredDisplayList.init l.mBounds l.mAvoidOverdraw with nextAddr := l.nextAddr } := by
    rcases flush_state l backend with ⟨he, hf⟩ | ⟨_, hf⟩
    · rw [hf]
      exact empty_eq_fresh l hl he
    · rw [hf]
      rfl
  have hreach : Reachable (l.flush backend).1 := by
    rcases flush_state l backend with ⟨_, hf⟩ | ⟨_, hf⟩
    · rw [hf]; exact hl
    · rw [hf]; exact hclear
  refine ⟨⟨hfresh, ?_, ?_, ?_, ?_, ?_, ?_, ?_, hreach⟩,
    ⟨rfl, rfl, rfl, fun _ => rfl, fun _ _ => rfl, rfl, rfl, rfl, hclear⟩⟩
  all_goals rw [hfresh]
  all_goals first
    | rfl
    | (intro k; rfl)
    | (intro k m; rfl)

theorem flush_and_clear_reset_witness :
    ((run (DeferredDisplayList.init ⟨0, 0, 10, 10⟩ true) sampleTwoKinds).flush
        fun _ _ => 0).1.mBatches = [] ∧
      (run (DeferredDisplayList.init ⟨0, 0, 10, 10⟩ true) sampleTwoKinds).clear.mSaveStack
        = [] :=
  ⟨(flush_and_clear_reset (run (DeferredDisplayList.init ⟨0, 0, 10, 10⟩ true) sampleTwoKinds)
      ⟨_, _, _, rfl⟩ (fun _ _ => 0)).1.2.1,
    (flush_and_clear_reset (run (DeferredDisplayList.init ⟨0, 0, 10, 10⟩ true) sampleTwoKinds)
      ⟨_, _, _, rfl⟩ (fun _ _ => 0)).2.2.2.1⟩

/-! ### The replay trace and the status of flush -/

/-- C22 (replay trace).  Replaying a batch list makes, after the calls made before, the
calls of its slots one slot after the other in increasing index order: an empty slot makes
no call and a batch makes the calls of its own replay.  A plain batch, and a merging batch
with exactly one member, apply for each member in member order the state of the member
and then draw the member alone; a merging batch with two or more members sets up the
shared clip and then makes one fused draw over all its members; a state-op batch applies
its state and then the state change; a restore-to-count batch applies its state and then
restores to its stored depth. -/
theorem replay_trace (backend : Backend) (calls : List Event) :
    (∀ bs, (replayBatchList bs backend calls).1 = calls ++ slotCalls bs) ∧
    (∀ xs ys, slotCalls (xs ++ ys) = slotCalls xs ++ slotCalls ys) ∧
    slotCalls [none] = [] ∧
    (∀ b : Batch, calls ++ slotCalls [some b] = (b.replay backend calls).1) ∧
    (∀ a d, ((Batch.draw a d).replay backend calls).1 = calls ++ drawCalls d.mOps) ∧
    (∀ a (m : MergingDrawBatch), m.mOps.length = 1 →
      ((Batch.merging a m).replay backend calls).1 = calls ++ drawCalls m.mOps) ∧
    (∀ a (m : MergingDrawBatch), 2 ≤ m.mOps.length →
      ∃ first, m.mOps.head? = some first ∧
        ((Batch.merging a m).replay backend calls).1 =
          calls ++ [Event.setupMergedMultiDraw m.mClipRect,
            Event.multiDraw first.op m.mOps m.mBounds]) ∧
    (∀ op st, ((Batch.stateOp op st).replay backend calls).1 =
      calls ++ [Event.restoreDisplayState st, Event.applyState op]) ∧
    (∀ op st n, ((Batch.restoreToCount op st n).replay backend calls).1 =
      calls ++ [Event.restoreDisplayState st, Event.restoreToCount n]) ∧
    drawCalls [] = [] ∧
    (∀ p rest, drawCalls (p :: rest) =
      Event.restoreDisplayState p.state :: Event.applyDraw p.op :: drawCalls rest) := by
  refine ⟨?_, slotCalls_append, rfl, ?_, ?_, ?_, ?_, fun _ _ => rfl, fun _ _ _ => rfl, rfl,
    fun _ _ => rfl⟩
  · intro bs
    exact replayBatchList_calls backend bs (calls, kStatusDone)
  · intro b
    rw [batch_replay_calls]
    simp [slotCalls]
  · intro a d
    exact drawBatch_replay_eq d backend calls
  · intro a m hm
    rw [batch_replay_calls]
    simp [Batch.calls, hm]
  · intro a m hm
    rw [batch_replay_calls]
    cases hops : m.mOps with
    | nil => rw [hops] at hm; simp at hm
    | cons first rest =>
      refine ⟨first, rfl, ?_⟩
      have hne : ¬ m.mOps.length = 1 := by omega
      simp only [Batch.calls]
      rw [if_neg hne, hops]

set_option maxRecDepth 100000 in
theorem replay_trace_witness :
    (sampleSoloMerging.replay (fun _ _ => 0) []).1 =
      [] ++ drawCalls [⟨sampleMergeable, sampleState ⟨0, 0, 1, 1⟩ 1 false⟩] :=
  (replay_trace (fun _ _ => 0) []).2.2.2.2.2.1 3
    ((MergingDrawBatch.new ⟨1, 1, true, false⟩ 100 100).add sampleMergeable
      (sampleState ⟨0, 0, 1, 1⟩ 1 false) false) rfl

theorem drawStatus_append (backend : Backend) :
    ∀ (xs ys hist : List Event),
      drawStatus backend hist (xs ++ ys) =
        drawStatus backend hist xs ||| drawStatus backend (hist ++ xs) ys := by
  intro xs
  induction xs with
  | nil => intro ys hist; simp [drawStatus]
  | cons e rest ih =>
    intro ys hist
    have e1 : (e :: rest) ++ ys = e :: (rest ++ ys) := rfl
    rw [e1]
    simp only [drawStatus]
    rw [ih, Nat.or_assoc]
    simp

theorem drawStatus_bits (backend : Backend) :
    ∀ (calls hist : List Event) (i : Nat),
      (drawStatus backend hist calls).testBit i = true ↔
        ∃ pre e post, calls = pre ++ e :: post ∧ e.isDraw = true ∧
          (backend (hist ++ pre) e).testBit i = true := by
  intro calls
  induction calls with
  | nil =>
    intro hist i
    simp [drawStatus]
  | cons e rest ih =>
    intro hist i
    simp only [drawStatus, Nat.testBit_or, Bool.or_eq_true]
    rw [ih]
    constructor
    · rintro (h | ⟨pre, e2, post, h1, h2, h3⟩)
      · by_cases hd : e.isDraw = true
        · rw [if_pos hd] at h
          exact ⟨[], e, rest, rfl, hd, by simpa using h⟩
        · rw [if_neg hd] at h
          simp at h
      · refine ⟨e :: pre, e2, post, by rw [h1]; rfl, h2, ?_⟩
        simpa using h3
    · rintro ⟨pre, e2, post, h1, h2, h3⟩
      cases pre with
      | nil =>
        left
        have e1 : e = e2 := by
          have := List.head_eq_of_cons_eq h1
          exact this
        subst e1
        rw [if_pos h2]
        simpa using h3
      | cons p pre2 =>
        right
        have e1 : e = p := List.head_eq_of_cons_eq h1
        have e3 : rest = pre2 ++ e2 :: post := List.tail_eq_of_cons_eq h1
        subst e1
        exact ⟨pre2, e2, post, e3, h2, by simpa using h3⟩

theorem drawBatch_replay_status (backend : Backend) :
    ∀ (ops : List OpStatePair) (acc : List Event × Nat),
      (ops.foldl
        (fun (acc : List Event × Nat) p =>
          (acc.1 ++ [Event.restoreDisplayState p.state] ++ [Event.applyDraw p.op],
            acc.2 ||| backend (acc.1 ++ [Event.restoreDisplayState p.state])
              (Event.applyDraw p.op)))
        acc).2 = acc.2 ||| drawStatus backend acc.1 (drawCalls ops) := by
  intro ops
  induction ops with
  | nil => intro acc; simp [drawCalls, drawStatus]
  | cons p rest ih =>
    intro acc
    rw [List.foldl_cons, ih]
    simp [drawCalls, drawStatus, Event.isDraw, Nat.or_assoc]

theorem batch_replay_status (b : Batch) (backend : Backend) (calls : List Event) :
    (b.replay backend calls).2 = drawStatus backend calls b.calls := by
  have hdraw : ∀ d : DrawBatch,
      (d.replay backend calls).2 = drawStatus backend calls (drawCalls d.mOps) := by
    intro d
    exact (drawBatch_replay_status backend d.mOps (calls, kStatusDone)).trans (Nat.zero_or _)
  cases b with
  | draw a d => exact hdraw d
  | merging a m =>
    simp only [Batch.replay, Batch.calls, MergingDrawBatch.replay]
    by_cases h1 : m.mOps.length = 1
    · rw [if_pos h1, if_pos h1]
      exact hdraw m.toDrawBatch
    · rw [if_neg h1, if_neg h1]
      cases m.mOps with
      | nil => simp [drawStatus, Event.isDraw, kStatusDone]
      | cons first rest => simp [drawStatus, Event.isDraw]
  | stateOp op state => simp [Batch.replay, Batch.calls, drawStatus, Event.isDraw, kStatusDone]
  | restoreToCount op state n =>
    simp [Batch.replay, Batch.calls, drawStatus, Event.isDraw, kStatusDone]

theorem replayBatchList_status (backend : Backend) :
    ∀ (bs : List (Option Batch)) (acc : List Event × Nat),
      (bs.foldl
        (fun (acc : List Event × Nat) slot =>
          match slot with
          | some b => ((b.replay backend acc.1).1, acc.2 ||| (b.replay backend acc.1).2)
          | none => acc)
        acc).2 = acc.2 ||| drawStatus backend acc.1 (slotCalls bs) := by
  intro bs
  induction bs with
  | nil => intro acc; simp [slotCalls, drawStatus]
  | cons s rest ih =>
    intro acc
    rw [List.foldl_cons, ih]
    cases s with
    | none => simp [slotCalls]
    | some b =>
      simp only [slotCalls]
      rw [drawStatus_append, batch_replay_calls, batch_replay_status, Nat.or_assoc]

theorem flush_status_eq (l : DeferredDisplayList) (backend : Backend) :
    (l.flush backend).2.2 = drawStatus backend [] (l.flush backend).2.1 := by
  by_cases h : l.mBatches = []
  · rw [flush_of_empty l backend h]
    simp [drawStatus, Event.isDraw, kStatusDone]
  · rw [flush_calls l backend h]
    have hs : (l.flush backend).2.2 =
        drawStatus backend
          [Event.endPrecaching, Event.restoreToCount 1, Event.eventMark,
            Event.getDrawModifiers, Event.save (kMatrix_SaveFlag ||| kClip_SaveFlag)]
          (slotCalls (if l.mAvoidOverdraw then l.flushDiscard else l).mBatches) := by
      unfold DeferredDisplayList.flush
      have he : ¬ l.isEmpty = true := by
        simpa [DeferredDisplayList.isEmpty] using h
      rw [if_neg he]
      dsimp only
      unfold replayBatchList
      rw [replayBatchList_status]
      simp [kStatusDone]
    rw [hs, drawStatus_append, drawStatus_append]
    simp [drawStatus, Event.isDraw]

/-- C23 (flush status).  The status `flush` returns is the bitwise OR of the status words
the backend returned for the draw calls (single draws and fused draws) made during the
flush, each asked after the calls made before it; no other call contributes.  It is
`kStatusDone` when no draw call was made; every bit a draw call returned is set in the
status, and every bit set in the status was returned by a draw call. -/
theorem flush_status (l : DeferredDisplayList) (backend : Backend) :
    (l.flush backend).2.2 = drawStatus backend [] (l.flush backend).2.1 ∧
    ((∀ e ∈ (l.flush backend).2.1, e.isDraw = false) →
      (l.flush backend).2.2 = kStatusDone) ∧
    (∀ (hist : List Event) (e : Event) (rest : List Event) (i : Nat),
      (l.flush backend).2.1 = hist ++ e :: rest → e.isDraw = true →
      (backend hist e).testBit i = true → ((l.flush backend).2.2).testBit i = true) ∧
    (∀ i : Nat, ((l.flush backend).2.2).testBit i = true →
      ∃ hist e rest, (l.flush backend).2.1 = hist ++ e :: rest ∧ e.isDraw = true ∧
        (backend hist e).testBit i = true) := by
  have h1 := flush_status_eq l backend
  have hbits := drawStatus_bits backend (l.flush backend).2.1 []
  refine ⟨h1, ?_, ?_, ?_⟩
  · intro hno
    rw [h1]
    apply Nat.eq_of_testBit_eq
    intro i
    rw [show kStatusDone = 0 from rfl, Nat.zero_testBit]
    cases hb : (drawStatus backend [] (l.flush backend).2.1).testBit i with
    | false => rfl
    | true =>
      obtain ⟨pre, e, post, e1, e2, _⟩ := (hbits i).1 hb
      have := hno e (by rw [e1]; simp)
      rw [this] at e2
      cases e2
  · intro hist e rest i e1 e2 e3
    rw [h1]
    exact (hbits i).2 ⟨hist, e, rest, e1, e2, by simpa using e3⟩
  · intro i hi
    rw [h1] at hi
    obtain ⟨pre, e, post, e1, e2, e3⟩ := (hbits i).1 hi
    exact ⟨pre, e, post, e1, e2, by simpa using e3⟩

set_option maxRecDepth 100000 in
theorem flush_status_witness :
    (((DeferredDisplayList.init ⟨0, 0, 10, 10⟩ true).addClip (sampleRenderer 1 false)
        sampleClip).flush fun _ _ => 5).2.2 = kStatusDone :=
  (flush_status ((DeferredDisplayList.init ⟨0, 0, 10, 10⟩ true).addClip
    (sampleRenderer 1 false) sampleClip) (fun _ _ => 5)).2.1
    (by
      rw [flush_calls _ _ (by with_unfolding_all decide)]
      with_unfolding_all decide)

/-! ### The shared clip of a merging batch -/

theorem nat_or_eq_zero (a b : Nat) : a ||| b = 0 ↔ a = 0 ∧ b = 0 := by
  constructor
  · intro h
    have hb : ∀ i, a.testBit i = false ∧ b.testBit i = false := by
      intro i
      have := congrArg (fun n => Nat.testBit n i) h
      simpa [Nat.testBit_or] using this
    exact ⟨Nat.eq_of_testBit_eq fun i => by rw [(hb i).1, Nat.zero_testBit],
      Nat.eq_of_testBit_eq fun i => by rw [(hb i).2, Nat.zero_testBit]⟩
  · rintro ⟨rfl, rfl⟩
    rfl

theorem clipConstrained_or (a b side : Nat) :
    clipConstrained (a ||| b) side = (clipConstrained a side || clipConstrained b side) := by
  unfold clipConstrained
  rw [Nat.and_distrib_right, Bool.eq_iff_iff]
  simp only [bne_iff_ne, Bool.or_eq_true, ne_eq, nat_or_eq_zero]
  tauto

theorem checkSide_true (cur new side : Nat) (delta : ℚ)
    (h : MergingDrawBatch.checkSide cur new side delta = true) :
    (clipConstrained cur side = true → delta ≤ 0) ∧
      (clipConstrained new side = true → 0 ≤ delta) := by
  have hn : ¬ MergingDrawBatch.checkSide cur new side delta = false := by
    rw [h]; simp
  rw [checkSide_eq_false] at hn
  constructor
  · intro hc
    by_contra hd
    exact hn (Or.inl ⟨hc, lt_of_not_ge hd⟩)
  · intro hc
    by_contra hd
    exact hn (Or.inr ⟨hc, lt_of_not_ge hd⟩)

theorem canMergeWith_clip (b : MergingDrawBatch) (op : DrawOp) (st : DeferredDisplayState)
    (h : b.canMergeWith op st = true) : b.clipSidesCompatible st = true := by
  cases hc : b.clipSidesCompatible st with
  | true => rfl
  | false =>
    exfalso
    unfold MergingDrawBatch.canMergeWith at h
    split at h
    · cases h
    · split at h
      · cases h
      · simp only [hc] at h
        split at h
        · cases h
        · simp at h

theorem clipSides_true (b : MergingDrawBatch) (st : DeferredDisplayState)
    (h : b.clipSidesCompatible st = true) :
    (b.mClipSideFlags = 0 ∧ st.mClipSideFlags = 0) ∨
    (MergingDrawBatch.checkSide b.mClipSideFlags st.mClipSideFlags kClipSide_Left
        (b.mBounds.left - st.mBounds.left) = true ∧
      MergingDrawBatch.checkSide b.mClipSideFlags st.mClipSideFlags kClipSide_Top
        (b.mBounds.top - st.mBounds.top) = true ∧
      MergingDrawBatch.checkSide b.mClipSideFlags st.mClipSideFlags kClipSide_Right
        (st.mBounds.right - b.mBounds.right) = true ∧
      MergingDrawBatch.checkSide b.mClipSideFlags st.mClipSideFlags kClipSide_Bottom
        (st.mBounds.bottom - b.mBounds.bottom) = true) := by
  unfold MergingDrawBatch.clipSidesCompatible at h
  by_cases hflags :
      (b.mClipSideFlags != kClipSide_None || st.mClipSideFlags != kClipSide_None) = true
  · right
    simp only [hflags, if_true] at h
    have hn := (sideChain_eq_false _ _ _ _).not.1 (by rw [h]; simp)
    simp only [not_or, Bool.not_eq_false] at hn
    exact ⟨hn.1, hn.2.1, hn.2.2.1, hn.2.2.2⟩
  · left
    simpa [kClipSide_None] using hflags

theorem tight_low (a r clip opclip : ℚ) (cur new : Bool)
    (h1 : cur = true → a = clip) (h2 : new = true → r = opclip)
    (h3 : cur = true → a - r ≤ 0) (h4 : new = true → 0 ≤ a - r)
    (h : (cur || new) = true) :
    (if a > r then r else a) = (if new = true then opclip else clip) := by
  cases cur <;> cases new <;> simp at h h1 h2 h3 h4 ⊢
  · subst h2
    split_ifs <;> linarith
  · subst h1
    split_ifs <;> linarith
  · subst h1 h2
    split_ifs <;> linarith

theorem tight_high (a r clip opclip : ℚ) (cur new : Bool)
    (h1 : cur = true → a = clip) (h2 : new = true → r = opclip)
    (h3 : cur = true → r - a ≤ 0) (h4 : new = true → 0 ≤ r - a)
    (h : (cur || new) = true) :
    (if a < r then r else a) = (if new = true then opclip else clip) := by
  cases cur <;> cases new <;> simp at h h1 h2 h3 h4 ⊢
  · subst h2
    split_ifs <;> linarith
  · subst h1
    split_ifs <;> linarith
  · subst h1 h2
    split_ifs <;> linarith

theorem unionWith_nonempty (a r : Rect) (ha : a.isEmpty = false) (hr : r.isEmpty = false) :
    a.unionWith r =
      ⟨if a.left > r.left then r.left else a.left, if a.top > r.top then r.top else a.top,
        if a.right < r.right then r.right else a.right,
        if a.bottom < r.bottom then r.bottom else a.bottom⟩ := by
  rw [Rect.isEmpty_eq_false] at ha hr
  unfold Rect.unionWith
  rw [if_pos hr, if_pos ha]

theorem clipTight_add (b : MergingDrawBatch) (op : DrawOp) (st : DeferredDisplayState)
    (o : Bool) (hb : b.ClipTight) (hst : ClipTight st)
    (hcan : b.clipSidesCompatible st = true) : (b.add op st o).ClipTight := by
  obtain ⟨b0, b1, b2, b3, b4⟩ := hb
  obtain ⟨s0, s1, s2, s3, s4⟩ := hst
  have hbounds : (b.add op st o).mBounds = b.mBounds.unionWith st.mBounds := rfl
  have hflags : (b.add op st o).mClipSideFlags = b.mClipSideFlags ||| st.mClipSideFlags := rfl
  have hu := unionWith_nonempty b.mBounds st.mBounds b0 s0
  have hne : (b.add op st o).mBounds.isEmpty = false := by
    rw [hbounds, hu, Rect.isEmpty_eq_false]
    rw [Rect.isEmpty_eq_false] at b0 s0
    dsimp only
    constructor <;> split_ifs <;> linarith [b0.1, b0.2, s0.1, s0.2]
  unfold MergingDrawBatch.ClipTight
  rw [hflags, hbounds, hu, clipConstrained_or, clipConstrained_or, clipConstrained_or,
    clipConstrained_or]
  refine ⟨by rw [← hu, ← hbounds]; exact hne, ?_, ?_, ?_, ?_⟩
  all_goals rcases clipSides_true b st hcan with ⟨z1, z2⟩ | ⟨c1, c2, c3, c4⟩
  all_goals intro hside
  all_goals first
    | (rw [z1, z2, clipConstrained_zero] at hside; simp at hside)
    | exact tight_low _ _ _ _ _ _ b1 s1 (checkSide_true _ _ _ _ c1).1
        (checkSide_true _ _ _ _ c1).2 hside
    | exact tight_low _ _ _ _ _ _ b2 s2 (checkSide_true _ _ _ _ c2).1
        (checkSide_true _ _ _ _ c2).2 hside
    | exact tight_high _ _ _ _ _ _ b3 s3 (checkSide_true _ _ _ _ c3).1
        (checkSide_true _ _ _ _ c3).2 hside
    | exact tight_high _ _ _ _ _ _ b4 s4 (checkSide_true _ _ _ _ c4).1
        (checkSide_true _ _ _ _ c4).2 hside

theorem clipTight_first (info : DeferInfo) (w h : ℚ) (op : DrawOp)
    (st : DeferredDisplayState) (o : Bool) (hst : ClipTight st) :
    ((MergingDrawBatch.new info w h).add op st o).ClipTight := by
  obtain ⟨s0, s1, s2, s3, s4⟩ := hst
  have hr := (Rect.isEmpty_eq_false _).1 s0
  have hbounds : ((MergingDrawBatch.new info w h).add op st o).mBounds = st.mBounds := by
    show Rect.unionWith ⟨0, 0, 0, 0⟩ st.mBounds = st.mBounds
    unfold Rect.unionWith
    rw [if_pos hr, if_neg (by simp)]
  have hflags : ((MergingDrawBatch.new info w h).add op st o).mClipSideFlags =
      st.mClipSideFlags := by
    show kClipSide_None ||| st.mClipSideFlags = st.mClipSideFlags
    exact Nat.zero_or _
  unfold MergingDrawBatch.ClipTight
  rw [hflags, hbounds]
  refine ⟨s0, ?_, ?_, ?_, ?_⟩
  · intro hs
    rw [s1 hs]
    simp only [MergingDrawBatch.add]
    unfold clipConstrained at hs
    rw [if_pos hs]
  · intro hs
    rw [s2 hs]
    simp only [MergingDrawBatch.add]
    unfold clipConstrained at hs
    rw [if_pos hs]
  · intro hs
    rw [s3 hs]
    simp only [MergingDrawBatch.add]
    unfold clipConstrained at hs
    rw [if_pos hs]
  · intro hs
    rw [s4 hs]
    simp only [MergingDrawBatch.add]
    unfold clipConstrained at hs
    rw [if_pos hs]

theorem clipTight_addAll :
    ∀ (rest : List (OpStatePair × Bool)) (b0 b : MergingDrawBatch), b0.ClipTight →
      (∀ p ∈ rest, ClipTight p.1.state) → b0.addAll rest = some b → b.ClipTight := by
  intro rest
  induction rest with
  | nil =>
    intro b0 b h0 _ hb
    have : b0 = b := Option.some.inj hb
    rw [← this]
    exact h0
  | cons p rest ih =>
    intro b0 b h0 hall hb
    obtain ⟨q, o⟩ := p
    simp only [MergingDrawBatch.addAll] at hb
    split_ifs at hb with hcan
    exact ih _ b
      (clipTight_add b0 q.op q.state o h0 (hall (q, o) (List.mem_cons_self _ _))
        (canMergeWith_clip b0 q.op q.state hcan))
      (fun p hp => hall p (List.mem_cons_of_mem _ hp)) hb

/-- C24 (clip equals bounds on clipped sides).  Assume every member state has bounds that
are not empty and that equal its clip on every side flagged in its clip-side mask.  Then
for every merging batch built by `add` from a new batch, where every `add` after the first
was admitted by `canMergeWith`, the bounds of the batch equal its shared clip rectangle on
every side flagged in the clip-side mask of the batch. -/
theorem clip_equals_bounds (info : DeferInfo) (w h : ℚ) (first : OpStatePair × Bool)
    (rest : List (OpStatePair × Bool)) (b : MergingDrawBatch)
    (htight : ∀ p ∈ first :: rest, ClipTight p.1.state)
    (hbuilt : ((MergingDrawBatch.new info w h).add first.1.op first.1.state first.2).addAll
      rest = some b) :
    (clipConstrained b.mClipSideFlags kClipSide_Left = true →
      b.mBounds.left = b.mClipRect.left) ∧
    (clipConstrained b.mClipSideFlags kClipSide_Top = true →
      b.mBounds.top = b.mClipRect.top) ∧
    (clipConstrained b.mClipSideFlags kClipSide_Right = true →
      b.mBounds.right = b.mClipRect.right) ∧
    (clipConstrained b.mClipSideFlags kClipSide_Bottom = true →
      b.mBounds.bottom = b.mClipRect.bottom) :=
  (clipTight_addAll rest _ b
    (clipTight_first info w h first.1.op first.1.state first.2
      (htight first (List.mem_cons_self _ _)))
    (fun p hp => htight p (List.mem_cons_of_mem _ hp)) hbuilt).2

set_option maxRecDepth 100000 in
theorem clip_equals_bounds_witness :
    clipConstrained sampleClippedBatch.mClipSideFlags kClipSide_Left = true ∧
      sampleClippedBatch.mOps.length = 2 ∧
      sampleClippedBatch.mBounds.left = sampleClippedBatch.mClipRect.left :=
  ⟨by with_unfolding_all decide, by with_unfolding_all decide,
    (clip_equals_bounds ⟨1, 1, true, false⟩ 100 100 sampleClippedLeft [sampleUnclipped]
      sampleClippedBatch
      (by
        intro p hp
        simp only [List.mem_cons, List.mem_singleton, List.not_mem_nil, or_false] at hp
        rcases hp with rfl | rfl <;> (unfold ClipTight; with_unfolding_all decide))
      (by with_unfolding_all decide)).1 (by with_unfolding_all decide)⟩

/-! ### coversBounds -/

theorem drawBatch_addAll_spec :
    ∀ (entries : List (OpStatePair × Bool)) (b : DrawBatch),
      (b.addAll entries).mOps = b.mOps ++ entries.map (fun e => e.1) ∧
      (b.addAll entries).mAllOpsOpaque = (b.mAllOpsOpaque && entries.all fun e => e.2) := by
  intro entries
  induction entries with
  | nil => intro b; simp [DrawBatch.addAll]
  | cons e rest ih =>
    intro b
    obtain ⟨p, o⟩ := e
    simp only [DrawBatch.addAll]
    obtain ⟨h1, h2⟩ := ih (b.add p.op p.state o)
    rw [h1, h2]
    simp [DrawBatch.add, Bool.and_assoc]

theorem coversBounds_eq (d : DrawBatch) (rect : Rect) :
    d.coversBounds rect = true ↔
      d.mAllOpsOpaque = true ∧ d.mOps.length ≠ 1 ∧ d.mBounds.contains rect = true ∧
      Region.isEmpty
        (d.mOps.foldl (fun (reg : Region) p => reg.subtractSelf p.state.mBounds)
          (Region.ofRect rect)) = true := by
  unfold DrawBatch.coversBounds
  by_cases h1 : d.mAllOpsOpaque = true <;> by_cases h2 : d.mBounds.contains rect = true <;>
    by_cases h3 : d.mOps.length = 1 <;> simp [h1, h2, h3]

/-- C25 (`coversBounds`).  For every draw batch with at least one member (every batch the
engine builds is filled by `add` at once, so every draw batch of an engine reached from
the initial one has a member) and every rectangle, `coversBounds` returns true if and only
if every member was added as opaque over its bounds, the batch has more than one member,
the bounds of the batch contain the rectangle, and the region obtained by subtracting the
bounds of every member from the rectangle is empty.  Every member was added as opaque
exactly when the all-opaque accumulator of the batch is true.  A merging batch answers as
its draw batch does; state-op and restore-to-count batches always return false. -/
theorem coversBounds_iff (info : DeferInfo) (entries : List (OpStatePair × Bool))
    (rect : Rect) (hne : entries ≠ []) :
    (((DrawBatch.new info).addAll entries).coversBounds rect = true ↔
      (∀ e ∈ entries, e.2 = true) ∧ 1 < entries.length ∧
      ((DrawBatch.new info).addAll entries).mBounds.contains rect = true ∧
      Region.isEmpty
        ((entries.map fun e => e.1).foldl
          (fun (reg : Region) p => reg.subtractSelf p.state.mBounds)
          (Region.ofRect rect)) = true) ∧
    (((DrawBatch.new info).addAll entries).mAllOpsOpaque = true ↔
      ∀ e ∈ entries, e.2 = true) ∧
    ((DrawBatch.new info).addAll entries).mOps = entries.map (fun e => e.1) ∧
    (∀ d : DrawBatch, d.mOps ≠ [] →
      (d.coversBounds rect = true ↔
        d.mAllOpsOpaque = true ∧ 1 < d.mOps.length ∧ d.mBounds.contains rect = true ∧
        Region.isEmpty
          (d.mOps.foldl (fun (reg : Region) p => reg.subtractSelf p.state.mBounds)
            (Region.ofRect rect)) = true)) ∧
    (∀ l, Reachable l → ∀ b, some b ∈ l.mBatches → ∀ d, b.asDraw? = some d → d.mOps ≠ []) ∧
    (∀ a d, (Batch.draw a d).coversBounds rect = d.coversBounds rect) ∧
    (∀ a (m : MergingDrawBatch),
      (Batch.merging a m).coversBounds rect = m.toDrawBatch.coversBounds rect) ∧
    (∀ (m : MergingDrawBatch) op st o,
      (m.add op st o).toDrawBatch = m.toDrawBatch.add op st o) ∧
    (∀ op st, (Batch.stateOp op st).coversBounds rect = false) ∧
    (∀ op st n, (Batch.restoreToCount op st n).coversBounds rect = false) := by
  obtain ⟨h1, h2⟩ := drawBatch_addAll_spec entries (DrawBatch.new info)
  have hops : ((DrawBatch.new info).addAll entries).mOps = entries.map fun e => e.1 := by
    rw [h1]; rfl
  have hopq : ((DrawBatch.new info).addAll entries).mAllOpsOpaque = true ↔
      ∀ e ∈ entries, e.2 = true := by
    rw [h2]
    simp [DrawBatch.new]
  have hgen : ∀ d : DrawBatch, d.mOps ≠ [] →
      (d.coversBounds rect = true ↔
        d.mAllOpsOpaque = true ∧ 1 < d.mOps.length ∧ d.mBounds.contains rect = true ∧
        Region.isEmpty
          (d.mOps.foldl (fun (reg : Region) p => reg.subtractSelf p.state.mBounds)
            (Region.ofRect rect)) = true) := by
    intro d hd
    have hlen : d.mOps.length ≠ 0 := fun h0 => hd (List.length_eq_zero.1 h0)
    rw [coversBounds_eq]
    constructor
    · rintro ⟨a, b, c, e⟩
      exact ⟨a, by omega, c, e⟩
    · rintro ⟨a, b, c, e⟩
      exact ⟨a, by omega, c, e⟩
  refine ⟨?_, hopq, hops, hgen, ?_, fun _ _ => rfl, fun _ _ => rfl,
    fun _ _ _ _ => rfl, fun _ _ => rfl, fun _ _ _ => rfl⟩
  · have hb := hgen ((DrawBatch.new info).addAll entries)
      (by rw [hops]; simpa using hne)
    rw [hb, hopq, hops, List.length_map]
  · intro l hl b hb d hd
    exact (Batch.ok_asDraw b ((wf_reachable l hl).batches b hb) d hd).1.nonempty

set_option maxRecDepth 100000 in
theorem coversBounds_iff_witness :
    sampleHalves ≠ [] ∧
      ((DrawBatch.new ⟨2, 0, false, true⟩).addAll sampleHalves).coversBounds ⟨0, 0, 10, 10⟩
        = true :=
  ⟨by simp [sampleHalves],
    ((coversBounds_iff ⟨2, 0, false, true⟩ sampleHalves ⟨0, 0, 10, 10⟩
      (by simp [sampleHalves])).1).2
      ⟨by with_unfolding_all decide, by decide, by with_unfolding_all decide,
        by with_unfolding_all decide⟩⟩

/-! ### The contract of addRestoreToCount -/

theorem nestedTop_nested :
    ∀ (cmds : List Cmd) (l : DeferredDisplayList),
      (l.mSaveStack.Pairwise fun a b => a > b) → NestedTopRun l cmds → NestedRun l cmds := by
  intro cmds
  induction cmds with
  | nil => intro l _ _; trivial
  | cons c rest ih =>
    intro l hs hn
    have hhead : ∀ n, c.push? l = some n → ∀ d ∈ l.mSaveStack, d < n := by
      intro n hp d hd
      cases hst : l.mSaveStack with
      | nil => rw [hst] at hd; cases hd
      | cons top tl =>
        rw [hst] at hd hs
        have htop := hn.1 n hp top (by rw [hst]; rfl)
        rw [List.pairwise_cons] at hs
        rcases List.mem_cons.1 hd with rfl | hd2
        · exact htop
        · have := hs.1 d hd2
          omega
    exact ⟨hhead, ih (step l c) (step_sorted l c hs hhead) hn.2⟩

/-- C26 (the contract of `addRestoreToCount`).  If the save stack is empty or `n` is
greater than its top, `addRestoreToCount(n)` appends no batch and leaves the stack
unchanged.  Otherwise the top entries that are at least `n` are popped, down to the first
entry below `n`, and exactly one restore-to-count batch is appended whose stored depth is
the size of the stack after popping plus 2; then the batching state is reset (both lookups
empty, the reorder window starts at the end of the list).  On an engine reached from the
initial one by calls whose pushed values are each greater than the current top, the stack
is strictly increasing towards its top, before and after the call, and after the call
every remaining entry is smaller than `n`. -/
theorem addRestoreToCount_contract (l : DeferredDisplayList) (r : OpenGLRenderer)
    (op : StateOp) (n : Int) :
    ((l.mSaveStack = [] ∨ ∃ top rest, l.mSaveStack = top :: rest ∧ top < n) →
      (l.addRestoreToCount r op n).mBatches = l.mBatches ∧
      (l.addRestoreToCount r op n).mSaveStack = l.mSaveStack) ∧
    (∀ top rest, l.mSaveStack = top :: rest → n ≤ top →
      (∃ popped, l.mSaveStack = popped ++ (l.addRestoreToCount r op n).mSaveStack ∧
        (∀ d ∈ popped, n ≤ d) ∧
        (∀ d ∈ (l.addRestoreToCount r op n).mSaveStack.head?, d < n)) ∧
      (∃ st, (l.addRestoreToCount r op n).mBatches =
        l.mBatches ++ [some (Batch.restoreToCount op st
          (((l.addRestoreToCount r op n).mSaveStack.length : Int) + 2))]) ∧
      (∀ k, (l.addRestoreToCount r op n).mBatchLookup k = none) ∧
      (∀ k m, (l.addRestoreToCount r op n).mMergingBatches k m = none) ∧
      (l.addRestoreToCount r op n).mEarliestBatchIndex =
        (l.addRestoreToCount r op n).mBatches.length) ∧
    (∀ bounds avoid cmds, l = run (DeferredDisplayList.init bounds avoid) cmds →
      NestedTopRun (DeferredDisplayList.init bounds avoid) cmds →
      (l.mSaveStack.Pairwise fun a b => a > b) ∧
      ((l.addRestoreToCount r op n).mSaveStack.Pairwise fun a b => a > b) ∧
      ∀ d ∈ (l.addRestoreToCount r op n).mSaveStack, d < n) := by
  obtain ⟨l1, e1, e2, hcase⟩ := addRestoreToCount_cases l r op n
  refine ⟨?_, ?_, ?_⟩
  · intro hearly
    rcases hcase with ⟨_, he⟩ | ⟨⟨top, rest, ht, hle⟩, _⟩
    · rw [he]
      exact ⟨e2, e1⟩
    · exfalso
      rcases hearly with h0 | ⟨top2, rest2, ht2, hlt⟩
      · rw [h0] at ht; cases ht
      · rw [ht2] at ht
        have : top2 = top := by injection ht
        omega
  · intro top rest ht hle
    rcases hcase with ⟨hearly, _⟩ | ⟨_, he⟩
    · exfalso
      rcases hearly with h0 | ⟨top2, rest2, ht2, hlt⟩
      · rw [h0] at ht; cases ht
      · rw [ht2] at ht
        have : top2 = top := by injection ht
        omega
    · have hstack : (l.addRestoreToCount r op n).mSaveStack =
          l.mSaveStack.dropWhile fun d => decide (d ≥ n) := by rw [he]; rfl
      refine ⟨⟨l.mSaveStack.takeWhile fun d => decide (d ≥ n), ?_, ?_, ?_⟩, ?_, ?_, ?_, ?_⟩
      · rw [hstack, List.takeWhile_append_dropWhile]
      · intro d hd
        simpa using List.mem_takeWhile_imp hd
      · intro d hd
        rw [hstack] at hd
        have := List.head?_dropWhile_not (fun d => decide (d ≥ n)) l.mSaveStack
        simp only [Option.mem_def] at hd
        rw [hd] at this
        simpa using this
      · refine ⟨(r.storeDisplayState createState l1.getStateOpDeferFlags).2, ?_⟩
        rw [hstack, he]
        simp only [DeferredDisplayList.storeRestoreToCountBarrier,
          DeferredDisplayList.resetBatchingState, e2]
        rfl
      · intro k; rw [he]; rfl
      · intro k m; rw [he]; rfl
      · rw [he]; rfl
  · intro bounds avoid cmds hl hn
    have hnested := nestedTop_nested cmds (DeferredDisplayList.init bounds avoid)
      List.Pairwise.nil hn
    obtain ⟨_, hsorted⟩ := run_saveStack cmds (DeferredDisplayList.init bounds avoid)
      List.Pairwise.nil hnested
    rw [← hl] at hsorted
    have hst := step_saveStack l (Cmd.addRestoreToCount r op n) hsorted
    have hst2 : (l.addRestoreToCount r op n).mSaveStack =
        l.mSaveStack.filter fun d => decide (d < n) := hst
    refine ⟨hsorted, ?_, ?_⟩
    · rw [hst2]
      exact hsorted.filter _
    · intro d hd
      rw [hst2] at hd
      simpa using (List.mem_filter.1 hd).2

theorem addRestoreToCount_contract_witness :
    ∃ st, ((run (DeferredDisplayList.init ⟨0, 0, 10, 10⟩ true)
        [Cmd.addSaveLayer (sampleRenderer 1 false) sampleSaveLayer 5,
          Cmd.addSaveLayer (sampleRenderer 1 false) sampleSaveLayer 6]).addRestoreToCount
        (sampleRenderer 1 false) sampleRestore 6).mBatches =
      (run (DeferredDisplayList.init ⟨0, 0, 10, 10⟩ true)
        [Cmd.addSaveLayer (sampleRenderer 1 false) sampleSaveLayer 5,
          Cmd.addSaveLayer (sampleRenderer 1 false) sampleSaveLayer 6]).mBatches ++
        [some (Batch.restoreToCount sampleRestore st
          ((((run (DeferredDisplayList.init ⟨0, 0, 10, 10⟩ true)
            [Cmd.addSaveLayer (sampleRenderer 1 false) sampleSaveLayer 5,
              Cmd.addSaveLayer (sampleRenderer 1 false) sampleSaveLayer 6]).addRestoreToCount
            (sampleRenderer 1 false) sampleRestore 6).mSaveStack.length : Int) + 2))] :=
  ((addRestoreToCount_contract
    (run (DeferredDisplayList.init ⟨0, 0, 10, 10⟩ true)
      [Cmd.addSaveLayer (sampleRenderer 1 false) sampleSaveLayer 5,
        Cmd.addSaveLayer (sampleRenderer 1 false) sampleSaveLayer 6])
    (sampleRenderer 1 false) sampleRestore 6).2.1 6 [5] rfl (by decide)).2.1

/-! ### The sign of the bounds delta -/

/-- The sign of the bounds delta on every input.  The clipping check of `canMergeWith`
passes to `checkSide`, for the left and top sides, the edge of the batch minus the edge of the operation, and for the
right and bottom sides the edge of the operation minus the edge of the batch.  On each of
the four sides the delta is positive exactly when the bounds of the new operation reach
beyond the current bounds of the batch on that side (left: the left edge of the operation
lies left of the left edge of the batch; correspondingly for top, right and bottom); so
the delta is zero or negative whenever the operation fits inside the batch on that side. -/
theorem bounds_delta_meaning (b : MergingDrawBatch) (state : DeferredDisplayState) :
    b.clipSidesCompatible state =
      (if b.mClipSideFlags != kClipSide_None || state.mClipSideFlags != kClipSide_None then
        if !MergingDrawBatch.checkSide b.mClipSideFlags state.mClipSideFlags kClipSide_Left
            (b.boundsDeltaLeft state) then false
        else if !MergingDrawBatch.checkSide b.mClipSideFlags state.mClipSideFlags
            kClipSide_Top (b.boundsDeltaTop state) then false
        else if !MergingDrawBatch.checkSide b.mClipSideFlags state.mClipSideFlags
            kClipSide_Right (b.boundsDeltaRight state) then false
        else if !MergingDrawBatch.checkSide b.mClipSideFlags state.mClipSideFlags
            kClipSide_Bottom (b.boundsDeltaBottom state) then false
        else true
      else true) ∧
    (0 < b.boundsDeltaLeft state ↔ state.mBounds.left < b.mBounds.left) ∧
    (0 < b.boundsDeltaTop state ↔ state.mBounds.top < b.mBounds.top) ∧
    (0 < b.boundsDeltaRight state ↔ b.mBounds.right < state.mBounds.right) ∧
    (0 < b.boundsDeltaBottom state ↔ b.mBounds.bottom < state.mBounds.bottom) ∧
    (b.mBounds.left ≤ state.mBounds.left ↔ b.boundsDeltaLeft state ≤ 0) ∧
    (b.mBounds.top ≤ state.mBounds.top ↔ b.boundsDeltaTop state ≤ 0) ∧
    (state.mBounds.right ≤ b.mBounds.right ↔ b.boundsDeltaRight state ≤ 0) ∧
    (state.mBounds.bottom ≤ b.mBounds.bottom ↔ b.boundsDeltaBottom state ≤ 0) := by
  refine ⟨rfl, ?_, ?_, ?_, ?_, ?_, ?_, ?_, ?_⟩ <;>
    simp only [MergingDrawBatch.boundsDeltaLeft, MergingDrawBatch.boundsDeltaTop,
      MergingDrawBatch.boundsDeltaRight, MergingDrawBatch.boundsDeltaBottom] <;>
    constructor <;> intro h <;> linarith

/-! ### The insertion point of a new batch -/

theorem scanBack_step_none (bs : List (Option Batch)) (earliest batchId : Nat) (bounds : Rect)
    (i ins : Nat) (b : Batch) (a : Nat) (d : DrawBatch) (hi : earliest ≤ i)
    (hb : bs[i]? = some (some b)) (ha : b.addr? = some a) (hd : b.asDraw? = some d) :
    scanBack bs earliest batchId bounds (i + 1) none ins =
      if batchId = d.mBatchId then (none, i + 1)
      else if d.intersects bounds then (none, ins)
      else scanBack bs earliest batchId bounds i none ins := by
  rw [scanBack]
  have h1 : ¬ i < earliest := by omega
  rw [if_neg h1]
  simp only [hb, ha, hd]
  by_cases hk : batchId = d.mBatchId
  · simp [hk]
  · simp [hk]

theorem scanBack_none (bs : List (Option Batch)) (earliest batchId : Nat) (bounds : Rect) :
    ∀ (n ins : Nat),
      (∀ i, earliest ≤ i → i < n → ∃ b, bs[i]? = some (some b) ∧ b.purelyDrawBatch = true) →
      (scanBack bs earliest batchId bounds n none ins).1 = none ∧
      ((∃ m, anchorAt bs earliest batchId bounds n m ∧
          (scanBack bs earliest batchId bounds n none ins).2 = m + 1) ∨
        ((∀ m, ¬ anchorAt bs earliest batchId bounds n m) ∧
          (scanBack bs earliest batchId bounds n none ins).2 = ins)) := by
  intro n
  induction n with
  | zero =>
    intro ins _
    have e : scanBack bs earliest batchId bounds 0 none ins = (none, ins) := rfl
    rw [e]
    refine ⟨rfl, Or.inr ⟨?_, rfl⟩⟩
    rintro m ⟨_, h, _⟩
    omega
  | succ i ih =>
    intro ins hwin
    by_cases hi : earliest ≤ i
    · obtain ⟨b, hb, hp⟩ := hwin i hi (Nat.lt_succ_self i)
      obtain ⟨a, d, ha, hd⟩ := Batch.purelyDraw_cases b hp
      have hkind : slotKind (some b) = some d.mBatchId := by simp [slotKind, hd]
      have hint : slotIntersects bounds (some b) = d.intersects bounds := by
        simp [slotIntersects, hd]
      rw [scanBack_step_none bs earliest batchId bounds i ins b a d hi hb ha hd]
      by_cases hk : batchId = d.mBatchId
      · rw [if_pos hk]
        refine ⟨rfl, Or.inl ⟨i, ⟨hi, Nat.lt_succ_self i, ⟨some b, hb, ?_⟩, ?_⟩, rfl⟩⟩
        · rw [hkind, hk]
        · intro j s h1 h2
          omega
      · rw [if_neg hk]
        have hkne : slotKind (some b) ≠ some batchId := by
          rw [hkind]
          intro e
          exact hk (Option.some.inj e).symm
        by_cases hx : d.intersects bounds = true
        · rw [if_pos hx]
          refine ⟨rfl, Or.inr ⟨?_, rfl⟩⟩
          rintro m ⟨_, hm2, ⟨s, hs, hsk⟩, hafter⟩
          by_cases hmi : m = i
          · subst hmi
            rw [hb] at hs
            rw [← Option.some.inj hs] at hsk
            exact hkne hsk
          · have := (hafter i (some b) (by omega) (Nat.lt_succ_self i) hb).2
            rw [hint, hx] at this
            cases this
        · rw [if_neg hx]
          have hx2 : d.intersects bounds = false := by simpa using hx
          obtain ⟨r1, r2⟩ := ih ins (fun k hk1 hk2 => hwin k hk1 (by omega))
          refine ⟨r1, ?_⟩
          have hiff : ∀ m, anchorAt bs earliest batchId bounds (i + 1) m ↔
              anchorAt bs earliest batchId bounds i m := by
            intro m
            constructor
            · rintro ⟨h1, h2, ⟨s, hs, hsk⟩, hafter⟩
              have hmi : m ≠ i := by
                intro e
                subst e
                rw [hb] at hs
                rw [← Option.some.inj hs] at hsk
                exact hkne hsk
              exact ⟨h1, by omega, ⟨s, hs, hsk⟩,
                fun j s2 hj1 hj2 hs2 => hafter j s2 hj1 (by omega) hs2⟩
            · rintro ⟨h1, h2, hex, hafter⟩
              refine ⟨h1, by omega, hex, ?_⟩
              intro j s2 hj1 hj2 hs2
              by_cases hji : j = i
              · subst hji
                rw [hb] at hs2
                rw [← Option.some.inj hs2]
                exact ⟨hkne, by rw [hint, hx2]⟩
              · exact hafter j s2 hj1 (by omega) hs2
          rcases r2 with ⟨m, hm, he⟩ | ⟨hno, he⟩
          · exact Or.inl ⟨m, (hiff m).2 hm, he⟩
          · exact Or.inr ⟨fun m hm => hno m ((hiff m).1 hm), he⟩
    · have e : scanBack bs earliest batchId bounds (i + 1) none ins = (none, ins) := by
        rw [scanBack]
        rw [if_pos (by omega)]
      rw [e]
      refine ⟨rfl, Or.inr ⟨?_, rfl⟩⟩
      rintro m ⟨h1, h2, _⟩
      omega

theorem anchorAt_unique (bs : List (Option Batch)) (earliest batchId : Nat) (bounds : Rect)
    (n m m2 : Nat) (h1 : anchorAt bs earliest batchId bounds n m)
    (h2 : anchorAt bs earliest batchId bounds n m2) : m = m2 := by
  obtain ⟨_, a2, ⟨s, hs, hk⟩, a4⟩ := h1
  obtain ⟨_, b2, ⟨s2, hs2, hk2⟩, b4⟩ := h2
  rcases Nat.lt_trichotomy m m2 with h | h | h
  · exact absurd hk2 (a4 m2 s2 h b2 hs2).1
  · exact h
  · exact absurd hk (b4 m s h a2 hs).1

theorem insertDrawOp_create (l : DeferredDisplayList) (hwf : WF l) (r : OpenGLRenderer)
    (op : DrawOp) (st : DeferredDisplayState) (info : DeferInfo)
    (hr : r.drawReorderDisabled = false)
    (hb : l.mBatches = [] ∨ st.mBounds.isEmpty = false)
    (hc : l.candidateTarget op st info = none) :
    l.insertDrawOp r op st info =
      l.createAt r op st info
        (if info.mergeable then
          (scanBack l.mBatches l.mEarliestBatchIndex info.batchId st.mBounds
            l.mBatches.length none l.mBatches.length).2
        else l.mBatches.length) := by
  have hscan := scanBack_none l.mBatches l.mEarliestBatchIndex info.batchId st.mBounds
    l.mBatches.length l.mBatches.length (fun i h1 h2 => hwf.window i h1 h2)
  by_cases he : l.mBatches = []
  · have h1 : l.insertDrawOp r op st info =
        l.placeInBatch r op st info none l.mBatches.length := by
      unfold DeferredDisplayList.insertDrawOp
      simp [hr, he]
    rw [h1, DeferredDisplayList.placeInBatch_none _ _ _ _ _ _ hwf.addr_lt]
    congr 1
    split_ifs
    · rw [he]
      rfl
    · rfl
  · have hne : st.mBounds.isEmpty = false := by
      rcases hb with h | h
      · exact absurd h he
      · exact h
    have hie : l.mBatches.isEmpty = false := by
      cases hl : l.mBatches with
      | nil => exact absurd hl he
      | cons x rest => rfl
    have h1 : l.insertDrawOp r op st info =
        l.placeInBatch r op st info (l.findTarget op st info).1
          (l.findTarget op st info).2 := by
      unfold DeferredDisplayList.insertDrawOp
      simp only [hr, hie, hne, Bool.false_eq_true, if_false, Bool.not_false, if_true]
    have h2 : l.findTarget op st info =
        if info.mergeable then
          scanBack l.mBatches l.mEarliestBatchIndex info.batchId st.mBounds
            l.mBatches.length none l.mBatches.length
        else (none, l.mBatches.length) := by
      unfold DeferredDisplayList.findTarget
      dsimp only
      rw [hc]
      cases info.mergeable <;> simp
    rw [h1, h2]
    cases hm : info.mergeable
    · simp only [Bool.false_eq_true, if_false]
      rw [DeferredDisplayList.placeInBatch_none _ _ _ _ _ _ hwf.addr_lt]
    · simp only [if_true]
      rw [hscan.1, DeferredDisplayList.placeInBatch_none _ _ _ _ _ _ hwf.addr_lt]

set_option maxRecDepth 100000 in
theorem sample_anchor (bounds : Rect)
    (h : slotIntersects bounds (some (Batch.draw 1 ((DrawBatch.new ⟨2, 0, false, false⟩).add
      sampleKindTwo (sampleState ⟨5, 5, 6, 6⟩ 1 false) false))) = false) :
    anchorAt sampleWindow.mBatches 0 1 bounds 2 0 := by
  have e1 : sampleWindow.mBatches[1]? =
      some (some (Batch.draw 1 ((DrawBatch.new ⟨2, 0, false, false⟩).add
        sampleKindTwo (sampleState ⟨5, 5, 6, 6⟩ 1 false) false))) := by
    with_unfolding_all decide
  have e0 : ∃ s, sampleWindow.mBatches[0]? = some s ∧ slotKind s = some 1 :=
    ⟨some (Batch.merging 0 ((MergingDrawBatch.new ⟨1, 1, true, false⟩ 100 100).add
      sampleMergeable (sampleState ⟨0, 0, 1, 1⟩ 1 false) false)),
      by with_unfolding_all decide, by with_unfolding_all decide⟩
  refine ⟨Nat.le_refl 0, by decide, e0, ?_⟩
  intro j s h1 h2 hs
  have hj : j = 1 := by omega
  subst hj
  rw [e1] at hs
  rw [← Option.some.inj hs]
  exact ⟨by with_unfolding_all decide, h⟩

set_option maxRecDepth 100000 in
theorem insertion_point_counterexample :
    sampleWindow.mEarliestBatchIndex = 0 ∧ sampleWindow.mBatches.length = 2 ∧
    sampleWindow.deferDrawOp (sampleRenderer 1 false) sampleOtherKeyUnknown =
      some (sampleState ⟨0, 0, 0, 0⟩ 1 false, ⟨1, 2, true, false⟩) ∧
    sampleWindow.candidateTarget sampleOtherKeyUnknown (sampleState ⟨0, 0, 0, 0⟩ 1 false)
      ⟨1, 2, true, false⟩ = none ∧
    anchorAt sampleWindow.mBatches 0 1 (sampleState ⟨0, 0, 0, 0⟩ 1 false).mBounds 2 0 ∧
    (sampleWindow.addDrawOp (sampleRenderer 1 false) sampleOtherKeyUnknown).mBatches =
      sampleWindow.mBatches ++
        [some (Batch.draw 2 ((DrawBatch.new ⟨1, 2, true, false⟩).add sampleOtherKeyUnknown
          (sampleState ⟨0, 0, 0, 0⟩ 1 false) false))] ∧
    sampleWindow.deferDrawOp sampleRendererNoReorder sampleOtherKey =
      some (sampleState ⟨2, 0, 3, 1⟩ 1 false, ⟨1, 2, true, false⟩) ∧
    sampleWindow.candidateTarget sampleOtherKey (sampleState ⟨2, 0, 3, 1⟩ 1 false)
      ⟨1, 2, true, false⟩ = none ∧
    anchorAt sampleWindow.mBatches 0 1 (sampleState ⟨2, 0, 3, 1⟩ 1 false).mBounds 2 0 ∧
    (sampleWindow.addDrawOp sampleRendererNoReorder sampleOtherKey).mBatches =
      sampleWindow.mBatches ++
        [some (Batch.draw 2 ((DrawBatch.new ⟨1, 2, true, false⟩).add sampleOtherKey
          (sampleState ⟨2, 0, 3, 1⟩ 1 false) false))] := by
  refine ⟨by with_unfolding_all decide, by with_unfolding_all decide,
    by with_unfolding_all decide, by with_unfolding_all decide,
    sample_anchor _ (by with_unfolding_all decide), by with_unfolding_all decide,
    by with_unfolding_all decide, by with_unfolding_all decide,
    sample_anchor _ (by with_unfolding_all decide), by with_unfolding_all decide⟩

/-- C28 (amended).  On an engine reached from the initial one, let `addDrawOp` with
reordering enabled place an operation that is not dropped, that has no candidate target
after the overdraw avoidance, and whose stored bounds are not empty unless the batch list
is empty.  If the operation is mergeable, the new batch is inserted right after the most
recent batch of the same batch-kind in the reorder window provided no later batch
intersects the bounds of the operation, and at the end of the list otherwise (also when
the window has no batch of that kind); if the operation is not mergeable, the new batch is
appended at the end.  The
existing slots keep their relative order around the new batch, which is never placed
below `mEarliestBatchIndex`. -/
theorem insertion_point (l : DeferredDisplayList) (hl : Reachable l) (r : OpenGLRenderer)
    (op : DrawOp) (st : DeferredDisplayState) (info : DeferInfo)
    (hd : l.deferDrawOp r op = some (st, info)) (hr : r.drawReorderDisabled = false)
    (hb : (l.avoidOverdraw st info).mBatches = [] ∨ st.mBounds.isEmpty = false)
    (hc : (l.avoidOverdraw st info).candidateTarget op st info = none) :
    (info.mergeable = true → ∀ m,
      anchorAt (l.avoidOverdraw st info).mBatches (l.avoidOverdraw st info).mEarliestBatchIndex
        info.batchId st.mBounds (l.avoidOverdraw st info).mBatches.length m →
      l.addDrawOp r op = (l.avoidOverdraw st info).createAt r op st info (m + 1)) ∧
    (info.mergeable = true →
      (∀ m, ¬ anchorAt (l.avoidOverdraw st info).mBatches
        (l.avoidOverdraw st info).mEarliestBatchIndex info.batchId st.mBounds
        (l.avoidOverdraw st info).mBatches.length m) →
      l.addDrawOp r op = (l.avoidOverdraw st info).createAt r op st info
        (l.avoidOverdraw st info).mBatches.length) ∧
    (info.mergeable = false →
      l.addDrawOp r op = (l.avoidOverdraw st info).createAt r op st info
        (l.avoidOverdraw st info).mBatches.length) ∧
    (∃ k, (l.avoidOverdraw st info).mEarliestBatchIndex ≤ k ∧
      k ≤ (l.avoidOverdraw st info).mBatches.length ∧
      l.addDrawOp r op = (l.avoidOverdraw st info).createAt r op st info k ∧
      (l.addDrawOp r op).mBatches =
        (l.avoidOverdraw st info).mBatches.take k ++
          some (newBatchFor (l.avoidOverdraw st info).nextAddr r op st info) ::
            (l.avoidOverdraw st info).mBatches.drop k) := by
  have hwf := wf_avoidOverdraw l st info (wf_reachable l hl)
  have he := addDrawOp_eq l r op st info hd
  have hcre := insertDrawOp_create (l.avoidOverdraw st info) hwf r op st info hr hb hc
  have hscan := scanBack_none (l.avoidOverdraw st info).mBatches
    (l.avoidOverdraw st info).mEarliestBatchIndex info.batchId st.mBounds
    (l.avoidOverdraw st info).mBatches.length (l.avoidOverdraw st info).mBatches.length
    (fun i h1 h2 => hwf.window i h1 h2)
  refine ⟨?_, ?_, ?_, ?_⟩
  · intro hm m ha
    rw [he, hcre, hm, if_pos rfl]
    rcases hscan.2 with ⟨m2, ha2, hidx⟩ | ⟨hno, _⟩
    · rw [hidx, anchorAt_unique _ _ _ _ _ _ _ ha ha2]
    · exact absurd ha (hno m)
  · intro hm hno
    rw [he, hcre, hm, if_pos rfl]
    rcases hscan.2 with ⟨m2, ha2, _⟩ | ⟨_, hidx⟩
    · exact absurd ha2 (hno m2)
    · rw [hidx]
  · intro hm
    rw [he, hcre, hm]
    rfl
  · refine ⟨_, ?_, ?_, he.trans hcre, ?_⟩
    · split_ifs
      · rcases hscan.2 with ⟨m2, ha2, hidx⟩ | ⟨_, hidx⟩
        · rw [hidx]
          have := ha2.1
          omega
        · rw [hidx]
          exact hwf.earliest_le
      · exact hwf.earliest_le
    · split_ifs
      · rcases hscan.2 with ⟨m2, ha2, hidx⟩ | ⟨_, hidx⟩
        · rw [hidx]
          have := ha2.2.1
          omega
        · rw [hidx]
      · exact Nat.le_refl _
    · rw [he, hcre]
      rfl

set_option maxRecDepth 100000 in
theorem insertion_point_witness :
    sampleWindow.addDrawOp (sampleRenderer 1 false) sampleOtherKey =
      (sampleWindow.avoidOverdraw (sampleState ⟨2, 0, 3, 1⟩ 1 false)
        ⟨1, 2, true, false⟩).createAt (sampleRenderer 1 false) sampleOtherKey
        (sampleState ⟨2, 0, 3, 1⟩ 1 false) ⟨1, 2, true, false⟩ (0 + 1) :=
  (insertion_point sampleWindow ⟨_, _, _, rfl⟩ (sampleRenderer 1 false) sampleOtherKey
    (sampleState ⟨2, 0, 3, 1⟩ 1 false) ⟨1, 2, true, false⟩
    (by with_unfolding_all decide) rfl (Or.inr (by with_unfolding_all decide))
    (by with_unfolding_all decide)).1 rfl 0
    (sample_anchor _ (by with_unfolding_all decide))

/-! ### The glyph cache: `insertBlock` -/

theorem insertBlock_ne_nil (B : Nat) (head : List CacheBlock) (nb : CacheBlock) :
    CacheBlock.insertBlock B head nb ≠ [] := by
  cases head with
  | nil => simp [CacheBlock.insertBlock]
  | cons c rest =>
    unfold CacheBlock.insertBlock
    split_ifs <;> simp

theorem insertBlock_split (B : Nat) (head : List CacheBlock) (nb : CacheBlock) :
    ∃ pre post, head = pre ++ post ∧ CacheBlock.insertBlock B head nb = pre ++ nb :: post ∧
      (∀ c ∈ pre, c.mY ≠ B ∧ c.mWidth ≤ nb.mWidth) ∧
      ∀ c ∈ post.head?, c.mY = B ∨ nb.mWidth < c.mWidth := by
  induction head with
  | nil => exact ⟨[], [], rfl, rfl, by simp, by simp⟩
  | cons c rest ih =>
    unfold CacheBlock.insertBlock
    split_ifs with h1 h2
    · exact ⟨[], c :: rest, rfl, rfl, by simp, by simpa using Or.inr h2⟩
    · obtain ⟨pre, post, e1, e2, h3, h4⟩ := ih
      refine ⟨c :: pre, post, by simp [e1], by simp [e2], ?_, h4⟩
      intro d hd
      rcases List.mem_cons.1 hd with rfl | hd
      · exact ⟨h1, by omega⟩
      · exact h3 d hd
    · exact ⟨[], c :: rest, rfl, rfl, by simp, by simpa using Or.inl (not_not.1 h1)⟩

theorem mem_insertBlock (B : Nat) (head : List CacheBlock) (nb x : CacheBlock) :
    x ∈ CacheBlock.insertBlock B head nb ↔ x = nb ∨ x ∈ head := by
  obtain ⟨pre, post, e1, e2, _⟩ := insertBlock_split B head nb
  rw [e2]
  rw [e1]
  simp only [List.mem_append, List.mem_cons]
  tauto

theorem sortedBlocks_tail (B : Nat) (c : CacheBlock) (rest : List CacheBlock)
    (h : CacheBlock.SortedBlocks B (c :: rest)) : CacheBlock.SortedBlocks B rest := by
  obtain ⟨h1, h2⟩ := h
  constructor
  · intro b hb
    cases rest with
    | nil => simp at hb
    | cons d rest => exact h1 b (by simp [List.dropLast_cons₂, hb])
  · rw [List.filter_cons] at h2
    split_ifs at h2
    · exact (List.pairwise_cons.1 h2).2
    · exact h2

theorem sortedBlocks_insertBlock (B : Nat) (head : List CacheBlock) (nb : CacheBlock)
    (hs : CacheBlock.SortedBlocks B head) (hnb : nb.mY ≠ B) :
    CacheBlock.SortedBlocks B (CacheBlock.insertBlock B head nb) := by
  induction head with
  | nil =>
    simp [CacheBlock.insertBlock, CacheBlock.SortedBlocks, hnb]
  | cons c rest ih =>
    have hrest := sortedBlocks_tail B c rest hs
    obtain ⟨h1, h2⟩ := hs
    have hnbf : (nb.mY != B) = true := by simpa using hnb
    unfold CacheBlock.insertBlock
    split_ifs with hc hw
    · -- the new block goes in front of a wider column
      have hcf : (c.mY != B) = true := by simpa using hc
      constructor
      · intro b hb
        rw [List.dropLast_cons₂] at hb
        rcases List.mem_cons.1 hb with rfl | hb
        · exact hnb
        · exact h1 b hb
      · rw [List.filter_cons, if_pos hnbf]
        refine List.pairwise_cons.2 ⟨?_, h2⟩
        intro b hb
        rw [List.filter_cons, if_pos hcf] at hb h2
        rcases List.mem_cons.1 hb with rfl | hb
        · omega
        · have := (List.pairwise_cons.1 h2).1 b hb
          omega
    · -- the walk goes on behind a column that is not wider
      have hcf : (c.mY != B) = true := by simpa using hc
      obtain ⟨i1, i2⟩ := ih hrest
      constructor
      · intro b hb
        obtain ⟨d, ds, hd⟩ := List.exists_cons_of_ne_nil (insertBlock_ne_nil B rest nb)
        rw [hd, List.dropLast_cons₂, ← hd] at hb
        rcases List.mem_cons.1 hb with rfl | hb
        · exact hc
        · exact i1 b hb
      · rw [List.filter_cons, if_pos hcf]
        refine List.pairwise_cons.2 ⟨?_, i2⟩
        intro b hb
        rw [List.mem_filter, mem_insertBlock] at hb
        rw [List.filter_cons, if_pos hcf] at h2
        rcases hb.1 with rfl | hb1
        · omega
        · exact (List.pairwise_cons.1 h2).1 b (List.mem_filter.2 ⟨hb1, hb.2⟩)
    · -- the remainder space: it is the last block
      have hc1 : c.mY = B := not_not.1 hc
      have hnil : rest = [] := by
        cases rest with
        | nil => rfl
        | cons d ds => exact absurd hc1 (h1 c (by simp [List.dropLast_cons₂]))
      subst hnil
      have hcf : (c.mY != B) = false := by simpa using hc1
      constructor
      · intro b hb
        simp only [List.dropLast_cons₂, List.dropLast_single, List.mem_singleton] at hb
        rw [hb]; exact hnb
      · rw [List.filter_cons, if_pos hnbf, List.filter_cons, hcf]
        simp

/- The reading in which the whole list, the remainder block included, is sorted by width
fails: the list holding only a remainder block of width 5 is sorted, has one remainder
block and has it last; the new block of width 10 is not a remainder block; `insertBlock`
puts it in front of the remainder block, and the widths 10, 5 of the result are not in
non-decreasing order. -/
theorem insertBlock_counterexample :
    CacheBlock.WidthSorted [sampleRemainder] ∧
      (∀ b ∈ [sampleRemainder].dropLast, b.mY ≠ 1) ∧ sampleRemainder.mY = 1 ∧
      sampleColumn.mY ≠ 1 ∧
      CacheBlock.insertBlock 1 [sampleRemainder] sampleColumn = [sampleColumn, sampleRemainder] ∧
      ¬ CacheBlock.WidthSorted (CacheBlock.insertBlock 1 [sampleRemainder] sampleColumn) := by
  decide

/-- C29 (amended): if every block of the list but the last is not a remainder block
(`mY ≠ TEXTURE_BORDER_SIZE`; so there is at most one remainder block, and it is last) and
the blocks other than the remainder block are in non-decreasing width, then for every new
block that is not a remainder block `insertBlock head newBlock` is the old list with
`newBlock` put in at one place (the old blocks keep their relative order), and the result
has the same two properties: the remainder block is still last and the other blocks are
still in non-decreasing width. -/
theorem insertBlock_keeps_sorted (TEXTURE_BORDER_SIZE : Nat) (head : List CacheBlock)
    (newBlock : CacheBlock) (hs : CacheBlock.SortedBlocks TEXTURE_BORDER_SIZE head)
    (hnew : newBlock.mY ≠ TEXTURE_BORDER_SIZE) :
    (∃ pre post, head = pre ++ post ∧
        CacheBlock.insertBlock TEXTURE_BORDER_SIZE head newBlock = pre ++ newBlock :: post) ∧
      CacheBlock.SortedBlocks TEXTURE_BORDER_SIZE
        (CacheBlock.insertBlock TEXTURE_BORDER_SIZE head newBlock) := by
  obtain ⟨pre, post, e1, e2, _⟩ := insertBlock_split TEXTURE_BORDER_SIZE head newBlock
  exact ⟨⟨pre, post, e1, e2⟩, sortedBlocks_insertBlock TEXTURE_BORDER_SIZE head newBlock hs hnew⟩

theorem insertBlock_keeps_sorted_witness :
    CacheBlock.SortedBlocks 1 [sampleNarrowColumn, sampleWideColumn, sampleRemainder] ∧
      sampleColumn.mY ≠ 1 ∧
      CacheBlock.insertBlock 1 [sampleNarrowColumn, sampleWideColumn, sampleRemainder]
          sampleColumn =
        [sampleNarrowColumn, sampleColumn, sampleWideColumn, sampleRemainder] ∧
      ((∃ pre post, [sampleNarrowColumn, sampleWideColumn, sampleRemainder] = pre ++ post ∧
          CacheBlock.insertBlock 1 [sampleNarrowColumn, sampleWideColumn, sampleRemainder]
            sampleColumn = pre ++ sampleColumn :: post) ∧
        CacheBlock.SortedBlocks 1
          (CacheBlock.insertBlock 1 [sampleNarrowColumn, sampleWideColumn, sampleRemainder]
            sampleColumn)) :=
  ⟨by decide, by decide, by decide,
    insertBlock_keeps_sorted 1 [sampleNarrowColumn, sampleWideColumn, sampleRemainder]
      sampleColumn (by decide) (by decide)⟩

/-! ### The glyph cache: block selection in `fitBitmap` -/

theorem findBlock_some (B R rw gh : Nat) (bs : List CacheBlock) (b : CacheBlock) :
    CacheTexture.findBlock B R rw gh bs = some b ↔
      ∃ pre post, bs = pre ++ b :: post ∧
        (∀ c ∈ pre, ¬ (rw ≤ c.mWidth ∧ gh ≤ c.mHeight ∧ (c.mY = B ∨ c.mWidth - rw < R))) ∧
        (rw ≤ b.mWidth ∧ gh ≤ b.mHeight ∧ (b.mY = B ∨ b.mWidth - rw < R)) := by
  induction bs with
  | nil => simp [CacheTexture.findBlock]
  | cons c rest ih =>
    have hq : (rw ≤ c.mWidth ∧ gh ≤ c.mHeight ∧ (c.mY = B ∨ (c.mWidth : Int) - rw < R)) ↔
        (rw ≤ c.mWidth ∧ gh ≤ c.mHeight ∧ (c.mY = B ∨ c.mWidth - rw < R)) := by
      constructor <;> rintro ⟨h1, h2, h3⟩ <;> refine ⟨h1, h2, ?_⟩ <;>
        rcases h3 with h3 | h3 <;> first | exact Or.inl h3 | (right; omega)
    unfold CacheTexture.findBlock
    split_ifs with h
    · constructor
      · intro e
        cases e
        exact ⟨[], rest, rfl, by simp, hq.1 h⟩
      · rintro ⟨pre, post, e, hpre, _⟩
        cases pre with
        | nil =>
          simp only [List.nil_append, List.cons.injEq] at e
          rw [e.1]
        | cons d pre =>
          simp only [List.cons_append, List.cons.injEq] at e
          exact absurd (hq.1 h) (e.1 ▸ hpre d (by simp))
    · rw [ih]
      constructor
      · rintro ⟨pre, post, e, hpre, hb⟩
        refine ⟨c :: pre, post, by simp [e], ?_, hb⟩
        intro d hd
        rcases List.mem_cons.1 hd with rfl | hd
        · exact fun hd => h (hq.2 hd)
        · exact hpre d hd
      · rintro ⟨pre, post, e, hpre, hb⟩
        cases pre with
        | nil =>
          simp only [List.nil_append, List.cons.injEq] at e
          exact absurd (hq.2 (e.1 ▸ hb)) h
        | cons d pre =>
          simp only [List.cons_append, List.cons.injEq] at e
          exact ⟨pre, post, e.2, fun x hx => hpre x (by simp [hx]), hb⟩

theorem findBlock_none (B R rw gh : Nat) (bs : List CacheBlock) :
    CacheTexture.findBlock B R rw gh bs = none ↔
      ∀ b ∈ bs, ¬ (rw ≤ b.mWidth ∧ gh ≤ b.mHeight ∧ (b.mY = B ∨ b.mWidth - rw < R)) := by
  constructor
  · intro h b hb hq
    obtain ⟨pre, post, e⟩ := List.append_of_mem hb
    induction pre generalizing bs with
    | nil => 
      have : CacheTexture.findBlock B R rw gh bs = some b :=
        (findBlock_some B R rw gh bs b).2 ⟨[], post, e, by simp, hq⟩
      rw [h] at this; cases this
    | cons d pre ih =>
      subst e
      unfold CacheTexture.findBlock at h
      simp only [List.cons_append] at h
      split_ifs at h
      exact ih _ h (by simp) rfl
  · intro h
    cases hf : CacheTexture.findBlock B R rw gh bs with
    | none => rfl
    | some b =>
      obtain ⟨pre, post, e, _, hb⟩ := (findBlock_some B R rw gh bs b).1 hf
      exact absurd hb (h b (by simp [e]))

theorem fitBitmap_origin (B R : Nat) (t : CacheTexture) (glyph : SkGlyph)
    (hfmt : t.formatFits glyph = true) (htall : glyph.fHeight + B * 2 ≤ t.mHeight) :
    (CacheTexture.fitBitmap B R t glyph).1 =
      (CacheTexture.findBlock B R (CacheTexture.roundedUpW B R glyph)
        (CacheTexture.glyphH B glyph) t.mCacheBlocks).map fun b => (b.mX, b.mY) := by
  unfold CacheTexture.fitBitmap
  rw [hfmt]
  simp only [Bool.not_true, Bool.false_eq_true, if_false]
  rw [if_neg (by omega)]
  cases CacheTexture.findBlock B R (CacheTexture.roundedUpW B R glyph)
      (CacheTexture.glyphH B glyph) t.mCacheBlocks <;> rfl

set_option maxRecDepth 100000 in
/-- C30, the failing input: the alternative "the block has only enough height for this
one glyph" of the comment above the test does not make a block qualify.  With the border
1 and the rounding size 4, the 32 by 32 texture that holds the glyph 15 wide and 9 high
has the blocks column (x 1, y 11, width 16, height 21) and remainder (x 17, y 1, width 15,
height 31), in this order.  The glyph 3 wide and 14 high has the format of the texture and
is not too tall; its rounded width 4 and padded height 15 fit the column, and the column
has only enough height for this one glyph (21 - 15 < 15), so the column meets the
condition as commented; it is first in the list, yet `fitBitmap` stores the glyph at
(17, 1), in the remainder block, not at (1, 11) in the column. -/
theorem fitBitmap_counterexample :
    sampleFilled.formatFits sampleTallGlyph = true ∧
      ¬ (sampleTallGlyph.fHeight + 1 * 2 > sampleFilled.mHeight) ∧
      sampleFilled.mCacheBlocks = [⟨101, 1, 11, 16, 21⟩, ⟨100, 17, 1, 15, 31⟩] ∧
      CacheTexture.roundedUpW 1 4 sampleTallGlyph = 4 ∧
      CacheTexture.glyphH 1 sampleTallGlyph = 15 ∧
      CacheTexture.QualifiesAsCommented 1 4 sampleTallGlyph ⟨101, 1, 11, 16, 21⟩ ∧
      (CacheTexture.fitBitmap 1 4 sampleFilled sampleTallGlyph).1 = some (17, 1) := by
  refine ⟨?_, ?_, ?_, ?_, ?_, ?_, ?_⟩ <;> with_unfolding_all decide

/-- Block selection as the test of the source makes it: for a glyph whose format matches
the texture and that is not too tall, `fitBitmap` returns true with the origin (x, y) if
and only if (x, y) is the position of the first block in list order that qualifies, and it
returns false exactly when no block qualifies; a block qualifies if and only if the glyph
fits its remaining space (rounded width <= block width and padded height <= block height)
and the block is the remainder space or the width of the block is within
`CACHE_BLOCK_ROUNDING_SIZE` of the rounded glyph width. -/
theorem fitBitmap_selection (TEXTURE_BORDER_SIZE CACHE_BLOCK_ROUNDING_SIZE : Nat)
    (t : CacheTexture) (glyph : SkGlyph) (hfmt : t.formatFits glyph = true)
    (htall : ¬ (glyph.fHeight + TEXTURE_BORDER_SIZE * 2 > t.mHeight)) :
    (∀ x y, (t.fitBitmap TEXTURE_BORDER_SIZE CACHE_BLOCK_ROUNDING_SIZE glyph).1 = some (x, y) ↔
        ∃ pre b post, t.mCacheBlocks = pre ++ b :: post ∧
          (∀ c ∈ pre,
            ¬ CacheTexture.Qualifies TEXTURE_BORDER_SIZE CACHE_BLOCK_ROUNDING_SIZE glyph c) ∧
          CacheTexture.Qualifies TEXTURE_BORDER_SIZE CACHE_BLOCK_ROUNDING_SIZE glyph b ∧
          x = b.mX ∧ y = b.mY) ∧
      ((t.fitBitmap TEXTURE_BORDER_SIZE CACHE_BLOCK_ROUNDING_SIZE glyph).1 = none ↔
        ∀ b ∈ t.mCacheBlocks,
          ¬ CacheTexture.Qualifies TEXTURE_BORDER_SIZE CACHE_BLOCK_ROUNDING_SIZE glyph b) := by
  rw [fitBitmap_origin TEXTURE_BORDER_SIZE CACHE_BLOCK_ROUNDING_SIZE t glyph hfmt (by omega)]
  constructor
  · intro x y
    constructor
    · intro h
      obtain ⟨b, hb, e⟩ := Option.map_eq_some'.1 h
      obtain ⟨pre, post, e1, h1, h2⟩ := (findBlock_some _ _ _ _ _ _).1 hb
      simp only [Prod.mk.injEq] at e
      exact ⟨pre, b, post, e1, h1, h2, e.1.symm, e.2.symm⟩
    · rintro ⟨pre, b, post, e1, h1, h2, rfl, rfl⟩
      rw [(findBlock_some _ _ _ _ _ _).2 ⟨pre, post, e1, h1, h2⟩]
      rfl
  · rw [Option.map_eq_none']
    exact findBlock_none _ _ _ _ _

set_option maxRecDepth 100000 in
theorem fitBitmap_selection_witness :
    sampleFilled.formatFits sampleTallGlyph = true ∧
      ¬ (sampleTallGlyph.fHeight + 1 * 2 > sampleFilled.mHeight) ∧
      ((sampleFilled.fitBitmap 1 4 sampleTallGlyph).1 = some (17, 1) ↔
        ∃ pre b post, sampleFilled.mCacheBlocks = pre ++ b :: post ∧
          (∀ c ∈ pre, ¬ CacheTexture.Qualifies 1 4 sampleTallGlyph c) ∧
          CacheTexture.Qualifies 1 4 sampleTallGlyph b ∧ 17 = b.mX ∧ 1 = b.mY) :=
  ⟨by with_unfolding_all decide, by with_unfolding_all decide,
    (fitBitmap_selection 1 4 sampleFilled sampleTallGlyph (by with_unfolding_all decide)
      (by with_unfolding_all decide)).1 17 1⟩

/-! ### The reorder window is well formed -/

theorem window_slot_valid (l : DeferredDisplayList) (h : WF l) (i : Nat)
    (h1 : l.mEarliestBatchIndex ≤ i) (h2 : i < l.mBatches.length) :
    ∃ b a d, l.mBatches[i]? = some (some b) ∧ b.purelyDrawBatch = true ∧
      b.addr? = some a ∧ b.asDraw? = some d := by
  obtain ⟨b, hb, hp⟩ := h.window i h1 h2
  obtain ⟨a, d, ha, hd⟩ := Batch.purelyDraw_cases b hp
  exact ⟨b, a, d, hb, hp, ha, hd⟩

theorem avoidOverdraw_cases (l : DeferredDisplayList) (st : DeferredDisplayState)
    (info : DeferInfo) :
    l.avoidOverdraw st info = l ∨
      (l.mBatches.length - 1 < l.mBatches.length ∧
        l.avoidOverdraw st info =
          (l.discardDrawingBatches (l.mBatches.length - 1)).resetBatchingState) := by
  unfold DeferredDisplayList.avoidOverdraw
  split_ifs with h
  · right
    simp only [Bool.and_eq_true, decide_eq_true_eq] at h
    exact ⟨by omega, rfl⟩
  · exact Or.inl rfl

/-- C32 (the reorder window is well formed).  On every engine reached from a freshly
constructed one by `clear`, `addClip`, `addSave`, `addSaveLayer`, `addRestoreToCount` and
`addDrawOp`: `mEarliestBatchIndex` is at most the length of the batch list; every slot at
an index from `mEarliestBatchIndex` on holds a purely-drawing batch (never an empty slot
or a barrier); every entry of the last-batch lookup and of the merge lookup is the address
of a batch stored in the list at an index from `mEarliestBatchIndex` on, of the right
variant and batch-kind (and merge-key).  Hence on the list the backward scan of `addDrawOp`
runs on (the list after the overdraw avoidance) every slot the scan can read, from the
last index down to `mEarliestBatchIndex`, holds a draw batch; and the discard loop, which
runs from `mEarliestUnclearedIndex` to the last index and only on a list that is not empty,
indexes inside the list. -/
theorem reorder_window_wf (l : DeferredDisplayList) (hl : Reachable l) :
    l.mEarliestBatchIndex ≤ l.mBatches.length ∧
    (∀ i, l.mEarliestBatchIndex ≤ i → i < l.mBatches.length →
      ∃ b a d, l.mBatches[i]? = some (some b) ∧ b.purelyDrawBatch = true ∧
        b.addr? = some a ∧ b.asDraw? = some d) ∧
    (∀ k a, l.mBatchLookup k = some a →
      ∃ i b, l.mEarliestBatchIndex ≤ i ∧ i < l.mBatches.length ∧
        l.mBatches[i]? = some (some (Batch.draw a b)) ∧ b.mBatchId = k) ∧
    (∀ k m a, l.mMergingBatches k m = some a →
      ∃ i b, l.mEarliestBatchIndex ≤ i ∧ i < l.mBatches.length ∧
        l.mBatches[i]? = some (some (Batch.merging a b)) ∧ b.mBatchId = k ∧ b.mMergeId = m) ∧
    (∀ st info i, (l.avoidOverdraw st info).mEarliestBatchIndex ≤ i →
      i < (l.avoidOverdraw st info).mBatches.length →
      ∃ b a d, (l.avoidOverdraw st info).mBatches[i]? = some (some b) ∧
        b.purelyDrawBatch = true ∧ b.addr? = some a ∧ b.asDraw? = some d) ∧
    l.mEarliestUnclearedIndex ≤ l.mBatches.length ∧
    (∀ st info, l.avoidOverdraw st info = l ∨
      (l.mBatches.length - 1 < l.mBatches.length ∧
        l.avoidOverdraw st info =
          (l.discardDrawingBatches (l.mBatches.length - 1)).resetBatchingState)) := by
  have h := wf_reachable l hl
  refine ⟨h.earliest_le, fun i h1 h2 => window_slot_valid l h i h1 h2, ?_, ?_, ?_, ?_,
    fun st info => avoidOverdraw_cases l st info⟩
  · intro k a hk
    obtain ⟨i, b, h1, h2, h3⟩ := h.lookup k a hk
    exact ⟨i, b, h1, lt_length_of_getElem? _ _ _ h2, h2, h3⟩
  · intro k m a hk
    obtain ⟨i, b, h1, h2, h3⟩ := h.merging k m a hk
    exact ⟨i, b, h1, lt_length_of_getElem? _ _ _ h2, h2, h3⟩
  · intro st info i h1 h2
    exact window_slot_valid _ (wf_avoidOverdraw l st info h) i h1 h2
  · exact Nat.le_trans (uncleared_le_reachable l hl) h.earliest_le

set_option maxRecDepth 100000 in
theorem reorder_window_wf_witness :
    (run (DeferredDisplayList.init ⟨0, 0, 10, 10⟩ true) sampleTwoKinds).mBatches.length = 2 ∧
      (run (DeferredDisplayList.init ⟨0, 0, 10, 10⟩ true) sampleTwoKinds).mEarliestBatchIndex ≤
        (run (DeferredDisplayList.init ⟨0, 0, 10, 10⟩ true) sampleTwoKinds).mBatches.length ∧
      ∃ i b, (run (DeferredDisplayList.init ⟨0, 0, 10, 10⟩ true)
            sampleTwoKinds).mEarliestBatchIndex ≤ i ∧
        i < (run (DeferredDisplayList.init ⟨0, 0, 10, 10⟩ true) sampleTwoKinds).mBatches.length ∧
        (run (DeferredDisplayList.init ⟨0, 0, 10, 10⟩ true) sampleTwoKinds).mBatches[i]? =
          some (some (Batch.draw 1 b)) ∧ b.mBatchId = 2 :=
  ⟨by with_unfolding_all decide,
    (reorder_window_wf (run (DeferredDisplayList.init ⟨0, 0, 10, 10⟩ true) sampleTwoKinds)
      ⟨_, _, _, rfl⟩).1,
    (reorder_window_wf (run (DeferredDisplayList.init ⟨0, 0, 10, 10⟩ true) sampleTwoKinds)
      ⟨_, _, _, rfl⟩).2.2.1 2 1 (by with_unfolding_all decide)⟩

/-! ### The glyph cache: width rounding -/

theorem testBit_mask (k i : Nat) (hk : k ≤ 32) :
    (4294967296 - 2 ^ k).testBit i = (decide (k ≤ i) && decide (i < 32)) := by
  have e : 4294967296 - 2 ^ k = (2 ^ (32 - k) - 1) <<< k := by
    rw [Nat.shiftLeft_eq, Nat.sub_mul, ← Nat.pow_add, Nat.one_mul]
    congr 1
    rw [show 32 - k + k = 32 by omega]
  rw [e, Nat.testBit_shiftLeft, Nat.testBit_two_pow_sub_one]
  by_cases h1 : k ≤ i <;> by_cases h2 : i < 32 <;> simp [h1, h2] <;> omega

theorem and_mask_eq (k y : Nat) (hk : k ≤ 32) (hy : y < 4294967296) :
    y &&& (4294967296 - 2 ^ k) = y / 2 ^ k * 2 ^ k := by
  rw [← Nat.shiftRight_eq_div_pow, ← Nat.shiftLeft_eq]
  apply Nat.eq_of_testBit_eq
  intro i
  rw [Nat.testBit_and, testBit_mask k i hk, Nat.testBit_shiftLeft, Nat.testBit_shiftRight]
  by_cases h1 : k ≤ i
  · by_cases h2 : i < 32
    · simp [h1, h2, show k + (i - k) = i by omega]
    · have : y.testBit i = false :=
        Nat.testBit_lt_two_pow (Nat.lt_of_lt_of_le hy
          (by simpa using Nat.pow_le_pow_right (show 0 < 2 by decide) (show 32 ≤ i by omega)))
      simp [h1, h2, this, show k + (i - k) = i by omega]
  · simp [h1]

theorem toU16_natCast (n : Nat) : toU16 (n : Int) = n % 65536 := by
  unfold toU16
  omega

theorem toU16_lt (x : Int) : toU16 x < 65536 := by
  unfold toU16
  omega

theorem roundedUpW_eq (B R k : Nat) (hR : R = 2 ^ k) (hk : k ≤ 30) (glyph : SkGlyph) :
    CacheTexture.roundedUpW B R glyph =
      (CacheTexture.glyphW B glyph + R - 1) / R * R % 65536 := by
  have hgw : CacheTexture.glyphW B glyph < 65536 := toU16_lt _
  have hR30 : R ≤ 1073741824 := by
    rw [hR]
    simpa using Nat.pow_le_pow_right (show 0 < 2 by decide) hk
  unfold CacheTexture.roundedUpW
  rw [toU16_natCast, hR, and_mask_eq k _ (by omega) (by rw [← hR]; omega)]

theorem pow_le_65536 (k : Nat) (h : 2 ^ k ≤ 65536) : k ≤ 16 := by
  by_contra hc
  have := Nat.pow_le_pow_right (show 0 < 2 by decide) (show 17 ≤ k by omega)
  simp at this
  omega

/-- Where the padded width plus the rounding size stays within 16 bits, `roundedUpW` is the
padded width rounded up to the next multiple of the rounding size, a power of two. -/
theorem roundedUpW_rounds (B R k : Nat) (hR : R = 2 ^ k) (glyph : SkGlyph)
    (hfit : CacheTexture.glyphW B glyph + R ≤ 65536) :
    R ∣ CacheTexture.roundedUpW B R glyph ∧
      CacheTexture.glyphW B glyph ≤ CacheTexture.roundedUpW B R glyph ∧
      CacheTexture.roundedUpW B R glyph - CacheTexture.glyphW B glyph < R ∧
      ∀ m, R ∣ m → CacheTexture.glyphW B glyph ≤ m → CacheTexture.roundedUpW B R glyph ≤ m := by
  have hk : k ≤ 16 := pow_le_65536 k (by rw [← hR]; omega)
  have hpos : 0 < R := by rw [hR]; exact Nat.pow_pos (by decide)
  rw [roundedUpW_eq B R k hR (by omega) glyph]
  have h1 := Nat.div_add_mod (CacheTexture.glyphW B glyph + R - 1) R
  have h2 := Nat.mod_lt (CacheTexture.glyphW B glyph + R - 1) hpos
  have h3 : (CacheTexture.glyphW B glyph + R - 1) / R * R =
      R * ((CacheTexture.glyphW B glyph + R - 1) / R) := Nat.mul_comm _ _
  have h4 : (CacheTexture.glyphW B glyph + R - 1) / R * R % 65536 =
      (CacheTexture.glyphW B glyph + R - 1) / R * R := Nat.mod_eq_of_lt (by omega)
  rw [h4]
  refine ⟨Nat.dvd_mul_left _ _, by omega, by omega, ?_⟩
  rintro m ⟨c, rfl⟩ hm
  rw [h3]
  apply Nat.mul_le_mul_left
  by_contra hc
  have h5 : c + 1 ≤ (CacheTexture.glyphW B glyph + R - 1) / R := by omega
  have h6 := Nat.mul_le_mul_left R h5
  rw [Nat.mul_add, Nat.mul_one] at h6
  omega

/-- Where the padded width plus the rounding size exceeds 16 bits, the next multiple of the
rounding size is 65536 and `roundedUpW`, stored in 16 bits, is 0. -/
theorem roundedUpW_wraps (B R k : Nat) (hR : R = 2 ^ k) (hk : k ≤ 16) (glyph : SkGlyph)
    (h : 65536 < CacheTexture.glyphW B glyph + R) :
    CacheTexture.roundedUpW B R glyph = 0 := by
  have hgw : CacheTexture.glyphW B glyph < 65536 := toU16_lt _
  have hpos : 0 < R := by rw [hR]; exact Nat.pow_pos (by decide)
  have hc : 65536 = R * 2 ^ (16 - k) := by
    rw [hR, ← Nat.pow_add, show k + (16 - k) = 16 by omega]
  rw [roundedUpW_eq B R k hR (by omega) glyph]
  have hy : CacheTexture.glyphW B glyph + R - 1 =
      R * 2 ^ (16 - k) + (CacheTexture.glyphW B glyph + R - 1 - 65536) := by omega
  have hq : (CacheTexture.glyphW B glyph + R - 1) / R = 2 ^ (16 - k) := by
    rw [hy, Nat.mul_add_div hpos, Nat.div_eq_of_lt (by omega), Nat.add_zero]
  rw [hq, Nat.mul_comm, ← hc]

/-- C31, the overflow: with the border 1 and the rounding size 4 (a power of two), the
glyph width 65533 gives the padded width 65534, which fits 16 bits; the next multiple of 4
is 65536, and `roundedUpW`, stored in 16 bits, is 0.  So `roundedUpW` is below `glyphW`,
and `glyphW - roundedUpW` is not below the rounding size. -/
theorem roundedUpW_overflow :
    sampleHugeGlyph.fWidth = 65533 ∧ CacheTexture.glyphW 1 sampleHugeGlyph = 65534 ∧
      CacheTexture.roundedUpW 1 4 sampleHugeGlyph = 0 ∧
      (65534 + 4 - 1) / 4 * 4 = 65536 ∧
      ¬ (CacheTexture.roundedUpW 1 4 sampleHugeGlyph ≥ CacheTexture.glyphW 1 sampleHugeGlyph) := by
  refine ⟨?_, ?_, ?_, ?_, ?_⟩ <;> with_unfolding_all decide

/-! ### The glyph cache: placements never overlap -/

theorem mem_setBlock (L : List CacheBlock) (b c : CacheBlock)
    (h : c ∈ CacheTexture.setBlock L b) : c = b ∨ (c ∈ L ∧ c.addr ≠ b.addr) := by
  unfold CacheTexture.setBlock at h
  obtain ⟨d, hd, e⟩ := List.mem_map.1 h
  split_ifs at e with h1
  · exact Or.inl e.symm
  · subst e
    exact Or.inr ⟨hd, h1⟩

theorem mem_removeBlock (L : List CacheBlock) (a : Nat) (c : CacheBlock)
    (h : c ∈ CacheBlock.removeBlock L a) : c ∈ L :=
  List.mem_of_mem_eraseP h

theorem fitBitmap_none (B R : Nat) (t : CacheTexture) (glyph : SkGlyph)
    (h : (t.fitBitmap B R glyph).1 = none) : (t.fitBitmap B R glyph).2 = t := by
  revert h
  unfold CacheTexture.fitBitmap
  split_ifs with h1 h2
  · exact fun _ => rfl
  · exact fun _ => rfl
  · dsimp only
    cases CacheTexture.findBlock B R (CacheTexture.roundedUpW B R glyph)
      (CacheTexture.glyphH B glyph) t.mCacheBlocks with
    | none => exact fun _ => rfl
    | some b => intro h; cases h

theorem fitBitmap_size (B R : Nat) (t : CacheTexture) (glyph : SkGlyph) :
    (t.fitBitmap B R glyph).2.mWidth = t.mWidth ∧
      (t.fitBitmap B R glyph).2.mHeight = t.mHeight := by
  unfold CacheTexture.fitBitmap
  split_ifs with h1 h2
  · exact ⟨rfl, rfl⟩
  · exact ⟨rfl, rfl⟩
  · dsimp only
    cases CacheTexture.findBlock B R (CacheTexture.roundedUpW B R glyph)
      (CacheTexture.glyphH B glyph) t.mCacheBlocks <;> exact ⟨rfl, rfl⟩

theorem fitBitmap_some (B R : Nat) (t : CacheTexture) (glyph : SkGlyph) (x y : Nat)
    (h : (t.fitBitmap B R glyph).1 = some (x, y)) :
    t.formatFits glyph = true ∧ ¬ (glyph.fHeight + B * 2 > t.mHeight) ∧
      ∃ b, CacheTexture.findBlock B R (CacheTexture.roundedUpW B R glyph)
        (CacheTexture.glyphH B glyph) t.mCacheBlocks = some b ∧ x = b.mX ∧ y = b.mY := by
  revert h
  unfold CacheTexture.fitBitmap
  split_ifs with h1 h2
  · intro h; cases h
  · intro h; cases h
  · dsimp only
    cases CacheTexture.findBlock B R (CacheTexture.roundedUpW B R glyph)
      (CacheTexture.glyphH B glyph) t.mCacheBlocks with
    | none => intro h; cases h
    | some b =>
      intro h
      simp only [Option.some.injEq, Prod.mk.injEq] at h
      exact ⟨by simpa using h1, h2, b, rfl, h.1.symm, h.2.symm⟩

theorem fitBitmap_mem (B R : Nat) (t : CacheTexture) (glyph : SkGlyph) (b : CacheBlock)
    (hfmt : t.formatFits glyph = true) (htall : ¬ (glyph.fHeight + B * 2 > t.mHeight))
    (hfind : CacheTexture.findBlock B R (CacheTexture.roundedUpW B R glyph)
      (CacheTexture.glyphH B glyph) t.mCacheBlocks = some b)
    (rw : Nat)
    (hrw : rw = if (b.mHeight : Int) - CacheTexture.glyphH B glyph < CacheTexture.glyphH B glyph
      then CacheTexture.glyphW B glyph else CacheTexture.roundedUpW B R glyph) :
    ∀ c ∈ (t.fitBitmap B R glyph).2.mCacheBlocks,
      (c ∈ t.mCacheBlocks ∧ c.addr ≠ b.addr) ∨
      (b.mY = B ∧ c = { b with
        mWidth := toU16 ((b.mWidth : Int) - rw), mX := toU16 ((b.mX : Int) + rw) }) ∨
      (b.mY = B ∧ (t.mHeight : Int) - CacheTexture.glyphH B glyph ≥ CacheTexture.glyphH B glyph ∧
        c = ⟨t.nextAddr, b.mX, toU16 ((CacheTexture.glyphH B glyph : Int) + B), rw,
          toU16 ((t.mHeight : Int) - CacheTexture.glyphH B glyph - B)⟩) ∨
      (b.mY ≠ B ∧ c = { b with
        mY := toU16 ((b.mY : Int) + CacheTexture.glyphH B glyph),
        mHeight := toU16 ((b.mHeight : Int) - CacheTexture.glyphH B glyph) }) := by
  unfold CacheTexture.fitBitmap
  rw [hfmt]
  simp only [Bool.not_true, Bool.false_eq_true, if_false]
  rw [if_neg htall, hfind]
  dsimp only
  rw [← hrw]
  intro c hc
  have hc1 : c ∈ (if b.mY = B then
      (if (t.mHeight : Int) - CacheTexture.glyphH B glyph ≥ CacheTexture.glyphH B glyph then
        CacheBlock.insertBlock B
          (CacheTexture.setBlock t.mCacheBlocks { b with
            mWidth := toU16 ((b.mWidth : Int) - rw), mX := toU16 ((b.mX : Int) + rw) })
          ⟨t.nextAddr, b.mX, toU16 ((CacheTexture.glyphH B glyph : Int) + B), rw,
            toU16 ((t.mHeight : Int) - CacheTexture.glyphH B glyph - B)⟩
      else CacheTexture.setBlock t.mCacheBlocks { b with
        mWidth := toU16 ((b.mWidth : Int) - rw), mX := toU16 ((b.mX : Int) + rw) })
    else CacheTexture.setBlock t.mCacheBlocks { b with
        mY := toU16 ((b.mY : Int) + CacheTexture.glyphH B glyph),
        mHeight := toU16 ((b.mHeight : Int) - CacheTexture.glyphH B glyph) }) := by
    split_ifs at hc ⊢ <;> first | exact hc | exact mem_removeBlock _ _ _ hc
  clear hc
  split_ifs at hc1 with h1 h2
  · rcases (mem_insertBlock _ _ _ _).1 hc1 with e | hm
    · exact Or.inr (Or.inr (Or.inl ⟨h1, h2, e⟩))
    · rcases mem_setBlock _ _ _ hm with e | hm
      · exact Or.inr (Or.inl ⟨h1, e⟩)
      · exact Or.inl hm
  · rcases mem_setBlock _ _ _ hc1 with e | hm
    · exact Or.inr (Or.inl ⟨h1, e⟩)
    · exact Or.inl hm
  · rcases mem_setBlock _ _ _ hc1 with e | hm
    · exact Or.inr (Or.inr (Or.inr ⟨h1, e⟩))
    · exact Or.inl hm

theorem fitBitmap_keeps (B R W H : Nat) (t : CacheTexture) (P : List Placement)
    (glyph : SkGlyph) (hH : t.mHeight = H) (hW16 : W < 65536)
    (hH16 : H < 65536) (inv : CacheTexture.BlocksOK B W H t.mCacheBlocks P)
    (hg1 : glyph.fWidth + B < 65536)
    (hg2 : CacheTexture.glyphW B glyph ≤ CacheTexture.roundedUpW B R glyph)
    (x y : Nat) (h : (t.fitBitmap B R glyph).1 = some (x, y)) :
    CacheTexture.BlocksOK B W H (t.fitBitmap B R glyph).2.mCacheBlocks
      (P ++ [⟨x, y, glyph.fWidth + B, glyph.fHeight + B⟩]) := by
  obtain ⟨hfmt, htall, b, hfind, rfl, rfl⟩ := fitBitmap_some B R t glyph x y h
  obtain ⟨pre, post, e, _, hq1, hq2, _⟩ := (findBlock_some _ _ _ _ _ _).1 hfind
  have hb : b ∈ t.mCacheBlocks := by rw [e]; simp
  have ib := inv.inside b hb
  have hgw : CacheTexture.glyphW B glyph = glyph.fWidth + B := by
    unfold CacheTexture.glyphW toU16; omega
  have hgh : CacheTexture.glyphH B glyph = glyph.fHeight + B := by
    unfold CacheTexture.glyphH toU16; omega
  obtain ⟨rw, hrw⟩ : ∃ rw, rw =
      if (b.mHeight : Int) - CacheTexture.glyphH B glyph < CacheTexture.glyphH B glyph
      then CacheTexture.glyphW B glyph else CacheTexture.roundedUpW B R glyph := ⟨_, rfl⟩
  have hrw1 : CacheTexture.glyphW B glyph ≤ rw ∧ rw ≤ CacheTexture.roundedUpW B R glyph := by
    rw [hrw]; split_ifs <;> omega
  have hmem := fitBitmap_mem B R t glyph b hfmt htall hfind rw hrw
  rw [hH] at hmem htall
  -- what the new list holds: old blocks in other columns, or parts of the column of `b`
  have hpart : ∀ c ∈ (t.fitBitmap B R glyph).2.mCacheBlocks,
      (c ∈ t.mCacheBlocks ∧ c.addr ≠ b.addr) ∨
      (b.mX ≤ c.mX ∧ c.mX + c.mWidth ≤ b.mX + b.mWidth ∧ b.mY ≤ c.mY ∧
        c.mY + c.mHeight = H ∧
        (b.mX + CacheTexture.glyphW B glyph ≤ c.mX ∨
          b.mY + CacheTexture.glyphH B glyph ≤ c.mY)) := by
    intro c hc
    rcases hmem c hc with hm | ⟨hy, rfl⟩ | ⟨hy, hh, rfl⟩ | ⟨hy, rfl⟩
    · exact Or.inl hm
    · right; dsimp only [toU16]; omega
    · right; dsimp only [toU16]; omega
    · right; dsimp only [toU16]; omega
  refine ⟨?_, ?_, ?_, ?_, ?_⟩
  · intro c hc
    rcases hpart c hc with hm | hn
    · exact inv.inside c hm.1
    · omega
  · intro c hc d hd hne
    rcases hmem c hc with hm | ⟨hy, rfl⟩ | ⟨hy, hh, rfl⟩ | ⟨hy, rfl⟩ <;>
      rcases hmem d hd with hm2 | ⟨hy2, rfl⟩ | ⟨hy2, hh2, rfl⟩ | ⟨hy2, rfl⟩ <;>
      first
      | exact inv.apart c hm.1 d hm2.1 hne
      | (have h3 := inv.apart _ hm.1 b hb hm.2; dsimp only [toU16] at hne ⊢; omega)
      | (have h3 := inv.apart _ hm2.1 b hb hm2.2; dsimp only [toU16] at hne ⊢; omega)
      | (dsimp only [toU16] at hne ⊢; omega)
  · intro p hp c hc
    rcases List.mem_append.1 hp with hp | hp
    · have hf := inv.free p hp b hb
      rcases hpart c hc with hm | hn
      · exact inv.free p hp c hm.1
      · omega
    · rw [List.mem_singleton] at hp
      subst hp
      dsimp only
      rcases hpart c hc with hm | hn
      · have := inv.apart c hm.1 b hb hm.2
        omega
      · omega
  · intro p hp
    rcases List.mem_append.1 hp with hp | hp
    · exact inv.placed p hp
    · rw [List.mem_singleton] at hp
      subst hp
      unfold Placement.Inside
      dsimp only
      omega
  · rw [List.pairwise_append]
    refine ⟨inv.disjoint, List.pairwise_singleton _ _, ?_⟩
    intro p hp q hq
    rw [List.mem_singleton] at hq
    subst hq
    have hf := inv.free p hp b hb
    unfold Placement.Apart
    dsimp only
    omega

theorem fitAll_keeps (B R W H : Nat) (hW16 : W < 65536) (hH16 : H < 65536) :
    ∀ (glyphs : List SkGlyph) (t : CacheTexture) (P : List Placement),
      t.mWidth = W → t.mHeight = H → CacheTexture.BlocksOK B W H t.mCacheBlocks P →
      (∀ g ∈ glyphs, g.fWidth + B < 65536 ∧
        CacheTexture.glyphW B g ≤ CacheTexture.roundedUpW B R g) →
      CacheTexture.BlocksOK B W H (CacheTexture.fitAll B R t glyphs).2.mCacheBlocks
        (P ++ (CacheTexture.fitAll B R t glyphs).1) := by
  intro glyphs
  induction glyphs with
  | nil =>
    intro t P _ _ inv _
    simpa [CacheTexture.fitAll] using inv
  | cons g rest ih =>
    intro t P hW hH inv hg
    have hsz := fitBitmap_size B R t g
    have hrest : ∀ g ∈ rest, g.fWidth + B < 65536 ∧
        CacheTexture.glyphW B g ≤ CacheTexture.roundedUpW B R g :=
      fun g1 h1 => hg g1 (List.mem_cons_of_mem _ h1)
    rw [CacheTexture.fitAll]
    split
    · rename_i origin heq
      obtain ⟨x, y⟩ := origin
      have hstep := fitBitmap_keeps B R W H t P g hH hW16 hH16 inv
        (hg g (List.mem_cons_self _ _)).1 (hg g (List.mem_cons_self _ _)).2 x y heq
      have := ih (t.fitBitmap B R g).2 _ (hsz.1.trans hW) (hsz.2.trans hH) hstep hrest
      simpa [List.append_assoc] using this
    · rename_i heq
      rw [fitBitmap_none B R t g heq]
      exact ih t P hW hH inv hrest

theorem blocksOK_init (B : Nat) (t : CacheTexture) (hW16 : t.mWidth < 65536)
    (hH16 : t.mHeight < 65536) (hBW : B ≤ t.mWidth) (hBH : B ≤ t.mHeight) :
    CacheTexture.BlocksOK B t.mWidth t.mHeight (CacheTexture.init B t).mCacheBlocks [] := by
  refine ⟨?_, ?_, ?_, ?_, List.Pairwise.nil⟩
  · intro b hb
    simp only [CacheTexture.init, List.mem_singleton] at hb
    subst hb
    dsimp only [toU16]
    omega
  · intro a ha b hb hne
    simp only [CacheTexture.init, List.mem_singleton] at ha hb
    subst ha hb
    exact absurd rfl hne
  · intro p hp
    cases hp
  · intro p hp
    cases hp

theorem fitAll_low (B R : Nat) :
    ∀ (glyphs : List SkGlyph) (t : CacheTexture), t.mHeight < B →
      (CacheTexture.fitAll B R t glyphs).1 = [] := by
  intro glyphs
  induction glyphs with
  | nil => intro t _; rfl
  | cons g rest ih =>
    intro t ht
    have hnone : (t.fitBitmap B R g).1 = none := by
      unfold CacheTexture.fitBitmap
      split_ifs with h1 h2
      · rfl
      · rfl
      · omega
    rw [CacheTexture.fitAll]
    split
    · rename_i origin heq
      rw [hnone] at heq
      cases heq
    · rw [fitBitmap_none B R t g hnone]
      exact ih t ht

theorem apart_no_common_texel (p q : Placement) (h : p.Apart q) (i j : Nat) :
    ¬ (p.covers i j ∧ q.covers i j) := by
  unfold Placement.Apart at h
  unfold Placement.covers
  omega

/-- Where the texture is at least as wide as the border and every glyph width plus the
border plus the rounding size (a power of two) stays within 16 bits, the rectangles of the
calls of `fitBitmap` that returned true, from `init` on, have pairwise no texel in common
and lie inside the texture. -/
theorem placements_disjoint (B R k : Nat) (hR : R = 2 ^ k) (t : CacheTexture)
    (hW16 : t.mWidth < 65536) (hH16 : t.mHeight < 65536) (hB : B ≤ t.mWidth)
    (glyphs : List SkGlyph) (hg : ∀ g ∈ glyphs, g.fWidth + B + R ≤ 65536) :
    ((CacheTexture.fitAll B R (CacheTexture.init B t) glyphs).1.Pairwise
        fun p q => ∀ i j, ¬ (p.covers i j ∧ q.covers i j)) ∧
      ∀ p ∈ (CacheTexture.fitAll B R (CacheTexture.init B t) glyphs).1,
        p.Inside B t.mWidth t.mHeight := by
  by_cases hBH : B ≤ t.mHeight
  · have hpos : 0 < R := by rw [hR]; exact Nat.pow_pos (by decide)
    have hglyph : ∀ g ∈ glyphs, g.fWidth + B < 65536 ∧
        CacheTexture.glyphW B g ≤ CacheTexture.roundedUpW B R g := by
      intro g hgm
      have h1 := hg g hgm
      have h2 : CacheTexture.glyphW B g = g.fWidth + B := by
        unfold CacheTexture.glyphW toU16; omega
      exact ⟨by omega, (roundedUpW_rounds B R k hR g (by omega)).2.1⟩
    have inv := fitAll_keeps B R t.mWidth t.mHeight hW16 hH16 glyphs (CacheTexture.init B t) []
      rfl rfl (blocksOK_init B t hW16 hH16 hB hBH) hglyph
    rw [List.nil_append] at inv
    exact ⟨inv.disjoint.imp fun {p q} h => apart_no_common_texel p q h, inv.placed⟩
  · have hnil := fitAll_low B R glyphs (CacheTexture.init B t)
      (show (CacheTexture.init B t).mHeight < B from Nat.lt_of_not_le hBH)
    rw [hnil]
    exact ⟨List.Pairwise.nil, fun p hp => by cases hp⟩

set_option maxRecDepth 100000 in
/-- C33, the failing input: with the border 1 and the rounding size 4, on the 32 by 32
texture after `init`, `fitBitmap` returns true for the glyph 65533 wide and 9 high, whose
rounded width overflows to 0, with the origin (1, 1): its rectangle of width 65534 does
not lie inside the texture.  The remainder space keeps its place, so the next call, for the
glyph 15 wide and 9 high, returns true with the origin (1, 1) again: the two rectangles
have the texel (1, 1) in common. -/
theorem placements_overflow :
    sampleTexture.mWidth = 32 ∧ sampleTexture.mHeight = 32 ∧
      sampleTexture.mCacheBlocks = [⟨100, 1, 1, 31, 31⟩] ∧
      (sampleTexture.fitBitmap 1 4 sampleHugeGlyph).1 = some (1, 1) ∧
      ((sampleTexture.fitBitmap 1 4 sampleHugeGlyph).2.fitBitmap 1 4 sampleWideGlyph).1 =
        some (1, 1) ∧
      (CacheTexture.fitAll 1 4 sampleTexture [sampleHugeGlyph, sampleWideGlyph]).1 =
        [⟨1, 1, 65534, 10⟩, ⟨1, 1, 16, 10⟩] ∧
      ¬ Placement.Inside 1 32 32 ⟨1, 1, 65534, 10⟩ ∧
      Placement.covers ⟨1, 1, 65534, 10⟩ 1 1 ∧ Placement.covers ⟨1, 1, 16, 10⟩ 1 1 := by
  have h1 : (sampleTexture.fitBitmap 1 4 sampleHugeGlyph).1 = some (1, 1) := by
    with_unfolding_all decide
  have h2 : ((sampleTexture.fitBitmap 1 4 sampleHugeGlyph).2.fitBitmap 1 4
      sampleWideGlyph).1 = some (1, 1) := by
    with_unfolding_all decide
  refine ⟨by with_unfolding_all decide, by with_unfolding_all decide,
    by with_unfolding_all decide, h1, h2, ?_, ?_, ?_, ?_⟩
  · simp only [CacheTexture.fitAll, h1, h2]
    rfl
  · unfold Placement.Inside; dsimp only; omega
  · unfold Placement.covers; dsimp only; omega
  · unfold Placement.covers; dsimp only; omega

set_option maxRecDepth 100000 in
theorem placements_disjoint_witness :
    (CacheTexture.fitAll 1 4 sampleTexture
        [sampleWideGlyph, sampleTallGlyph, sampleWideGlyph]).1 =
      [⟨1, 1, 16, 10⟩, ⟨17, 1, 4, 15⟩, ⟨1, 11, 16, 10⟩] ∧
      ((CacheTexture.fitAll 1 4 sampleTexture
          [sampleWideGlyph, sampleTallGlyph, sampleWideGlyph]).1.Pairwise
        fun p q => ∀ i j, ¬ (p.covers i j ∧ q.covers i j)) ∧
      ∀ p ∈ (CacheTexture.fitAll 1 4 sampleTexture
          [sampleWideGlyph, sampleTallGlyph, sampleWideGlyph]).1, p.Inside 1 32 32 :=
  ⟨by with_unfolding_all decide,
    placements_disjoint 1 4 2 rfl ⟨32, 32, GL_ALPHA, [], false, ⟨0, 0, 0, 0⟩, 0, 0, 100⟩
      (by decide) (by decide) (by decide) [sampleWideGlyph, sampleTallGlyph, sampleWideGlyph]
      (by
        intro g hg
        simp only [List.mem_cons, List.mem_singleton, List.not_mem_nil, or_false] at hg
        rcases hg with rfl | rfl | rfl <;> decide)⟩

theorem roundedUpW_rounds_witness :
    CacheTexture.glyphW 1 sampleWideGlyph = 16 ∧ CacheTexture.glyphW 1 sampleTallGlyph = 4 ∧
      CacheTexture.glyphW 1 ⟨MaskFormat.kA8_Format, 4, 9⟩ = 5 ∧
      CacheTexture.roundedUpW 1 4 ⟨MaskFormat.kA8_Format, 4, 9⟩ = 8 ∧
      4 ∣ CacheTexture.roundedUpW 1 4 ⟨MaskFormat.kA8_Format, 4, 9⟩ ∧
      CacheTexture.glyphW 1 ⟨MaskFormat.kA8_Format, 4, 9⟩ ≤
        CacheTexture.roundedUpW 1 4 ⟨MaskFormat.kA8_Format, 4, 9⟩ :=
  ⟨by with_unfolding_all decide, by with_unfolding_all decide, by with_unfolding_all decide,
    by with_unfolding_all decide,
    (roundedUpW_rounds 1 4 2 rfl ⟨MaskFormat.kA8_Format, 4, 9⟩
      (by with_unfolding_all decide)).1,
    (roundedUpW_rounds 1 4 2 rfl ⟨MaskFormat.kA8_Format, 4, 9⟩
      (by with_unfolding_all decide)).2.1⟩

end Hwui
